import Mathlib

/-!
# RC-ESDF-2D: a robot-centric 2D signed distance field

A shallow embedding of `src/include/rc_esdf.h` and `src/src/rc_esdf.cpp`.

Numbers.  The C++ `double` and `float` values are elements of a linearly ordered
field `K` with a floor function (`ℚ` for evaluation, `ℝ` where a true square root
is needed).  The embedding has two layers.

* Exact arithmetic: `initializeMap`, `cellCenter`, `cellValue`,
  `generateFromPolygon` and `query` compute without rounding, and a stored cell
  keeps its value unchanged.  The theorems about real-valued quantities (the
  bilinear formula, the sign convention, the distance to a segment, the inside
  test) are stated on this layer.
* Floating point: `initializeFl`, `cellCenterFl`, `cellValueFl`,
  `generateFromPolygonFl` and `queryFl` apply a rounding function to the result of
  every operation that the C++ code rounds; `rnd64` and `rnd32` are the IEEE 754
  roundings to `double` and `float` (round to nearest, ties to even, subnormal
  numbers included; overflow to infinity is not modelled).  The theorems about a
  flag, a count or an exact stored value are stated on this layer.  With the
  identity as rounding the definitions of this layer are those of the first.

`std::sqrt` is a parameter `sqrt : K → K` of the construction.  The C++ `int` is
`Int`, and the places where a value may leave the 32-bit range are explicit
(`toInt`).
-/

namespace RcEsdf

/-- The type `Eigen::Vector2d`. -/
structure Vec2 (K : Type) where
  x : K
  y : K

/-- The class `RcEsdfMap`: its private data members. -/
structure RcEsdfMap (K : Type) where
  resolution_ : K
  width_m_ : K
  height_m_ : K
  origin_x_ : K
  origin_y_ : K
  grid_size_x_ : Int
  grid_size_y_ : Int
  data_ : List K

/-- The outputs of `RcEsdfMap::query`: the returned flag and the two
output parameters `dist` and `grad`. -/
structure QueryResult (K : Type) where
  inRange : Bool
  dist : K
  grad : Vec2 K

section Defs

variable {K : Type} [LinearOrderedField K] [FloorRing K]

/-- Eigen `a - b`. -/
def Vec2.sub (a b : Vec2 K) : Vec2 K := ⟨a.x - b.x, a.y - b.y⟩

/-- Eigen `a + b`. -/
def Vec2.add (a b : Vec2 K) : Vec2 K := ⟨a.x + b.x, a.y + b.y⟩

/-- Eigen `t * a`. -/
def Vec2.scale (t : K) (a : Vec2 K) : Vec2 K := ⟨t * a.x, t * a.y⟩

/-- Eigen `a.dot(b)`. -/
def Vec2.dot (a b : Vec2 K) : K := a.x * b.x + a.y * b.y

/-- Eigen `a.squaredNorm()`. -/
def Vec2.squaredNorm (a : Vec2 K) : K := a.x * a.x + a.y * a.y

/-- The constant `INT_MAX` of a 32-bit `int`. -/
def INT_MAX : Int := 2147483647

/-- The constant `INT_MIN` of a 32-bit `int`. -/
def INT_MIN : Int := -2147483648

/-- The constant `std::numeric_limits<double>::max()`, that is `(2 - 2^(-52)) * 2^1023`. -/
def DBL_MAX : K := 2 ^ 1024 - 2 ^ 971

/-- A value stored into an `int`: defined only inside the 32-bit range
(a conversion from `double` or a signed product outside it is undefined). -/
def toInt (z : Int) : Option Int :=
  if INT_MIN ≤ z ∧ z ≤ INT_MAX then some z else none

/-- The call `std::vector::resize(n, val)`: keeps the first `n` elements and
pads with `val`. -/
def vectorResize (v : List K) (n : Nat) (val : K) : List K :=
  v.take n ++ List.replicate (n - v.length) val

/-- The method `RcEsdfMap::initialize` (`rc_esdf.cpp` lines 5-18), run on the
map `m`.  The result is `none` where the C++ has no defined result: a zero
`resolution` (the quotient is infinite or NaN, and its conversion to `int`
is undefined), a ceiling or a product outside the range of `int`, and a
negative product (which `resize` receives as a huge `size_t` and rejects by
throwing).  The two quotients and the origin are exact here; `initializeFl` rounds
them as the `double` operations do. -/
def initializeMap (m : RcEsdfMap K) (width_m height_m resolution : K) :
    Option (RcEsdfMap K) :=
  if resolution = 0 then none
  else
    match toInt ⌈width_m / resolution⌉, toInt ⌈height_m / resolution⌉ with
    | some gx, some gy =>
      match toInt (gx * gy) with
      | some n =>
        if n < 0 then none
        else some
          { resolution_ := resolution
            width_m_ := width_m
            height_m_ := height_m
            origin_x_ := -width_m / 2
            origin_y_ := -height_m / 2
            grid_size_x_ := gx
            grid_size_y_ := gy
            data_ := vectorResize m.data_ n.toNat 0 }
      | none => none
    | _, _ => none

/-- The helper `RcEsdfMap::posToGrid` (`rc_esdf.h` lines 87-90), in exact
arithmetic. -/
def posToGrid (m : RcEsdfMap K) (pos : Vec2 K) : K × K :=
  ((pos.x - m.origin_x_) / m.resolution_, (pos.y - m.origin_y_) / m.resolution_)

/-- The helper `RcEsdfMap::getRaw` (`rc_esdf.h` lines 93-96).  A read past the
end of the vector has no defined value in C++; here it reads `0`. -/
def getRaw (m : RcEsdfMap K) (x y : Int) : K :=
  if x < 0 ∨ x ≥ m.grid_size_x_ ∨ y < 0 ∨ y ≥ m.grid_size_y_ then 0
  else m.data_.getD (y * m.grid_size_x_ + x).toNat 0

/-- The helper `RcEsdfMap::pointToSegmentDistSq` (`rc_esdf.cpp` lines 181-188). -/
def pointToSegmentDistSq (p v w : Vec2 K) : K :=
  let l2 := (v.sub w).squaredNorm
  if l2 = 0 then (p.sub v).squaredNorm
  else
    let t := ((p.sub v).dot (w.sub v)) / l2
    let t := max 0 (min 1 t)
    let projection := v.add (Vec2.scale t (w.sub v))
    (p.sub projection).squaredNorm

/-- One pass of the loop body of `isPointInPolygon`: the edge from `poly[j]`
to `poly[i]` toggles `inside` when it straddles the height of `p` and meets
that height to the right of `p`. -/
def crossingStep (p : Vec2 K) (poly : List (Vec2 K)) (st : Bool × Nat) (i : Nat) :
    Bool × Nat :=
  let inside := st.1
  let j := st.2
  let pi := poly.getD i ⟨0, 0⟩
  let pj := poly.getD j ⟨0, 0⟩
  if (decide (pi.y > p.y) != decide (pj.y > p.y)) &&
      decide (p.x < (pj.x - pi.x) * (p.y - pi.y) / (pj.y - pi.y) + pi.x) then
    (!inside, i)
  else (inside, i)

/-- The helper `RcEsdfMap::isPointInPolygon` (`rc_esdf.cpp` lines 190-199):
`for (i = 0, j = size - 1; i < size; j = i++)`. -/
def isPointInPolygon (p : Vec2 K) (poly : List (Vec2 K)) : Bool :=
  ((List.range poly.length).foldl (crossingStep p poly) (false, poly.length - 1)).1

/-- The inner loop of `generateFromPolygon` (`rc_esdf.cpp` lines 113-119): the
running minimum of the squared distances to the edges
`(polygon[i], polygon[(i + 1) % size])`, started at `DBL_MAX`. -/
def minDistSq (p : Vec2 K) (polygon : List (Vec2 K)) : K :=
  (List.range polygon.length).foldl
    (fun min_dist_sq i =>
      let v1 := polygon.getD i ⟨0, 0⟩
      let v2 := polygon.getD ((i + 1) % polygon.length) ⟨0, 0⟩
      let d_sq := pointToSegmentDistSq p v1 v2
      if d_sq < min_dist_sq then d_sq else min_dist_sq)
    DBL_MAX

/-- The centre of cell `(x, y)` (`rc_esdf.cpp` lines 108-110), in exact arithmetic;
`cellCenterFl` rounds each operation. -/
def cellCenter (m : RcEsdfMap K) (x y : Int) : Vec2 K :=
  ⟨m.origin_x_ + ((x : K) + 1 / 2) * m.resolution_,
   m.origin_y_ + ((y : K) + 1 / 2) * m.resolution_⟩

/-- The `double` value `-min_dist` or `min_dist` that the body of the double loop of
`generateFromPolygon` assigns to cell `(x, y)` (`rc_esdf.cpp` lines 107-130), before
the assignment narrows it to `float`; `cellValueFl` is the narrowed value. -/
def cellValue (sqrt : K → K) (m : RcEsdfMap K) (polygon : List (Vec2 K)) (x y : Int) : K :=
  let p := cellCenter m x y
  let min_dist := sqrt (minDistSq p polygon)
  if isPointInPolygon p polygon then -min_dist else min_dist

/-- The method `RcEsdfMap::generateFromPolygon` (`rc_esdf.cpp` lines 103-134):
for `y` in `0 .. grid_size_y_` and `x` in `0 .. grid_size_x_` the cell
`data_[y * grid_size_x_ + x]` is overwritten.  The cells keep the `double` value
here; `generateFromPolygonFl` narrows it to `float`. -/
def generateFromPolygon (sqrt : K → K) (m : RcEsdfMap K) (polygon : List (Vec2 K)) :
    RcEsdfMap K :=
  { m with
    data_ := (List.range m.grid_size_y_.toNat).foldl
      (fun (data : List K) (y : Nat) =>
        (List.range m.grid_size_x_.toNat).foldl
          (fun (data : List K) (x : Nat) =>
            data.set (((y : Int) * m.grid_size_x_ + (x : Int)).toNat)
              (cellValue sqrt m polygon (x : Int) (y : Int)))
          data)
      m.data_ }

/-- The method `RcEsdfMap::query` (`rc_esdf.cpp` lines 136-177), in exact arithmetic;
`queryFl` rounds each operation. -/
def query (m : RcEsdfMap K) (pos_body : Vec2 K) : QueryResult K :=
  let g := posToGrid m pos_body
  let u := g.1 - 1 / 2
  let v := g.2 - 1 / 2
  if u < 0 ∨ u ≥ ((m.grid_size_x_ - 1 : Int) : K) ∨ v < 0 ∨
      v ≥ ((m.grid_size_y_ - 1 : Int) : K) then
    ⟨false, 0, ⟨0, 0⟩⟩
  else
    let x0 : Int := ⌊u⌋
    let y0 : Int := ⌊v⌋
    let alpha := u - (x0 : K)
    let beta := v - (y0 : K)
    let v00 := getRaw m x0 y0
    let v10 := getRaw m (x0 + 1) y0
    let v01 := getRaw m x0 (y0 + 1)
    let v11 := getRaw m (x0 + 1) (y0 + 1)
    let dist := (1 - alpha) * (1 - beta) * v00 + alpha * (1 - beta) * v10 +
      (1 - alpha) * beta * v01 + alpha * beta * v11
    let d_alpha := (1 - beta) * (v10 - v00) + beta * (v11 - v01)
    let d_beta := (1 - alpha) * (v01 - v00) + alpha * (v11 - v10)
    ⟨true, dist, ⟨d_alpha / m.resolution_, d_beta / m.resolution_⟩⟩

/-! ### Vocabulary of the specification -/

/-- The shifted grid coordinate `u` of `query`, in exact arithmetic:
`(x - origin_x) / resolution - 0.5`. -/
def gridU (m : RcEsdfMap K) (p : Vec2 K) : K := (p.x - m.origin_x_) / m.resolution_ - 1 / 2

/-- The shifted grid coordinate `v` of `query`, in exact arithmetic:
`(y - origin_y) / resolution - 0.5`. -/
def gridV (m : RcEsdfMap K) (p : Vec2 K) : K := (p.y - m.origin_y_) / m.resolution_ - 1 / 2

/-- The range check of `query` passes: none of `u < 0`, `u >= cols - 1`, `v < 0`,
`v >= rows - 1` holds. -/
def passesRangeCheck (m : RcEsdfMap K) (p : Vec2 K) : Prop :=
  ¬ (gridU m p < 0 ∨ gridU m p ≥ (m.grid_size_x_ : K) - 1 ∨ gridV m p < 0 ∨
    gridV m p ≥ (m.grid_size_y_ : K) - 1)

/-- The value stored for cell `(x, y)`: the element `data_[y * grid_size_x_ + x]`,
when the vector has one. -/
def stored (m : RcEsdfMap K) (x y : Int) : Option K :=
  m.data_[(y * m.grid_size_x_ + x).toNat]?

/-- The grid invariant after initialisation: a positive resolution, at least one
column and one row, and a vector of `cols * rows` values. -/
def Initialised (m : RcEsdfMap K) : Prop :=
  0 < m.resolution_ ∧ 1 ≤ m.grid_size_x_ ∧ 1 ≤ m.grid_size_y_ ∧
    (m.data_.length : Int) = m.grid_size_x_ * m.grid_size_y_

/-- The squared distance from `p` to edge `i` of the polygon, the segment from
`polygon[i]` to `polygon[(i + 1) % size]`. -/
def edgeDistSq (p : Vec2 K) (polygon : List (Vec2 K)) (i : Nat) : K :=
  pointToSegmentDistSq p (polygon.getD i ⟨0, 0⟩)
    (polygon.getD ((i + 1) % polygon.length) ⟨0, 0⟩)

/-- A newly constructed map (`RcEsdfMap() = default`): the vector is empty; the
scalar members are indeterminate in C++ and are fixed as `0` here. -/
def newMap : RcEsdfMap K := ⟨0, 0, 0, 0, 0, 0, 0, []⟩

/-- The grid of the demonstration driver after `initialize(10.0, 10.0, 0.1)`
(`main.cpp` line 25), with the resolution `1/10`; `demoGridFl` has the `double`
nearest to `0.1`. -/
def demoGrid : RcEsdfMap K :=
  { resolution_ := 1 / 10
    width_m_ := 10
    height_m_ := 10
    origin_x_ := -10 / 2
    origin_y_ := -10 / 2
    grid_size_x_ := 100
    grid_size_y_ := 100
    data_ := vectorResize [] 10000 0 }

/-- The footprint of the demonstration driver (`main.cpp` lines 17-21). -/
def footprint : List (Vec2 K) :=
  [⟨1 / 2, 3 / 10⟩, ⟨-1 / 2, 3 / 10⟩, ⟨-1 / 2, -3 / 10⟩, ⟨1 / 2, -3 / 10⟩]

/-- The point `p + eps * g / |g|`, the step of length `eps` from `p` along `g`, with
`|g| = sqrt(g.squaredNorm())`. -/
def stepAlong (sqrt : K → K) (p g : Vec2 K) (eps : K) : Vec2 K :=
  ⟨p.x + eps * (g.x / sqrt g.squaredNorm), p.y + eps * (g.y / sqrt g.squaredNorm)⟩

/-! ### Vocabulary of plane geometry -/

/-- The point `z` lies on the closed segment from `a` to `b`. -/
def OnSegment (z a b : Vec2 K) : Prop :=
  ∃ t : K, 0 ≤ t ∧ t ≤ 1 ∧ z.x = a.x + t * (b.x - a.x) ∧ z.y = a.y + t * (b.y - a.y)

/-- The closed segments `[p, q]` and `[a, b]` have a common point. -/
def SegmentsMeet (p q a b : Vec2 K) : Prop :=
  ∃ z : Vec2 K, OnSegment z p q ∧ OnSegment z a b

/-- The abscissa at height `y` of the line through `a` and `b`, as computed in
`isPointInPolygon`. -/
def xAt (a b : Vec2 K) (y : K) : K := (b.x - a.x) * (y - a.y) / (b.y - a.y) + a.x

/-- The test of `isPointInPolygon` for one edge: the edge from `b` to `a` straddles the
height of `p` and meets it to the right of `p`. -/
def crossesRay (p a b : Vec2 K) : Bool :=
  (decide (a.y > p.y) != decide (b.y > p.y)) && decide (p.x < xAt a b p.y)

/-- The point `z` lies in the half-open band of heights between `p` and `q`, to the
right of the line through `p` and `q`. -/
def rightOfSegment (p q z : Vec2 K) : Bool :=
  (decide (z.y > p.y) != decide (z.y > q.y)) && decide (xAt p q z.y < z.x)

/-- The index before `i` around a polygon of `n` vertices: the `j` of the loop
`for (i = 0, j = n - 1; i < n; j = i++)`. -/
def prevIndex (n i : Nat) : Nat := if i = 0 then n - 1 else i - 1

/-- The exclusive-or of `f 0, ..., f (k - 1)`. -/
def xorUpTo (f : Nat → Bool) (k : Nat) : Bool :=
  (List.range k).foldl (fun acc i => xor acc (f i)) false

/-- Eigen `a.norm()`: the square root of `squaredNorm`. -/
def Vec2.norm (sqrt : K → K) (a : Vec2 K) : K := sqrt a.squaredNorm

/-- The signed distance that the loop body of `generateFromPolygon` assigns to a point
`p`: `-min_dist` when `isPointInPolygon` holds of `p`, `+min_dist` otherwise. -/
def signedDist (sqrt : K → K) (p : Vec2 K) (polygon : List (Vec2 K)) : K :=
  if isPointInPolygon p polygon then -sqrt (minDistSq p polygon) else sqrt (minDistSq p polygon)

/-- The squared distances from the cell centres to the polygon are values of type
`double`: for every cell of the grid some edge is at squared distance at most
`DBL_MAX` from its centre. -/
def DistancesRepresentable (m : RcEsdfMap K) (polygon : List (Vec2 K)) : Prop :=
  ∀ x y : Int, 0 ≤ x → x < m.grid_size_x_ → 0 ≤ y → y < m.grid_size_y_ →
    ∃ i, i < polygon.length ∧ edgeDistSq (cellCenter m x y) polygon i ≤ DBL_MAX

/-- The eight ways to list the corners of the axis-aligned rectangle
`[xmin, xmax] x [ymin, ymax]` in order around it: from any corner, in either
orientation. -/
def rectangleCycles (xmin xmax ymin ymax : K) : List (List (Vec2 K)) :=
  [[⟨xmin, ymin⟩, ⟨xmax, ymin⟩, ⟨xmax, ymax⟩, ⟨xmin, ymax⟩],
   [⟨xmax, ymin⟩, ⟨xmax, ymax⟩, ⟨xmin, ymax⟩, ⟨xmin, ymin⟩],
   [⟨xmax, ymax⟩, ⟨xmin, ymax⟩, ⟨xmin, ymin⟩, ⟨xmax, ymin⟩],
   [⟨xmin, ymax⟩, ⟨xmin, ymin⟩, ⟨xmax, ymin⟩, ⟨xmax, ymax⟩],
   [⟨xmin, ymin⟩, ⟨xmin, ymax⟩, ⟨xmax, ymax⟩, ⟨xmax, ymin⟩],
   [⟨xmin, ymax⟩, ⟨xmax, ymax⟩, ⟨xmax, ymin⟩, ⟨xmin, ymin⟩],
   [⟨xmax, ymax⟩, ⟨xmax, ymin⟩, ⟨xmin, ymin⟩, ⟨xmin, ymax⟩],
   [⟨xmax, ymin⟩, ⟨xmin, ymin⟩, ⟨xmin, ymax⟩, ⟨xmax, ymax⟩]]

/-! ### Floating point

The definitions above compute in exact arithmetic.  The definitions of this part make
the rounding of the C++ `double` and `float` operations explicit: a rounding function
`fl : K → K` is applied to the result of every operation on `double` values, and
`flf : K → K` where a value is narrowed to `float`.  With the identity for `fl` and
`flf` they are the definitions above. -/

/-- The integer nearest to `z`; the even one of the two nearest when `z` lies half-way
between them. -/
def roundEven (z : K) : Int :=
  if z - ⌊z⌋ < 1 / 2 then ⌊z⌋
  else if 1 / 2 < z - ⌊z⌋ then ⌊z⌋ + 1
  else if ⌊z⌋ % 2 = 0 then ⌊z⌋ else ⌊z⌋ + 1

/-- Rounding to a binary floating-point format with `prec` digits and least normal
exponent `emin` (IEEE 754, round to nearest, ties to even): with `e` the binary
exponent of `q`, or `emin` when `q` is subnormal, the multiple of `2 ^ (e - prec + 1)`
nearest to `q`.  Overflow is not modelled: the result is the value an unbounded
exponent would give. -/
def roundFloat (prec : Nat) (emin : Int) (q : K) : K :=
  if q = 0 then 0
  else
    let e := max (Int.log 2 |q|) emin
    (roundEven (q / 2 ^ (e - ((prec : Int) - 1))) : K) * 2 ^ (e - ((prec : Int) - 1))

/-- Rounding to `double` (binary64). -/
def rnd64 (q : K) : K := roundFloat 53 (-1022) q

/-- Rounding to `float` (binary32). -/
def rnd32 (q : K) : K := roundFloat 24 (-126) q

/-- A value of the binary floating-point format with `prec` digits and least normal
exponent `emin`: a number `N * 2 ^ k` with `|N| < 2 ^ prec` and `k` not below the exponent
`emin - prec + 1` of the least subnormal number.  (The largest finite value is not part of
this description: overflow is not modelled.) -/
def IsFloat (prec : Nat) (emin : Int) (b : K) : Prop :=
  ∃ N k : Int, b = (N : K) * 2 ^ k ∧ |N| < 2 ^ prec ∧ emin - ((prec : Int) - 1) ≤ k

/-- The constant `FLT_MAX`, the largest finite `float`: `(2 - 2^(-23)) * 2^127`. -/
def FLT_MAX : K := 2 ^ 128 - 2 ^ 104

/-- The method `RcEsdfMap::initialize` (`rc_esdf.cpp` lines 5-18) with the rounding of
the two quotients and of the origin explicit: `std::ceil` is applied to the `double`
quotient `fl (width_m / resolution)`.  The result is `none` in the same cases as for
`initializeMap`. -/
def initializeFl (fl : K → K) (m : RcEsdfMap K) (width_m height_m resolution : K) :
    Option (RcEsdfMap K) :=
  if resolution = 0 then none
  else
    match toInt ⌈fl (width_m / resolution)⌉, toInt ⌈fl (height_m / resolution)⌉ with
    | some gx, some gy =>
      match toInt (gx * gy) with
      | some n =>
        if n < 0 then none
        else some
          { resolution_ := resolution
            width_m_ := width_m
            height_m_ := height_m
            origin_x_ := fl (-width_m / 2)
            origin_y_ := fl (-height_m / 2)
            grid_size_x_ := gx
            grid_size_y_ := gy
            data_ := vectorResize m.data_ n.toNat 0 }
      | none => none
    | _, _ => none

/-- The centre of cell `(x, y)` as `generateFromPolygon` computes it
(`rc_esdf.cpp` lines 110-111): `origin_x_ + (x + 0.5) * resolution_`, each operation
rounded. -/
def cellCenterFl (fl : K → K) (m : RcEsdfMap K) (x y : Int) : Vec2 K :=
  ⟨fl (m.origin_x_ + fl (fl ((x : K) + 1 / 2) * m.resolution_)),
   fl (m.origin_y_ + fl (fl ((y : K) + 1 / 2) * m.resolution_))⟩

/-- The shifted grid coordinate `u` as `query` computes it:
`(pos.x() - origin_x_) / resolution_ - 0.5`, each operation rounded. -/
def gridUFl (fl : K → K) (m : RcEsdfMap K) (p : Vec2 K) : K :=
  fl (fl (fl (p.x - m.origin_x_) / m.resolution_) - 1 / 2)

/-- The shifted grid coordinate `v` as `query` computes it. -/
def gridVFl (fl : K → K) (m : RcEsdfMap K) (p : Vec2 K) : K :=
  fl (fl (fl (p.y - m.origin_y_) / m.resolution_) - 1 / 2)

/-- The method `RcEsdfMap::query` (`rc_esdf.cpp` lines 136-177) with every operation
rounded: `fl` for the operations on `double` values, `flf` for the differences of two
`float` cells, which C++ computes in `float`.  The conversions from `int` and from
`float` to `double`, the comparisons and `std::floor` are exact. -/
def queryFl (fl flf : K → K) (m : RcEsdfMap K) (pos_body : Vec2 K) : QueryResult K :=
  let gx := fl (fl (pos_body.x - m.origin_x_) / m.resolution_)
  let gy := fl (fl (pos_body.y - m.origin_y_) / m.resolution_)
  let u := fl (gx - 1 / 2)
  let v := fl (gy - 1 / 2)
  if u < 0 ∨ u ≥ ((m.grid_size_x_ - 1 : Int) : K) ∨ v < 0 ∨
      v ≥ ((m.grid_size_y_ - 1 : Int) : K) then
    ⟨false, 0, ⟨0, 0⟩⟩
  else
    let x0 : Int := ⌊u⌋
    let y0 : Int := ⌊v⌋
    let alpha := fl (u - (x0 : K))
    let beta := fl (v - (y0 : K))
    let v00 := getRaw m x0 y0
    let v10 := getRaw m (x0 + 1) y0
    let v01 := getRaw m x0 (y0 + 1)
    let v11 := getRaw m (x0 + 1) (y0 + 1)
    let dist := fl (fl (fl (fl (fl (fl (1 - alpha) * fl (1 - beta)) * v00) +
      fl (fl (alpha * fl (1 - beta)) * v10)) +
      fl (fl (fl (1 - alpha) * beta) * v01)) + fl (fl (alpha * beta) * v11))
    let d_alpha := fl (fl (fl (1 - beta) * flf (v10 - v00)) + fl (beta * flf (v11 - v01)))
    let d_beta := fl (fl (fl (1 - alpha) * flf (v01 - v00)) + fl (alpha * flf (v11 - v10)))
    ⟨true, dist, ⟨fl (d_alpha / m.resolution_), fl (d_beta / m.resolution_)⟩⟩

/-- The value that arrives in the `float` cell `(x, y)` in the loop body of
`generateFromPolygon` (`rc_esdf.cpp` lines 122-130): the `double` value `-min_dist` or
`min_dist` of `cellValue`, narrowed to `float` by the assignment to `data_[...]`.  The
parameter `sqrt` is the `double` function `std::sqrt`; the cell centre, the squared
distances and the inside test are those of `cellValue`. -/
def cellValueFl (flf sqrt : K → K) (m : RcEsdfMap K) (polygon : List (Vec2 K)) (x y : Int) : K :=
  flf (cellValue sqrt m polygon x y)

/-- The method `RcEsdfMap::generateFromPolygon` (`rc_esdf.cpp` lines 103-134) with the
narrowing of the stored values to `float` explicit. -/
def generateFromPolygonFl (flf sqrt : K → K) (m : RcEsdfMap K) (polygon : List (Vec2 K)) :
    RcEsdfMap K :=
  { m with
    data_ := (List.range m.grid_size_y_.toNat).foldl
      (fun (data : List K) (y : Nat) =>
        (List.range m.grid_size_x_.toNat).foldl
          (fun (data : List K) (x : Nat) =>
            data.set (((y : Int) * m.grid_size_x_ + (x : Int)).toNat)
              (cellValueFl flf sqrt m polygon (x : Int) (y : Int)))
          data)
      m.data_ }

/-- The grid of the demonstration driver after `initialize(10.0, 10.0, 0.1)` as the
`double` operations leave it: the resolution is the `double` nearest to `0.1`. -/
def demoGridFl : RcEsdfMap K :=
  { resolution_ := rnd64 (1 / 10)
    width_m_ := 10
    height_m_ := 10
    origin_x_ := -5
    origin_y_ := -5
    grid_size_x_ := 100
    grid_size_y_ := 100
    data_ := vectorResize [] 10000 0 }

/-- The grid after `initialize(8.0, 8.0, 1.0)`: 8 x 8 cells of side 1 with centres at
`-3.5, -2.5, ..., 3.5`.  On this grid the quotients, the origin, the cell centres and the
grid coordinates of the points used below are computed without rounding. -/
def coarseGrid : RcEsdfMap K :=
  { resolution_ := 1
    width_m_ := 8
    height_m_ := 8
    origin_x_ := -8 / 2
    origin_y_ := -8 / 2
    grid_size_x_ := 8
    grid_size_y_ := 8
    data_ := vectorResize [] 64 0 }

/-- A square footprint with vertices `(1, 1), (-1, 1), (-1, -1), (1, -1)`. -/
def squareFootprint : List (Vec2 K) :=
  [⟨1, 1⟩, ⟨-1, 1⟩, ⟨-1, -1⟩, ⟨1, -1⟩]

end Defs

/-! ## Theorems -/

section Basic

variable {K : Type} [LinearOrderedField K] [FloorRing K]

set_option linter.unusedSectionVars false

/-! ### The query: range check and interpolation -/

theorem query_of_out (m : RcEsdfMap K) (p : Vec2 K)
    (h : gridU m p < 0 ∨ gridU m p ≥ (m.grid_size_x_ : K) - 1 ∨ gridV m p < 0 ∨
      gridV m p ≥ (m.grid_size_y_ : K) - 1) :
    query m p = ⟨false, 0, ⟨0, 0⟩⟩ := by
  unfold query posToGrid
  simp only [gridU, gridV] at h
  simp only [Int.cast_sub, Int.cast_one]
  rw [if_pos h]

theorem query_of_in (m : RcEsdfMap K) (p : Vec2 K) (h : passesRangeCheck m p) :
    query m p =
      ⟨true,
        (1 - (gridU m p - (⌊gridU m p⌋ : K))) * (1 - (gridV m p - (⌊gridV m p⌋ : K))) *
            getRaw m ⌊gridU m p⌋ ⌊gridV m p⌋ +
          (gridU m p - (⌊gridU m p⌋ : K)) * (1 - (gridV m p - (⌊gridV m p⌋ : K))) *
            getRaw m (⌊gridU m p⌋ + 1) ⌊gridV m p⌋ +
          (1 - (gridU m p - (⌊gridU m p⌋ : K))) * (gridV m p - (⌊gridV m p⌋ : K)) *
            getRaw m ⌊gridU m p⌋ (⌊gridV m p⌋ + 1) +
          (gridU m p - (⌊gridU m p⌋ : K)) * (gridV m p - (⌊gridV m p⌋ : K)) *
            getRaw m (⌊gridU m p⌋ + 1) (⌊gridV m p⌋ + 1),
        ⟨((1 - (gridV m p - (⌊gridV m p⌋ : K))) *
              (getRaw m (⌊gridU m p⌋ + 1) ⌊gridV m p⌋ - getRaw m ⌊gridU m p⌋ ⌊gridV m p⌋) +
            (gridV m p - (⌊gridV m p⌋ : K)) *
              (getRaw m (⌊gridU m p⌋ + 1) (⌊gridV m p⌋ + 1) -
                getRaw m ⌊gridU m p⌋ (⌊gridV m p⌋ + 1))) / m.resolution_,
          ((1 - (gridU m p - (⌊gridU m p⌋ : K))) *
              (getRaw m ⌊gridU m p⌋ (⌊gridV m p⌋ + 1) - getRaw m ⌊gridU m p⌋ ⌊gridV m p⌋) +
            (gridU m p - (⌊gridU m p⌋ : K)) *
              (getRaw m (⌊gridU m p⌋ + 1) (⌊gridV m p⌋ + 1) -
                getRaw m (⌊gridU m p⌋ + 1) ⌊gridV m p⌋)) / m.resolution_⟩⟩ := by
  unfold query posToGrid
  simp only [passesRangeCheck, gridU, gridV] at h
  simp only [Int.cast_sub, Int.cast_one]
  rw [if_neg h]
  simp only [gridU, gridV]

theorem getRaw_eq_stored (m : RcEsdfMap K) (x y : Int)
    (hlen : (m.data_.length : Int) = m.grid_size_x_ * m.grid_size_y_)
    (hx0 : 0 ≤ x) (hx1 : x < m.grid_size_x_) (hy0 : 0 ≤ y) (hy1 : y < m.grid_size_y_) :
    stored m x y = some (getRaw m x y) := by
  have hidx : (y * m.grid_size_x_ + x).toNat < m.data_.length := by
    have h0 : 0 ≤ y * m.grid_size_x_ + x := by
      have : 0 ≤ y * m.grid_size_x_ := mul_nonneg hy0 (by omega)
      omega
    have : y * m.grid_size_x_ + x < m.grid_size_x_ * m.grid_size_y_ := by nlinarith
    omega
  unfold stored getRaw
  rw [if_neg (by omega)]
  rw [List.getD_eq_getElem _ _ hidx, List.getElem?_eq_getElem hidx]

/-- Under the range check the four cells read by `query` lie in the grid. -/
theorem cells_in_grid (m : RcEsdfMap K) (p : Vec2 K) (h : passesRangeCheck m p) :
    (0 ≤ ⌊gridU m p⌋ ∧ ⌊gridU m p⌋ + 1 < m.grid_size_x_) ∧
      (0 ≤ ⌊gridV m p⌋ ∧ ⌊gridV m p⌋ + 1 < m.grid_size_y_) := by
  simp only [passesRangeCheck, not_or, not_lt, ge_iff_le, not_le] at h
  obtain ⟨hu0, hu1, hv0, hv1⟩ := h
  refine ⟨⟨Int.floor_nonneg.mpr hu0, ?_⟩, ⟨Int.floor_nonneg.mpr hv0, ?_⟩⟩
  · have : ((⌊gridU m p⌋ : K)) < (m.grid_size_x_ : K) - 1 := lt_of_le_of_lt (Int.floor_le _) hu1
    have h2 : ((⌊gridU m p⌋ + 1 : Int) : K) < (m.grid_size_x_ : K) := by
      push_cast; linarith
    exact_mod_cast h2
  · have : ((⌊gridV m p⌋ : K)) < (m.grid_size_y_ : K) - 1 := lt_of_le_of_lt (Int.floor_le _) hv1
    have h2 : ((⌊gridV m p⌋ + 1 : Int) : K) < (m.grid_size_y_ : K) := by
      push_cast; linarith
    exact_mod_cast h2

theorem length_vectorResize (v : List K) (n : Nat) (val : K) :
    (vectorResize v n val).length = n := by
  simp only [vectorResize, List.length_append, List.length_take, List.length_replicate]
  omega

theorem mem_vectorResize_nil (n : Nat) (val a : K) (h : a ∈ vectorResize ([] : List K) n val) :
    a = val := by
  simp only [vectorResize, List.take_nil, List.nil_append] at h
  exact List.eq_of_mem_replicate h

theorem toInt_of_mem {z : Int} (h1 : INT_MIN ≤ z) (h2 : z ≤ INT_MAX) : toInt z = some z := by
  simp [toInt, h1, h2]

theorem initializeMap_demo :
    initializeMap (newMap : RcEsdfMap K) 10 10 (1 / 10) = some demoGrid := by
  have hc : ⌈(10 : K) / (1 / 10)⌉ = 100 := by
    rw [Int.ceil_eq_iff]; norm_num
  have h1 : toInt (100 : Int) = some 100 := by decide
  have h2 : toInt ((100 : Int) * 100) = some 10000 := by decide
  unfold initializeMap
  rw [if_neg (by norm_num), hc]
  simp only [h1, h2]
  simp [demoGrid, newMap]

/-- Claim C2.  When the range check passes, the four cells `(x0, y0)`, `(x0+1, y0)`,
`(x0, y0+1)`, `(x0+1, y0+1)` hold stored values `v00, v10, v01, v11`, and `query`
returns `inRange = true`, the bilinear interpolation of the four values as
`dist`, and the finite differences divided by the resolution as `gradient`. -/
theorem query_bilinear (m : RcEsdfMap K) (p : Vec2 K)
    (hlen : (m.data_.length : Int) = m.grid_size_x_ * m.grid_size_y_)
    (h : passesRangeCheck m p) :
    ∃ v00 v10 v01 v11 : K,
      stored m ⌊gridU m p⌋ ⌊gridV m p⌋ = some v00 ∧
      stored m (⌊gridU m p⌋ + 1) ⌊gridV m p⌋ = some v10 ∧
      stored m ⌊gridU m p⌋ (⌊gridV m p⌋ + 1) = some v01 ∧
      stored m (⌊gridU m p⌋ + 1) (⌊gridV m p⌋ + 1) = some v11 ∧
      (query m p).inRange = true ∧
      (query m p).dist =
        (1 - (gridU m p - ⌊gridU m p⌋)) * (1 - (gridV m p - ⌊gridV m p⌋)) * v00 +
          (gridU m p - ⌊gridU m p⌋) * (1 - (gridV m p - ⌊gridV m p⌋)) * v10 +
          (1 - (gridU m p - ⌊gridU m p⌋)) * (gridV m p - ⌊gridV m p⌋) * v01 +
          (gridU m p - ⌊gridU m p⌋) * (gridV m p - ⌊gridV m p⌋) * v11 ∧
      (query m p).grad.x =
        ((1 - (gridV m p - ⌊gridV m p⌋)) * (v10 - v00) +
          (gridV m p - ⌊gridV m p⌋) * (v11 - v01)) / m.resolution_ ∧
      (query m p).grad.y =
        ((1 - (gridU m p - ⌊gridU m p⌋)) * (v01 - v00) +
          (gridU m p - ⌊gridU m p⌋) * (v11 - v10)) / m.resolution_ := by
  obtain ⟨⟨hx0, hx1⟩, ⟨hy0, hy1⟩⟩ := cells_in_grid m p h
  refine ⟨getRaw m ⌊gridU m p⌋ ⌊gridV m p⌋, getRaw m (⌊gridU m p⌋ + 1) ⌊gridV m p⌋,
    getRaw m ⌊gridU m p⌋ (⌊gridV m p⌋ + 1), getRaw m (⌊gridU m p⌋ + 1) (⌊gridV m p⌋ + 1),
    getRaw_eq_stored m _ _ hlen hx0 (by omega) hy0 (by omega),
    getRaw_eq_stored m _ _ hlen (by omega) hx1 hy0 (by omega),
    getRaw_eq_stored m _ _ hlen hx0 (by omega) (by omega) hy1,
    getRaw_eq_stored m _ _ hlen (by omega) hx1 (by omega) hy1, ?_⟩
  rw [query_of_in m p h]
  exact ⟨rfl, rfl, rfl, rfl⟩

/-- A check of `query_bilinear` on the demonstration grid at the point `(0, 0)`. -/
theorem query_bilinear_witness :
    ∃ v00 v10 v01 v11 : ℚ,
      stored (demoGrid : RcEsdfMap ℚ) 49 49 = some v00 ∧
      stored (demoGrid : RcEsdfMap ℚ) 50 49 = some v10 ∧
      stored (demoGrid : RcEsdfMap ℚ) 49 50 = some v01 ∧
      stored (demoGrid : RcEsdfMap ℚ) 50 50 = some v11 ∧
      (query (demoGrid : RcEsdfMap ℚ) ⟨0, 0⟩).inRange = true ∧
      (query (demoGrid : RcEsdfMap ℚ) ⟨0, 0⟩).dist =
        (1 - 1 / 2) * (1 - 1 / 2) * v00 + 1 / 2 * (1 - 1 / 2) * v10 +
          (1 - 1 / 2) * (1 / 2) * v01 + 1 / 2 * (1 / 2) * v11 := by
  have hu : gridU (demoGrid : RcEsdfMap ℚ) ⟨0, 0⟩ = 99 / 2 := by
    norm_num [gridU, demoGrid]
  have hv : gridV (demoGrid : RcEsdfMap ℚ) ⟨0, 0⟩ = 99 / 2 := by
    norm_num [gridV, demoGrid]
  have hf : ⌊(99 / 2 : ℚ)⌋ = 49 := by
    rw [Int.floor_eq_iff]; norm_num
  have hlen : ((demoGrid : RcEsdfMap ℚ).data_.length : Int) =
      (demoGrid : RcEsdfMap ℚ).grid_size_x_ * (demoGrid : RcEsdfMap ℚ).grid_size_y_ := by
    simp only [demoGrid, length_vectorResize]
    norm_num
  have hin : passesRangeCheck (demoGrid : RcEsdfMap ℚ) ⟨0, 0⟩ := by
    unfold passesRangeCheck
    rw [hu, hv]
    norm_num [demoGrid]
  obtain ⟨v00, v10, v01, v11, h1, h2, h3, h4, h5, h6, -, -⟩ :=
    query_bilinear (demoGrid : RcEsdfMap ℚ) ⟨0, 0⟩ hlen hin
  rw [hu, hv, hf] at h1 h2 h3 h4 h6
  refine ⟨v00, v10, v01, v11, h1, h2, h3, h4, h5, ?_⟩
  rw [h6]; norm_num

/-- In exact arithmetic, on a grid with a positive resolution, the range check of `query`
fires exactly outside the window
`[ox + 0.5 r, ox + (cols - 0.5) r) x [oy + 0.5 r, oy + (rows - 0.5) r)`. -/
theorem rangeCheck_iff_window (m : RcEsdfMap K) (p : Vec2 K) (hr : 0 < m.resolution_) :
    (gridU m p < 0 ∨ gridU m p ≥ (m.grid_size_x_ : K) - 1 ∨ gridV m p < 0 ∨
        gridV m p ≥ (m.grid_size_y_ : K) - 1) ↔
      ¬ ((m.origin_x_ + 1 / 2 * m.resolution_ ≤ p.x ∧
            p.x < m.origin_x_ + ((m.grid_size_x_ : K) - 1 / 2) * m.resolution_) ∧
          (m.origin_y_ + 1 / 2 * m.resolution_ ≤ p.y ∧
            p.y < m.origin_y_ + ((m.grid_size_y_ : K) - 1 / 2) * m.resolution_)) := by
  have e1 : gridU m p < 0 ↔ p.x < m.origin_x_ + 1 / 2 * m.resolution_ := by
    unfold gridU
    rw [sub_neg, div_lt_iff₀ hr]
    constructor <;> intro h <;> linarith
  have e2 : gridU m p ≥ (m.grid_size_x_ : K) - 1 ↔
      m.origin_x_ + ((m.grid_size_x_ : K) - 1 / 2) * m.resolution_ ≤ p.x := by
    unfold gridU
    rw [ge_iff_le, le_sub_iff_add_le, le_div_iff₀ hr]
    constructor <;> intro h <;> linarith
  have e3 : gridV m p < 0 ↔ p.y < m.origin_y_ + 1 / 2 * m.resolution_ := by
    unfold gridV
    rw [sub_neg, div_lt_iff₀ hr]
    constructor <;> intro h <;> linarith
  have e4 : gridV m p ≥ (m.grid_size_y_ : K) - 1 ↔
      m.origin_y_ + ((m.grid_size_y_ : K) - 1 / 2) * m.resolution_ ≤ p.y := by
    unfold gridV
    rw [ge_iff_le, le_sub_iff_add_le, le_div_iff₀ hr]
    constructor <;> intro h <;> linarith
  rw [e1, e2, e3, e4]
  constructor
  · rintro (h | h | h | h) ⟨⟨h1, h2⟩, h3, h4⟩
    · exact absurd h1 (not_le.mpr h)
    · exact absurd h2 (not_lt.mpr h)
    · exact absurd h3 (not_le.mpr h)
    · exact absurd h4 (not_lt.mpr h)
  · intro h
    by_contra hc
    simp only [not_or, not_lt, not_le] at hc
    exact h ⟨⟨hc.1, hc.2.1⟩, hc.2.2.1, hc.2.2.2⟩

/-- Claim C10, as amended.  On a grid with at least two columns and two rows and a
positive resolution, the query at `(ox + (cols - 1.5) r, oy + (rows - 1.5) r)` returns
`inRange = true`. -/
theorem query_last_cell_center (m : RcEsdfMap K) (hr : 0 < m.resolution_)
    (hc : 2 ≤ m.grid_size_x_) (hrows : 2 ≤ m.grid_size_y_) :
    (query m ⟨m.origin_x_ + ((m.grid_size_x_ : K) - 3 / 2) * m.resolution_,
      m.origin_y_ + ((m.grid_size_y_ : K) - 3 / 2) * m.resolution_⟩).inRange = true := by
  have hr0 : m.resolution_ ≠ 0 := ne_of_gt hr
  have hc2 : (2 : K) ≤ (m.grid_size_x_ : K) := by exact_mod_cast hc
  have hr2 : (2 : K) ≤ (m.grid_size_y_ : K) := by exact_mod_cast hrows
  have hin : passesRangeCheck m ⟨m.origin_x_ + ((m.grid_size_x_ : K) - 3 / 2) * m.resolution_,
      m.origin_y_ + ((m.grid_size_y_ : K) - 3 / 2) * m.resolution_⟩ := by
    have hu : gridU m ⟨m.origin_x_ + ((m.grid_size_x_ : K) - 3 / 2) * m.resolution_,
        m.origin_y_ + ((m.grid_size_y_ : K) - 3 / 2) * m.resolution_⟩ =
        (m.grid_size_x_ : K) - 2 := by
      unfold gridU
      field_simp
      ring
    have hv : gridV m ⟨m.origin_x_ + ((m.grid_size_x_ : K) - 3 / 2) * m.resolution_,
        m.origin_y_ + ((m.grid_size_y_ : K) - 3 / 2) * m.resolution_⟩ =
        (m.grid_size_y_ : K) - 2 := by
      unfold gridV
      field_simp
      ring
    unfold passesRangeCheck
    rw [hu, hv]
    simp only [not_or, not_lt, ge_iff_le, not_le]
    refine ⟨by linarith, by linarith, by linarith, by linarith⟩
  rw [query_of_in m _ hin]

/-- A check of `query_last_cell_center` on the demonstration grid. -/
theorem query_last_cell_center_witness :
    0 < (demoGrid : RcEsdfMap ℚ).resolution_ ∧
      (2 : Int) ≤ (demoGrid : RcEsdfMap ℚ).grid_size_x_ ∧
      (2 : Int) ≤ (demoGrid : RcEsdfMap ℚ).grid_size_y_ ∧
      (query (demoGrid : RcEsdfMap ℚ)
        ⟨(demoGrid : RcEsdfMap ℚ).origin_x_ +
            (((demoGrid : RcEsdfMap ℚ).grid_size_x_ : ℚ) - 3 / 2) *
              (demoGrid : RcEsdfMap ℚ).resolution_,
          (demoGrid : RcEsdfMap ℚ).origin_y_ +
            (((demoGrid : RcEsdfMap ℚ).grid_size_y_ : ℚ) - 3 / 2) *
              (demoGrid : RcEsdfMap ℚ).resolution_⟩).inRange = true :=
  ⟨by norm_num [demoGrid], by norm_num [demoGrid], by norm_num [demoGrid],
    query_last_cell_center (demoGrid : RcEsdfMap ℚ) (by norm_num [demoGrid])
      (by norm_num [demoGrid]) (by norm_num [demoGrid])⟩

/-- Claim C10 fails as stated: `initialize(1, 1, 1)` gives an initialised grid of one
cell, and the query at `(ox + (cols - 1.5) r, oy + (rows - 1.5) r)` returns
`inRange = false`. -/
theorem query_last_cell_center_single_cell :
    ∃ m : RcEsdfMap ℚ, initializeMap (newMap : RcEsdfMap ℚ) 1 1 1 = some m ∧ Initialised m ∧
      (query m ⟨m.origin_x_ + ((m.grid_size_x_ : ℚ) - 3 / 2) * m.resolution_,
        m.origin_y_ + ((m.grid_size_y_ : ℚ) - 3 / 2) * m.resolution_⟩).inRange = false := by
  have hc : ⌈(1 : ℚ) / 1⌉ = 1 := by
    rw [Int.ceil_eq_iff]; norm_num
  have h1 : toInt (1 : Int) = some 1 := by decide
  have h2 : toInt ((1 : Int) * 1) = some 1 := by decide
  refine ⟨⟨1, 1, 1, -1 / 2, -1 / 2, 1, 1, vectorResize [] 1 0⟩, ?_, ?_, ?_⟩
  · unfold initializeMap
    rw [if_neg (by norm_num), hc]
    simp only [h1, h2]
    simp [newMap]
  · refine ⟨by norm_num, by norm_num, by norm_num, ?_⟩
    simp only [length_vectorResize]
    norm_num
  · rw [query_of_out]
    left
    norm_num [gridU]

/-! ### Initialisation -/

theorem initialised_demoGrid : Initialised (demoGrid : RcEsdfMap K) := by
  refine ⟨by norm_num [demoGrid], by norm_num [demoGrid], by norm_num [demoGrid], ?_⟩
  simp only [demoGrid, length_vectorResize]
  norm_num

/-! ### The construction loop -/

theorem length_foldl_set {α : Type} (f : Nat → Nat) (g : Nat → α) (n : Nat) (data : List α) :
    ((List.range n).foldl (fun d x => d.set (f x) (g x)) data).length = data.length := by
  induction n with
  | zero => rfl
  | succ n ih => rw [List.range_succ, List.foldl_append]; simpa using ih

theorem getElem?_foldl_set_of_ne {α : Type} (f : Nat → Nat) (g : Nat → α) (n : Nat)
    (data : List α) (k : Nat) (hk : ∀ x, x < n → f x ≠ k) :
    ((List.range n).foldl (fun d x => d.set (f x) (g x)) data)[k]? = data[k]? := by
  induction n with
  | zero => rfl
  | succ n ih =>
    rw [List.range_succ, List.foldl_append]
    simp only [List.foldl_cons, List.foldl_nil]
    rw [List.getElem?_set_ne (hk n (Nat.lt_succ_self n))]
    exact ih (fun x hx => hk x (Nat.lt_succ_of_lt hx))

theorem getElem?_foldl_set {α : Type} (f : Nat → Nat) (g : Nat → α) (n : Nat)
    (data : List α) (x : Nat) (hx : x < n) (hlt : f x < data.length)
    (hinj : ∀ z, z < n → f z = f x → z = x) :
    ((List.range n).foldl (fun d x => d.set (f x) (g x)) data)[f x]? = some (g x) := by
  induction n with
  | zero => exact absurd hx (Nat.not_lt_zero x)
  | succ n ih =>
    rw [List.range_succ, List.foldl_append]
    simp only [List.foldl_cons, List.foldl_nil]
    by_cases hxn : x = n
    · subst hxn
      rw [List.getElem?_set_self]
      rw [length_foldl_set]
      exact hlt
    · have hx2 : x < n := by omega
      have hne : f n ≠ f x := fun h => hxn (hinj n (Nat.lt_succ_self n) h).symm
      rw [List.getElem?_set_ne hne]
      exact ih hx2 (fun z hz => hinj z (Nat.lt_succ_of_lt hz))

theorem length_foldl_rows {α : Type} (c : Nat) (g : Nat → Nat → α) (r : Nat) (data : List α) :
    ((List.range r).foldl
      (fun d y => (List.range c).foldl (fun d x => d.set (y * c + x) (g y x)) d) data).length =
      data.length := by
  induction r with
  | zero => rfl
  | succ r ih =>
    rw [List.range_succ, List.foldl_append]
    simp only [List.foldl_cons, List.foldl_nil]
    rw [length_foldl_set (fun x => r * c + x) (g r)]
    exact ih

theorem index_injective (c x y x2 y2 : Nat) (hx : x < c) (hx2 : x2 < c)
    (h : y2 * c + x2 = y * c + x) : y2 = y ∧ x2 = x := by
  have hy : y2 = y := by
    rcases Nat.lt_trichotomy y2 y with h1 | h1 | h1
    · exfalso
      have : (y2 + 1) * c ≤ y * c := Nat.mul_le_mul_right c h1
      rw [Nat.add_mul] at this
      omega
    · exact h1
    · exfalso
      have : (y + 1) * c ≤ y2 * c := Nat.mul_le_mul_right c h1
      rw [Nat.add_mul] at this
      omega
  subst hy
  exact ⟨rfl, by omega⟩

theorem getElem?_foldl_rows {α : Type} (c : Nat) (g : Nat → Nat → α) (r : Nat)
    (data : List α) (x y : Nat) (hx : x < c) (hy : y < r) (hlt : y * c + x < data.length) :
    ((List.range r).foldl
      (fun d y => (List.range c).foldl (fun d x => d.set (y * c + x) (g y x)) d) data)[y * c + x]? =
      some (g y x) := by
  induction r with
  | zero => exact absurd hy (Nat.not_lt_zero y)
  | succ r ih =>
    rw [List.range_succ, List.foldl_append]
    simp only [List.foldl_cons, List.foldl_nil]
    by_cases hyr : y = r
    · subst hyr
      apply getElem?_foldl_set (fun x => y * c + x) (g y) c _ x hx
      · rw [length_foldl_rows]; exact hlt
      · intro z _ hz
        simpa using hz
    · have hy2 : y < r := by omega
      rw [getElem?_foldl_set_of_ne (fun x => r * c + x) (g r)]
      · exact ih hy2
      · intro z hz hzz
        exact hyr (index_injective c x y z r hx hz hzz).1.symm

/-- After `generateFromPolygon` every cell `(x, y)` of the grid holds the value
computed for it by the loop body, provided the vector has `cols * rows` cells. -/
theorem stored_generateFromPolygon (sqrt : K → K) (m : RcEsdfMap K) (polygon : List (Vec2 K))
    (hlen : (m.data_.length : Int) = m.grid_size_x_ * m.grid_size_y_) (x y : Int)
    (hx0 : 0 ≤ x) (hx1 : x < m.grid_size_x_) (hy0 : 0 ≤ y) (hy1 : y < m.grid_size_y_) :
    stored (generateFromPolygon sqrt m polygon) x y = some (cellValue sqrt m polygon x y) := by
  obtain ⟨c, hc⟩ := Int.eq_ofNat_of_zero_le (show 0 ≤ m.grid_size_x_ by omega)
  obtain ⟨r, hr⟩ := Int.eq_ofNat_of_zero_le (show 0 ≤ m.grid_size_y_ by omega)
  obtain ⟨a, ha⟩ := Int.eq_ofNat_of_zero_le hx0
  obtain ⟨b, hb⟩ := Int.eq_ofNat_of_zero_le hy0
  subst ha hb
  have hac : a < c := by omega
  have hbr : b < r := by omega
  have hfun : (fun (data : List K) (y : Nat) =>
      (List.range m.grid_size_x_.toNat).foldl
        (fun (data : List K) (x : Nat) => data.set (((y : Int) * m.grid_size_x_ + (x : Int)).toNat)
          (cellValue sqrt m polygon (x : Int) (y : Int))) data) =
      (fun d y => (List.range c).foldl
        (fun d x => d.set (y * c + x) (cellValue sqrt m polygon (x : Nat) (y : Nat))) d) := by
    funext data y
    rw [hc]
    rfl
  have hlt : b * c + a < m.data_.length := by
    have h1 : ((m.data_.length : Nat) : Int) = (c : Int) * (r : Int) := by rw [hlen, hc, hr]
    have h2 : m.data_.length = c * r := by exact_mod_cast h1
    rw [h2]
    have : (b + 1) * c ≤ r * c := Nat.mul_le_mul_right c hbr
    rw [Nat.add_mul] at this
    rw [Nat.mul_comm c r]
    omega
  unfold stored generateFromPolygon
  simp only
  rw [hfun, hr, hc]
  have hidx : ((b : Int) * (c : Int) + (a : Int)).toNat = b * c + a := by
    have : ((b : Int) * (c : Int) + (a : Int)) = ((b * c + a : Nat) : Int) := by push_cast; ring
    rw [this, Int.toNat_ofNat]
  rw [hidx, Int.toNat_ofNat]
  exact getElem?_foldl_rows c (fun y x => cellValue sqrt m polygon (x : Nat) (y : Nat)) r
    m.data_ a b hac hbr hlt

theorem foldl_min_le_init (f : Nat → K) (l : List Nat) (a : K) :
    l.foldl (fun acc i => if f i < acc then f i else acc) a ≤ a := by
  induction l generalizing a with
  | nil => exact le_refl a
  | cons i l ih =>
    simp only [List.foldl_cons]
    refine le_trans (ih _) ?_
    split_ifs with h
    · exact le_of_lt h
    · exact le_refl a

theorem foldl_min_le_mem (f : Nat → K) (l : List Nat) (a : K) (i : Nat) (hi : i ∈ l) :
    l.foldl (fun acc i => if f i < acc then f i else acc) a ≤ f i := by
  induction l generalizing a with
  | nil => exact absurd hi (List.not_mem_nil i)
  | cons j l ih =>
    simp only [List.foldl_cons]
    rcases List.mem_cons.mp hi with h | h
    · subst h
      refine le_trans (foldl_min_le_init f l _) ?_
      split_ifs with h
      · exact le_refl _
      · exact not_lt.mp h
    · exact ih _ h

theorem foldl_min_attained (f : Nat → K) (l : List Nat) (a : K) :
    l.foldl (fun acc i => if f i < acc then f i else acc) a = a ∨
      ∃ i, i ∈ l ∧ l.foldl (fun acc i => if f i < acc then f i else acc) a = f i := by
  induction l generalizing a with
  | nil => exact Or.inl rfl
  | cons j l ih =>
    simp only [List.foldl_cons]
    rcases ih (if f j < a then f j else a) with h | ⟨i, hi, h⟩
    · rw [h]
      split_ifs with hlt
      · exact Or.inr ⟨j, List.mem_cons_self j l, rfl⟩
      · exact Or.inl rfl
    · exact Or.inr ⟨i, List.mem_cons_of_mem j hi, h⟩

theorem minDistSq_eq_foldl (p : Vec2 K) (polygon : List (Vec2 K)) :
    minDistSq p polygon =
      (List.range polygon.length).foldl
        (fun acc i => if edgeDistSq p polygon i < acc then edgeDistSq p polygon i else acc)
        DBL_MAX := rfl

theorem minDistSq_le_edge (p : Vec2 K) (polygon : List (Vec2 K)) (i : Nat)
    (hi : i < polygon.length) : minDistSq p polygon ≤ edgeDistSq p polygon i := by
  rw [minDistSq_eq_foldl]
  exact foldl_min_le_mem _ _ _ i (List.mem_range.mpr hi)

theorem minDistSq_attained (p : Vec2 K) (polygon : List (Vec2 K))
    (hrep : ∃ i, i < polygon.length ∧ edgeDistSq p polygon i ≤ DBL_MAX) :
    ∃ i, i < polygon.length ∧ minDistSq p polygon = edgeDistSq p polygon i := by
  rcases foldl_min_attained (edgeDistSq p polygon) (List.range polygon.length) DBL_MAX with
    h | ⟨i, hi, h⟩
  · obtain ⟨i, hi, hle⟩ := hrep
    refine ⟨i, hi, le_antisymm (minDistSq_le_edge p polygon i hi) ?_⟩
    rw [minDistSq_eq_foldl, h]
    exact hle
  · exact ⟨i, List.mem_range.mp hi, h⟩

/-- Claim C1.  On a grid with a vector of `cols * rows` cells and any polygon (in
particular one of at least 3 vertices), after `generateFromPolygon` the cell `(x, y)` with `0 <= x < cols`,
`0 <= y < rows` stores `-min_dist` when `isPointInPolygon` holds of the cell centre
`p = (ox + (x + 0.5) r, oy + (y + 0.5) r)` and `+min_dist` otherwise, where `min_dist`
is the square root of the least of the squared distances from `p` to the edges
`(polygon[i], polygon[(i+1) mod n])`.  (The squared distances are values of type
`double`: one of them is at most `DBL_MAX`, the start of the running minimum.) -/
theorem generateFromPolygon_cell (sqrt : K → K) (m : RcEsdfMap K) (polygon : List (Vec2 K))
    (hlen : (m.data_.length : Int) = m.grid_size_x_ * m.grid_size_y_) (x y : Int)
    (hx0 : 0 ≤ x) (hx1 : x < m.grid_size_x_) (hy0 : 0 ≤ y) (hy1 : y < m.grid_size_y_)
    (hrep : ∃ i, i < polygon.length ∧
      edgeDistSq ⟨m.origin_x_ + ((x : K) + 1 / 2) * m.resolution_,
        m.origin_y_ + ((y : K) + 1 / 2) * m.resolution_⟩ polygon i ≤ DBL_MAX) :
    ∃ minSq : K,
      (∃ i, i < polygon.length ∧
        minSq = pointToSegmentDistSq
          ⟨m.origin_x_ + ((x : K) + 1 / 2) * m.resolution_,
            m.origin_y_ + ((y : K) + 1 / 2) * m.resolution_⟩
          (polygon.getD i ⟨0, 0⟩) (polygon.getD ((i + 1) % polygon.length) ⟨0, 0⟩)) ∧
      (∀ i, i < polygon.length →
        minSq ≤ pointToSegmentDistSq
          ⟨m.origin_x_ + ((x : K) + 1 / 2) * m.resolution_,
            m.origin_y_ + ((y : K) + 1 / 2) * m.resolution_⟩
          (polygon.getD i ⟨0, 0⟩) (polygon.getD ((i + 1) % polygon.length) ⟨0, 0⟩)) ∧
      stored (generateFromPolygon sqrt m polygon) x y =
        some (if isPointInPolygon
            ⟨m.origin_x_ + ((x : K) + 1 / 2) * m.resolution_,
              m.origin_y_ + ((y : K) + 1 / 2) * m.resolution_⟩ polygon = true
          then -sqrt minSq else sqrt minSq) := by
  obtain ⟨i, hi, hmin⟩ := minDistSq_attained _ polygon hrep
  refine ⟨minDistSq ⟨m.origin_x_ + ((x : K) + 1 / 2) * m.resolution_,
    m.origin_y_ + ((y : K) + 1 / 2) * m.resolution_⟩ polygon, ⟨i, hi, hmin⟩,
    fun j hj => minDistSq_le_edge _ polygon j hj, ?_⟩
  rw [stored_generateFromPolygon sqrt m polygon hlen x y hx0 hx1 hy0 hy1]
  rfl

/-- A check of `generateFromPolygon_cell` on the demonstration grid and footprint, at
the cell `(49, 49)`. -/
theorem generateFromPolygon_cell_witness :
    ∃ minSq : ℚ,
      (∀ i, i < (footprint : List (Vec2 ℚ)).length →
        minSq ≤ edgeDistSq (cellCenter (demoGrid : RcEsdfMap ℚ) 49 49) footprint i) ∧
      stored (generateFromPolygon (fun q => q) (demoGrid : RcEsdfMap ℚ) footprint) 49 49 =
        some (if isPointInPolygon (cellCenter (demoGrid : RcEsdfMap ℚ) 49 49) footprint = true
          then -minSq else minSq) := by
  have hrep : ∃ i, i < (footprint : List (Vec2 ℚ)).length ∧
      edgeDistSq ⟨(demoGrid : RcEsdfMap ℚ).origin_x_ +
          (((49 : Int) : ℚ) + 1 / 2) * (demoGrid : RcEsdfMap ℚ).resolution_,
        (demoGrid : RcEsdfMap ℚ).origin_y_ +
          (((49 : Int) : ℚ) + 1 / 2) * (demoGrid : RcEsdfMap ℚ).resolution_⟩ footprint i ≤
        DBL_MAX := by
    refine ⟨0, by simp [footprint], ?_⟩
    norm_num [edgeDistSq, footprint, demoGrid, pointToSegmentDistSq, Vec2.sub, Vec2.add,
      Vec2.scale, Vec2.dot, Vec2.squaredNorm, DBL_MAX]
  obtain ⟨minSq, -, h2, h3⟩ :=
    generateFromPolygon_cell (fun q => q) (demoGrid : RcEsdfMap ℚ) footprint
      initialised_demoGrid.2.2.2 49 49 (by norm_num) (by norm_num [demoGrid]) (by norm_num)
      (by norm_num [demoGrid]) hrep
  exact ⟨minSq, h2, h3⟩

theorem length_foldl_foldl_set {α : Type} (idx : Nat → Nat → Nat) (val : Nat → Nat → α)
    (ly lx : List Nat) (data : List α) :
    (ly.foldl (fun (d : List α) (y : Nat) =>
      lx.foldl (fun (d : List α) (x : Nat) => d.set (idx y x) (val y x)) d) data).length =
      data.length := by
  have inner : ∀ (y : Nat) (l : List Nat) (d : List α),
      (l.foldl (fun (d : List α) (x : Nat) => d.set (idx y x) (val y x)) d).length = d.length := by
    intro y l
    induction l with
    | nil => intro d; rfl
    | cons x l ih => intro d; simp only [List.foldl_cons]; rw [ih, List.length_set]
  induction ly generalizing data with
  | nil => rfl
  | cons y ly ih => simp only [List.foldl_cons]; rw [ih, inner]

theorem length_generateFromPolygon (sqrt : K → K) (m : RcEsdfMap K) (polygon : List (Vec2 K)) :
    (generateFromPolygon sqrt m polygon).data_.length = m.data_.length := by
  unfold generateFromPolygon
  exact length_foldl_foldl_set
    (fun y x => (((y : Int) * m.grid_size_x_ + (x : Int)).toNat))
    (fun y x => cellValue sqrt m polygon (x : Int) (y : Int)) _ _ m.data_

/-- After `generateFromPolygon`, `getRaw` reads in every cell of the grid the value
computed for it by the loop body. -/
theorem getRaw_generateFromPolygon (sqrt : K → K) (m : RcEsdfMap K) (polygon : List (Vec2 K))
    (hlen : (m.data_.length : Int) = m.grid_size_x_ * m.grid_size_y_) (x y : Int)
    (hx0 : 0 ≤ x) (hx1 : x < m.grid_size_x_) (hy0 : 0 ≤ y) (hy1 : y < m.grid_size_y_) :
    getRaw (generateFromPolygon sqrt m polygon) x y = cellValue sqrt m polygon x y := by
  have h1 := stored_generateFromPolygon sqrt m polygon hlen x y hx0 hx1 hy0 hy1
  have hlen2 : ((generateFromPolygon sqrt m polygon).data_.length : Int) =
      (generateFromPolygon sqrt m polygon).grid_size_x_ *
        (generateFromPolygon sqrt m polygon).grid_size_y_ := by
    rw [length_generateFromPolygon]; exact hlen
  have h2 := getRaw_eq_stored (generateFromPolygon sqrt m polygon) x y hlen2 hx0 hx1 hy0 hy1
  rw [h1] at h2
  exact (Option.some.inj h2).symm

/-! ### The demonstration scenario -/

theorem cellCenter_demoGrid (x y : Int) :
    cellCenter (demoGrid : RcEsdfMap K) x y =
      ⟨-10 / 2 + ((x : K) + 1 / 2) * (1 / 10), -10 / 2 + ((y : K) + 1 / 2) * (1 / 10)⟩ := rfl

theorem minDistSq_demo_pp :
    minDistSq (⟨1 / 20, 1 / 20⟩ : Vec2 K) footprint = 1 / 16 := by
  norm_num [minDistSq, footprint, List.range_succ, pointToSegmentDistSq, Vec2.sub, Vec2.add,
    Vec2.scale, Vec2.dot, Vec2.squaredNorm, DBL_MAX]

theorem isPointInPolygon_demo_pp :
    isPointInPolygon (⟨1 / 20, 1 / 20⟩ : Vec2 K) footprint = true := by
  norm_num [isPointInPolygon, crossingStep, footprint, List.range_succ]

theorem minDistSq_demo_pm :
    minDistSq (⟨1 / 20, -1 / 20⟩ : Vec2 K) footprint = 1 / 16 := by
  norm_num [minDistSq, footprint, List.range_succ, pointToSegmentDistSq, Vec2.sub, Vec2.add,
    Vec2.scale, Vec2.dot, Vec2.squaredNorm, DBL_MAX]

theorem isPointInPolygon_demo_pm :
    isPointInPolygon (⟨1 / 20, -1 / 20⟩ : Vec2 K) footprint = true := by
  norm_num [isPointInPolygon, crossingStep, footprint, List.range_succ]

theorem minDistSq_demo_mp :
    minDistSq (⟨-1 / 20, 1 / 20⟩ : Vec2 K) footprint = 1 / 16 := by
  norm_num [minDistSq, footprint, List.range_succ, pointToSegmentDistSq, Vec2.sub, Vec2.add,
    Vec2.scale, Vec2.dot, Vec2.squaredNorm, DBL_MAX]

theorem isPointInPolygon_demo_mp :
    isPointInPolygon (⟨-1 / 20, 1 / 20⟩ : Vec2 K) footprint = true := by
  norm_num [isPointInPolygon, crossingStep, footprint, List.range_succ]

theorem minDistSq_demo_mm :
    minDistSq (⟨-1 / 20, -1 / 20⟩ : Vec2 K) footprint = 1 / 16 := by
  norm_num [minDistSq, footprint, List.range_succ, pointToSegmentDistSq, Vec2.sub, Vec2.add,
    Vec2.scale, Vec2.dot, Vec2.squaredNorm, DBL_MAX]

theorem isPointInPolygon_demo_mm :
    isPointInPolygon (⟨-1 / 20, -1 / 20⟩ : Vec2 K) footprint = true := by
  norm_num [isPointInPolygon, crossingStep, footprint, List.range_succ]

theorem minDistSq_demo (a b : K) (ha : a = 1 / 20 ∨ a = -1 / 20) (hb : b = 1 / 20 ∨ b = -1 / 20) :
    minDistSq (⟨a, b⟩ : Vec2 K) footprint = 1 / 16 := by
  rcases ha with rfl | rfl <;> rcases hb with rfl | rfl
  · exact minDistSq_demo_pp
  · exact minDistSq_demo_pm
  · exact minDistSq_demo_mp
  · exact minDistSq_demo_mm

theorem isPointInPolygon_demo (a b : K) (ha : a = 1 / 20 ∨ a = -1 / 20)
    (hb : b = 1 / 20 ∨ b = -1 / 20) :
    isPointInPolygon (⟨a, b⟩ : Vec2 K) footprint = true := by
  rcases ha with rfl | rfl <;> rcases hb with rfl | rfl
  · exact isPointInPolygon_demo_pp
  · exact isPointInPolygon_demo_pm
  · exact isPointInPolygon_demo_mp
  · exact isPointInPolygon_demo_mm

theorem cellValue_demo (sqrt : K → K) (x y : Int) (hx : x = 49 ∨ x = 50) (hy : y = 49 ∨ y = 50) :
    cellValue sqrt (demoGrid : RcEsdfMap K) footprint x y = -sqrt (1 / 16) := by
  have hcx : -10 / 2 + ((x : K) + 1 / 2) * (1 / 10) = 1 / 20 ∨
      -10 / 2 + ((x : K) + 1 / 2) * (1 / 10) = -1 / 20 := by
    rcases hx with rfl | rfl
    · right; norm_num
    · left; norm_num
  have hcy : -10 / 2 + ((y : K) + 1 / 2) * (1 / 10) = 1 / 20 ∨
      -10 / 2 + ((y : K) + 1 / 2) * (1 / 10) = -1 / 20 := by
    rcases hy with rfl | rfl
    · right; norm_num
    · left; norm_num
  unfold cellValue
  simp only [cellCenter_demoGrid]
  rw [minDistSq_demo _ _ hcx hcy, isPointInPolygon_demo _ _ hcx hcy]
  simp

theorem getRaw_demo (sqrt : K → K) (x y : Int) (hx : x = 49 ∨ x = 50) (hy : y = 49 ∨ y = 50) :
    getRaw (generateFromPolygon sqrt (demoGrid : RcEsdfMap K) footprint) x y =
      -sqrt (1 / 16) := by
  rw [getRaw_generateFromPolygon sqrt demoGrid footprint initialised_demoGrid.2.2.2 x y
    (by omega) (by simp only [demoGrid]; omega) (by omega) (by simp only [demoGrid]; omega)]
  exact cellValue_demo sqrt x y hx hy

/-- The result of the query at `(0, 0)` in the demonstration scenario, for any square
root function: all four surrounding cells hold `-sqrt(1/16)`. -/
theorem query_demo_origin (sqrt : K → K) :
    query (generateFromPolygon sqrt (demoGrid : RcEsdfMap K) footprint) ⟨0, 0⟩ =
      ⟨true, -sqrt (1 / 16), ⟨0, 0⟩⟩ := by
  have hu : gridU (generateFromPolygon sqrt (demoGrid : RcEsdfMap K) footprint) ⟨0, 0⟩ =
      99 / 2 := by
    simp only [gridU, generateFromPolygon, demoGrid]
    norm_num
  have hv : gridV (generateFromPolygon sqrt (demoGrid : RcEsdfMap K) footprint) ⟨0, 0⟩ =
      99 / 2 := by
    simp only [gridV, generateFromPolygon, demoGrid]
    norm_num
  have hf : ⌊(99 / 2 : K)⌋ = 49 := by
    rw [Int.floor_eq_iff]; norm_num
  have hin : passesRangeCheck (generateFromPolygon sqrt (demoGrid : RcEsdfMap K) footprint)
      ⟨0, 0⟩ := by
    unfold passesRangeCheck
    rw [hu, hv]
    simp only [generateFromPolygon, demoGrid]
    norm_num
  rw [query_of_in _ _ hin, hu, hv, hf]
  have e : (49 : Int) + 1 = 50 := rfl
  rw [e, getRaw_demo sqrt 49 49 (Or.inl rfl) (Or.inl rfl),
    getRaw_demo sqrt 50 49 (Or.inr rfl) (Or.inl rfl),
    getRaw_demo sqrt 49 50 (Or.inl rfl) (Or.inr rfl),
    getRaw_demo sqrt 50 50 (Or.inr rfl) (Or.inr rfl)]
  simp only [generateFromPolygon, demoGrid]
  congr 1
  · push_cast; ring
  · congr 1 <;> · push_cast; ring

theorem sqrt_sixteenth : Real.sqrt (1 / 16) = 1 / 4 := by
  rw [show (1 / 16 : ℝ) = (1 / 4) ^ 2 by norm_num]
  exact Real.sqrt_sq (by norm_num)

/-- Claim C7.  After `initialize(10, 10, 0.1)` and `generateFromPolygon` on the
rectangle `(0.5,0.3), (-0.5,0.3), (-0.5,-0.3), (0.5,-0.3)`, the query at `(0, 0)` returns
`inRange = true` and a negative distance within `0.1` of `-0.3` (it is `-0.25`, the
value of the four surrounding cell centres `(±0.05, ±0.05)`). -/
theorem demo_query_origin_distance :
    initializeMap (newMap : RcEsdfMap ℝ) 10 10 (1 / 10) = some demoGrid ∧
      (query (generateFromPolygon Real.sqrt (demoGrid : RcEsdfMap ℝ) footprint)
        ⟨0, 0⟩).inRange = true ∧
      (query (generateFromPolygon Real.sqrt (demoGrid : RcEsdfMap ℝ) footprint)
        ⟨0, 0⟩).dist < 0 ∧
      |(query (generateFromPolygon Real.sqrt (demoGrid : RcEsdfMap ℝ) footprint)
        ⟨0, 0⟩).dist - (-3 / 10)| ≤ 1 / 10 := by
  rw [query_demo_origin Real.sqrt, sqrt_sixteenth]
  refine ⟨initializeMap_demo, rfl, by norm_num, ?_⟩
  rw [abs_le]
  constructor <;> norm_num

/-- Claim C8, as amended.  In the scenario of the demonstration driver the query at
`(0, 0)` is in range and its gradient is the zero vector. -/
theorem demo_query_origin_gradient_zero :
    initializeMap (newMap : RcEsdfMap ℝ) 10 10 (1 / 10) = some demoGrid ∧
      (query (generateFromPolygon Real.sqrt (demoGrid : RcEsdfMap ℝ) footprint)
        ⟨0, 0⟩).inRange = true ∧
      (query (generateFromPolygon Real.sqrt (demoGrid : RcEsdfMap ℝ) footprint)
        ⟨0, 0⟩).grad.x = 0 ∧
      (query (generateFromPolygon Real.sqrt (demoGrid : RcEsdfMap ℝ) footprint)
        ⟨0, 0⟩).grad.y = 0 := by
  rw [query_demo_origin Real.sqrt]
  exact ⟨initializeMap_demo, rfl, rfl, rfl⟩

/-- Claim C8 fails as stated: in the scenario of the demonstration driver the gradient
returned at `(0, 0)` is neither non-zero, nor along `+y`, nor along `+x`. -/
theorem demo_query_origin_gradient_not_axis :
    ¬ (((query (generateFromPolygon Real.sqrt (demoGrid : RcEsdfMap ℝ) footprint)
          ⟨0, 0⟩).grad.x ≠ 0 ∨
        (query (generateFromPolygon Real.sqrt (demoGrid : RcEsdfMap ℝ) footprint)
          ⟨0, 0⟩).grad.y ≠ 0) ∧
      (((query (generateFromPolygon Real.sqrt (demoGrid : RcEsdfMap ℝ) footprint)
            ⟨0, 0⟩).grad.x = 0 ∧
          0 < (query (generateFromPolygon Real.sqrt (demoGrid : RcEsdfMap ℝ) footprint)
            ⟨0, 0⟩).grad.y) ∨
        ((query (generateFromPolygon Real.sqrt (demoGrid : RcEsdfMap ℝ) footprint)
            ⟨0, 0⟩).grad.y = 0 ∧
          0 < (query (generateFromPolygon Real.sqrt (demoGrid : RcEsdfMap ℝ) footprint)
            ⟨0, 0⟩).grad.x))) := by
  rw [query_demo_origin Real.sqrt]
  rintro ⟨h | h, -⟩ <;> exact h rfl

/-! ### The gradient as a direction of ascent -/

theorem bilinear_increment (v00 v10 v01 v11 al be a b : K) :
    ((1 - (al + a)) * (1 - (be + b)) * v00 + (al + a) * (1 - (be + b)) * v10 +
        (1 - (al + a)) * (be + b) * v01 + (al + a) * (be + b) * v11) -
      ((1 - al) * (1 - be) * v00 + al * (1 - be) * v10 + (1 - al) * be * v01 +
        al * be * v11) =
      a * ((1 - be) * (v10 - v00) + be * (v11 - v01)) +
        b * ((1 - al) * (v01 - v00) + al * (v11 - v10)) +
        a * b * (v00 - v10 - v01 + v11) := by
  ring

theorem passesRangeCheck_of_inRange (m : RcEsdfMap K) (p : Vec2 K)
    (h : (query m p).inRange = true) : passesRangeCheck m p := by
  intro hc
  rw [query_of_out m p hc] at h
  exact Bool.noConfusion h

/-- A point whose shifted grid coordinates stay in the interpolation cell of an
in-range point passes the range check. -/
theorem passesRangeCheck_of_same_cell (m : RcEsdfMap K) (p q : Vec2 K)
    (h : passesRangeCheck m p) (hu : ⌊gridU m q⌋ = ⌊gridU m p⌋)
    (hv : ⌊gridV m q⌋ = ⌊gridV m p⌋) : passesRangeCheck m q := by
  obtain ⟨⟨hx0, hx1⟩, ⟨hy0, hy1⟩⟩ := cells_in_grid m p h
  have hx2 : ⌊gridU m p⌋ + 2 ≤ m.grid_size_x_ := by omega
  have hy2 : ⌊gridV m p⌋ + 2 ≤ m.grid_size_y_ := by omega
  have hx1K : ((⌊gridU m p⌋ : K)) + 2 ≤ (m.grid_size_x_ : K) := by exact_mod_cast hx2
  have hy1K : ((⌊gridV m p⌋ : K)) + 2 ≤ (m.grid_size_y_ : K) := by exact_mod_cast hy2
  have hx0K : (0 : K) ≤ (⌊gridU m p⌋ : K) := by exact_mod_cast hx0
  have hy0K : (0 : K) ≤ (⌊gridV m p⌋ : K) := by exact_mod_cast hy0
  have a1 : (⌊gridU m q⌋ : K) ≤ gridU m q := Int.floor_le _
  have a2 : gridU m q < (⌊gridU m q⌋ : K) + 1 := Int.lt_floor_add_one _
  have b1 : (⌊gridV m q⌋ : K) ≤ gridV m q := Int.floor_le _
  have b2 : gridV m q < (⌊gridV m q⌋ : K) + 1 := Int.lt_floor_add_one _
  rw [hu] at a1 a2
  rw [hv] at b1 b2
  unfold passesRangeCheck
  simp only [not_or, not_lt, ge_iff_le, not_le]
  refine ⟨by linarith, by linarith, by linarith, by linarith⟩

/-- A step `a` in grid units with `|a| <= e` keeps the coordinate `u` in its unit cell
`[floor u, floor u + 1)` when `e` is below the margin: `1` for `u` on the lower end
of the cell and a step that does not go down, the distance to the nearer end
otherwise. -/
theorem floor_add_step (u a e : K) (ha : |a| ≤ e)
    (hzero : u = ⌊u⌋ → 0 ≤ a)
    (he : e < if u = ⌊u⌋ then 1 else min (u - ⌊u⌋) (1 - (u - ⌊u⌋))) :
    ⌊u + a⌋ = ⌊u⌋ := by
  have h1 : (⌊u⌋ : K) ≤ u := Int.floor_le u
  have h2 : u < (⌊u⌋ : K) + 1 := Int.lt_floor_add_one u
  obtain ⟨ha1, ha2⟩ := abs_le.mp ha
  rw [Int.floor_eq_iff]
  by_cases hu : u = ⌊u⌋
  · rw [if_pos hu] at he
    have := hzero hu
    constructor <;> linarith
  · rw [if_neg hu] at he
    have he1 := lt_of_lt_of_le he (min_le_left _ _)
    have he2 := lt_of_lt_of_le he (min_le_right _ _)
    constructor <;> linarith

theorem cell_margin_pos (u : K) :
    0 < (if u = ⌊u⌋ then (1 : K) else min (u - ⌊u⌋) (1 - (u - ⌊u⌋))) := by
  have h1 : (⌊u⌋ : K) ≤ u := Int.floor_le u
  have h2 : u < (⌊u⌋ : K) + 1 := Int.lt_floor_add_one u
  split_ifs with hu
  · exact one_pos
  · have : (⌊u⌋ : K) < u := lt_of_le_of_ne h1 (Ne.symm hu)
    exact lt_min (by linarith) (by linarith)

theorem gridU_stepAlong (m : RcEsdfMap ℝ) (p g : Vec2 ℝ) (eps : ℝ) :
    gridU m (stepAlong Real.sqrt p g eps) =
      gridU m p + eps * (g.x / Real.sqrt g.squaredNorm) / m.resolution_ := by
  simp only [gridU, stepAlong]
  ring

theorem gridV_stepAlong (m : RcEsdfMap ℝ) (p g : Vec2 ℝ) (eps : ℝ) :
    gridV m (stepAlong Real.sqrt p g eps) =
      gridV m p + eps * (g.y / Real.sqrt g.squaredNorm) / m.resolution_ := by
  simp only [gridV, stepAlong]
  ring

/-- The algebra of one small step: the first-order gain `eps * n` dominates the
second-order term `a * b * C`. -/
theorem step_gain_pos (r n gx gy C eps : ℝ) (hr : 0 < r) (hn : 0 < n)
    (hn2 : n * n = gx * gx + gy * gy) (heps : 0 < eps)
    (hsmall : eps < n * r ^ 2 / (|C| + 1)) :
    0 < eps * (gx / n) / r * (r * gx) + eps * (gy / n) / r * (r * gy) +
      eps * (gx / n) / r * (eps * (gy / n) / r) * C := by
  have hC : 0 < |C| + 1 := by positivity
  have hn0 : n ≠ 0 := ne_of_gt hn
  have hr0 : r ≠ 0 := ne_of_gt hr
  have h1 : eps * (gx / n) / r * (r * gx) + eps * (gy / n) / r * (r * gy) = eps * n := by
    field_simp
    linear_combination (-(eps * r)) * hn2
  have hdx : |gx / n| ≤ 1 := by
    rw [abs_div, abs_of_pos hn, div_le_one hn]
    apply abs_le_of_sq_le_sq _ (le_of_lt hn)
    nlinarith [mul_self_nonneg gy]
  have hdy : |gy / n| ≤ 1 := by
    rw [abs_div, abs_of_pos hn, div_le_one hn]
    apply abs_le_of_sq_le_sq _ (le_of_lt hn)
    nlinarith [mul_self_nonneg gx]
  have hprod : |gx / n * (gy / n)| ≤ 1 := by
    rw [abs_mul]
    calc |gx / n| * |gy / n| ≤ 1 * 1 :=
          mul_le_mul hdx hdy (abs_nonneg _) zero_le_one
      _ = 1 := one_mul 1
  have h2 : eps * (gx / n) / r * (eps * (gy / n) / r) * C =
      (eps / r) ^ 2 * ((gx / n * (gy / n)) * C) := by
    field_simp
    ring
  have h3 : |(gx / n * (gy / n)) * C| ≤ |C| := by
    rw [abs_mul]
    calc |gx / n * (gy / n)| * |C| ≤ 1 * |C| :=
          mul_le_mul_of_nonneg_right hprod (abs_nonneg C)
      _ = |C| := one_mul _
  have h4 : -|C| ≤ (gx / n * (gy / n)) * C := (abs_le.mp h3).1
  have hsq : 0 ≤ (eps / r) ^ 2 := sq_nonneg _
  have h5 : (eps / r) ^ 2 * (|C| + 1) < eps * n := by
    have e1 : eps * (|C| + 1) < n * r ^ 2 := by
      rwa [lt_div_iff₀ hC] at hsmall
    have e2 : (eps / r) ^ 2 * (|C| + 1) = eps * (eps * (|C| + 1)) / r ^ 2 := by
      field_simp
      ring
    rw [e2, div_lt_iff₀ (by positivity)]
    nlinarith
  rw [h1, h2]
  nlinarith

/-- Claim C5, as amended.  On a grid with a positive resolution, at an in-range point
`p` with non-zero gradient `g` that does not point down across a cell-centre line on
which `p` lies (`g.x >= 0` when `u` is an integer, `g.y >= 0` when `v` is an integer),
there is `eps0 > 0` such that for every `0 < eps < eps0` the point `p + eps * g/|g|`
is in range and has a strictly larger interpolated distance. -/
theorem gradient_ascent (m : RcEsdfMap ℝ) (p : Vec2 ℝ) (hr : 0 < m.resolution_)
    (hin : (query m p).inRange = true)
    (hg : (query m p).grad.x ≠ 0 ∨ (query m p).grad.y ≠ 0)
    (hx : gridU m p = ⌊gridU m p⌋ → 0 ≤ (query m p).grad.x)
    (hy : gridV m p = ⌊gridV m p⌋ → 0 ≤ (query m p).grad.y) :
    ∃ eps0 : ℝ, 0 < eps0 ∧ ∀ eps : ℝ, 0 < eps → eps < eps0 →
      (query m (stepAlong Real.sqrt p (query m p).grad eps)).inRange = true ∧
        (query m p).dist < (query m (stepAlong Real.sqrt p (query m p).grad eps)).dist := by
  have hpass := passesRangeCheck_of_inRange m p hin
  have hr0 : m.resolution_ ≠ 0 := ne_of_gt hr
  -- the norm of the gradient
  have hsq : 0 ≤ (query m p).grad.squaredNorm := by
    unfold Vec2.squaredNorm
    nlinarith [mul_self_nonneg (query m p).grad.x, mul_self_nonneg (query m p).grad.y]
  have hsqpos : 0 < (query m p).grad.squaredNorm := by
    unfold Vec2.squaredNorm
    rcases hg with h | h
    · nlinarith [mul_self_pos.mpr h, mul_self_nonneg (query m p).grad.y]
    · nlinarith [mul_self_pos.mpr h, mul_self_nonneg (query m p).grad.x]
  have hn : 0 < Real.sqrt (query m p).grad.squaredNorm := Real.sqrt_pos.mpr hsqpos
  have hn2 : Real.sqrt (query m p).grad.squaredNorm * Real.sqrt (query m p).grad.squaredNorm =
      (query m p).grad.x * (query m p).grad.x + (query m p).grad.y * (query m p).grad.y :=
    Real.mul_self_sqrt hsq
  -- the explicit form of the query at p
  have hq := query_of_in m p hpass
  have hgx : (query m p).grad.x * m.resolution_ =
      (1 - (gridV m p - ⌊gridV m p⌋)) *
          (getRaw m (⌊gridU m p⌋ + 1) ⌊gridV m p⌋ - getRaw m ⌊gridU m p⌋ ⌊gridV m p⌋) +
        (gridV m p - ⌊gridV m p⌋) *
          (getRaw m (⌊gridU m p⌋ + 1) (⌊gridV m p⌋ + 1) -
            getRaw m ⌊gridU m p⌋ (⌊gridV m p⌋ + 1)) := by
    rw [hq]; simp only; field_simp
  have hgy : (query m p).grad.y * m.resolution_ =
      (1 - (gridU m p - ⌊gridU m p⌋)) *
          (getRaw m ⌊gridU m p⌋ (⌊gridV m p⌋ + 1) - getRaw m ⌊gridU m p⌋ ⌊gridV m p⌋) +
        (gridU m p - ⌊gridU m p⌋) *
          (getRaw m (⌊gridU m p⌋ + 1) (⌊gridV m p⌋ + 1) -
            getRaw m (⌊gridU m p⌋ + 1) ⌊gridV m p⌋) := by
    rw [hq]; simp only; field_simp
  have hd : (query m p).dist =
      (1 - (gridU m p - ⌊gridU m p⌋)) * (1 - (gridV m p - ⌊gridV m p⌋)) *
          getRaw m ⌊gridU m p⌋ ⌊gridV m p⌋ +
        (gridU m p - ⌊gridU m p⌋) * (1 - (gridV m p - ⌊gridV m p⌋)) *
          getRaw m (⌊gridU m p⌋ + 1) ⌊gridV m p⌋ +
        (1 - (gridU m p - ⌊gridU m p⌋)) * (gridV m p - ⌊gridV m p⌋) *
          getRaw m ⌊gridU m p⌋ (⌊gridV m p⌋ + 1) +
        (gridU m p - ⌊gridU m p⌋) * (gridV m p - ⌊gridV m p⌋) *
          getRaw m (⌊gridU m p⌋ + 1) (⌊gridV m p⌋ + 1) := by
    rw [hq]
  -- abbreviations
  generalize hGX : (query m p).grad.x = gx at *
  generalize hGY : (query m p).grad.y = gy at *
  generalize hN : Real.sqrt (query m p).grad.squaredNorm = n at *
  generalize hD : (query m p).dist = D at *
  generalize hV00 : getRaw m ⌊gridU m p⌋ ⌊gridV m p⌋ = v00 at *
  generalize hV10 : getRaw m (⌊gridU m p⌋ + 1) ⌊gridV m p⌋ = v10 at *
  generalize hV01 : getRaw m ⌊gridU m p⌋ (⌊gridV m p⌋ + 1) = v01 at *
  generalize hV11 : getRaw m (⌊gridU m p⌋ + 1) (⌊gridV m p⌋ + 1) = v11 at *
  have hdx : |gx / n| ≤ 1 := by
    rw [abs_div, abs_of_pos hn, div_le_one hn]
    apply abs_le_of_sq_le_sq _ (le_of_lt hn)
    nlinarith [mul_self_nonneg gy]
  have hdy : |gy / n| ≤ 1 := by
    rw [abs_div, abs_of_pos hn, div_le_one hn]
    apply abs_le_of_sq_le_sq _ (le_of_lt hn)
    nlinarith [mul_self_nonneg gx]
  have hmx := cell_margin_pos (gridU m p)
  have hmy := cell_margin_pos (gridV m p)
  have hC : 0 < |v00 - v10 - v01 + v11| + 1 := by positivity
  refine ⟨min (m.resolution_ *
        (if gridU m p = ⌊gridU m p⌋ then (1 : ℝ)
          else min (gridU m p - ⌊gridU m p⌋) (1 - (gridU m p - ⌊gridU m p⌋))))
      (min (m.resolution_ *
          (if gridV m p = ⌊gridV m p⌋ then (1 : ℝ)
            else min (gridV m p - ⌊gridV m p⌋) (1 - (gridV m p - ⌊gridV m p⌋))))
        (n * m.resolution_ ^ 2 / (|v00 - v10 - v01 + v11| + 1))),
    lt_min (mul_pos hr hmx) (lt_min (mul_pos hr hmy) (by positivity)), ?_⟩
  intro eps heps hlt
  have hlt1 := lt_of_lt_of_le hlt (min_le_left _ _)
  have hlt2 := lt_of_lt_of_le hlt (le_trans (min_le_right _ _) (min_le_left _ _))
  have hlt3 := lt_of_lt_of_le hlt (le_trans (min_le_right _ _) (min_le_right _ _))
  have hepsr : 0 ≤ eps / m.resolution_ := le_of_lt (div_pos heps hr)
  -- the step in grid units
  have ha : |eps * (gx / n) / m.resolution_| ≤ eps / m.resolution_ := by
    rw [mul_div_right_comm, abs_mul, abs_of_nonneg hepsr]
    calc eps / m.resolution_ * |gx / n| ≤ eps / m.resolution_ * 1 :=
          mul_le_mul_of_nonneg_left hdx hepsr
      _ = eps / m.resolution_ := mul_one _
  have hb : |eps * (gy / n) / m.resolution_| ≤ eps / m.resolution_ := by
    rw [mul_div_right_comm, abs_mul, abs_of_nonneg hepsr]
    calc eps / m.resolution_ * |gy / n| ≤ eps / m.resolution_ * 1 :=
          mul_le_mul_of_nonneg_left hdy hepsr
      _ = eps / m.resolution_ := mul_one _
  have hux : gridU m p = ⌊gridU m p⌋ → 0 ≤ eps * (gx / n) / m.resolution_ := by
    intro h
    have := hx h
    positivity
  have hvy : gridV m p = ⌊gridV m p⌋ → 0 ≤ eps * (gy / n) / m.resolution_ := by
    intro h
    have := hy h
    positivity
  have hfu : ⌊gridU m p + eps * (gx / n) / m.resolution_⌋ = ⌊gridU m p⌋ :=
    floor_add_step _ _ _ ha hux (by rw [div_lt_iff₀ hr, mul_comm]; exact hlt1)
  have hfv : ⌊gridV m p + eps * (gy / n) / m.resolution_⌋ = ⌊gridV m p⌋ :=
    floor_add_step _ _ _ hb hvy (by rw [div_lt_iff₀ hr, mul_comm]; exact hlt2)
  have hGU : gridU m (stepAlong Real.sqrt p (query m p).grad eps) =
      gridU m p + eps * (gx / n) / m.resolution_ := by
    rw [gridU_stepAlong m p _ eps, hGX, hN]
  have hGV : gridV m (stepAlong Real.sqrt p (query m p).grad eps) =
      gridV m p + eps * (gy / n) / m.resolution_ := by
    rw [gridV_stepAlong m p _ eps, hGY, hN]
  have hpassq : passesRangeCheck m (stepAlong Real.sqrt p (query m p).grad eps) :=
    passesRangeCheck_of_same_cell m p _ hpass (by rw [hGU]; exact hfu) (by rw [hGV]; exact hfv)
  rw [query_of_in m _ hpassq]
  simp only
  rw [hGU, hGV, hfu, hfv, hV00, hV10, hV01, hV11]
  refine ⟨trivial, ?_⟩
  have hinc := bilinear_increment v00 v10 v01 v11 (gridU m p - ⌊gridU m p⌋)
    (gridV m p - ⌊gridV m p⌋) (eps * (gx / n) / m.resolution_) (eps * (gy / n) / m.resolution_)
  have hgain := step_gain_pos m.resolution_ n gx gy (v00 - v10 - v01 + v11) eps hr hn hn2
    heps hlt3
  rw [mul_comm m.resolution_ gx, hgx, mul_comm m.resolution_ gy, hgy] at hgain
  have e1 : gridU m p + eps * (gx / n) / m.resolution_ - ⌊gridU m p⌋ =
      gridU m p - ⌊gridU m p⌋ + eps * (gx / n) / m.resolution_ := by ring
  have e2 : gridV m p + eps * (gy / n) / m.resolution_ - ⌊gridV m p⌋ =
      gridV m p - ⌊gridV m p⌋ + eps * (gy / n) / m.resolution_ := by ring
  rw [e1, e2, hd]
  linarith

/-! ### The distance from a point to a segment -/

theorem squaredNorm_nonneg (a : Vec2 K) : 0 ≤ a.squaredNorm := by
  unfold Vec2.squaredNorm
  nlinarith [mul_self_nonneg a.x, mul_self_nonneg a.y]

theorem eq_of_squaredNorm_sub_eq_zero (v w : Vec2 K) (h : (v.sub w).squaredNorm = 0) :
    v.x = w.x ∧ v.y = w.y := by
  simp only [Vec2.squaredNorm, Vec2.sub] at h
  have h1 : (v.x - w.x) * (v.x - w.x) = 0 := by
    nlinarith [mul_self_nonneg (v.x - w.x), mul_self_nonneg (v.y - w.y)]
  have h2 : (v.y - w.y) * (v.y - w.y) = 0 := by
    nlinarith [mul_self_nonneg (v.x - w.x), mul_self_nonneg (v.y - w.y)]
  exact ⟨sub_eq_zero.mp (mul_self_eq_zero.mp h1), sub_eq_zero.mp (mul_self_eq_zero.mp h2)⟩

/-- The squared distance from `p` to the point of parameter `t` on the line through
`v` and `w`, as a quadratic in `t` around the projection parameter. -/
theorem squaredNorm_sub_param (p v w : Vec2 K) (t : K) (h : (v.sub w).squaredNorm ≠ 0) :
    (p.sub (v.add (Vec2.scale t (w.sub v)))).squaredNorm =
      (v.sub w).squaredNorm * (t - (p.sub v).dot (w.sub v) / (v.sub w).squaredNorm) ^ 2 +
        ((p.sub v).squaredNorm -
          ((p.sub v).dot (w.sub v)) ^ 2 / (v.sub w).squaredNorm) := by
  simp only [Vec2.squaredNorm, Vec2.sub, Vec2.add, Vec2.scale, Vec2.dot] at h ⊢
  field_simp
  ring

theorem clamp_nearest (tau t : K) (h0 : 0 ≤ t) (h1 : t ≤ 1) :
    (max 0 (min 1 tau) - tau) ^ 2 ≤ (t - tau) ^ 2 := by
  rcases le_total tau 0 with h | h
  · rw [max_eq_left (le_trans (min_le_right _ _) h)]
    nlinarith
  · rcases le_total tau 1 with h' | h'
    · rw [min_eq_right h', max_eq_right h]
      nlinarith [sq_nonneg (t - tau)]
    · rw [min_eq_left h', max_eq_right zero_le_one]
      nlinarith

theorem clamp_mem (tau : K) : 0 ≤ max 0 (min 1 tau) ∧ max 0 (min 1 tau) ≤ 1 :=
  ⟨le_max_left _ _, max_le zero_le_one (min_le_left _ _)⟩

/-- The value of `pointToSegmentDistSq` is at most the squared distance from `p` to
any point of the segment. -/
theorem pointToSegmentDistSq_le (p v w z : Vec2 K) (hz : OnSegment z v w) :
    pointToSegmentDistSq p v w ≤ (p.sub z).squaredNorm := by
  obtain ⟨t, h0, h1, hx, hy⟩ := hz
  have hzp : (p.sub z).squaredNorm = (p.sub (v.add (Vec2.scale t (w.sub v)))).squaredNorm := by
    simp only [Vec2.squaredNorm, Vec2.sub, Vec2.add, Vec2.scale, hx, hy]
  unfold pointToSegmentDistSq
  simp only
  split_ifs with h
  · obtain ⟨e1, e2⟩ := eq_of_squaredNorm_sub_eq_zero v w h
    rw [hzp]
    simp only [Vec2.squaredNorm, Vec2.sub, Vec2.add, Vec2.scale, e1, e2]
    simp
  · rw [hzp, squaredNorm_sub_param p v w _ h, squaredNorm_sub_param p v w t h]
    have hl : 0 ≤ (v.sub w).squaredNorm := squaredNorm_nonneg _
    have := clamp_nearest ((p.sub v).dot (w.sub v) / (v.sub w).squaredNorm) t h0 h1
    nlinarith

/-- The value of `pointToSegmentDistSq` is the squared distance from `p` to some
point of the segment. -/
theorem pointToSegmentDistSq_attained (p v w : Vec2 K) :
    ∃ z : Vec2 K, OnSegment z v w ∧ pointToSegmentDistSq p v w = (p.sub z).squaredNorm := by
  unfold pointToSegmentDistSq
  simp only
  split_ifs with h
  · exact ⟨v, ⟨0, le_refl 0, zero_le_one, by ring, by ring⟩, rfl⟩
  · obtain ⟨c0, c1⟩ := clamp_mem ((p.sub v).dot (w.sub v) / (v.sub w).squaredNorm)
    exact ⟨v.add (Vec2.scale (max 0 (min 1 ((p.sub v).dot (w.sub v) / (v.sub w).squaredNorm)))
      (w.sub v)), ⟨_, c0, c1, rfl, rfl⟩, rfl⟩

/-! ### Segments that cross -/

theorem onSegment_symm (z a b : Vec2 K) (h : OnSegment z a b) : OnSegment z b a := by
  obtain ⟨t, h0, h1, hx, hy⟩ := h
  exact ⟨1 - t, by linarith, by linarith, by rw [hx]; ring, by rw [hy]; ring⟩

theorem segmentsMeet_symm_left (p q a b : Vec2 K) (h : SegmentsMeet p q a b) :
    SegmentsMeet q p a b := by
  obtain ⟨z, h1, h2⟩ := h
  exact ⟨z, onSegment_symm z p q h1, h2⟩

theorem segmentsMeet_symm_right (p q a b : Vec2 K) (h : SegmentsMeet p q a b) :
    SegmentsMeet p q b a := by
  obtain ⟨z, h1, h2⟩ := h
  exact ⟨z, h1, onSegment_symm z a b h2⟩

theorem xAt_left (a b : Vec2 K) : xAt a b a.y = a.x := by
  simp [xAt]

theorem xAt_right (a b : Vec2 K) (h : a.y ≠ b.y) : xAt a b b.y = b.x := by
  have : b.y - a.y ≠ 0 := sub_ne_zero.mpr (Ne.symm h)
  unfold xAt
  field_simp

theorem xAt_symm (a b : Vec2 K) (y : K) (h : a.y ≠ b.y) : xAt a b y = xAt b a y := by
  have h1 : b.y - a.y ≠ 0 := sub_ne_zero.mpr (Ne.symm h)
  have h2 : a.y - b.y ≠ 0 := sub_ne_zero.mpr h
  unfold xAt
  field_simp
  ring

theorem onSegment_xAt (a b : Vec2 K) (y : K) (hab : a.y < b.y) (h1 : a.y ≤ y) (h2 : y ≤ b.y) :
    OnSegment ⟨xAt a b y, y⟩ a b := by
  have hd : 0 < b.y - a.y := sub_pos.mpr hab
  refine ⟨(y - a.y) / (b.y - a.y), div_nonneg (by linarith) (le_of_lt hd), ?_, ?_, ?_⟩
  · rw [div_le_one hd]; linarith
  · simp only [xAt]
    field_simp
    ring
  · simp only
    field_simp

theorem xAt_affine (a b : Vec2 K) (y1 y2 l : K) (h : a.y ≠ b.y) :
    xAt a b (y1 + l * (y2 - y1)) = (1 - l) * xAt a b y1 + l * xAt a b y2 := by
  have h1 : b.y - a.y ≠ 0 := sub_ne_zero.mpr (Ne.symm h)
  unfold xAt
  field_simp
  ring

/-- Two segments that are not horizontal and whose lines change sides between two
heights common to both have a common point. -/
theorem segmentsMeet_of_sign_change (a b p q : Vec2 K) (hab : a.y < b.y) (hpq : p.y < q.y)
    (y1 y2 : K) (h12 : y1 ≤ y2) (ha : a.y ≤ y1) (hb : y2 ≤ b.y) (hp : p.y ≤ y1) (hq : y2 ≤ q.y)
    (hs : ¬ ((xAt p q y1 < xAt a b y1) ↔ (xAt p q y2 < xAt a b y2))) :
    SegmentsMeet p q a b := by
  have key : ∃ l : K, 0 ≤ l ∧ l ≤ 1 ∧
      (1 - l) * (xAt a b y1 - xAt p q y1) + l * (xAt a b y2 - xAt p q y2) = 0 := by
    by_cases h1 : xAt p q y1 < xAt a b y1
    · have h2 : ¬ xAt p q y2 < xAt a b y2 := fun h2 => hs ⟨fun _ => h2, fun _ => h1⟩
      have hd : 0 < (xAt a b y1 - xAt p q y1) - (xAt a b y2 - xAt p q y2) := by
        have := not_lt.mp h2
        linarith
      refine ⟨(xAt a b y1 - xAt p q y1) /
        ((xAt a b y1 - xAt p q y1) - (xAt a b y2 - xAt p q y2)),
        div_nonneg (by linarith) (le_of_lt hd), ?_, ?_⟩
      · rw [div_le_one hd]
        have := not_lt.mp h2
        linarith
      · field_simp
        ring
    · have h2 : xAt p q y2 < xAt a b y2 := by
        by_contra h2
        exact hs ⟨fun h => absurd h h1, fun h => absurd h h2⟩
      have hd : 0 < (xAt a b y2 - xAt p q y2) - (xAt a b y1 - xAt p q y1) := by
        have := not_lt.mp h1
        linarith
      refine ⟨(-(xAt a b y1 - xAt p q y1)) /
        ((xAt a b y2 - xAt p q y2) - (xAt a b y1 - xAt p q y1)),
        div_nonneg (by have := not_lt.mp h1; linarith) (le_of_lt hd), ?_, ?_⟩
      · rw [div_le_one hd]
        linarith
      · field_simp
        ring
  obtain ⟨l, l0, l1, hl⟩ := key
  have hy1 : y1 ≤ y1 + l * (y2 - y1) := by nlinarith
  have hy2 : y1 + l * (y2 - y1) ≤ y2 := by nlinarith
  have hx : xAt a b (y1 + l * (y2 - y1)) = xAt p q (y1 + l * (y2 - y1)) := by
    rw [xAt_affine a b y1 y2 l (ne_of_lt hab), xAt_affine p q y1 y2 l (ne_of_lt hpq)]
    linarith
  refine ⟨⟨xAt a b (y1 + l * (y2 - y1)), y1 + l * (y2 - y1)⟩, ?_, ?_⟩
  · rw [hx]
    exact onSegment_xAt p q _ hpq (by linarith) (by linarith)
  · exact onSegment_xAt a b _ hab (by linarith) (by linarith)

/-- A horizontal segment at a height of the band of `[p, q]` whose ends lie on different
sides of the line through `p` and `q` meets `[p, q]`. -/
theorem segmentsMeet_of_horizontal (a b p q : Vec2 K) (hpq : p.y < q.y) (hab : a.y = b.y)
    (h1 : p.y ≤ a.y) (h2 : a.y ≤ q.y)
    (hs : ¬ ((xAt p q a.y < a.x) ↔ (xAt p q b.y < b.x))) : SegmentsMeet p q a b := by
  rw [← hab] at hs
  have hz : OnSegment ⟨xAt p q a.y, a.y⟩ p q := onSegment_xAt p q a.y hpq h1 h2
  refine ⟨⟨xAt p q a.y, a.y⟩, hz, ?_⟩
  by_cases ha : xAt p q a.y < a.x
  · have hb : b.x ≤ xAt p q a.y := by
      by_contra hb
      exact hs ⟨fun _ => not_le.mp hb, fun _ => ha⟩
    have hd : 0 < a.x - b.x := by linarith
    refine ⟨(a.x - xAt p q a.y) / (a.x - b.x), div_nonneg (by linarith) (le_of_lt hd), ?_, ?_, ?_⟩
    · rw [div_le_one hd]; linarith
    · simp only
      field_simp
      ring
    · simp only
      rw [← hab]
      ring
  · have hb : xAt p q a.y < b.x := by
      by_contra hb
      exact hs ⟨fun h => absurd h ha, fun h => absurd h hb⟩
    have ha' := not_lt.mp ha
    have hd : 0 < b.x - a.x := by linarith
    refine ⟨(xAt p q a.y - a.x) / (b.x - a.x), div_nonneg (by linarith) (le_of_lt hd), ?_, ?_, ?_⟩
    · rw [div_le_one hd]; linarith
    · simp only
      field_simp
    · simp only
      rw [← hab]
      ring

/-! ### One edge against the two rays -/

theorem crossesRay_symm (p a b : Vec2 K) : crossesRay p a b = crossesRay p b a := by
  unfold crossesRay
  by_cases h : a.y = b.y
  · have e : decide (a.y > p.y) = decide (b.y > p.y) := by rw [h]
    simp [e]
  · rw [xAt_symm a b p.y h]
    cases decide (a.y > p.y) <;> cases decide (b.y > p.y) <;> rfl

/-- The rays from `p` and from `q` (with `p` below `q`) and an edge from `a` up to `b`
that does not meet the segment `[p, q]`: the edge crosses one ray and not the other
exactly when one of its ends, and not the other, is to the right of `[p, q]`. -/
theorem crossesRay_xor_of_lt (p q a b : Vec2 K) (hpq : p.y < q.y) (hab : a.y < b.y)
    (hno : ¬ SegmentsMeet p q a b) :
    xor (crossesRay p a b) (crossesRay q a b) =
      xor (rightOfSegment p q a) (rightOfSegment p q b) := by
  have core := fun y1 y2 h12 ha hb hp hq =>
    not_not.mp (mt (segmentsMeet_of_sign_change a b p q hab hpq y1 y2 h12 ha hb hp hq) hno)
  have xp : xAt p q p.y = p.x := xAt_left p q
  have xq : xAt p q q.y = q.x := xAt_right p q (ne_of_lt hpq)
  have xa : xAt a b a.y = a.x := xAt_left a b
  have xb : xAt a b b.y = b.x := xAt_right a b (ne_of_lt hab)
  unfold crossesRay rightOfSegment
  rcases le_or_lt b.y p.y with hb1 | hb1
  · -- both ends at or below p
    have e1 : ¬ a.y > p.y := not_lt.mpr (by linarith)
    have e2 : ¬ b.y > p.y := not_lt.mpr hb1
    have e3 : ¬ a.y > q.y := not_lt.mpr (by linarith)
    have e4 : ¬ b.y > q.y := not_lt.mpr (by linarith)
    simp [e1, e2, e3, e4]
  · rcases lt_or_le q.y a.y with ha1 | ha1
    · -- both ends above q
      have e1 : a.y > p.y := by linarith
      have e2 : b.y > p.y := hb1
      have e3 : a.y > q.y := ha1
      have e4 : b.y > q.y := by linarith
      simp [e1, e2, e3, e4]
    · rcases le_or_lt a.y p.y with ha2 | ha2
      · rcases le_or_lt b.y q.y with hb2 | hb2
        · -- a low, b mid
          have e1 : ¬ a.y > p.y := not_lt.mpr ha2
          have e2 : b.y > p.y := hb1
          have e3 : ¬ a.y > q.y := not_lt.mpr ha1
          have e4 : ¬ b.y > q.y := not_lt.mpr hb2
          have := core p.y b.y (le_of_lt hb1) ha2 (le_refl _) (le_refl _) hb2
          rw [xp, xb] at this
          simp [e1, e2, e3, e4, this]
        · -- a low, b high
          have e1 : ¬ a.y > p.y := not_lt.mpr ha2
          have e2 : b.y > p.y := hb1
          have e3 : ¬ a.y > q.y := not_lt.mpr ha1
          have e4 : b.y > q.y := hb2
          have := core p.y q.y (le_of_lt hpq) ha2 (le_of_lt hb2) (le_refl _) (le_refl _)
          rw [xp, xq] at this
          simp [e1, e2, e3, e4, this]
      · rcases le_or_lt b.y q.y with hb2 | hb2
        · -- a mid, b mid
          have e1 : a.y > p.y := ha2
          have e2 : b.y > p.y := hb1
          have e3 : ¬ a.y > q.y := not_lt.mpr ha1
          have e4 : ¬ b.y > q.y := not_lt.mpr hb2
          have := core a.y b.y (le_of_lt hab) (le_refl _) (le_refl _) (le_of_lt ha2) hb2
          rw [xa, xb] at this
          simp [e1, e2, e3, e4, this]
        · -- a mid, b high
          have e1 : a.y > p.y := ha2
          have e2 : b.y > p.y := hb1
          have e3 : ¬ a.y > q.y := not_lt.mpr ha1
          have e4 : b.y > q.y := hb2
          have := core a.y q.y ha1 (le_refl _) (le_of_lt hb2) (le_of_lt ha2) (le_refl _)
          rw [xa, xq] at this
          simp [e1, e2, e3, e4, this]

theorem crossesRay_xor_of_eq (p q a b : Vec2 K) (hpq : p.y < q.y) (hab : a.y = b.y)
    (hno : ¬ SegmentsMeet p q a b) :
    xor (crossesRay p a b) (crossesRay q a b) =
      xor (rightOfSegment p q a) (rightOfSegment p q b) := by
  unfold crossesRay rightOfSegment
  have e1 : decide (a.y > p.y) = decide (b.y > p.y) := by rw [hab]
  have e2 : decide (a.y > q.y) = decide (b.y > q.y) := by rw [hab]
  by_cases hband : p.y < a.y ∧ a.y ≤ q.y
  · have h := not_not.mp
      (mt (segmentsMeet_of_horizontal a b p q hpq hab (le_of_lt hband.1) hband.2) hno)
    have e3 : decide (xAt p q a.y < a.x) = decide (xAt p q b.y < b.x) := by
      rw [decide_eq_decide]; exact h
    rw [e1, e2, e3, ← hab]
    simp
  · have e3 : (decide (a.y > p.y) != decide (a.y > q.y)) = false := by
      by_cases h1 : a.y > p.y
      · have h2 : a.y > q.y := by
          by_contra h2
          exact hband ⟨h1, not_lt.mp h2⟩
        simp [h1, h2]
      · have h2 : ¬ a.y > q.y := fun h2 => h1 (lt_trans hpq h2)
        simp [h1, h2]
    have e4 : (decide (b.y > p.y) != decide (b.y > q.y)) = false := by
      rw [← e1, ← e2]; exact e3
    rw [e1, e2, e4]
    simp

/-- The per-edge parity identity for a segment `[p, q]` that goes upward. -/
theorem crossesRay_xor (p q a b : Vec2 K) (hpq : p.y < q.y) (hno : ¬ SegmentsMeet p q a b) :
    xor (crossesRay p a b) (crossesRay q a b) =
      xor (rightOfSegment p q a) (rightOfSegment p q b) := by
  rcases lt_trichotomy a.y b.y with h | h | h
  · exact crossesRay_xor_of_lt p q a b hpq h hno
  · exact crossesRay_xor_of_eq p q a b hpq h hno
  · have hno2 : ¬ SegmentsMeet p q b a := fun hm => hno (segmentsMeet_symm_right p q b a hm)
    rw [crossesRay_symm p a b, crossesRay_symm q a b, crossesRay_xor_of_lt p q b a hpq h hno2,
      Bool.xor_comm]

theorem onSegment_level (p q : Vec2 K) (X : K) (hpq : p.y = q.y)
    (hX : (p.x ≤ X ∧ X ≤ q.x) ∨ (q.x ≤ X ∧ X ≤ p.x)) : OnSegment ⟨X, p.y⟩ p q := by
  by_cases hx : p.x = q.x
  · refine ⟨0, le_refl 0, zero_le_one, ?_, by simp⟩
    simp only
    rcases hX with ⟨h1, h2⟩ | ⟨h1, h2⟩ <;> linarith
  · rcases hX with ⟨h1, h2⟩ | ⟨h1, h2⟩
    · have hd : 0 < q.x - p.x := by
        rcases lt_or_gt_of_ne hx with h | h
        · linarith
        · linarith
      refine ⟨(X - p.x) / (q.x - p.x), div_nonneg (by linarith) (le_of_lt hd), ?_, ?_, ?_⟩
      · rw [div_le_one hd]; linarith
      · simp only
        field_simp
      · simp only
        rw [hpq]; ring
    · have hd : 0 < p.x - q.x := by
        rcases lt_or_gt_of_ne hx with h | h
        · linarith
        · linarith
      refine ⟨(p.x - X) / (p.x - q.x), div_nonneg (by linarith) (le_of_lt hd), ?_, ?_, ?_⟩
      · rw [div_le_one hd]; linarith
      · simp only
        field_simp
        ring
      · simp only
        rw [hpq]; ring

theorem onSegment_xAt_of_between (a b : Vec2 K) (y : K)
    (h : (a.y ≤ y ∧ y < b.y) ∨ (b.y ≤ y ∧ y < a.y)) : OnSegment ⟨xAt a b y, y⟩ a b := by
  rcases h with ⟨h1, h2⟩ | ⟨h1, h2⟩
  · exact onSegment_xAt a b y (lt_of_le_of_lt h1 h2) h1 (le_of_lt h2)
  · have hba : b.y < a.y := lt_of_le_of_lt h1 h2
    rw [xAt_symm a b y (ne_of_gt hba)]
    exact onSegment_symm _ b a (onSegment_xAt b a y hba h1 (le_of_lt h2))

/-- For a horizontal segment `[p, q]` that meets no point of the edge, the rays from
`p` and from `q` cross the edge alike. -/
theorem crossesRay_eq_of_level (p q a b : Vec2 K) (hpq : p.y = q.y)
    (hno : ¬ SegmentsMeet p q a b) : crossesRay p a b = crossesRay q a b := by
  unfold crossesRay
  rw [← hpq]
  by_cases hs : (decide (a.y > p.y) != decide (b.y > p.y)) = true
  · have hbetween : (a.y ≤ p.y ∧ p.y < b.y) ∨ (b.y ≤ p.y ∧ p.y < a.y) := by
      by_cases h1 : a.y > p.y
      · by_cases h2 : b.y > p.y
        · simp [h1, h2] at hs
        · exact Or.inr ⟨not_lt.mp h2, h1⟩
      · by_cases h2 : b.y > p.y
        · exact Or.inl ⟨not_lt.mp h1, h2⟩
        · simp [h1, h2] at hs
    have hz := onSegment_xAt_of_between a b p.y hbetween
    have hiff : (p.x < xAt a b p.y) ↔ (q.x < xAt a b p.y) := by
      constructor
      · intro h
        by_contra h2
        exact hno ⟨_, onSegment_level p q _ hpq (Or.inl ⟨le_of_lt h, not_lt.mp h2⟩), hz⟩
      · intro h
        by_contra h2
        exact hno ⟨_, onSegment_level p q _ hpq (Or.inr ⟨le_of_lt h, not_lt.mp h2⟩), hz⟩
    rw [decide_eq_decide.mpr hiff]
  · rw [Bool.not_eq_true] at hs
    rw [hs]
    simp

/-! ### The parity of crossings around the polygon -/

theorem xorUpTo_succ (f : Nat → Bool) (k : Nat) :
    xorUpTo f (k + 1) = xor (xorUpTo f k) (f k) := by
  unfold xorUpTo
  rw [List.range_succ, List.foldl_append]
  rfl

theorem xorUpTo_congr (f g : Nat → Bool) (k : Nat) (h : ∀ i, i < k → f i = g i) :
    xorUpTo f k = xorUpTo g k := by
  induction k with
  | zero => rfl
  | succ k ih =>
    rw [xorUpTo_succ, xorUpTo_succ, ih (fun i hi => h i (Nat.lt_succ_of_lt hi)),
      h k (Nat.lt_succ_self k)]

theorem xorUpTo_xor (f g : Nat → Bool) (k : Nat) :
    xorUpTo (fun i => xor (f i) (g i)) k = xor (xorUpTo f k) (xorUpTo g k) := by
  induction k with
  | zero => rfl
  | succ k ih =>
    rw [xorUpTo_succ, xorUpTo_succ, xorUpTo_succ, ih]
    cases xorUpTo f k <;> cases xorUpTo g k <;> cases f k <;> cases g k <;> rfl

theorem xorUpTo_succ_front (f : Nat → Bool) (k : Nat) :
    xorUpTo f (k + 1) = xor (f 0) (xorUpTo (fun i => f (i + 1)) k) := by
  induction k with
  | zero =>
    rw [xorUpTo_succ f 0]
    simp [xorUpTo]
  | succ k ih =>
    rw [xorUpTo_succ, ih, xorUpTo_succ (fun i => f (i + 1)) k, Bool.xor_assoc]

theorem xorUpTo_prevIndex (f : Nat → Bool) (n : Nat) :
    xorUpTo (fun i => f (prevIndex n i)) n = xorUpTo f n := by
  cases n with
  | zero => rfl
  | succ k =>
    rw [xorUpTo_succ_front, xorUpTo_succ, Bool.xor_comm]
    have : (fun i => f (prevIndex (k + 1) (i + 1))) = f := by
      funext i
      simp [prevIndex]
    rw [this]
    simp [prevIndex]

theorem foldl_crossingStep (p : Vec2 K) (poly : List (Vec2 K)) (k : Nat) :
    (List.range k).foldl (crossingStep p poly) (false, poly.length - 1) =
      (xorUpTo (fun i => crossesRay p (poly.getD i ⟨0, 0⟩)
        (poly.getD (prevIndex poly.length i) ⟨0, 0⟩)) k, prevIndex poly.length k) := by
  induction k with
  | zero => rfl
  | succ k ih =>
    rw [List.range_succ, List.foldl_append, ih, xorUpTo_succ]
    simp only [List.foldl_cons, List.foldl_nil]
    unfold crossingStep crossesRay xAt
    simp only
    split_ifs with h
    · rw [h]
      simp [prevIndex]
    · rw [Bool.not_eq_true] at h
      rw [h]
      simp [prevIndex]

theorem isPointInPolygon_eq_xorUpTo (p : Vec2 K) (poly : List (Vec2 K)) :
    isPointInPolygon p poly =
      xorUpTo (fun i => crossesRay p (poly.getD i ⟨0, 0⟩)
        (poly.getD (prevIndex poly.length i) ⟨0, 0⟩)) poly.length := by
  unfold isPointInPolygon
  rw [foldl_crossingStep]

theorem prevIndex_succ_mod (n i : Nat) (hi : i < n) : (prevIndex n i + 1) % n = i := by
  unfold prevIndex
  split_ifs with h
  · subst h
    have : n - 1 + 1 = n := by omega
    rw [this, Nat.mod_self]
  · have : i - 1 + 1 = i := by omega
    rw [this, Nat.mod_eq_of_lt hi]

theorem prevIndex_lt (n i : Nat) (hi : i < n) : prevIndex n i < n := by
  unfold prevIndex
  split_ifs <;> omega

/-- Two points that `isPointInPolygon` classifies alike whenever the segment between
them, going upward or level, meets no edge of the polygon. -/
theorem isPointInPolygon_eq_of_le (p q : Vec2 K) (poly : List (Vec2 K)) (hpq : p.y ≤ q.y)
    (hno : ∀ i, i < poly.length →
      ¬ SegmentsMeet p q (poly.getD i ⟨0, 0⟩) (poly.getD ((i + 1) % poly.length) ⟨0, 0⟩)) :
    isPointInPolygon p poly = isPointInPolygon q poly := by
  have hedge : ∀ i, i < poly.length →
      ¬ SegmentsMeet p q (poly.getD i ⟨0, 0⟩) (poly.getD (prevIndex poly.length i) ⟨0, 0⟩) := by
    intro i hi hm
    have := hno (prevIndex poly.length i) (prevIndex_lt _ i hi)
    rw [prevIndex_succ_mod _ i hi] at this
    exact this (segmentsMeet_symm_right _ _ _ _ hm)
  rw [isPointInPolygon_eq_xorUpTo, isPointInPolygon_eq_xorUpTo]
  rcases lt_or_eq_of_le hpq with hlt | heq
  · have hx : xorUpTo (fun i => xor
          (crossesRay p (poly.getD i ⟨0, 0⟩) (poly.getD (prevIndex poly.length i) ⟨0, 0⟩))
          (crossesRay q (poly.getD i ⟨0, 0⟩) (poly.getD (prevIndex poly.length i) ⟨0, 0⟩)))
        poly.length = false := by
      rw [xorUpTo_congr _ (fun i => xor (rightOfSegment p q (poly.getD i ⟨0, 0⟩))
        (rightOfSegment p q (poly.getD (prevIndex poly.length i) ⟨0, 0⟩))) poly.length
        (fun i hi => crossesRay_xor p q _ _ hlt (hedge i hi))]
      rw [xorUpTo_xor, xorUpTo_prevIndex (fun i => rightOfSegment p q (poly.getD i ⟨0, 0⟩))]
      simp
    rw [xorUpTo_xor] at hx
    revert hx
    cases xorUpTo (fun i => crossesRay p (poly.getD i ⟨0, 0⟩)
      (poly.getD (prevIndex poly.length i) ⟨0, 0⟩)) poly.length <;>
    cases xorUpTo (fun i => crossesRay q (poly.getD i ⟨0, 0⟩)
      (poly.getD (prevIndex poly.length i) ⟨0, 0⟩)) poly.length <;> simp
  · exact xorUpTo_congr _ _ _ (fun i hi => crossesRay_eq_of_level p q _ _ heq (hedge i hi))

/-- Two points that `isPointInPolygon` classifies differently are separated by the
polygon: the segment between them meets an edge. -/
theorem segmentsMeet_of_isPointInPolygon_ne (p q : Vec2 K) (poly : List (Vec2 K))
    (h : isPointInPolygon p poly ≠ isPointInPolygon q poly) :
    ∃ i, i < poly.length ∧
      SegmentsMeet p q (poly.getD i ⟨0, 0⟩) (poly.getD ((i + 1) % poly.length) ⟨0, 0⟩) := by
  by_contra hno
  push_neg at hno
  rcases le_total p.y q.y with hpq | hpq
  · exact h (isPointInPolygon_eq_of_le p q poly hpq hno)
  · exact h (isPointInPolygon_eq_of_le q p poly hpq
      (fun i hi hm => hno i hi (segmentsMeet_symm_left q p _ _ hm))).symm

/-! ### Euclidean distances -/

theorem norm_nonneg (a : Vec2 ℝ) : 0 ≤ Vec2.norm Real.sqrt a := Real.sqrt_nonneg _

theorem norm_sq (a : Vec2 ℝ) : Vec2.norm Real.sqrt a * Vec2.norm Real.sqrt a = a.squaredNorm :=
  Real.mul_self_sqrt (squaredNorm_nonneg a)

/-- The triangle inequality for the Euclidean norm of `Vec2`. -/
theorem norm_sub_le (a b c : Vec2 ℝ) :
    Vec2.norm Real.sqrt (a.sub c) ≤
      Vec2.norm Real.sqrt (a.sub b) + Vec2.norm Real.sqrt (b.sub c) := by
  have h1 := norm_sq (a.sub b)
  have h2 := norm_sq (b.sub c)
  have n1 := norm_nonneg (a.sub b)
  have n2 := norm_nonneg (b.sub c)
  unfold Vec2.norm at *
  apply Real.sqrt_le_iff.mpr
  refine ⟨add_nonneg n1 n2, ?_⟩
  simp only [Vec2.squaredNorm, Vec2.sub] at h1 h2 n1 n2 ⊢
  generalize Real.sqrt ((a.x - b.x) * (a.x - b.x) + (a.y - b.y) * (a.y - b.y)) = A at *
  generalize Real.sqrt ((b.x - c.x) * (b.x - c.x) + (b.y - c.y) * (b.y - c.y)) = B at *
  have hAB : ((a.x - b.x) * (b.x - c.x) + (a.y - b.y) * (b.y - c.y)) ≤ A * B := by
    have hsq : ((a.x - b.x) * (b.x - c.x) + (a.y - b.y) * (b.y - c.y)) ^ 2 ≤ (A * B) ^ 2 := by
      have e : (A * B) ^ 2 = (A * A) * (B * B) := by ring
      rw [e, h1, h2]
      nlinarith [sq_nonneg ((a.x - b.x) * (b.y - c.y) - (a.y - b.y) * (b.x - c.x))]
    exact le_trans (le_abs_self _) (abs_le_of_sq_le_sq hsq (mul_nonneg n1 n2))
  nlinarith

theorem norm_sub_comm (a b : Vec2 ℝ) :
    Vec2.norm Real.sqrt (a.sub b) = Vec2.norm Real.sqrt (b.sub a) := by
  unfold Vec2.norm
  congr 1
  simp only [Vec2.squaredNorm, Vec2.sub]
  ring

/-- A point of the segment `[p, q]` splits its length. -/
theorem norm_split (p q z : Vec2 ℝ) (hz : OnSegment z p q) :
    Vec2.norm Real.sqrt (p.sub z) + Vec2.norm Real.sqrt (z.sub q) =
      Vec2.norm Real.sqrt (p.sub q) := by
  obtain ⟨t, h0, h1, hx, hy⟩ := hz
  have e1 : (p.sub z).squaredNorm = t ^ 2 * (p.sub q).squaredNorm := by
    simp only [Vec2.squaredNorm, Vec2.sub, hx, hy]
    ring
  have e2 : (z.sub q).squaredNorm = (1 - t) ^ 2 * (p.sub q).squaredNorm := by
    simp only [Vec2.squaredNorm, Vec2.sub, hx, hy]
    ring
  unfold Vec2.norm
  rw [e1, e2, Real.sqrt_mul (sq_nonneg t), Real.sqrt_mul (sq_nonneg (1 - t)),
    Real.sqrt_sq h0, Real.sqrt_sq (by linarith)]
  ring

/-! ### The distance of the construction is 1-Lipschitz -/

/-- The distance assigned to `c` is at most the distance from `c` to any point of any
edge. -/
theorem sqrt_minDistSq_le (c z : Vec2 ℝ) (poly : List (Vec2 ℝ)) (i : Nat)
    (hi : i < poly.length)
    (hz : OnSegment z (poly.getD i ⟨0, 0⟩) (poly.getD ((i + 1) % poly.length) ⟨0, 0⟩)) :
    Real.sqrt (minDistSq c poly) ≤ Vec2.norm Real.sqrt (c.sub z) := by
  unfold Vec2.norm
  apply Real.sqrt_le_sqrt
  exact le_trans (minDistSq_le_edge c poly i hi) (pointToSegmentDistSq_le c _ _ z hz)

/-- The running minimum is either its start `DBL_MAX` or the squared distance to a
point of an edge. -/
theorem minDistSq_cases (c : Vec2 ℝ) (poly : List (Vec2 ℝ)) :
    minDistSq c poly = DBL_MAX ∨
      ∃ i z, i < poly.length ∧
        OnSegment z (poly.getD i ⟨0, 0⟩) (poly.getD ((i + 1) % poly.length) ⟨0, 0⟩) ∧
        minDistSq c poly = (c.sub z).squaredNorm := by
  rcases foldl_min_attained (edgeDistSq c poly) (List.range poly.length) DBL_MAX with
    h | ⟨i, hi, h⟩
  · exact Or.inl h
  · obtain ⟨z, hz, hd⟩ := pointToSegmentDistSq_attained c (poly.getD i ⟨0, 0⟩)
      (poly.getD ((i + 1) % poly.length) ⟨0, 0⟩)
    refine Or.inr ⟨i, z, List.mem_range.mp hi, hz, ?_⟩
    rw [minDistSq_eq_foldl, h]
    exact hd

theorem sqrt_minDistSq_lipschitz (c1 c2 : Vec2 ℝ) (poly : List (Vec2 ℝ)) :
    Real.sqrt (minDistSq c1 poly) ≤
      Real.sqrt (minDistSq c2 poly) + Vec2.norm Real.sqrt (c1.sub c2) := by
  rcases minDistSq_cases c2 poly with h | ⟨i, z, hi, hz, h⟩
  · have h1 : minDistSq c1 poly ≤ DBL_MAX := by
      rw [minDistSq_eq_foldl]
      exact foldl_min_le_init _ _ _
    rw [h]
    have := Real.sqrt_le_sqrt h1
    have := norm_nonneg (c1.sub c2)
    linarith
  · have h1 := sqrt_minDistSq_le c1 z poly i hi hz
    have h2 := norm_sub_le c1 c2 z
    rw [h]
    unfold Vec2.norm at *
    linarith

/-- The signed distances that the construction assigns to two points differ by at most
the distance between the points. -/
theorem signedDist_lipschitz (c1 c2 : Vec2 ℝ) (poly : List (Vec2 ℝ)) :
    |signedDist Real.sqrt c1 poly - signedDist Real.sqrt c2 poly| ≤
      Vec2.norm Real.sqrt (c1.sub c2) := by
  have l1 := sqrt_minDistSq_lipschitz c1 c2 poly
  have l2 := sqrt_minDistSq_lipschitz c2 c1 poly
  rw [norm_sub_comm c2 c1] at l2
  have n1 := Real.sqrt_nonneg (minDistSq c1 poly)
  have n2 := Real.sqrt_nonneg (minDistSq c2 poly)
  by_cases hs : isPointInPolygon c1 poly = isPointInPolygon c2 poly
  · unfold signedDist
    rw [hs]
    split_ifs <;> rw [abs_le] <;> constructor <;> linarith
  · obtain ⟨i, hi, z, hz1, hz2⟩ := segmentsMeet_of_isPointInPolygon_ne c1 c2 poly hs
    have d1 := sqrt_minDistSq_le c1 z poly i hi hz2
    have d2 := sqrt_minDistSq_le c2 z poly i hi hz2
    rw [norm_sub_comm c2 z] at d2
    have hsum := norm_split c1 c2 z hz1
    unfold signedDist
    split_ifs <;> rw [abs_le] <;> constructor <;> linarith

/-! ### Boundary continuity of the constructed field -/

theorem cellValue_eq_signedDist (sqrt : K → K) (m : RcEsdfMap K) (poly : List (Vec2 K))
    (x y : Int) : cellValue sqrt m poly x y = signedDist sqrt (cellCenter m x y) poly := rfl

theorem norm_cellCenter_sub_le (m : RcEsdfMap ℝ) (hr : 0 ≤ m.resolution_) (x1 y1 x2 y2 : Int)
    (hx : |x1 - x2| ≤ 1) (hy : |y1 - y2| ≤ 1) :
    Vec2.norm Real.sqrt ((cellCenter m x1 y1).sub (cellCenter m x2 y2)) ≤
      m.resolution_ * Real.sqrt 2 := by
  have hx2 : (x1 - x2) * (x1 - x2) ≤ 1 := by
    obtain ⟨h1, h2⟩ := abs_le.mp hx
    nlinarith
  have hy2 : (y1 - y2) * (y1 - y2) ≤ 1 := by
    obtain ⟨h1, h2⟩ := abs_le.mp hy
    nlinarith
  have hx3 : ((x1 : ℝ) - x2) * ((x1 : ℝ) - x2) ≤ 1 := by exact_mod_cast hx2
  have hy3 : ((y1 : ℝ) - y2) * ((y1 : ℝ) - y2) ≤ 1 := by exact_mod_cast hy2
  have e : m.resolution_ * Real.sqrt 2 = Real.sqrt (m.resolution_ ^ 2 * 2) := by
    rw [Real.sqrt_mul (sq_nonneg _), Real.sqrt_sq hr]
  rw [e]
  unfold Vec2.norm
  apply Real.sqrt_le_sqrt
  simp only [Vec2.squaredNorm, Vec2.sub, cellCenter]
  have hr2 : 0 ≤ m.resolution_ ^ 2 := sq_nonneg _
  nlinarith [mul_le_mul_of_nonneg_left hx3 hr2, mul_le_mul_of_nonneg_left hy3 hr2]

/-! ### The sign convention of the query -/

/-- A point at least `r` away from every edge, by the measure of
`pointToSegmentDistSq`, is at least `r` away from every point of every edge. -/
theorem le_norm_of_far (q z : Vec2 ℝ) (poly : List (Vec2 ℝ)) (r : ℝ) (hr : 0 ≤ r) (i : Nat)
    (hfar : r ^ 2 ≤ edgeDistSq q poly i)
    (hz : OnSegment z (poly.getD i ⟨0, 0⟩) (poly.getD ((i + 1) % poly.length) ⟨0, 0⟩)) :
    r ≤ Vec2.norm Real.sqrt (q.sub z) := by
  unfold Vec2.norm
  rw [Real.le_sqrt hr (squaredNorm_nonneg _)]
  exact le_trans hfar (pointToSegmentDistSq_le q _ _ z hz)

/-- A point `c` that is classified like `q` keeps a distance from the polygon. -/
theorem sqrt_minDistSq_ge_of_far (q c : Vec2 ℝ) (poly : List (Vec2 ℝ)) (r : ℝ) (hr : 0 ≤ r)
    (hfar : ∀ i, i < poly.length → r ^ 2 ≤ edgeDistSq q poly i)
    (hrep : ∃ i, i < poly.length ∧ edgeDistSq c poly i ≤ DBL_MAX) :
    r - Vec2.norm Real.sqrt (c.sub q) ≤ Real.sqrt (minDistSq c poly) := by
  obtain ⟨i, hi, hmin⟩ := minDistSq_attained c poly hrep
  obtain ⟨z, hz, hd⟩ := pointToSegmentDistSq_attained c (poly.getD i ⟨0, 0⟩)
    (poly.getD ((i + 1) % poly.length) ⟨0, 0⟩)
  have h1 := le_norm_of_far q z poly r hr i (hfar i hi) hz
  have h2 := norm_sub_le q c z
  have h3 : Real.sqrt (minDistSq c poly) = Vec2.norm Real.sqrt (c.sub z) := by
    unfold Vec2.norm
    rw [hmin]
    exact congrArg Real.sqrt hd
  rw [h3, norm_sub_comm c q]
  linarith

/-- A point `c` that is classified unlike `q` is close to the polygon. -/
theorem sqrt_minDistSq_le_of_far (q c : Vec2 ℝ) (poly : List (Vec2 ℝ)) (r : ℝ) (hr : 0 ≤ r)
    (hfar : ∀ i, i < poly.length → r ^ 2 ≤ edgeDistSq q poly i)
    (hne : isPointInPolygon q poly ≠ isPointInPolygon c poly) :
    Real.sqrt (minDistSq c poly) ≤ Vec2.norm Real.sqrt (c.sub q) - r := by
  obtain ⟨i, hi, z, hz1, hz2⟩ := segmentsMeet_of_isPointInPolygon_ne q c poly hne
  have h1 := le_norm_of_far q z poly r hr i (hfar i hi) hz2
  have h2 := norm_split q c z hz1
  have h3 := sqrt_minDistSq_le c z poly i hi hz2
  rw [norm_sub_comm c z] at h3
  rw [norm_sub_comm c q]
  linarith

theorem signedDist_le_of_inside (q c : Vec2 ℝ) (poly : List (Vec2 ℝ)) (r : ℝ) (hr : 0 ≤ r)
    (hfar : ∀ i, i < poly.length → r ^ 2 ≤ edgeDistSq q poly i)
    (hrep : ∃ i, i < poly.length ∧ edgeDistSq c poly i ≤ DBL_MAX)
    (hq : isPointInPolygon q poly = true) :
    signedDist Real.sqrt c poly ≤ Vec2.norm Real.sqrt (c.sub q) - r := by
  unfold signedDist
  split_ifs with hc
  · have := sqrt_minDistSq_ge_of_far q c poly r hr hfar hrep
    linarith
  · exact sqrt_minDistSq_le_of_far q c poly r hr hfar (by rw [hq]; exact fun h => hc h.symm)

theorem signedDist_ge_of_outside (q c : Vec2 ℝ) (poly : List (Vec2 ℝ)) (r : ℝ) (hr : 0 ≤ r)
    (hfar : ∀ i, i < poly.length → r ^ 2 ≤ edgeDistSq q poly i)
    (hrep : ∃ i, i < poly.length ∧ edgeDistSq c poly i ≤ DBL_MAX)
    (hq : isPointInPolygon q poly = false) :
    r - Vec2.norm Real.sqrt (c.sub q) ≤ signedDist Real.sqrt c poly := by
  unfold signedDist
  split_ifs with hc
  · have := sqrt_minDistSq_le_of_far q c poly r hr hfar
      (by rw [hq, hc]; exact Bool.false_ne_true)
    linarith
  · exact sqrt_minDistSq_ge_of_far q c poly r hr hfar hrep

/-- The distance from a query point to a corner of its interpolation cell, compared
with the resolution: with `e` the squared distance in grid units,
`n - r <= r (e - 1) / 2`. -/
theorem norm_sub_res_le (n r e : ℝ) (hr : 0 < r) (hn : n * n = r ^ 2 * e) :
    n - r ≤ r * (e - 1) / 2 := by
  have h := sq_nonneg (n - r)
  have h2 : n * r ≤ r * (r * (e + 1) / 2) := by nlinarith
  have h3 : n ≤ r * (e + 1) / 2 := by
    rw [mul_comm n r] at h2
    exact le_of_mul_le_mul_left h2 hr
  linarith

/-- The squared distance from the query point to the centre of cell `(x, y)`, in terms
of the shifted grid coordinates. -/
theorem squaredNorm_cellCenter_sub (m : RcEsdfMap ℝ) (q : Vec2 ℝ) (hr : 0 < m.resolution_)
    (x y : Int) :
    ((cellCenter m x y).sub q).squaredNorm =
      m.resolution_ ^ 2 * (((x : ℝ) - gridU m q) ^ 2 + ((y : ℝ) - gridV m q) ^ 2) := by
  have hr0 : m.resolution_ ≠ 0 := ne_of_gt hr
  simp only [Vec2.squaredNorm, Vec2.sub, cellCenter, gridU, gridV]
  field_simp
  ring

/-- Bilinear weights applied to corner values below `r (e - 1) / 2` give a negative
value. -/
theorem bilinear_neg (al be r s00 s10 s01 s11 : ℝ) (hr : 0 < r)
    (ha0 : 0 ≤ al) (ha1 : al ≤ 1) (hb0 : 0 ≤ be) (hb1 : be ≤ 1)
    (b00 : s00 ≤ r * ((al ^ 2 + be ^ 2) - 1) / 2)
    (b10 : s10 ≤ r * (((1 - al) ^ 2 + be ^ 2) - 1) / 2)
    (b01 : s01 ≤ r * ((al ^ 2 + (1 - be) ^ 2) - 1) / 2)
    (b11 : s11 ≤ r * (((1 - al) ^ 2 + (1 - be) ^ 2) - 1) / 2) :
    (1 - al) * (1 - be) * s00 + al * (1 - be) * s10 + (1 - al) * be * s01 + al * be * s11 <
      0 := by
  have w00 : 0 ≤ (1 - al) * (1 - be) := mul_nonneg (by linarith) (by linarith)
  have w10 : 0 ≤ al * (1 - be) := mul_nonneg ha0 (by linarith)
  have w01 : 0 ≤ (1 - al) * be := mul_nonneg (by linarith) hb0
  have w11 : 0 ≤ al * be := mul_nonneg ha0 hb0
  have p00 := mul_le_mul_of_nonneg_left b00 w00
  have p10 := mul_le_mul_of_nonneg_left b10 w10
  have p01 := mul_le_mul_of_nonneg_left b01 w01
  have p11 := mul_le_mul_of_nonneg_left b11 w11
  have hsum : (1 - al) * (1 - be) * (r * ((al ^ 2 + be ^ 2) - 1) / 2) +
      al * (1 - be) * (r * (((1 - al) ^ 2 + be ^ 2) - 1) / 2) +
      (1 - al) * be * (r * ((al ^ 2 + (1 - be) ^ 2) - 1) / 2) +
      al * be * (r * (((1 - al) ^ 2 + (1 - be) ^ 2) - 1) / 2) =
      r / 2 * (al * (1 - al) + be * (1 - be) - 1) := by ring
  have hq : al * (1 - al) + be * (1 - be) - 1 ≤ -(1 / 2) := by
    nlinarith [sq_nonneg (al - 1 / 2), sq_nonneg (be - 1 / 2)]
  have : r / 2 * (al * (1 - al) + be * (1 - be) - 1) < 0 := by nlinarith
  linarith

theorem corner_le_of_inside (m : RcEsdfMap ℝ) (poly : List (Vec2 ℝ)) (hr : 0 < m.resolution_)
    (hlen : (m.data_.length : Int) = m.grid_size_x_ * m.grid_size_y_)
    (hrep : DistancesRepresentable m poly) (q : Vec2 ℝ)
    (hfar : ∀ i, i < poly.length → m.resolution_ ^ 2 ≤ edgeDistSq q poly i)
    (hq : isPointInPolygon q poly = true) (x y : Int)
    (hx : 0 ≤ x ∧ x < m.grid_size_x_) (hy : 0 ≤ y ∧ y < m.grid_size_y_) :
    getRaw (generateFromPolygon Real.sqrt m poly) x y ≤
      m.resolution_ * ((((x : ℝ) - gridU m q) ^ 2 + ((y : ℝ) - gridV m q) ^ 2) - 1) / 2 := by
  rw [getRaw_generateFromPolygon Real.sqrt m poly hlen x y hx.1 hx.2 hy.1 hy.2,
    cellValue_eq_signedDist]
  have h1 := signedDist_le_of_inside q (cellCenter m x y) poly m.resolution_ (le_of_lt hr) hfar
    (hrep x y hx.1 hx.2 hy.1 hy.2) hq
  have h2 := norm_sub_res_le (Vec2.norm Real.sqrt ((cellCenter m x y).sub q)) m.resolution_
    (((x : ℝ) - gridU m q) ^ 2 + ((y : ℝ) - gridV m q) ^ 2) hr
    (by rw [norm_sq, squaredNorm_cellCenter_sub m q hr])
  linarith

theorem corner_ge_of_outside (m : RcEsdfMap ℝ) (poly : List (Vec2 ℝ)) (hr : 0 < m.resolution_)
    (hlen : (m.data_.length : Int) = m.grid_size_x_ * m.grid_size_y_)
    (hrep : DistancesRepresentable m poly) (q : Vec2 ℝ)
    (hfar : ∀ i, i < poly.length → m.resolution_ ^ 2 ≤ edgeDistSq q poly i)
    (hq : isPointInPolygon q poly = false) (x y : Int)
    (hx : 0 ≤ x ∧ x < m.grid_size_x_) (hy : 0 ≤ y ∧ y < m.grid_size_y_) :
    -getRaw (generateFromPolygon Real.sqrt m poly) x y ≤
      m.resolution_ * ((((x : ℝ) - gridU m q) ^ 2 + ((y : ℝ) - gridV m q) ^ 2) - 1) / 2 := by
  rw [getRaw_generateFromPolygon Real.sqrt m poly hlen x y hx.1 hx.2 hy.1 hy.2,
    cellValue_eq_signedDist]
  have h1 := signedDist_ge_of_outside q (cellCenter m x y) poly m.resolution_ (le_of_lt hr) hfar
    (hrep x y hx.1 hx.2 hy.1 hy.2) hq
  have h2 := norm_sub_res_le (Vec2.norm Real.sqrt ((cellCenter m x y).sub q)) m.resolution_
    (((x : ℝ) - gridU m q) ^ 2 + ((y : ℝ) - gridV m q) ^ 2) hr
    (by rw [norm_sq, squaredNorm_cellCenter_sub m q hr])
  linarith

/-- Claim C4.  On an initialised grid populated by `generateFromPolygon` (the squared
distances of the cell centres being values of type `double`), for an in-range query
point `q` that is at least one resolution away from every edge of the polygon
(`resolution^2 <= pointToSegmentDistSq(q, edge)`): if `isPointInPolygon` classifies `q`
inside, the interpolated distance is negative, and if it classifies `q` outside, the
interpolated distance is positive. -/
theorem sign_convention (m : RcEsdfMap ℝ) (poly : List (Vec2 ℝ)) (hinit : Initialised m)
    (hrep : DistancesRepresentable m poly) (q : Vec2 ℝ)
    (hin : (query (generateFromPolygon Real.sqrt m poly) q).inRange = true)
    (hfar : ∀ i, i < poly.length → m.resolution_ ^ 2 ≤ edgeDistSq q poly i) :
    (isPointInPolygon q poly = true →
        (query (generateFromPolygon Real.sqrt m poly) q).dist < 0) ∧
      (isPointInPolygon q poly = false →
        0 < (query (generateFromPolygon Real.sqrt m poly) q).dist) := by
  have hr := hinit.1
  have hpass := passesRangeCheck_of_inRange _ q hin
  obtain ⟨⟨hx0, hx1⟩, ⟨hy0, hy1⟩⟩ := cells_in_grid _ q hpass
  have eU : gridU (generateFromPolygon Real.sqrt m poly) q = gridU m q := rfl
  have eV : gridV (generateFromPolygon Real.sqrt m poly) q = gridV m q := rfl
  have eX : (generateFromPolygon Real.sqrt m poly).grid_size_x_ = m.grid_size_x_ := rfl
  have eY : (generateFromPolygon Real.sqrt m poly).grid_size_y_ = m.grid_size_y_ := rfl
  simp only [eU, eV, eX, eY] at hx0 hx1 hy0 hy1
  have a0 : 0 ≤ gridU m q - ⌊gridU m q⌋ := sub_nonneg.mpr (Int.floor_le _)
  have a1 : gridU m q - ⌊gridU m q⌋ ≤ 1 := by
    have := Int.lt_floor_add_one (gridU m q); linarith
  have b0 : 0 ≤ gridV m q - ⌊gridV m q⌋ := sub_nonneg.mpr (Int.floor_le _)
  have b1 : gridV m q - ⌊gridV m q⌋ ≤ 1 := by
    have := Int.lt_floor_add_one (gridV m q); linarith
  rw [query_of_in _ q hpass]
  simp only [eU, eV]
  have hx0' : (0 : Int) ≤ ⌊gridU m q⌋ + 1 := by omega
  have hy0' : (0 : Int) ≤ ⌊gridV m q⌋ + 1 := by omega
  have hx1' : ⌊gridU m q⌋ < m.grid_size_x_ := by omega
  have hy1' : ⌊gridV m q⌋ < m.grid_size_y_ := by omega
  have c1 : ((⌊gridU m q⌋ + 1 : Int) : ℝ) - gridU m q = 1 - (gridU m q - ⌊gridU m q⌋) := by
    push_cast; ring
  have c2 : ((⌊gridV m q⌋ + 1 : Int) : ℝ) - gridV m q = 1 - (gridV m q - ⌊gridV m q⌋) := by
    push_cast; ring
  have c3 : ((⌊gridU m q⌋ : Int) : ℝ) - gridU m q = -(gridU m q - ⌊gridU m q⌋) := by ring
  have c4 : ((⌊gridV m q⌋ : Int) : ℝ) - gridV m q = -(gridV m q - ⌊gridV m q⌋) := by ring
  constructor
  · intro hq
    have k00 := corner_le_of_inside m poly hr hinit.2.2.2 hrep q hfar hq _ _ ⟨hx0, hx1'⟩
      ⟨hy0, hy1'⟩
    have k10 := corner_le_of_inside m poly hr hinit.2.2.2 hrep q hfar hq _ _ ⟨hx0', hx1⟩
      ⟨hy0, hy1'⟩
    have k01 := corner_le_of_inside m poly hr hinit.2.2.2 hrep q hfar hq _ _ ⟨hx0, hx1'⟩
      ⟨hy0', hy1⟩
    have k11 := corner_le_of_inside m poly hr hinit.2.2.2 hrep q hfar hq _ _ ⟨hx0', hx1⟩
      ⟨hy0', hy1⟩
    rw [c3, c4, neg_sq, neg_sq] at k00
    rw [c1, c4, neg_sq] at k10
    rw [c3, c2, neg_sq] at k01
    rw [c1, c2] at k11
    exact bilinear_neg _ _ m.resolution_ _ _ _ _ hr a0 a1 b0 b1 k00 k10 k01 k11
  · intro hq
    have k00 := corner_ge_of_outside m poly hr hinit.2.2.2 hrep q hfar hq _ _ ⟨hx0, hx1'⟩
      ⟨hy0, hy1'⟩
    have k10 := corner_ge_of_outside m poly hr hinit.2.2.2 hrep q hfar hq _ _ ⟨hx0', hx1⟩
      ⟨hy0, hy1'⟩
    have k01 := corner_ge_of_outside m poly hr hinit.2.2.2 hrep q hfar hq _ _ ⟨hx0, hx1'⟩
      ⟨hy0', hy1⟩
    have k11 := corner_ge_of_outside m poly hr hinit.2.2.2 hrep q hfar hq _ _ ⟨hx0', hx1⟩
      ⟨hy0', hy1⟩
    rw [c3, c4, neg_sq, neg_sq] at k00
    rw [c1, c4, neg_sq] at k10
    rw [c3, c2, neg_sq] at k01
    rw [c1, c2] at k11
    have := bilinear_neg _ _ m.resolution_ _ _ _ _ hr a0 a1 b0 b1 k00 k10 k01 k11
    linarith

theorem distancesRepresentable_demo : DistancesRepresentable (demoGrid : RcEsdfMap K) footprint := by
  intro x y hx0 hx1 hy0 hy1
  refine ⟨0, by simp [footprint], ?_⟩
  have hz : OnSegment (⟨1 / 2, 3 / 10⟩ : Vec2 K) ((footprint : List (Vec2 K)).getD 0 ⟨0, 0⟩)
      ((footprint : List (Vec2 K)).getD ((0 + 1) % (footprint : List (Vec2 K)).length) ⟨0, 0⟩) :=
    ⟨0, le_refl 0, zero_le_one, by simp [footprint], by simp [footprint]⟩
  refine le_trans (pointToSegmentDistSq_le _ _ _ _ hz) ?_
  have bx0 : (0 : K) ≤ (x : K) := by exact_mod_cast hx0
  have bx1 : (x : K) ≤ 100 := by
    have : x ≤ 100 := le_of_lt hx1
    exact_mod_cast this
  have by0 : (0 : K) ≤ (y : K) := by exact_mod_cast hy0
  have by1 : (y : K) ≤ 100 := by
    have : y ≤ 100 := le_of_lt hy1
    exact_mod_cast this
  have hD : (72 : K) ≤ DBL_MAX := by norm_num [DBL_MAX]
  refine le_trans ?_ hD
  simp only [Vec2.squaredNorm, Vec2.sub, cellCenter, demoGrid]
  nlinarith

theorem isPointInPolygon_demo_origin :
    isPointInPolygon (⟨0, 0⟩ : Vec2 K) footprint = true := by
  norm_num [isPointInPolygon, crossingStep, footprint, List.range_succ]

theorem edgeDistSq_demo_origin (i : Nat) (hi : i < (footprint : List (Vec2 K)).length) :
    ((1 : K) / 10) ^ 2 ≤ edgeDistSq (⟨0, 0⟩ : Vec2 K) footprint i := by
  have hi4 : i < 4 := by simpa [footprint] using hi
  interval_cases i <;>
  norm_num [edgeDistSq, footprint, pointToSegmentDistSq, Vec2.sub, Vec2.add,
    Vec2.scale, Vec2.dot, Vec2.squaredNorm]

/-- A check of `sign_convention` in the demonstration scenario: the query at `(0, 0)`,
inside the rectangle and `0.3` away from its nearest edges, is negative. -/
theorem sign_convention_witness :
    (query (generateFromPolygon Real.sqrt (demoGrid : RcEsdfMap ℝ) footprint) ⟨0, 0⟩).dist <
      0 :=
  (sign_convention (demoGrid : RcEsdfMap ℝ) footprint initialised_demoGrid
    distancesRepresentable_demo ⟨0, 0⟩ (by rw [query_demo_origin Real.sqrt])
    (fun i hi => edgeDistSq_demo_origin i hi)).1 isPointInPolygon_demo_origin

/-! ### Determinism of the construction -/

theorem cellValue_congr (sqrt : K → K) (m1 m2 : RcEsdfMap K) (polygon : List (Vec2 K))
    (hres : m1.resolution_ = m2.resolution_) (hox : m1.origin_x_ = m2.origin_x_)
    (hoy : m1.origin_y_ = m2.origin_y_) (x y : Int) :
    cellValue sqrt m1 polygon x y = cellValue sqrt m2 polygon x y := by
  unfold cellValue cellCenter
  rw [hres, hox, hoy]

/-- Every position of the vector is the index of a cell of the grid. -/
theorem exists_cell_of_index (m : RcEsdfMap K) (h0x : 0 ≤ m.grid_size_x_)
    (hlen : (m.data_.length : Int) = m.grid_size_x_ * m.grid_size_y_) (k : Nat)
    (hk : k < m.data_.length) :
    ∃ x y : Int, 0 ≤ x ∧ x < m.grid_size_x_ ∧ 0 ≤ y ∧ y < m.grid_size_y_ ∧
      (y * m.grid_size_x_ + x).toNat = k := by
  obtain ⟨c, hc⟩ := Int.eq_ofNat_of_zero_le h0x
  have hkL : (k : Int) < m.grid_size_x_ * m.grid_size_y_ := by rw [← hlen]; exact_mod_cast hk
  rw [hc] at hkL
  have hcpos : 0 < c := by
    rcases Nat.eq_zero_or_pos c with h | h
    · subst h
      simp at hkL
      omega
    · exact h
  have hcposZ : (0 : Int) < (c : Int) := by exact_mod_cast hcpos
  have hdm : c * (k / c) + k % c = k := Nat.div_add_mod k c
  refine ⟨((k % c : Nat) : Int), ((k / c : Nat) : Int), by positivity, ?_, by positivity, ?_, ?_⟩
  · rw [hc]
    exact_mod_cast Nat.mod_lt k hcpos
  · by_contra hy
    have hy' : m.grid_size_y_ ≤ ((k / c : Nat) : Int) := not_lt.mp hy
    have h1 : (c : Int) * m.grid_size_y_ ≤ (c : Int) * ((k / c : Nat) : Int) :=
      mul_le_mul_of_nonneg_left hy' (le_of_lt hcposZ)
    have h2 : (c : Int) * ((k / c : Nat) : Int) ≤ (k : Int) := by
      have : c * (k / c) ≤ k := Nat.mul_div_le k c
      exact_mod_cast this
    omega
  · rw [hc]
    have : ((k / c : Nat) : Int) * (c : Int) + ((k % c : Nat) : Int) = ((k : Nat) : Int) := by
      have : (k / c) * c + k % c = k := by rw [Nat.mul_comm]; exact hdm
      exact_mod_cast this
    rw [this, Int.toNat_ofNat]

theorem data_generateFromPolygon_congr (sqrt : K → K) (m1 m2 : RcEsdfMap K)
    (polygon : List (Vec2 K))
    (hres : m1.resolution_ = m2.resolution_) (hox : m1.origin_x_ = m2.origin_x_)
    (hoy : m1.origin_y_ = m2.origin_y_) (hcols : m1.grid_size_x_ = m2.grid_size_x_)
    (hrows : m1.grid_size_y_ = m2.grid_size_y_) (h0x : 0 ≤ m1.grid_size_x_)
    (hlen1 : (m1.data_.length : Int) = m1.grid_size_x_ * m1.grid_size_y_)
    (hlen2 : (m2.data_.length : Int) = m2.grid_size_x_ * m2.grid_size_y_) :
    (generateFromPolygon sqrt m1 polygon).data_ = (generateFromPolygon sqrt m2 polygon).data_ := by
  have hL : m1.data_.length = m2.data_.length := by
    have : (m1.data_.length : Int) = (m2.data_.length : Int) := by
      rw [hlen1, hlen2, hcols, hrows]
    exact_mod_cast this
  apply List.ext_getElem?
  intro k
  by_cases hk : k < m1.data_.length
  · obtain ⟨x, y, hx0, hx1, hy0, hy1, hidx⟩ := exists_cell_of_index m1 h0x hlen1 k hk
    have s1 := stored_generateFromPolygon sqrt m1 polygon hlen1 x y hx0 hx1 hy0 hy1
    have s2 := stored_generateFromPolygon sqrt m2 polygon hlen2 x y hx0 (by rw [← hcols]; exact hx1)
      hy0 (by rw [← hrows]; exact hy1)
    unfold stored at s1 s2
    have e1 : (generateFromPolygon sqrt m1 polygon).grid_size_x_ = m1.grid_size_x_ := rfl
    have e2 : (generateFromPolygon sqrt m2 polygon).grid_size_x_ = m1.grid_size_x_ := hcols.symm
    rw [e1, hidx] at s1
    rw [e2, hidx] at s2
    rw [s1, s2, cellValue_congr sqrt m1 m2 polygon hres hox hoy]
  · have h1 : (generateFromPolygon sqrt m1 polygon).data_.length ≤ k := by
      rw [length_generateFromPolygon]; exact not_lt.mp hk
    have h2 : (generateFromPolygon sqrt m2 polygon).data_.length ≤ k := by
      rw [length_generateFromPolygon, ← hL]; exact not_lt.mp hk
    rw [List.getElem?_eq_none h1, List.getElem?_eq_none h2]

/-- Claim C11.  For every polygon and two grids with the same columns, rows, resolution
and origin, each with a vector of `cols * rows` cells of arbitrary content,
`generateFromPolygon` leaves the same stored values in both; in particular a second
call with the same polygon leaves the stored values of the first call. -/
theorem generateFromPolygon_deterministic (sqrt : K → K) (m1 m2 : RcEsdfMap K)
    (polygon : List (Vec2 K))
    (hres : m1.resolution_ = m2.resolution_) (hox : m1.origin_x_ = m2.origin_x_)
    (hoy : m1.origin_y_ = m2.origin_y_) (hcols : m1.grid_size_x_ = m2.grid_size_x_)
    (hrows : m1.grid_size_y_ = m2.grid_size_y_) (h0x : 0 ≤ m1.grid_size_x_)
    (hlen1 : (m1.data_.length : Int) = m1.grid_size_x_ * m1.grid_size_y_)
    (hlen2 : (m2.data_.length : Int) = m2.grid_size_x_ * m2.grid_size_y_) :
    (generateFromPolygon sqrt m1 polygon).data_ = (generateFromPolygon sqrt m2 polygon).data_ ∧
      (generateFromPolygon sqrt (generateFromPolygon sqrt m1 polygon) polygon).data_ =
        (generateFromPolygon sqrt m1 polygon).data_ := by
  refine ⟨data_generateFromPolygon_congr sqrt m1 m2 polygon hres hox hoy hcols hrows h0x hlen1
    hlen2, ?_⟩
  exact data_generateFromPolygon_congr sqrt (generateFromPolygon sqrt m1 polygon) m1 polygon
    rfl rfl rfl rfl rfl h0x (by rw [length_generateFromPolygon]; exact hlen1) hlen1

/-- A check of `generateFromPolygon_deterministic`: the demonstration grid with zeros and
with ones as prior content. -/
theorem generateFromPolygon_deterministic_witness :
    (generateFromPolygon (fun q => q) (demoGrid : RcEsdfMap ℚ) footprint).data_ =
        (generateFromPolygon (fun q => q)
          { (demoGrid : RcEsdfMap ℚ) with data_ := List.replicate 10000 1 } footprint).data_ ∧
      (generateFromPolygon (fun q => q)
          (generateFromPolygon (fun q => q) (demoGrid : RcEsdfMap ℚ) footprint) footprint).data_ =
        (generateFromPolygon (fun q => q) (demoGrid : RcEsdfMap ℚ) footprint).data_ :=
  generateFromPolygon_deterministic (fun q => q) (demoGrid : RcEsdfMap ℚ)
    { (demoGrid : RcEsdfMap ℚ) with data_ := List.replicate 10000 1 } footprint rfl rfl rfl rfl rfl
    (by norm_num [demoGrid]) initialised_demoGrid.2.2.2
    (by simp only [List.length_replicate, demoGrid]; norm_num)

/-! ### Polygons with fewer than three vertices -/

theorem squaredNorm_sub_onSegment (p v w z : Vec2 K) (t : K)
    (hx : z.x = v.x + t * (w.x - v.x)) (hy : z.y = v.y + t * (w.y - v.y)) :
    (p.sub z).squaredNorm = (p.sub (v.add (Vec2.scale t (w.sub v)))).squaredNorm := by
  simp only [Vec2.squaredNorm, Vec2.sub, Vec2.add, Vec2.scale, hx, hy]

/-- Claim C15.  For all points `p`, `v`, `w`: `pointToSegmentDistSq(p, v, w)` is the
minimum over `t` in `[0, 1]` of `|p - (v + t (w - v))|^2` (it is attained at some such
`t` and is below the value at every such `t`); for `v = w` it is `|p - v|^2`; and the
divisor `|v - w|^2` of the projection formula is zero only when `v = w`, the case that
returns before the division, while otherwise the result is the squared distance to the
projection with its parameter clamped to `[0, 1]`. -/
theorem pointToSegmentDistSq_min (p v w : Vec2 K) :
    (∃ t : K, 0 ≤ t ∧ t ≤ 1 ∧
        pointToSegmentDistSq p v w = (p.sub (v.add (Vec2.scale t (w.sub v)))).squaredNorm) ∧
      (∀ t : K, 0 ≤ t → t ≤ 1 →
        pointToSegmentDistSq p v w ≤ (p.sub (v.add (Vec2.scale t (w.sub v)))).squaredNorm) ∧
      pointToSegmentDistSq p v v = (p.sub v).squaredNorm ∧
      ((v.sub w).squaredNorm = 0 ↔ v = w) ∧
      ((v.sub w).squaredNorm ≠ 0 →
        pointToSegmentDistSq p v w =
          (p.sub (v.add (Vec2.scale
            (max 0 (min 1 ((p.sub v).dot (w.sub v) / (v.sub w).squaredNorm)))
            (w.sub v)))).squaredNorm) := by
  refine ⟨?_, ?_, ?_, ?_, ?_⟩
  · obtain ⟨z, ⟨t, h0, h1, hx, hy⟩, hd⟩ := pointToSegmentDistSq_attained p v w
    exact ⟨t, h0, h1, by rw [hd]; exact squaredNorm_sub_onSegment p v w z t hx hy⟩
  · intro t h0 h1
    have hz : OnSegment (v.add (Vec2.scale t (w.sub v))) v w := ⟨t, h0, h1, rfl, rfl⟩
    exact pointToSegmentDistSq_le p v w _ hz
  · unfold pointToSegmentDistSq
    simp [Vec2.sub, Vec2.squaredNorm]
  · constructor
    · intro h
      obtain ⟨e1, e2⟩ := eq_of_squaredNorm_sub_eq_zero v w h
      cases v; cases w
      simp only at e1 e2
      rw [e1, e2]
    · intro h
      rw [h]
      simp [Vec2.sub, Vec2.squaredNorm]
  · intro h
    unfold pointToSegmentDistSq
    simp only
    rw [if_neg h]

/-! ### The cells read by the query -/

theorem index_lt_length (m : RcEsdfMap K) (x y : Int)
    (hlen : (m.data_.length : Int) = m.grid_size_x_ * m.grid_size_y_)
    (hx0 : 0 ≤ x) (hx1 : x < m.grid_size_x_) (hy0 : 0 ≤ y) (hy1 : y < m.grid_size_y_) :
    0 ≤ y * m.grid_size_x_ + x ∧ (y * m.grid_size_x_ + x).toNat < m.data_.length := by
  have h0 : 0 ≤ y * m.grid_size_x_ + x := by
    have : 0 ≤ y * m.grid_size_x_ := mul_nonneg hy0 (by omega)
    omega
  have : y * m.grid_size_x_ + x < m.grid_size_x_ * m.grid_size_y_ := by nlinarith
  exact ⟨h0, by omega⟩

/-- Claim C17.  On a grid whose vector has `cols * rows` cells, for a query point that
passes the range check, each of the four cells `(x0 + dx, y0 + dy)` with `dx, dy` in
`{0, 1}` read by `query` lies in the grid, so that the out-of-bounds test of `getRaw`
is false for it, and its index `y * cols + x` is non-negative and below the size of the
vector. -/
theorem query_reads_in_bounds (m : RcEsdfMap K) (p : Vec2 K)
    (hlen : (m.data_.length : Int) = m.grid_size_x_ * m.grid_size_y_)
    (h : passesRangeCheck m p) (dx dy : Int) (hdx : dx = 0 ∨ dx = 1) (hdy : dy = 0 ∨ dy = 1) :
    (0 ≤ ⌊gridU m p⌋ + dx ∧ ⌊gridU m p⌋ + dx < m.grid_size_x_ ∧
        0 ≤ ⌊gridV m p⌋ + dy ∧ ⌊gridV m p⌋ + dy < m.grid_size_y_) ∧
      ¬ (⌊gridU m p⌋ + dx < 0 ∨ ⌊gridU m p⌋ + dx ≥ m.grid_size_x_ ∨
        ⌊gridV m p⌋ + dy < 0 ∨ ⌊gridV m p⌋ + dy ≥ m.grid_size_y_) ∧
      0 ≤ (⌊gridV m p⌋ + dy) * m.grid_size_x_ + (⌊gridU m p⌋ + dx) ∧
      ((⌊gridV m p⌋ + dy) * m.grid_size_x_ + (⌊gridU m p⌋ + dx)).toNat < m.data_.length ∧
      stored m (⌊gridU m p⌋ + dx) (⌊gridV m p⌋ + dy) =
        some (getRaw m (⌊gridU m p⌋ + dx) (⌊gridV m p⌋ + dy)) := by
  obtain ⟨⟨hx0, hx1⟩, ⟨hy0, hy1⟩⟩ := cells_in_grid m p h
  have bx0 : 0 ≤ ⌊gridU m p⌋ + dx := by rcases hdx with rfl | rfl <;> omega
  have bx1 : ⌊gridU m p⌋ + dx < m.grid_size_x_ := by rcases hdx with rfl | rfl <;> omega
  have by0 : 0 ≤ ⌊gridV m p⌋ + dy := by rcases hdy with rfl | rfl <;> omega
  have by1 : ⌊gridV m p⌋ + dy < m.grid_size_y_ := by rcases hdy with rfl | rfl <;> omega
  obtain ⟨i0, i1⟩ := index_lt_length m _ _ hlen bx0 bx1 by0 by1
  exact ⟨⟨bx0, bx1, by0, by1⟩, by omega, i0, i1, getRaw_eq_stored m _ _ hlen bx0 bx1 by0 by1⟩

/-- A check of `query_reads_in_bounds` on the demonstration grid at the point `(0, 0)`:
the cell `(50, 50)` has index `5050` below `10000`. -/
theorem query_reads_in_bounds_witness :
    (0 ≤ ⌊gridU (demoGrid : RcEsdfMap ℚ) ⟨0, 0⟩⌋ + 1 ∧
        ⌊gridU (demoGrid : RcEsdfMap ℚ) ⟨0, 0⟩⌋ + 1 < (demoGrid : RcEsdfMap ℚ).grid_size_x_ ∧
        0 ≤ ⌊gridV (demoGrid : RcEsdfMap ℚ) ⟨0, 0⟩⌋ + 1 ∧
        ⌊gridV (demoGrid : RcEsdfMap ℚ) ⟨0, 0⟩⌋ + 1 < (demoGrid : RcEsdfMap ℚ).grid_size_y_) ∧
      ((⌊gridV (demoGrid : RcEsdfMap ℚ) ⟨0, 0⟩⌋ + 1) * (demoGrid : RcEsdfMap ℚ).grid_size_x_ +
        (⌊gridU (demoGrid : RcEsdfMap ℚ) ⟨0, 0⟩⌋ + 1)).toNat <
        (demoGrid : RcEsdfMap ℚ).data_.length := by
  have hu : gridU (demoGrid : RcEsdfMap ℚ) ⟨0, 0⟩ = 99 / 2 := by
    norm_num [gridU, demoGrid]
  have hv : gridV (demoGrid : RcEsdfMap ℚ) ⟨0, 0⟩ = 99 / 2 := by
    norm_num [gridV, demoGrid]
  have hin : passesRangeCheck (demoGrid : RcEsdfMap ℚ) ⟨0, 0⟩ := by
    unfold passesRangeCheck
    rw [hu, hv]
    norm_num [demoGrid]
  obtain ⟨h1, -, -, h4, -⟩ := query_reads_in_bounds (demoGrid : RcEsdfMap ℚ) ⟨0, 0⟩
    initialised_demoGrid.2.2.2 hin 1 1 (Or.inr rfl) (Or.inr rfl)
  exact ⟨h1, h4⟩

/-! ### The gradient along an axis -/

/-- Claim C19.  On a grid with a positive resolution, for two in-range points `p` and `q`
of the same interpolation cell (same `x0` and `y0`): if they have the same `y`, then
`query(q).distance - query(p).distance = (q.x - p.x) * query(p).gradient.x`, and if they
have the same `x`, the difference is `(q.y - p.y) * query(p).gradient.y`. -/
theorem gradient_is_partial_derivative (m : RcEsdfMap K) (hr : 0 < m.resolution_)
    (p q : Vec2 K) (hp : (query m p).inRange = true) (hq : (query m q).inRange = true)
    (hx : ⌊gridU m p⌋ = ⌊gridU m q⌋) (hy : ⌊gridV m p⌋ = ⌊gridV m q⌋) :
    (p.y = q.y → (query m q).dist - (query m p).dist = (q.x - p.x) * (query m p).grad.x) ∧
      (p.x = q.x → (query m q).dist - (query m p).dist = (q.y - p.y) * (query m p).grad.y) := by
  have hr0 : m.resolution_ ≠ 0 := ne_of_gt hr
  have hpp := passesRangeCheck_of_inRange m p hp
  have hqq := passesRangeCheck_of_inRange m q hq
  rw [query_of_in m p hpp, query_of_in m q hqq, ← hx, ← hy]
  simp only
  generalize getRaw m ⌊gridU m p⌋ ⌊gridV m p⌋ = v00
  generalize getRaw m (⌊gridU m p⌋ + 1) ⌊gridV m p⌋ = v10
  generalize getRaw m ⌊gridU m p⌋ (⌊gridV m p⌋ + 1) = v01
  generalize getRaw m (⌊gridU m p⌋ + 1) (⌊gridV m p⌋ + 1) = v11
  generalize (⌊gridU m p⌋ : K) = X0
  generalize (⌊gridV m p⌋ : K) = Y0
  constructor
  · intro h
    have hv : gridV m q = gridV m p := by unfold gridV; rw [h]
    rw [hv]
    unfold gridU
    field_simp
    ring
  · intro h
    have hu : gridU m q = gridU m p := by unfold gridU; rw [h]
    rw [hu]
    unfold gridV
    field_simp
    ring

theorem inRange_of_passesRangeCheck (m : RcEsdfMap K) (p : Vec2 K) (h : passesRangeCheck m p) :
    (query m p).inRange = true := by
  rw [query_of_in m p h]

theorem passesRangeCheck_demo (a : ℚ) (ha0 : 0 ≤ a) (ha1 : a < 1 / 20) :
    passesRangeCheck (demoGrid : RcEsdfMap ℚ) ⟨a, 0⟩ ∧
      ⌊gridU (demoGrid : RcEsdfMap ℚ) ⟨a, 0⟩⌋ = 49 ∧
      ⌊gridV (demoGrid : RcEsdfMap ℚ) ⟨a, 0⟩⌋ = 49 := by
  have hu : gridU (demoGrid : RcEsdfMap ℚ) ⟨a, 0⟩ = 99 / 2 + 10 * a := by
    simp only [gridU, demoGrid]
    ring
  have hv : gridV (demoGrid : RcEsdfMap ℚ) ⟨a, 0⟩ = 99 / 2 := by
    norm_num [gridV, demoGrid]
  refine ⟨?_, ?_, ?_⟩
  · unfold passesRangeCheck
    rw [hu, hv]
    simp only [demoGrid, not_or, not_lt, ge_iff_le, not_le]
    norm_num
    constructor <;> linarith
  · rw [hu, Int.floor_eq_iff]
    constructor <;> push_cast <;> linarith
  · rw [hv, Int.floor_eq_iff]
    norm_num

/-- A check of `gradient_is_partial_derivative` on the demonstration grid, at the points
`(0, 0)` and `(0.01, 0)` of the interpolation cell `(49, 49)`. -/
theorem gradient_is_partial_derivative_witness :
    (query (demoGrid : RcEsdfMap ℚ) ⟨1 / 100, 0⟩).dist -
        (query (demoGrid : RcEsdfMap ℚ) ⟨0, 0⟩).dist =
      (1 / 100 - 0) * (query (demoGrid : RcEsdfMap ℚ) ⟨0, 0⟩).grad.x := by
  obtain ⟨p1, p2, p3⟩ := passesRangeCheck_demo 0 (le_refl 0) (by norm_num)
  obtain ⟨q1, q2, q3⟩ := passesRangeCheck_demo (1 / 100) (by norm_num) (by norm_num)
  exact (gradient_is_partial_derivative (demoGrid : RcEsdfMap ℚ) initialised_demoGrid.1
    ⟨0, 0⟩ ⟨1 / 100, 0⟩ (inRange_of_passesRangeCheck _ _ p1) (inRange_of_passesRangeCheck _ _ q1)
    (by rw [p2, q2]) (by rw [p3, q3])).1 rfl

/-! ### The inside test on an axis-aligned rectangle -/

theorem crossesRay_level (p a b : Vec2 K) (h : a.y = b.y) : crossesRay p a b = false := by
  simp [crossesRay, h]

theorem crossesRay_upright (p a b : Vec2 K) (h : a.x = b.x) :
    crossesRay p a b =
      ((decide (a.y > p.y) != decide (b.y > p.y)) && decide (p.x < a.x)) := by
  simp [crossesRay, xAt, h]

/-- The crossing parity of a closed chain of four vertices. -/
theorem isPointInPolygon_four (p a b c d : Vec2 K) :
    isPointInPolygon p [a, b, c, d] =
      xor (xor (xor (crossesRay p a d) (crossesRay p b a)) (crossesRay p c b))
        (crossesRay p d c) := by
  rw [isPointInPolygon_eq_xorUpTo]
  simp [xorUpTo, List.range_succ, prevIndex]

theorem rectangle_parity (xmin xmax ymin ymax : K) (hx : xmin < xmax) (hy : ymin < ymax)
    (p : Vec2 K) :
    xor ((decide (ymin > p.y) != decide (ymax > p.y)) && decide (p.x < xmin))
        ((decide (ymin > p.y) != decide (ymax > p.y)) && decide (p.x < xmax)) = true ↔
      (xmin ≤ p.x ∧ p.x < xmax ∧ ymin ≤ p.y ∧ p.y < ymax) := by
  by_cases hb : ymin ≤ p.y ∧ p.y < ymax
  · have e1 : ¬ ymin > p.y := not_lt.mpr hb.1
    have e2 : ymax > p.y := hb.2
    by_cases h3 : p.x < xmin
    · have h4 : p.x < xmax := lt_trans h3 hx
      simp [e1, e2, h3, h4]
    · by_cases h4 : p.x < xmax
      · simp [e1, e2, h3, h4, hb.1]
        exact not_lt.mp h3
      · simp [e1, e2, h3, h4]
  · have e : decide (ymin > p.y) = decide (ymax > p.y) := by
      rw [decide_eq_decide]
      constructor
      · intro h; exact lt_trans h hy
      · intro h
        by_contra hc
        exact hb ⟨not_lt.mp hc, h⟩
    rw [e]
    simp only [bne_self_eq_false, Bool.false_and, Bool.xor_self]
    constructor
    · intro h; exact absurd h Bool.false_ne_true
    · intro h; exact absurd ⟨h.2.2.1, h.2.2.2⟩ hb

/-- Claim C16.  For an axis-aligned rectangle with `xmin < xmax` and `ymin < ymax` whose
corners are listed in order around it (from any corner, in either orientation) and every
point `p`: `isPointInPolygon(p, rectangle)` holds exactly when `xmin <= p.x < xmax` and
`ymin <= p.y < ymax`; so every strictly interior point is classified inside and every
strictly exterior point outside. -/
theorem isPointInPolygon_rectangle (xmin xmax ymin ymax : K) (hx : xmin < xmax)
    (hy : ymin < ymax) (poly : List (Vec2 K)) (hpoly : poly ∈ rectangleCycles xmin xmax ymin ymax)
    (p : Vec2 K) :
    (isPointInPolygon p poly = true ↔
        (xmin ≤ p.x ∧ p.x < xmax ∧ ymin ≤ p.y ∧ p.y < ymax)) ∧
      ((xmin < p.x ∧ p.x < xmax ∧ ymin < p.y ∧ p.y < ymax) →
        isPointInPolygon p poly = true) ∧
      ((p.x < xmin ∨ xmax < p.x ∨ p.y < ymin ∨ ymax < p.y) →
        isPointInPolygon p poly = false) := by
  have key : isPointInPolygon p poly = true ↔
      (xmin ≤ p.x ∧ p.x < xmax ∧ ymin ≤ p.y ∧ p.y < ymax) := by
    rw [← rectangle_parity xmin xmax ymin ymax hx hy p]
    simp only [rectangleCycles, List.mem_cons, List.mem_singleton, List.not_mem_nil,
      or_false] at hpoly
    rcases hpoly with h | h | h | h | h | h | h | h <;> subst h <;>
      rw [isPointInPolygon_four] <;>
      simp only [crossesRay_level, crossesRay_upright, Bool.xor_false, Bool.false_xor]
    all_goals
      generalize decide (ymin > p.y) = a
      generalize decide (ymax > p.y) = b
      generalize decide (p.x < xmin) = c
      generalize decide (p.x < xmax) = d
      cases a <;> cases b <;> cases c <;> cases d <;> exact Iff.rfl
  refine ⟨key, ?_, ?_⟩
  · intro h
    exact key.mpr ⟨le_of_lt h.1, h.2.1, le_of_lt h.2.2.1, h.2.2.2⟩
  · intro h
    rw [← Bool.not_eq_true, key]
    rintro ⟨h1, h2, h3, h4⟩
    rcases h with h | h | h | h <;> linarith

/-- The scenario of claim C16: the footprint of the demonstration driver is the rectangle
`[-0.5, 0.5] x [-0.3, 0.3]` listed from its corner `(0.5, 0.3)`; the point `(0, 0)` is
classified inside, and the point `(0.5, 0)` of its right edge outside. -/
theorem isPointInPolygon_rectangle_witness :
    (footprint : List (Vec2 ℚ)) ∈ rectangleCycles (-1 / 2 : ℚ) (1 / 2) (-3 / 10) (3 / 10) ∧
      isPointInPolygon (⟨0, 0⟩ : Vec2 ℚ) footprint = true ∧
      isPointInPolygon (⟨1 / 2, 0⟩ : Vec2 ℚ) footprint = false := by
  have hm : (footprint : List (Vec2 ℚ)) ∈
      rectangleCycles (-1 / 2 : ℚ) (1 / 2) (-3 / 10) (3 / 10) := by
    simp [rectangleCycles, footprint]
  refine ⟨hm, ?_, ?_⟩
  · exact (isPointInPolygon_rectangle (-1 / 2 : ℚ) (1 / 2) (-3 / 10) (3 / 10) (by norm_num)
      (by norm_num) footprint hm ⟨0, 0⟩).1.mpr (by norm_num)
  · rw [← Bool.not_eq_true,
      (isPointInPolygon_rectangle (-1 / 2 : ℚ) (1 / 2) (-3 / 10) (3 / 10) (by norm_num)
        (by norm_num) footprint hm ⟨1 / 2, 0⟩).1]
    norm_num

/-! ### Floating point: evaluation of the rounding -/

theorem roundEven_eq (z : K) (n : Int) (h : |z - n| < 1 / 2) : roundEven z = n := by
  rw [abs_lt] at h
  unfold roundEven
  rcases le_or_lt (n : K) z with hz | hz
  · have hf : ⌊z⌋ = n := by
      rw [Int.floor_eq_iff]; constructor <;> linarith
    rw [hf, if_pos (by linarith)]
  · have hf : ⌊z⌋ = n - 1 := by
      rw [Int.floor_eq_iff]; push_cast; constructor <;> linarith
    rw [hf]; push_cast
    rw [if_neg (by linarith), if_pos (by linarith)]; ring

theorem log_eq_of_bounds (q : K) (e : Int) (h1 : (2 : K) ^ e ≤ q) (h2 : q < (2 : K) ^ (e + 1)) :
    Int.log 2 q = e := by
  have hq : 0 < q := lt_of_lt_of_le (by positivity) h1
  have a : e ≤ Int.log 2 q :=
    (Int.zpow_le_iff_le_log (b := 2) (by norm_num) hq (x := e)).mp (by exact_mod_cast h1)
  have b : Int.log 2 q < e + 1 :=
    (Int.lt_zpow_iff_log_lt (b := 2) (by norm_num) hq (x := e + 1)).mp (by exact_mod_cast h2)
  omega

theorem roundFloat_eq (prec : Nat) (emin : Int) (q : K) (e n : Int) (he : emin ≤ e)
    (h1 : (2 : K) ^ e ≤ |q|) (h2 : |q| < (2 : K) ^ (e + 1))
    (hn : |q / 2 ^ (e - ((prec : Int) - 1)) - n| < 1 / 2) :
    roundFloat prec emin q = (n : K) * 2 ^ (e - ((prec : Int) - 1)) := by
  have hq : q ≠ 0 := by
    intro h; rw [h, abs_zero] at h1
    exact absurd h1 (not_le.mpr (by positivity))
  unfold roundFloat
  rw [if_neg hq]
  simp only
  rw [log_eq_of_bounds |q| e h1 h2, max_eq_left he, roundEven_eq _ n hn]

theorem roundFloat_zero (prec : Nat) (emin : Int) : roundFloat prec emin (0 : K) = 0 := by
  unfold roundFloat
  rw [if_pos rfl]

theorem rnd64_zero : rnd64 (0 : K) = 0 := roundFloat_zero 53 (-1022)

/-- The value of `rnd64` at a positive number `q` with binary exponent `e`: the multiple
`n * 2 ^ (e - 52)` within half a unit of `q`. -/
theorem rnd64_of_pos (q : K) (e n : Int) (he : -1022 ≤ e) (h1 : (2 : K) ^ e ≤ q)
    (h2 : q < (2 : K) ^ (e + 1)) (hlo : (n : K) - 1 / 2 < q / 2 ^ (e - 52))
    (hhi : q / 2 ^ (e - 52) < (n : K) + 1 / 2) : rnd64 q = (n : K) * 2 ^ (e - 52) := by
  have hq : 0 < q := lt_of_lt_of_le (by positivity) h1
  have h := roundFloat_eq 53 (-1022) q e n he (by rwa [abs_of_pos hq]) (by rwa [abs_of_pos hq])
    (by rw [abs_lt]; norm_num; constructor <;> linarith)
  norm_num at h
  exact h

/-- The value of `rnd64` at a negative number. -/
theorem rnd64_of_neg (q : K) (e n : Int) (he : -1022 ≤ e) (h1 : (2 : K) ^ e ≤ -q)
    (h2 : -q < (2 : K) ^ (e + 1)) (hlo : (n : K) - 1 / 2 < q / 2 ^ (e - 52))
    (hhi : q / 2 ^ (e - 52) < (n : K) + 1 / 2) : rnd64 q = (n : K) * 2 ^ (e - 52) := by
  have hq : q < 0 := by
    have : 0 < -q := lt_of_lt_of_le (by positivity) h1
    linarith
  have h := roundFloat_eq 53 (-1022) q e n he (by rwa [abs_of_neg hq]) (by rwa [abs_of_neg hq])
    (by rw [abs_lt]; norm_num; constructor <;> linarith)
  norm_num at h
  exact h

theorem rnd32_of_pos (q : K) (e n : Int) (he : -126 ≤ e) (h1 : (2 : K) ^ e ≤ q)
    (h2 : q < (2 : K) ^ (e + 1)) (hlo : (n : K) - 1 / 2 < q / 2 ^ (e - 23))
    (hhi : q / 2 ^ (e - 23) < (n : K) + 1 / 2) : rnd32 q = (n : K) * 2 ^ (e - 23) := by
  have hq : 0 < q := lt_of_lt_of_le (by positivity) h1
  have h := roundFloat_eq 24 (-126) q e n he (by rwa [abs_of_pos hq]) (by rwa [abs_of_pos hq])
    (by rw [abs_lt]; norm_num; constructor <;> linarith)
  norm_num at h
  exact h

theorem rnd32_of_neg (q : K) (e n : Int) (he : -126 ≤ e) (h1 : (2 : K) ^ e ≤ -q)
    (h2 : -q < (2 : K) ^ (e + 1)) (hlo : (n : K) - 1 / 2 < q / 2 ^ (e - 23))
    (hhi : q / 2 ^ (e - 23) < (n : K) + 1 / 2) : rnd32 q = (n : K) * 2 ^ (e - 23) := by
  have hq : q < 0 := by
    have : 0 < -q := lt_of_lt_of_le (by positivity) h1
    linarith
  have h := roundFloat_eq 24 (-126) q e n he (by rwa [abs_of_neg hq]) (by rwa [abs_of_neg hq])
    (by rw [abs_lt]; norm_num; constructor <;> linarith)
  norm_num at h
  exact h

theorem rnd32_zero : rnd32 (0 : K) = 0 := roundFloat_zero 24 (-126)

theorem roundEven_tie (z : K) (m : Int) (h : z = (m : K) + 1 / 2) :
    roundEven z = if m % 2 = 0 then m else m + 1 := by
  have hf : ⌊z⌋ = m := by
    rw [Int.floor_eq_iff, h]; constructor <;> linarith
  unfold roundEven
  rw [hf, h, if_neg (by norm_num), if_neg (by norm_num)]

/-- The value of `rnd64` at a positive number that lies half-way between two neighbouring
multiples of `2 ^ (e - 52)`: the one with the even multiplier. -/
theorem rnd64_of_pos_tie (q : K) (e m n : Int) (he : -1022 ≤ e) (h1 : (2 : K) ^ e ≤ q)
    (h2 : q < (2 : K) ^ (e + 1)) (hm : q / 2 ^ (e - 52) = (m : K) + 1 / 2)
    (hn : n = if m % 2 = 0 then m else m + 1) : rnd64 q = (n : K) * 2 ^ (e - 52) := by
  have hq : 0 < q := lt_of_lt_of_le (by positivity) h1
  have hq0 : q ≠ 0 := ne_of_gt hq
  unfold rnd64 roundFloat
  rw [if_neg hq0]
  simp only
  have hp : (((53 : Nat) : Int) - 1) = 52 := by norm_num
  rw [abs_of_pos hq, log_eq_of_bounds q e h1 h2, max_eq_left he, hp, roundEven_tie _ m hm, ← hn]

/-- The value of `rnd64` at a negative number that lies half-way between two neighbouring
multiples of `2 ^ (e - 52)`. -/
theorem rnd64_of_neg_tie (q : K) (e m n : Int) (he : -1022 ≤ e) (h1 : (2 : K) ^ e ≤ -q)
    (h2 : -q < (2 : K) ^ (e + 1)) (hm : q / 2 ^ (e - 52) = (m : K) + 1 / 2)
    (hn : n = if m % 2 = 0 then m else m + 1) : rnd64 q = (n : K) * 2 ^ (e - 52) := by
  have hq : q < 0 := by
    have : 0 < -q := lt_of_lt_of_le (by positivity) h1
    linarith
  have hq0 : q ≠ 0 := ne_of_lt hq
  unfold rnd64 roundFloat
  rw [if_neg hq0]
  simp only
  have hp : (((53 : Nat) : Int) - 1) = 52 := by norm_num
  rw [abs_of_neg hq, log_eq_of_bounds (-q) e h1 h2, max_eq_left he, hp, roundEven_tie _ m hm, ← hn]

theorem rnd64_tenth : rnd64 (1 / 10 : K) = 3602879701896397 / 36028797018963968 := by
  rw [rnd64_of_pos (1 / 10 : K) (-4) 7205759403792794 (by norm_num) (by norm_num) (by norm_num)
    (by norm_num) (by norm_num)]
  norm_num

theorem roundEven_bounds (z : K) : ⌊z⌋ ≤ roundEven z ∧ roundEven z ≤ ⌊z⌋ + 1 := by
  unfold roundEven
  split_ifs <;> constructor <;> omega

theorem roundEven_abs_sub_le (z : K) : |(roundEven z : K) - z| ≤ 1 / 2 := by
  have h1 := Int.floor_le z
  have h2 := Int.lt_floor_add_one z
  unfold roundEven
  rw [abs_le]
  split_ifs with a b c
  · constructor <;> linarith
  · push_cast; constructor <;> linarith
  · have : z - ⌊z⌋ = 1 / 2 := le_antisymm (not_lt.mp b) (not_lt.mp a)
    constructor <;> linarith
  · have : z - ⌊z⌋ = 1 / 2 := le_antisymm (not_lt.mp b) (not_lt.mp a)
    push_cast; constructor <;> linarith

theorem roundEven_le_of_le (z : K) (N : Int) (h : z ≤ N) : roundEven z ≤ N := by
  have h1 := Int.floor_le z
  have hf : ⌊z⌋ ≤ N := Int.floor_le_iff.mpr (lt_of_le_of_lt h (by linarith))
  unfold roundEven
  split_ifs with a b c
  · exact hf
  · have hne : (⌊z⌋ : K) < N := by linarith
    have : ⌊z⌋ < N := by exact_mod_cast hne
    omega
  · exact hf
  · have hh : z - ⌊z⌋ = 1 / 2 := le_antisymm (not_lt.mp b) (not_lt.mp a)
    have hne : (⌊z⌋ : K) < N := by linarith
    have : ⌊z⌋ < N := by exact_mod_cast hne
    omega

theorem le_roundEven_of_le (z : K) (N : Int) (h : (N : K) ≤ z) : N ≤ roundEven z :=
  le_trans (Int.le_floor.mpr h) (roundEven_bounds z).1

/-- The form of `roundFloat` at a non-zero number: a binary exponent `e`, at least `emin`,
with `|x| < 2 ^ (e + 1)`, and with `2 ^ e <= |x|` when `e` is above `emin`; the result is
`x`, divided by the unit `2 ^ (e - prec + 1)`, rounded to an integer, times the unit. -/
theorem roundFloat_spec (prec : Nat) (emin : Int) (x : K) (hx : x ≠ 0) :
    ∃ e : Int, emin ≤ e ∧ |x| < (2 : K) ^ (e + 1) ∧ (emin < e → (2 : K) ^ e ≤ |x|) ∧
      roundFloat prec emin x =
        (roundEven (x / 2 ^ (e - ((prec : Int) - 1))) : K) * 2 ^ (e - ((prec : Int) - 1)) := by
  have hpos : 0 < |x| := abs_pos.mpr hx
  have h1 : (2 : K) ^ Int.log 2 |x| ≤ |x| := by
    have := Int.zpow_log_le_self (b := 2) (by norm_num) hpos
    exact_mod_cast this
  have h2 : |x| < (2 : K) ^ (Int.log 2 |x| + 1) := by
    have := Int.lt_zpow_succ_log_self (b := 2) (by norm_num) |x|
    exact_mod_cast this
  refine ⟨max (Int.log 2 |x|) emin, le_max_right _ _, ?_, ?_, ?_⟩
  · refine lt_of_lt_of_le h2 (zpow_le_zpow_right₀ (by norm_num) ?_)
    have := le_max_left (Int.log 2 |x|) emin
    omega
  · intro h
    have : max (Int.log 2 |x|) emin = Int.log 2 |x| := by
      rcases le_total (Int.log 2 |x|) emin with h' | h'
      · rw [max_eq_right h'] at h; exact absurd h (lt_irrefl _)
      · exact max_eq_left h'
    rw [this]
    exact h1
  · unfold roundFloat
    rw [if_neg hx]

/-- The rounding error is at most half a unit in the last place: `2 ^ (-prec)` times
the larger of `|x|` and the least normal number `2 ^ emin`. -/
theorem roundFloat_abs_sub_le (prec : Nat) (emin : Int) (x : K) :
    |roundFloat prec emin x - x| ≤ (2 : K) ^ (-(prec : Int)) * max |x| (2 ^ emin) := by
  by_cases hx : x = 0
  · rw [hx, roundFloat_zero, sub_zero, abs_zero]
    positivity
  obtain ⟨e, he, -, hlo, hr⟩ := roundFloat_spec prec emin x hx
  have hu : (0 : K) < 2 ^ (e - ((prec : Int) - 1)) := by positivity
  have h2e : (2 : K) ^ e ≤ max |x| (2 ^ emin) := by
    rcases eq_or_lt_of_le he with h | h
    · rw [← h]; exact le_max_right _ _
    · exact le_trans (hlo h) (le_max_left _ _)
  have hsplit : (2 : K) ^ (e - ((prec : Int) - 1)) * (1 / 2) = 2 ^ (-(prec : Int)) * 2 ^ e := by
    rw [show e - ((prec : Int) - 1) = -(prec : Int) + e + 1 by ring,
      zpow_add₀ (by norm_num : (2 : K) ≠ 0), zpow_one]
    rw [zpow_add₀ (by norm_num : (2 : K) ≠ 0)]
    ring
  have key : roundFloat prec emin x - x =
      ((roundEven (x / 2 ^ (e - ((prec : Int) - 1))) : K) - x / 2 ^ (e - ((prec : Int) - 1))) *
        2 ^ (e - ((prec : Int) - 1)) := by
    rw [hr]; field_simp
  rw [key, abs_mul, abs_of_pos hu]
  calc |(roundEven (x / 2 ^ (e - ((prec : Int) - 1))) : K) - x / 2 ^ (e - ((prec : Int) - 1))| *
        2 ^ (e - ((prec : Int) - 1))
      ≤ 1 / 2 * 2 ^ (e - ((prec : Int) - 1)) :=
        mul_le_mul_of_nonneg_right (roundEven_abs_sub_le _) (le_of_lt hu)
    _ = 2 ^ (-(prec : Int)) * 2 ^ e := by rw [mul_comm, hsplit]
    _ ≤ 2 ^ (-(prec : Int)) * max |x| (2 ^ emin) :=
        mul_le_mul_of_nonneg_left h2e (by positivity)

theorem roundEven_neg (z : K) : roundEven (-z) = -roundEven z := by
  by_cases ht : z - ⌊z⌋ = 1 / 2
  · have hz : z = (⌊z⌋ : K) + 1 / 2 := by linarith
    have hz2 : -z = ((-(⌊z⌋ + 1) : Int) : K) + 1 / 2 := by
      push_cast; linarith
    rw [roundEven_tie (-z) _ hz2, roundEven_tie z _ hz]
    split_ifs <;> omega
  · have hlt : |z - (roundEven z : K)| < 1 / 2 := by
      have h1 := Int.floor_le z
      have h2 := Int.lt_floor_add_one z
      rw [abs_lt]
      unfold roundEven
      split_ifs with a b c
      · constructor <;> linarith
      · push_cast; constructor <;> linarith
      · exact absurd (le_antisymm (not_lt.mp b) (not_lt.mp a)) ht
      · exact absurd (le_antisymm (not_lt.mp b) (not_lt.mp a)) ht
    apply roundEven_eq
    push_cast
    rw [show -z - -(roundEven z : K) = -(z - (roundEven z : K)) by ring, abs_neg]
    exact hlt

theorem roundFloat_neg (prec : Nat) (emin : Int) (x : K) :
    roundFloat prec emin (-x) = -roundFloat prec emin x := by
  by_cases hx : x = 0
  · rw [hx, neg_zero, roundFloat_zero, neg_zero]
  · unfold roundFloat
    rw [if_neg hx, if_neg (neg_ne_zero.mpr hx)]
    simp only [abs_neg, neg_div, roundEven_neg]
    push_cast
    ring

theorem isFloat_zero (prec : Nat) (emin : Int) : IsFloat prec emin (0 : K) :=
  ⟨0, emin - ((prec : Int) - 1), by simp, by simp, le_refl _⟩

theorem isFloat_neg (prec : Nat) (emin : Int) (b : K) (hb : IsFloat prec emin b) :
    IsFloat prec emin (-b) := by
  obtain ⟨N, k, h1, h2, h3⟩ := hb
  exact ⟨-N, k, by rw [h1]; push_cast; ring, by rwa [abs_neg], h3⟩

/-- Rounding does not pass a value of the format: if `x <= b` and `b` is a value of the
format, the rounded `x` is at most `b`. -/
theorem roundFloat_le_of_le (prec : Nat) (emin : Int) (hp : 1 ≤ prec) (x b : K)
    (hb : IsFloat prec emin b) (h : x ≤ b) : roundFloat prec emin x ≤ b := by
  by_cases hx : x = 0
  · rw [hx, roundFloat_zero]; rw [hx] at h; exact h
  obtain ⟨e, he, hhi, hlo, hr⟩ := roundFloat_spec prec emin x hx
  obtain ⟨N, k, hbN, hN, hk⟩ := hb
  have hu : (0 : K) < 2 ^ (e - ((prec : Int) - 1)) := by positivity
  rw [hr]
  rcases le_or_lt (e - ((prec : Int) - 1)) k with hqk | hqk
  · -- `b` is a multiple of the unit
    obtain ⟨j, hj⟩ := Int.eq_ofNat_of_zero_le (show 0 ≤ k - (e - ((prec : Int) - 1)) by omega)
    have hbm : b = ((N * 2 ^ j : Int) : K) * 2 ^ (e - ((prec : Int) - 1)) := by
      rw [hbN, show k = (j : Int) + (e - ((prec : Int) - 1)) by omega,
        zpow_add₀ (by norm_num : (2 : K) ≠ 0)]
      push_cast
      rw [zpow_natCast]
      ring
    have hdiv : x / 2 ^ (e - ((prec : Int) - 1)) ≤ ((N * 2 ^ j : Int) : K) := by
      rw [div_le_iff₀ hu, ← hbm]; exact h
    have := roundEven_le_of_le _ _ hdiv
    rw [hbm]
    exact mul_le_mul_of_nonneg_right (by exact_mod_cast this) (le_of_lt hu)
  · -- `b` is smaller in size than the binade of `x`
    have hemin : emin < e := by omega
    have hxe := hlo hemin
    have hNK : |(N : K)| < 2 ^ prec := by
      have : ((|N| : Int) : K) < ((2 ^ prec : Int) : K) := by exact_mod_cast hN
      simpa using this
    have hbabs : |b| < (2 : K) ^ e := by
      rw [hbN, abs_mul, abs_of_pos (show (0 : K) < 2 ^ k by positivity)]
      have h2k : (2 : K) ^ k ≤ 2 ^ (e - (prec : Int)) :=
        zpow_le_zpow_right₀ (by norm_num) (by omega)
      calc |(N : K)| * 2 ^ k ≤ |(N : K)| * 2 ^ (e - (prec : Int)) :=
            mul_le_mul_of_nonneg_left h2k (abs_nonneg _)
        _ < 2 ^ prec * 2 ^ (e - (prec : Int)) :=
            mul_lt_mul_of_pos_right hNK (by positivity)
        _ = 2 ^ e := by
            rw [← zpow_natCast, ← zpow_add₀ (by norm_num : (2 : K) ≠ 0)]
            congr 1; ring
    have hxneg : x < 0 := by
      by_contra hc
      rw [abs_of_nonneg (not_lt.mp hc)] at hxe
      have := le_abs_self b
      linarith
    rw [abs_of_neg hxneg] at hxe
    obtain ⟨pp, hpp⟩ := Nat.exists_eq_add_of_le hp
    have hdiv : x / 2 ^ (e - ((prec : Int) - 1)) ≤ ((-(2 ^ pp) : Int) : K) := by
      rw [div_le_iff₀ hu]
      push_cast
      have : (2 : K) ^ pp * 2 ^ (e - ((prec : Int) - 1)) = 2 ^ e := by
        rw [← zpow_natCast, ← zpow_add₀ (by norm_num : (2 : K) ≠ 0)]
        congr 1; rw [hpp]; push_cast; ring
      linarith
    have := roundEven_le_of_le _ _ hdiv
    have h3 : ((roundEven (x / 2 ^ (e - ((prec : Int) - 1))) : Int) : K) ≤
        ((-(2 ^ pp) : Int) : K) := by exact_mod_cast this
    have h4 : ((-(2 ^ pp) : Int) : K) * 2 ^ (e - ((prec : Int) - 1)) = -(2 ^ e) := by
      push_cast
      have : (2 : K) ^ pp * 2 ^ (e - ((prec : Int) - 1)) = 2 ^ e := by
        rw [← zpow_natCast, ← zpow_add₀ (by norm_num : (2 : K) ≠ 0)]
        congr 1; rw [hpp]; push_cast; ring
      linarith
    have h5 := mul_le_mul_of_nonneg_right h3 (le_of_lt hu)
    rw [h4] at h5
    have := neg_abs_le b
    linarith

theorem le_roundFloat_of_le (prec : Nat) (emin : Int) (hp : 1 ≤ prec) (x b : K)
    (hb : IsFloat prec emin b) (h : b ≤ x) : b ≤ roundFloat prec emin x := by
  have := roundFloat_le_of_le prec emin hp (-x) (-b) (isFloat_neg prec emin b hb)
    (neg_le_neg h)
  rw [roundFloat_neg] at this
  linarith

/-- A value of the format is left unchanged by the rounding. -/
theorem roundFloat_of_isFloat (prec : Nat) (emin : Int) (hp : 1 ≤ prec) (b : K)
    (hb : IsFloat prec emin b) : roundFloat prec emin b = b :=
  le_antisymm (roundFloat_le_of_le prec emin hp b b hb (le_refl b))
    (le_roundFloat_of_le prec emin hp b b hb (le_refl b))
/-- Rounding keeps the sign: a number that is not negative is rounded to one. -/
theorem rnd64_nonneg (x : K) (h : 0 ≤ x) : 0 ≤ rnd64 x :=
  le_roundFloat_of_le 53 (-1022) (by norm_num) x 0 (isFloat_zero 53 (-1022)) h

theorem rnd32_nonneg (x : K) (h : 0 ≤ x) : 0 ≤ rnd32 x :=
  le_roundFloat_of_le 24 (-126) (by norm_num) x 0 (isFloat_zero 24 (-126)) h

/-! ### Floating point: the values of the format -/

theorem isFloat_two_zpow (prec : Nat) (emin : Int) (hp : 1 ≤ prec) (k : Int)
    (hk : emin - ((prec : Int) - 1) ≤ k) : IsFloat prec emin ((2 : K) ^ k) :=
  ⟨1, k, by simp, by
    rw [abs_one]
    exact one_lt_pow₀ (by norm_num) (by omega), hk⟩

/-- The result of `roundFloat` is a value of the format. -/
theorem isFloat_roundFloat (prec : Nat) (emin : Int) (hp : 1 ≤ prec) (x : K) :
    IsFloat prec emin (roundFloat prec emin x) := by
  by_cases hx : x = 0
  · rw [hx, roundFloat_zero]; exact isFloat_zero prec emin
  obtain ⟨e, he, hhi, -, hr⟩ := roundFloat_spec prec emin x hx
  have hu : (0 : K) < 2 ^ (e - ((prec : Int) - 1)) := by positivity
  have hpow : (2 : K) ^ (e + 1) = 2 ^ prec * 2 ^ (e - ((prec : Int) - 1)) := by
    rw [← zpow_natCast, ← zpow_add₀ (by norm_num : (2 : K) ≠ 0)]
    congr 1; ring
  obtain ⟨hx1, hx2⟩ := abs_lt.mp hhi
  have h1 : x / 2 ^ (e - ((prec : Int) - 1)) ≤ ((2 ^ prec : Int) : K) := by
    rw [div_le_iff₀ hu]; push_cast; rw [← hpow]; exact le_of_lt hx2
  have h2 : ((-(2 ^ prec) : Int) : K) ≤ x / 2 ^ (e - ((prec : Int) - 1)) := by
    rw [le_div_iff₀ hu]; push_cast; rw [neg_mul, ← hpow]; exact le_of_lt hx1
  have r1 := roundEven_le_of_le _ _ h1
  have r2 := le_roundEven_of_le _ _ h2
  rw [hr]
  generalize roundEven (x / 2 ^ (e - ((prec : Int) - 1))) = R at r1 r2
  obtain ⟨pp, hpp⟩ := Nat.exists_eq_add_of_le hp
  have htwo : (2 : Int) ^ prec = 2 * 2 ^ pp := by rw [hpp, pow_add, pow_one]
  have hppos : (0 : Int) < 2 ^ pp := by positivity
  rcases eq_or_lt_of_le r1 with h | h
  · refine ⟨2 ^ pp, e - ((prec : Int) - 1) + 1, ?_, ?_, by omega⟩
    · rw [h, zpow_add₀ (by norm_num : (2 : K) ≠ 0), zpow_one, htwo]
      push_cast; ring
    · rw [abs_of_pos hppos, htwo]; omega
  rcases eq_or_lt_of_le r2 with h' | h'
  · refine ⟨-(2 ^ pp), e - ((prec : Int) - 1) + 1, ?_, ?_, by omega⟩
    · rw [← h', zpow_add₀ (by norm_num : (2 : K) ≠ 0), zpow_one]
      push_cast
      rw [show (2 : K) ^ prec = 2 * 2 ^ pp by rw [hpp, pow_add, pow_one, mul_comm]]
      ring
    · rw [abs_neg, abs_of_pos hppos, htwo]; omega
  · exact ⟨R, e - ((prec : Int) - 1), rfl, abs_lt.mpr ⟨h', h⟩, by omega⟩

/-- A negative value of the format is at most minus the least positive value. -/
theorem isFloat_neg_le (prec : Nat) (emin : Int) (b : K) (hb : IsFloat prec emin b)
    (hneg : b < 0) : b ≤ -(2 : K) ^ (emin - ((prec : Int) - 1)) := by
  obtain ⟨N, k, h1, -, h3⟩ := hb
  have hk : (0 : K) < 2 ^ k := by positivity
  have hN : N < 0 := by
    by_contra hc
    have : (0 : K) ≤ (N : K) := by exact_mod_cast not_lt.mp hc
    rw [h1] at hneg
    exact absurd hneg (not_lt.mpr (mul_nonneg this (le_of_lt hk)))
  have hN1 : (N : K) ≤ -1 := by
    have : N ≤ -1 := by omega
    exact_mod_cast this
  have hpw : (2 : K) ^ (emin - ((prec : Int) - 1)) ≤ 2 ^ k :=
    zpow_le_zpow_right₀ (by norm_num) h3
  rw [h1]
  nlinarith

/-- The fractional part of a non-negative value of the format is a value of the format, at
most `1 - 2 ^ (-prec)`. -/
theorem isFloat_fract (prec : Nat) (emin : Int) (hp : 1 ≤ prec) (u : K)
    (hu : IsFloat prec emin u) (h0 : 0 ≤ u) :
    IsFloat prec emin (u - ⌊u⌋) ∧ u - ⌊u⌋ ≤ 1 - (2 : K) ^ (-(prec : Int)) := by
  obtain ⟨N, k, h1, h2, h3⟩ := hu
  have hk : (0 : K) < 2 ^ k := by positivity
  have hpp : (2 : K) ^ (-(prec : Int)) ≤ 1 / 2 := by
    have : (2 : K) ^ (-(prec : Int)) ≤ 2 ^ (-(1 : Int)) :=
      zpow_le_zpow_right₀ (by norm_num) (by omega)
    simpa using this
  have hN0 : 0 ≤ N := by
    by_contra hc
    have : (N : K) < 0 := by exact_mod_cast not_le.mp hc
    rw [h1] at h0
    exact absurd h0 (not_le.mpr (mul_neg_of_neg_of_pos this hk))
  rcases le_or_lt 0 k with hk0 | hk0
  · -- `u` is an integer
    obtain ⟨j, hj⟩ := Int.eq_ofNat_of_zero_le hk0
    have hint : u = ((N * 2 ^ j : Int) : K) := by
      rw [h1, hj, zpow_natCast]; push_cast; ring
    rw [hint, Int.floor_intCast, sub_self]
    exact ⟨isFloat_zero prec emin, by linarith⟩
  · obtain ⟨j, hj⟩ := Int.eq_ofNat_of_zero_le (show 0 ≤ -k by omega)
    have hkj : k = -(j : Int) := by omega
    have hd : (2 : K) ^ k = 1 / ((2 ^ j : Int) : K) := by
      rw [hkj, zpow_neg, zpow_natCast]; push_cast; rw [one_div]
    have hdpos : (0 : Int) < 2 ^ j := by positivity
    have hdK : (0 : K) < ((2 ^ j : Int) : K) := by exact_mod_cast hdpos
    have hdiv := Int.emod_add_ediv N (2 ^ j)
    have hm0 := Int.emod_nonneg N (ne_of_gt hdpos)
    have hm1 := Int.emod_lt_of_pos N hdpos
    have hmN : N % 2 ^ j ≤ N := by
      have := mul_nonneg (le_of_lt hdpos) (Int.ediv_nonneg hN0 (le_of_lt hdpos))
      linarith
    have hsplit : u = ((N / 2 ^ j : Int) : K) + ((N % 2 ^ j : Int) : K) * 2 ^ k := by
      rw [h1, hd]
      have : (N : K) = ((N % 2 ^ j : Int) : K) + ((2 ^ j : Int) : K) * ((N / 2 ^ j : Int) : K) := by
        exact_mod_cast hdiv.symm
      rw [this]
      field_simp
      ring
    have hfr0 : (0 : K) ≤ ((N % 2 ^ j : Int) : K) * 2 ^ k :=
      mul_nonneg (by exact_mod_cast hm0) (le_of_lt hk)
    have hfr1 : ((N % 2 ^ j : Int) : K) * 2 ^ k ≤ 1 - 2 ^ k := by
      rw [hd]
      have : ((N % 2 ^ j : Int) : K) ≤ ((2 ^ j : Int) : K) - 1 := by
        have : N % 2 ^ j ≤ 2 ^ j - 1 := by omega
        exact_mod_cast this
      rw [mul_one_div, div_le_iff₀ hdK]
      have e : (1 - 1 / ((2 ^ j : Int) : K)) * ((2 ^ j : Int) : K) = ((2 ^ j : Int) : K) - 1 := by
        field_simp
      rw [e]
      exact this
    have hfloor : ⌊u⌋ = N / 2 ^ j := by
      rw [Int.floor_eq_iff, hsplit]
      constructor <;> linarith
    have hfrac : u - ⌊u⌋ = ((N % 2 ^ j : Int) : K) * 2 ^ k := by
      rw [hfloor]
      nth_rewrite 1 [hsplit]
      ring
    rw [hfrac]
    refine ⟨⟨N % 2 ^ j, k, rfl, ?_, h3⟩, ?_⟩
    · rw [abs_of_nonneg hm0]
      rw [abs_of_nonneg hN0] at h2
      omega
    · rcases le_or_lt (-(prec : Int)) k with hc | hc
      · have : (2 : K) ^ (-(prec : Int)) ≤ 2 ^ k := zpow_le_zpow_right₀ (by norm_num) hc
        linarith
      · have hNK : (N : K) < 2 ^ prec := by
          rw [abs_of_nonneg hN0] at h2
          exact_mod_cast h2
        have hmK : ((N % 2 ^ j : Int) : K) ≤ (N : K) := by exact_mod_cast hmN
        have h2k : (2 : K) ^ k ≤ 2 ^ (-(prec : Int) - 1) :=
          zpow_le_zpow_right₀ (by norm_num) (by omega)
        have hhalf : (2 : K) ^ prec * 2 ^ (-(prec : Int) - 1) = 1 / 2 := by
          rw [← zpow_natCast, ← zpow_add₀ (by norm_num : (2 : K) ≠ 0)]
          rw [show (prec : Int) + (-(prec : Int) - 1) = -1 by ring]
          norm_num
        have hNn : (0 : K) ≤ (N : K) := by exact_mod_cast hN0
        calc ((N % 2 ^ j : Int) : K) * 2 ^ k ≤ (N : K) * 2 ^ k :=
              mul_le_mul_of_nonneg_right hmK (le_of_lt hk)
          _ ≤ (N : K) * 2 ^ (-(prec : Int) - 1) := mul_le_mul_of_nonneg_left h2k hNn
          _ ≤ 2 ^ prec * 2 ^ (-(prec : Int) - 1) :=
              mul_le_mul_of_nonneg_right (le_of_lt hNK) (by positivity)
          _ = 1 / 2 := hhalf
          _ ≤ 1 - 2 ^ (-(prec : Int)) := by linarith

/-! ### Initialisation in floating point -/

theorem initializeFl_id (m : RcEsdfMap K) (w h r : K) :
    initializeFl (fun x => x) m w h r = initializeMap m w h r := rfl

theorem initializeFl_of_fit (fl : K → K) (m : RcEsdfMap K) (w h r : K) (hr : r ≠ 0)
    (hx : INT_MIN ≤ ⌈fl (w / r)⌉ ∧ ⌈fl (w / r)⌉ ≤ INT_MAX)
    (hy : INT_MIN ≤ ⌈fl (h / r)⌉ ∧ ⌈fl (h / r)⌉ ≤ INT_MAX)
    (hp : 0 ≤ ⌈fl (w / r)⌉ * ⌈fl (h / r)⌉ ∧ ⌈fl (w / r)⌉ * ⌈fl (h / r)⌉ ≤ INT_MAX) :
    initializeFl fl m w h r = some
      { resolution_ := r
        width_m_ := w
        height_m_ := h
        origin_x_ := fl (-w / 2)
        origin_y_ := fl (-h / 2)
        grid_size_x_ := ⌈fl (w / r)⌉
        grid_size_y_ := ⌈fl (h / r)⌉
        data_ := vectorResize m.data_ (⌈fl (w / r)⌉ * ⌈fl (h / r)⌉).toNat 0 } := by
  have hmin : INT_MIN ≤ 0 := by decide
  have t1 : toInt ⌈fl (w / r)⌉ = some ⌈fl (w / r)⌉ := toInt_of_mem hx.1 hx.2
  have t2 : toInt ⌈fl (h / r)⌉ = some ⌈fl (h / r)⌉ := toInt_of_mem hy.1 hy.2
  have t3 : toInt (⌈fl (w / r)⌉ * ⌈fl (h / r)⌉) = some (⌈fl (w / r)⌉ * ⌈fl (h / r)⌉) :=
    toInt_of_mem (le_trans hmin hp.1) hp.2
  unfold initializeFl
  rw [if_neg hr]
  simp only [t1, t2, t3]
  rw [if_neg (not_lt.mpr hp.1)]

/-- Claim C6, as amended.  Let `qw` and `qh` be the `double` quotients
`width / resolution` and `height / resolution`, as the division rounds them.  For a
positive `resolution`, when `qw` and `qh` are positive and the cell count
`ceil(qw) * ceil(qh)` fits the type `int`, `initialize` on a newly constructed map (empty
vector) yields a grid with `cols = ceil(qw)` and `rows = ceil(qh)`, both at least 1, the
given resolution, the origin `(-width/2, -height/2)` as computed, and a vector of exactly
`cols * rows` cells that are all `0`. -/
theorem initializeFl_fresh (fl : K → K) (m : RcEsdfMap K) (w h r : K) (hfresh : m.data_ = [])
    (hr : 0 < r) (hqw : 0 < fl (w / r)) (hqh : 0 < fl (h / r))
    (hfit : ⌈fl (w / r)⌉ * ⌈fl (h / r)⌉ ≤ INT_MAX) :
    ∃ g : RcEsdfMap K, initializeFl fl m w h r = some g ∧
      g.grid_size_x_ = ⌈fl (w / r)⌉ ∧ g.grid_size_y_ = ⌈fl (h / r)⌉ ∧
      1 ≤ g.grid_size_x_ ∧ 1 ≤ g.grid_size_y_ ∧
      g.resolution_ = r ∧ g.origin_x_ = fl (-w / 2) ∧ g.origin_y_ = fl (-h / 2) ∧
      (g.data_.length : Int) = g.grid_size_x_ * g.grid_size_y_ ∧
      ∀ a ∈ g.data_, a = 0 := by
  have hx : 1 ≤ ⌈fl (w / r)⌉ := Int.ceil_pos.mpr hqw
  have hy : 1 ≤ ⌈fl (h / r)⌉ := Int.ceil_pos.mpr hqh
  have hxy : ⌈fl (w / r)⌉ ≤ ⌈fl (w / r)⌉ * ⌈fl (h / r)⌉ := by nlinarith
  have hyx : ⌈fl (h / r)⌉ ≤ ⌈fl (w / r)⌉ * ⌈fl (h / r)⌉ := by nlinarith
  have hmin : INT_MIN ≤ 1 := by decide
  have hinit := initializeFl_of_fit fl m w h r (ne_of_gt hr) ⟨by omega, by omega⟩
    ⟨by omega, by omega⟩ ⟨by positivity, hfit⟩
  refine ⟨_, hinit, rfl, rfl, hx, hy, rfl, rfl, rfl, ?_, ?_⟩
  · simp only [length_vectorResize]
    exact Int.toNat_of_nonneg (by positivity)
  · intro a ha
    simp only [hfresh] at ha
    exact mem_vectorResize_nil _ _ _ ha

/-- A check of `initializeFl_fresh` on `initialize(0.9, 0.9, 0.3)` in `double` arithmetic:
the quotient of the two `double` values rounds to `3`, so the grid has 3 x 3 cells, although
the exact quotient of the same two values is above `3` and has ceiling `4`. -/
theorem initializeFl_fresh_witness :
    (∃ g : RcEsdfMap ℚ,
        initializeFl rnd64 (newMap : RcEsdfMap ℚ) (rnd64 (9 / 10)) (rnd64 (9 / 10))
          (rnd64 (3 / 10)) = some g ∧
        g.grid_size_x_ = 3 ∧ g.grid_size_y_ = 3 ∧ g.data_.length = 9 ∧ ∀ a ∈ g.data_, a = 0) ∧
      ⌈(rnd64 (9 / 10) / rnd64 (3 / 10) : ℚ)⌉ = 4 := by
  have hW : rnd64 (9 / 10) = (8106479329266893 / 9007199254740992 : ℚ) := by
    rw [rnd64_of_pos _ (-1) 8106479329266893 (by norm_num) (by norm_num) (by norm_num)
      (by norm_num) (by norm_num)]
    norm_num
  have hR : rnd64 (3 / 10) = (5404319552844595 / 18014398509481984 : ℚ) := by
    rw [rnd64_of_pos _ (-2) 5404319552844595 (by norm_num) (by norm_num) (by norm_num)
      (by norm_num) (by norm_num)]
    norm_num
  have hq : rnd64 (8106479329266893 / 9007199254740992 /
      (5404319552844595 / 18014398509481984)) = (3 : ℚ) := by
    rw [rnd64_of_pos _ 1 6755399441055744 (by norm_num) (by norm_num) (by norm_num)
      (by norm_num) (by norm_num)]
    norm_num
  have hc : ⌈(3 : ℚ)⌉ = 3 := by
    rw [Int.ceil_eq_iff]; norm_num
  rw [hW, hR]
  constructor
  · obtain ⟨g, h1, h2, h3, -, -, -, -, -, h4, h5⟩ :=
      initializeFl_fresh rnd64 (newMap : RcEsdfMap ℚ) (8106479329266893 / 9007199254740992)
        (8106479329266893 / 9007199254740992) (5404319552844595 / 18014398509481984) rfl
        (by norm_num) (by rw [hq]; norm_num) (by rw [hq]; norm_num) (by rw [hq, hc]; decide)
    rw [hq, hc] at h2 h3
    refine ⟨g, h1, h2, h3, ?_, h5⟩
    rw [h2, h3] at h4
    have : (g.data_.length : Int) = 9 := by rw [h4]; norm_num
    exact_mod_cast this
  · rw [Int.ceil_eq_iff]; norm_num

/-- Claim C12, as amended.  `initialize` does not validate its arguments: for every call
with a non-zero resolution in which the ceilings of the `double` quotients
`width / resolution` and `height / resolution` fit the type `int` and their product lies
between `0` and `INT_MAX` (calls with `width <= 0`, `height <= 0` or `resolution < 0`
among them) it returns a grid with these numbers of columns and rows, the origin
`(-width/2, -height/2)` as computed and a vector resized to `cols * rows` cells. -/
theorem initializeFl_unchecked (fl : K → K) (m : RcEsdfMap K) (w h r : K) (hr : r ≠ 0)
    (hx : INT_MIN ≤ ⌈fl (w / r)⌉ ∧ ⌈fl (w / r)⌉ ≤ INT_MAX)
    (hy : INT_MIN ≤ ⌈fl (h / r)⌉ ∧ ⌈fl (h / r)⌉ ≤ INT_MAX)
    (hp : 0 ≤ ⌈fl (w / r)⌉ * ⌈fl (h / r)⌉ ∧ ⌈fl (w / r)⌉ * ⌈fl (h / r)⌉ ≤ INT_MAX) :
    ∃ g : RcEsdfMap K, initializeFl fl m w h r = some g ∧
      g.grid_size_x_ = ⌈fl (w / r)⌉ ∧ g.grid_size_y_ = ⌈fl (h / r)⌉ ∧
      g.resolution_ = r ∧ g.origin_x_ = fl (-w / 2) ∧ g.origin_y_ = fl (-h / 2) ∧
      g.data_ = vectorResize m.data_ (⌈fl (w / r)⌉ * ⌈fl (h / r)⌉).toNat 0 :=
  ⟨_, initializeFl_of_fit fl m w h r hr hx hy hp, rfl, rfl, rfl, rfl, rfl, rfl⟩

/-- A check of `initializeFl_unchecked` on `initialize(-1, -1, 1)` in `double` arithmetic:
a grid of `-1` columns and `-1` rows with one cell. -/
theorem initializeFl_unchecked_witness :
    ∃ g : RcEsdfMap ℚ, initializeFl rnd64 (newMap : RcEsdfMap ℚ) (-1) (-1) 1 = some g ∧
      g.grid_size_x_ = -1 ∧ g.grid_size_y_ = -1 ∧ g.data_.length = 1 := by
  have hm : rnd64 (-1 / 1) = ((-1) : ℚ) := by
    rw [rnd64_of_neg _ 0 (-4503599627370496) (by norm_num) (by norm_num) (by norm_num)
      (by norm_num) (by norm_num)]
    norm_num
  have hc : ⌈(-1 : ℚ)⌉ = -1 := by
    rw [Int.ceil_eq_iff]; norm_num
  obtain ⟨g, h1, h2, h3, -, -, -, h4⟩ :=
    initializeFl_unchecked rnd64 (newMap : RcEsdfMap ℚ) (-1) (-1) 1 (by norm_num)
      (by rw [hm, hc]; decide) (by rw [hm, hc]; decide) (by rw [hm, hc]; decide)
  rw [hm, hc] at h2 h3 h4
  exact ⟨g, h1, h2, h3, by rw [h4, length_vectorResize]; rfl⟩

theorem initializeFl_of_overflow (fl : K → K) (m : RcEsdfMap K) (w h r : K) (hr : r ≠ 0)
    (gx gy : Int) (hx : toInt ⌈fl (w / r)⌉ = some gx) (hy : toInt ⌈fl (h / r)⌉ = some gy)
    (hp : toInt (gx * gy) = none) : initializeFl fl m w h r = none := by
  unfold initializeFl
  rw [if_neg hr]
  simp only [hx, hy, hp]

/-- Claim C6 fails as stated: for the positive inputs `initialize(46341, 46341, 1)` the
product `46341 * 46341` of the two `int` dimensions exceeds `INT_MAX`, and no grid of
`cols * rows` cells results; in exact arithmetic and in `double` arithmetic alike, the
quotient `46341 / 1` being exact. -/
theorem initializeMap_product_overflow :
    (0 : ℚ) < 46341 ∧ (0 : ℚ) < 1 ∧
      initializeMap (newMap : RcEsdfMap ℚ) 46341 46341 1 = none ∧
      initializeFl rnd64 (newMap : RcEsdfMap ℚ) 46341 46341 1 = none := by
  have hc : ⌈(46341 : ℚ) / 1⌉ = 46341 := by
    rw [Int.ceil_eq_iff]; norm_num
  have hq : rnd64 ((46341 : ℚ) / 1) = 46341 := by
    rw [rnd64_of_pos _ 15 6369058542845952 (by norm_num) (by norm_num) (by norm_num)
      (by norm_num) (by norm_num)]
    norm_num
  have hc2 : ⌈(46341 : ℚ)⌉ = 46341 := by
    rw [Int.ceil_eq_iff]; norm_num
  have h1 : toInt (46341 : Int) = some 46341 := by decide
  have h2 : toInt ((46341 : Int) * 46341) = none := by decide
  refine ⟨by norm_num, by norm_num, ?_, ?_⟩
  · unfold initializeMap
    rw [if_neg (by norm_num), hc]
    simp only [h1, h2]
  · have hx : toInt ⌈rnd64 ((46341 : ℚ) / 1)⌉ = some 46341 := by
      rw [hq, hc2]; decide
    exact initializeFl_of_overflow rnd64 _ _ _ _ (by norm_num) 46341 46341 hx hx h2

/-- Claim C12 fails as stated: the call `initialize(0, 10, 1)`, with `width <= 0`, returns
a grid of `0` columns and `10` rows with an empty vector instead of a failure; in exact
arithmetic and in `double` arithmetic alike, the quotients `0 / 1` and `10 / 1` being
exact. -/
theorem initializeMap_zero_width :
    (0 : ℚ) ≤ 0 ∧
      ∃ g : RcEsdfMap ℚ, initializeMap (newMap : RcEsdfMap ℚ) 0 10 1 = some g ∧
        initializeFl rnd64 (newMap : RcEsdfMap ℚ) 0 10 1 = some g ∧
        g.grid_size_x_ = 0 ∧ g.grid_size_y_ = 10 ∧ g.data_ = [] := by
  have hc0 : ⌈(0 : ℚ) / 1⌉ = 0 := by
    rw [Int.ceil_eq_iff]; norm_num
  have hc1 : ⌈(10 : ℚ) / 1⌉ = 10 := by
    rw [Int.ceil_eq_iff]; norm_num
  have hq0 : rnd64 ((0 : ℚ) / 1) = 0 := by
    rw [zero_div, rnd64_zero]
  have hq1 : rnd64 ((10 : ℚ) / 1) = 10 := by
    rw [rnd64_of_pos _ 3 5629499534213120 (by norm_num) (by norm_num) (by norm_num)
      (by norm_num) (by norm_num)]
    norm_num
  have ho0 : rnd64 (-(0 : ℚ) / 2) = -0 / 2 := by
    rw [neg_zero, zero_div, rnd64_zero]
  have ho1 : rnd64 (-(10 : ℚ) / 2) = -10 / 2 := by
    rw [rnd64_of_neg _ 2 (-5629499534213120) (by norm_num) (by norm_num) (by norm_num)
      (by norm_num) (by norm_num)]
    norm_num
  have hd0 : ⌈(0 : ℚ)⌉ = 0 := by
    rw [Int.ceil_eq_iff]; norm_num
  have hd1 : ⌈(10 : ℚ)⌉ = 10 := by
    rw [Int.ceil_eq_iff]; norm_num
  have h1 : toInt (0 : Int) = some 0 := by decide
  have h2 : toInt (10 : Int) = some 10 := by decide
  have h3 : toInt ((0 : Int) * 10) = some 0 := by decide
  refine ⟨le_refl 0, ⟨1, 0, 10, -0 / 2, -10 / 2, 0, 10, []⟩, ?_, ?_, rfl, rfl, rfl⟩
  · unfold initializeMap
    rw [if_neg (by norm_num), hc0, hc1]
    simp only [h1, h2, h3]
    simp [newMap, vectorResize]
  · unfold initializeFl
    rw [if_neg (by norm_num), hq0, hq1, hd0, hd1, ho0, ho1]
    simp only [h1, h2, h3]
    simp [newMap, vectorResize]

/-! ### The query in floating point: the range check -/

theorem queryFl_of_out (fl flf : K → K) (m : RcEsdfMap K) (p : Vec2 K)
    (h : gridUFl fl m p < 0 ∨ gridUFl fl m p ≥ (m.grid_size_x_ : K) - 1 ∨ gridVFl fl m p < 0 ∨
      gridVFl fl m p ≥ (m.grid_size_y_ : K) - 1) :
    queryFl fl flf m p = ⟨false, 0, ⟨0, 0⟩⟩ := by
  unfold queryFl
  simp only [gridUFl, gridVFl] at h
  simp only [Int.cast_sub, Int.cast_one]
  rw [if_pos h]

theorem queryFl_inRange_of_in (fl flf : K → K) (m : RcEsdfMap K) (p : Vec2 K)
    (h : ¬ (gridUFl fl m p < 0 ∨ gridUFl fl m p ≥ (m.grid_size_x_ : K) - 1 ∨
      gridVFl fl m p < 0 ∨ gridVFl fl m p ≥ (m.grid_size_y_ : K) - 1)) :
    (queryFl fl flf m p).inRange = true := by
  unfold queryFl
  simp only [gridUFl, gridVFl] at h
  simp only [Int.cast_sub, Int.cast_one]
  rw [if_neg h]

theorem initializeFl_demo :
    initializeFl rnd64 (newMap : RcEsdfMap K) 10 10 (rnd64 (1 / 10)) = some demoGridFl := by
  have hc : rnd64 (10 / (3602879701896397 / 36028797018963968)) = (100 : K) := by
    rw [rnd64_of_pos _ 6 7036874417766400 (by norm_num) (by norm_num) (by norm_num)
      (by norm_num) (by norm_num)]
    norm_num
  have ho : rnd64 (-10 / 2) = ((-5) : K) := by
    rw [rnd64_of_neg _ 2 (-5629499534213120) (by norm_num) (by norm_num) (by norm_num)
      (by norm_num) (by norm_num)]
    norm_num
  have hce : ⌈(100 : K)⌉ = 100 := by
    rw [Int.ceil_eq_iff]; norm_num
  have h1 : toInt (100 : Int) = some 100 := by decide
  have h2 : toInt ((100 : Int) * 100) = some 10000 := by decide
  unfold initializeFl
  rw [if_neg (by rw [rnd64_tenth]; norm_num)]
  simp only [demoGridFl, rnd64_tenth, hc, ho, hce, h1, h2, newMap]
  rfl

/-- Claim C3, as amended.  With `u` and `v` the values that `query` computes in `double`
arithmetic, for any rounding of the operations: `query` returns `inRange = false` exactly
when `u < 0` or `u >= cols - 1` or `v < 0` or `v >= rows - 1`, and a `false` result
comes with `dist = 0` and `gradient = (0, 0)`. -/
theorem queryFl_out_of_range_iff (fl flf : K → K) (m : RcEsdfMap K) (p : Vec2 K) :
    ((queryFl fl flf m p).inRange = false ↔
        (gridUFl fl m p < 0 ∨ gridUFl fl m p ≥ (m.grid_size_x_ : K) - 1 ∨
          gridVFl fl m p < 0 ∨ gridVFl fl m p ≥ (m.grid_size_y_ : K) - 1)) ∧
      ((queryFl fl flf m p).inRange = false →
        (queryFl fl flf m p).dist = 0 ∧ (queryFl fl flf m p).grad.x = 0 ∧
          (queryFl fl flf m p).grad.y = 0) := by
  have key : (queryFl fl flf m p).inRange = false ↔
      (gridUFl fl m p < 0 ∨ gridUFl fl m p ≥ (m.grid_size_x_ : K) - 1 ∨
        gridVFl fl m p < 0 ∨ gridVFl fl m p ≥ (m.grid_size_y_ : K) - 1) := by
    constructor
    · intro h
      by_contra hc
      rw [queryFl_inRange_of_in fl flf m p hc] at h
      exact Bool.noConfusion h
    · intro h
      rw [queryFl_of_out fl flf m p h]
  refine ⟨key, ?_⟩
  intro h
  rw [queryFl_of_out fl flf m p (key.mp h)]
  exact ⟨rfl, rfl, rfl⟩

/-- The scenario of claim C3 in `double` arithmetic: on the grid of
`initialize(10, 10, 0.1)` the query at `(5, 5)` computes `u = 99.5`, which is not below
`cols - 1 = 99`, and is out of range, with zero distance and gradient. -/
theorem queryFl_out_of_range_iff_witness :
    initializeFl rnd64 (newMap : RcEsdfMap ℚ) 10 10 (rnd64 (1 / 10)) = some demoGridFl ∧
      gridUFl rnd64 (demoGridFl : RcEsdfMap ℚ) ⟨5, 5⟩ = 199 / 2 ∧
      (queryFl rnd64 rnd32 (demoGridFl : RcEsdfMap ℚ) ⟨5, 5⟩).inRange = false ∧
      (queryFl rnd64 rnd32 (demoGridFl : RcEsdfMap ℚ) ⟨5, 5⟩).dist = 0 ∧
      (queryFl rnd64 rnd32 (demoGridFl : RcEsdfMap ℚ) ⟨5, 5⟩).grad.x = 0 ∧
      (queryFl rnd64 rnd32 (demoGridFl : RcEsdfMap ℚ) ⟨5, 5⟩).grad.y = 0 := by
  have h5 : rnd64 (5 - (-5)) = (10 : ℚ) := by
    rw [rnd64_of_pos _ 3 5629499534213120 (by norm_num) (by norm_num) (by norm_num)
      (by norm_num) (by norm_num)]
    norm_num
  have hd : rnd64 (10 / (3602879701896397 / 36028797018963968)) = (100 : ℚ) := by
    rw [rnd64_of_pos _ 6 7036874417766400 (by norm_num) (by norm_num) (by norm_num)
      (by norm_num) (by norm_num)]
    norm_num
  have h6 : rnd64 (100 - 1 / 2) = (199 / 2 : ℚ) := by
    rw [rnd64_of_pos _ 6 7001690045677568 (by norm_num) (by norm_num) (by norm_num)
      (by norm_num) (by norm_num)]
    norm_num
  have hu : gridUFl rnd64 (demoGridFl : RcEsdfMap ℚ) ⟨5, 5⟩ = 199 / 2 := by
    simp only [gridUFl, demoGridFl, rnd64_tenth, h5, hd, h6]
  have h := queryFl_out_of_range_iff rnd64 rnd32 (demoGridFl : RcEsdfMap ℚ) ⟨5, 5⟩
  have hout : (queryFl rnd64 rnd32 (demoGridFl : RcEsdfMap ℚ) ⟨5, 5⟩).inRange = false := by
    rw [h.1, hu]
    right; left
    norm_num [demoGridFl]
  exact ⟨initializeFl_demo, hu, hout, h.2 hout⟩

/-- Claim C3 fails as stated: after `initialize(4, 4, 0.1)` the point `(1.95, 0)` lies in
the window `[ox + 0.5 r, ox + (cols - 0.5) r) x [oy + 0.5 r, oy + (rows - 0.5) r)`, and
the exact values `u = (x - ox)/r - 0.5` and `v` pass the range check, but `query`
computes `u = 39 = cols - 1` in `double` arithmetic and returns `inRange = false`. -/
theorem query_window_border_rounding :
    ∃ g : RcEsdfMap ℚ, initializeFl rnd64 (newMap : RcEsdfMap ℚ) 4 4 (rnd64 (1 / 10)) = some g ∧
      g.grid_size_x_ = 40 ∧ g.grid_size_y_ = 40 ∧ 0 < g.resolution_ ∧
      gridUFl rnd64 g ⟨rnd64 (39 / 20), 0⟩ = 39 ∧
      (queryFl rnd64 rnd32 g ⟨rnd64 (39 / 20), 0⟩).inRange = false ∧
      ((g.origin_x_ + 1 / 2 * g.resolution_ ≤ rnd64 (39 / 20) ∧
          rnd64 (39 / 20) < g.origin_x_ + ((g.grid_size_x_ : ℚ) - 1 / 2) * g.resolution_) ∧
        (g.origin_y_ + 1 / 2 * g.resolution_ ≤ 0 ∧
          0 < g.origin_y_ + ((g.grid_size_y_ : ℚ) - 1 / 2) * g.resolution_)) ∧
      passesRangeCheck g ⟨rnd64 (39 / 20), 0⟩ := by
  have hX : rnd64 (39 / 20) = (8782019273372467 / 4503599627370496 : ℚ) := by
    rw [rnd64_of_pos _ 0 8782019273372467 (by norm_num) (by norm_num) (by norm_num)
      (by norm_num) (by norm_num)]
    norm_num
  have hc : rnd64 (4 / (3602879701896397 / 36028797018963968)) = (40 : ℚ) := by
    rw [rnd64_of_pos _ 5 5629499534213120 (by norm_num) (by norm_num) (by norm_num)
      (by norm_num) (by norm_num)]
    norm_num
  have ho : rnd64 (-4 / 2) = ((-2) : ℚ) := by
    rw [rnd64_of_neg _ 1 (-4503599627370496) (by norm_num) (by norm_num) (by norm_num)
      (by norm_num) (by norm_num)]
    norm_num
  have h1 : rnd64 (8782019273372467 / 4503599627370496 - (-2)) =
      (4447304632028365 / 1125899906842624 : ℚ) := by
    rw [rnd64_of_pos_tie _ 1 8894609264056729 8894609264056730 (by norm_num) (by norm_num)
      (by norm_num) (by norm_num) (by decide)]
    norm_num
  have h2 : rnd64 (4447304632028365 / 1125899906842624 /
      (3602879701896397 / 36028797018963968)) = (79 / 2 : ℚ) := by
    rw [rnd64_of_pos _ 5 5559130790035456 (by norm_num) (by norm_num) (by norm_num)
      (by norm_num) (by norm_num)]
    norm_num
  have h3 : rnd64 (79 / 2 - 1 / 2) = (39 : ℚ) := by
    rw [rnd64_of_pos _ 5 5488762045857792 (by norm_num) (by norm_num) (by norm_num)
      (by norm_num) (by norm_num)]
    norm_num
  have hce : ⌈(40 : ℚ)⌉ = 40 := by
    rw [Int.ceil_eq_iff]; norm_num
  have t1 : toInt (40 : Int) = some 40 := by decide
  have t2 : toInt ((40 : Int) * 40) = some 1600 := by decide
  have hinit : initializeFl rnd64 (newMap : RcEsdfMap ℚ) 4 4 (rnd64 (1 / 10)) = some
      { resolution_ := 3602879701896397 / 36028797018963968
        width_m_ := 4
        height_m_ := 4
        origin_x_ := -2
        origin_y_ := -2
        grid_size_x_ := 40
        grid_size_y_ := 40
        data_ := vectorResize [] 1600 0 } := by
    unfold initializeFl
    rw [if_neg (by rw [rnd64_tenth]; norm_num)]
    simp only [rnd64_tenth, hc, ho, hce, t1, t2]
    simp [newMap]
  have hu : gridUFl rnd64 (⟨3602879701896397 / 36028797018963968, 4, 4, -2, -2, 40, 40,
      vectorResize [] 1600 0⟩ : RcEsdfMap ℚ) ⟨rnd64 (39 / 20), 0⟩ = 39 := by
    simp only [gridUFl, hX, h1, h2, h3]
  refine ⟨_, hinit, rfl, rfl, by norm_num, hu, ?_, ?_, ?_⟩
  · rw [queryFl_of_out rnd64 rnd32 _ _ (Or.inr (Or.inl (by rw [hu]; norm_num)))]
  · rw [hX]
    norm_num
  · rw [hX]
    unfold passesRangeCheck gridU gridV
    norm_num

/-! ### The query in floating point: the interpolation -/

theorem queryFl_of_in (fl flf : K → K) (m : RcEsdfMap K) (p : Vec2 K)
    (h : ¬ (gridUFl fl m p < 0 ∨ gridUFl fl m p ≥ (m.grid_size_x_ : K) - 1 ∨
      gridVFl fl m p < 0 ∨ gridVFl fl m p ≥ (m.grid_size_y_ : K) - 1)) :
    queryFl fl flf m p =
      ⟨true,
        fl (fl (fl (fl (fl (fl (1 - fl (gridUFl fl m p - (⌊gridUFl fl m p⌋ : K))) *
                  fl (1 - fl (gridVFl fl m p - (⌊gridVFl fl m p⌋ : K)))) *
                getRaw m ⌊gridUFl fl m p⌋ ⌊gridVFl fl m p⌋) +
              fl (fl (fl (gridUFl fl m p - (⌊gridUFl fl m p⌋ : K)) *
                  fl (1 - fl (gridVFl fl m p - (⌊gridVFl fl m p⌋ : K)))) *
                getRaw m (⌊gridUFl fl m p⌋ + 1) ⌊gridVFl fl m p⌋)) +
            fl (fl (fl (1 - fl (gridUFl fl m p - (⌊gridUFl fl m p⌋ : K))) *
                fl (gridVFl fl m p - (⌊gridVFl fl m p⌋ : K))) *
              getRaw m ⌊gridUFl fl m p⌋ (⌊gridVFl fl m p⌋ + 1))) +
          fl (fl (fl (gridUFl fl m p - (⌊gridUFl fl m p⌋ : K)) *
              fl (gridVFl fl m p - (⌊gridVFl fl m p⌋ : K))) *
            getRaw m (⌊gridUFl fl m p⌋ + 1) (⌊gridVFl fl m p⌋ + 1))),
        ⟨fl (fl (fl (fl (1 - fl (gridVFl fl m p - (⌊gridVFl fl m p⌋ : K))) *
                flf (getRaw m (⌊gridUFl fl m p⌋ + 1) ⌊gridVFl fl m p⌋ -
                  getRaw m ⌊gridUFl fl m p⌋ ⌊gridVFl fl m p⌋)) +
              fl (fl (gridVFl fl m p - (⌊gridVFl fl m p⌋ : K)) *
                flf (getRaw m (⌊gridUFl fl m p⌋ + 1) (⌊gridVFl fl m p⌋ + 1) -
                  getRaw m ⌊gridUFl fl m p⌋ (⌊gridVFl fl m p⌋ + 1)))) / m.resolution_),
          fl (fl (fl (fl (1 - fl (gridUFl fl m p - (⌊gridUFl fl m p⌋ : K))) *
                flf (getRaw m ⌊gridUFl fl m p⌋ (⌊gridVFl fl m p⌋ + 1) -
                  getRaw m ⌊gridUFl fl m p⌋ ⌊gridVFl fl m p⌋)) +
              fl (fl (gridUFl fl m p - (⌊gridUFl fl m p⌋ : K)) *
                flf (getRaw m (⌊gridUFl fl m p⌋ + 1) (⌊gridVFl fl m p⌋ + 1) -
                  getRaw m (⌊gridUFl fl m p⌋ + 1) ⌊gridVFl fl m p⌋))) / m.resolution_)⟩⟩ := by
  unfold queryFl
  simp only [gridUFl, gridVFl] at h
  simp only [Int.cast_sub, Int.cast_one]
  rw [if_neg h]
  simp only [gridUFl, gridVFl]

/-- With the identity for both roundings `queryFl` is `query`. -/
theorem queryFl_id (m : RcEsdfMap K) (p : Vec2 K) :
    queryFl (fun x => x) (fun x => x) m p = query m p := rfl

/-- With the identity for the rounding `cellCenterFl` is `cellCenter`. -/
theorem cellCenterFl_id (m : RcEsdfMap K) (x y : Int) :
    cellCenterFl (fun x => x) m x y = cellCenter m x y := rfl

theorem initializeMap_coarse :
    initializeMap (newMap : RcEsdfMap K) 8 8 1 = some coarseGrid := by
  have hc : ⌈(8 : K) / 1⌉ = 8 := by
    rw [Int.ceil_eq_iff]; norm_num
  have h1 : toInt (8 : Int) = some 8 := by decide
  have h2 : toInt ((8 : Int) * 8) = some 64 := by decide
  unfold initializeMap
  rw [if_neg (by norm_num), hc]
  simp only [h1, h2]
  simp [coarseGrid, newMap]

/-- The call `initialize(8.0, 8.0, 1.0)` in `double` arithmetic: the quotients `8 / 1` and the
origin `-8 / 2` are computed without rounding. -/
theorem initializeFl_coarse :
    initializeFl rnd64 (newMap : RcEsdfMap K) 8 8 1 = some coarseGrid := by
  have hq : rnd64 ((8 : K) / 1) = 8 := by
    rw [rnd64_of_pos _ 3 4503599627370496 (by norm_num) (by norm_num) (by norm_num)
      (by norm_num) (by norm_num)]
    norm_num
  have ho : rnd64 (-(8 : K) / 2) = -8 / 2 := by
    rw [rnd64_of_neg _ 2 (-4503599627370496) (by norm_num) (by norm_num) (by norm_num)
      (by norm_num) (by norm_num)]
    norm_num
  have hc : ⌈(8 : K)⌉ = 8 := by
    rw [Int.ceil_eq_iff]; norm_num
  have h1 : toInt (8 : Int) = some 8 := by decide
  have h2 : toInt ((8 : Int) * 8) = some 64 := by decide
  unfold initializeFl
  rw [if_neg (by norm_num), hq, hc, ho]
  simp only [h1, h2]
  simp [coarseGrid, newMap]

theorem initialised_coarseGrid : Initialised (coarseGrid : RcEsdfMap K) := by
  refine ⟨by norm_num [coarseGrid], by norm_num [coarseGrid], by norm_num [coarseGrid], ?_⟩
  simp only [coarseGrid, length_vectorResize]
  norm_num

theorem cellCenter_coarseGrid (x y : Int) :
    cellCenter (coarseGrid : RcEsdfMap K) x y =
      ⟨-8 / 2 + ((x : K) + 1 / 2) * 1, -8 / 2 + ((y : K) + 1 / 2) * 1⟩ := rfl

theorem minDistSq_coarse_0m :
    minDistSq (⟨-7 / 2, -1 / 2⟩ : Vec2 K) squareFootprint = 25 / 4 := by
  norm_num [minDistSq, squareFootprint, List.range_succ, pointToSegmentDistSq, Vec2.sub,
    Vec2.add, Vec2.scale, Vec2.dot, Vec2.squaredNorm, DBL_MAX]

theorem minDistSq_coarse_0p :
    minDistSq (⟨-7 / 2, 1 / 2⟩ : Vec2 K) squareFootprint = 25 / 4 := by
  norm_num [minDistSq, squareFootprint, List.range_succ, pointToSegmentDistSq, Vec2.sub,
    Vec2.add, Vec2.scale, Vec2.dot, Vec2.squaredNorm, DBL_MAX]

theorem minDistSq_coarse_1m :
    minDistSq (⟨-5 / 2, -1 / 2⟩ : Vec2 K) squareFootprint = 9 / 4 := by
  norm_num [minDistSq, squareFootprint, List.range_succ, pointToSegmentDistSq, Vec2.sub,
    Vec2.add, Vec2.scale, Vec2.dot, Vec2.squaredNorm, DBL_MAX]

theorem minDistSq_coarse_1p :
    minDistSq (⟨-5 / 2, 1 / 2⟩ : Vec2 K) squareFootprint = 9 / 4 := by
  norm_num [minDistSq, squareFootprint, List.range_succ, pointToSegmentDistSq, Vec2.sub,
    Vec2.add, Vec2.scale, Vec2.dot, Vec2.squaredNorm, DBL_MAX]

theorem isPointInPolygon_coarse_0m :
    isPointInPolygon (⟨-7 / 2, -1 / 2⟩ : Vec2 K) squareFootprint = false := by
  norm_num [isPointInPolygon, crossingStep, squareFootprint, List.range_succ]

theorem isPointInPolygon_coarse_0p :
    isPointInPolygon (⟨-7 / 2, 1 / 2⟩ : Vec2 K) squareFootprint = false := by
  norm_num [isPointInPolygon, crossingStep, squareFootprint, List.range_succ]

theorem isPointInPolygon_coarse_1m :
    isPointInPolygon (⟨-5 / 2, -1 / 2⟩ : Vec2 K) squareFootprint = false := by
  norm_num [isPointInPolygon, crossingStep, squareFootprint, List.range_succ]

theorem isPointInPolygon_coarse_1p :
    isPointInPolygon (⟨-5 / 2, 1 / 2⟩ : Vec2 K) squareFootprint = false := by
  norm_num [isPointInPolygon, crossingStep, squareFootprint, List.range_succ]

/-- The four cells at the left border of the grid, level with the square: the columns 0 and 1
hold `sqrt(25/4)` and `sqrt(9/4)`, the distances `2.5` and `1.5` to the left side. -/
theorem getRaw_coarse (sqrt : K → K) (x y : Int) (hx : x = 0 ∨ x = 1) (hy : y = 3 ∨ y = 4) :
    getRaw (generateFromPolygon sqrt (coarseGrid : RcEsdfMap K) squareFootprint) x y =
      if x = 0 then sqrt (25 / 4) else sqrt (9 / 4) := by
  rw [getRaw_generateFromPolygon sqrt coarseGrid squareFootprint initialised_coarseGrid.2.2.2 x y
    (by omega) (by simp only [coarseGrid]; omega) (by omega) (by simp only [coarseGrid]; omega)]
  unfold cellValue
  simp only [cellCenter_coarseGrid]
  rcases hx with rfl | rfl <;> rcases hy with rfl | rfl
  · rw [show (⟨-8 / 2 + (((0 : Int) : K) + 1 / 2) * 1, -8 / 2 + (((3 : Int) : K) + 1 / 2) * 1⟩ :
      Vec2 K) = ⟨-7 / 2, -1 / 2⟩ by congr 1 <;> norm_num,
      minDistSq_coarse_0m, isPointInPolygon_coarse_0m]
    simp
  · rw [show (⟨-8 / 2 + (((0 : Int) : K) + 1 / 2) * 1, -8 / 2 + (((4 : Int) : K) + 1 / 2) * 1⟩ :
      Vec2 K) = ⟨-7 / 2, 1 / 2⟩ by congr 1 <;> norm_num,
      minDistSq_coarse_0p, isPointInPolygon_coarse_0p]
    simp
  · rw [show (⟨-8 / 2 + (((1 : Int) : K) + 1 / 2) * 1, -8 / 2 + (((3 : Int) : K) + 1 / 2) * 1⟩ :
      Vec2 K) = ⟨-5 / 2, -1 / 2⟩ by congr 1 <;> norm_num,
      minDistSq_coarse_1m, isPointInPolygon_coarse_1m]
    simp
  · rw [show (⟨-8 / 2 + (((1 : Int) : K) + 1 / 2) * 1, -8 / 2 + (((4 : Int) : K) + 1 / 2) * 1⟩ :
      Vec2 K) = ⟨-5 / 2, 1 / 2⟩ by congr 1 <;> norm_num,
      minDistSq_coarse_1p, isPointInPolygon_coarse_1p]
    simp

theorem sqrt_coarse_values :
    Real.sqrt (25 / 4) = 5 / 2 ∧ Real.sqrt (9 / 4) = 3 / 2 := by
  constructor
  · rw [show (25 / 4 : ℝ) = (5 / 2) ^ 2 by norm_num]
    exact Real.sqrt_sq (by norm_num)
  · rw [show (9 / 4 : ℝ) = (3 / 2) ^ 2 by norm_num]
    exact Real.sqrt_sq (by norm_num)

/-- The result of the query at `(-3.5 + a, 0)` for `0 <= a < 1`, between the first two
columns of the grid, level with the square. -/
theorem query_coarse (sqrt : K → K) (a : K) (ha0 : 0 ≤ a) (ha1 : a < 1) :
    query (generateFromPolygon sqrt (coarseGrid : RcEsdfMap K) squareFootprint)
        ⟨-7 / 2 + a, 0⟩ =
      ⟨true, (1 - a) * sqrt (25 / 4) + a * sqrt (9 / 4), ⟨sqrt (9 / 4) - sqrt (25 / 4), 0⟩⟩ := by
  have hu : gridU (generateFromPolygon sqrt (coarseGrid : RcEsdfMap K) squareFootprint)
      ⟨-7 / 2 + a, 0⟩ = a := by
    simp only [gridU, generateFromPolygon, coarseGrid]
    ring
  have hv : gridV (generateFromPolygon sqrt (coarseGrid : RcEsdfMap K) squareFootprint)
      ⟨-7 / 2 + a, 0⟩ = 7 / 2 := by
    simp only [gridV, generateFromPolygon, coarseGrid]
    norm_num
  have hf0 : ⌊a⌋ = 0 := by
    rw [Int.floor_eq_iff]; constructor <;> [simpa using ha0; simpa using ha1]
  have hf : ⌊(7 / 2 : K)⌋ = 3 := by
    rw [Int.floor_eq_iff]; norm_num
  have hin : passesRangeCheck (generateFromPolygon sqrt (coarseGrid : RcEsdfMap K)
      squareFootprint) ⟨-7 / 2 + a, 0⟩ := by
    unfold passesRangeCheck
    rw [hu, hv]
    simp only [generateFromPolygon, coarseGrid]
    norm_num
    constructor <;> linarith
  rw [query_of_in _ _ hin, hu, hv, hf0, hf]
  have e : (3 : Int) + 1 = 4 := rfl
  have e0 : (0 : Int) + 1 = 1 := rfl
  rw [e, e0, getRaw_coarse sqrt 0 3 (Or.inl rfl) (Or.inl rfl),
    getRaw_coarse sqrt 1 3 (Or.inr rfl) (Or.inl rfl),
    getRaw_coarse sqrt 0 4 (Or.inl rfl) (Or.inr rfl),
    getRaw_coarse sqrt 1 4 (Or.inr rfl) (Or.inr rfl)]
  simp only [generateFromPolygon, coarseGrid]
  congr 1
  · norm_num; ring
  · congr 1
    · norm_num; ring
    · norm_num

/-! ### The construction with `float` cells -/

/-- With the identity for the narrowing `generateFromPolygonFl` is `generateFromPolygon`. -/
theorem generateFromPolygonFl_id (sqrt : K → K) (m : RcEsdfMap K) (polygon : List (Vec2 K)) :
    generateFromPolygonFl (fun x => x) sqrt m polygon = generateFromPolygon sqrt m polygon := rfl

/-- After `generateFromPolygonFl` every cell `(x, y)` of the grid holds the narrowed value
computed for it by the loop body, provided the vector has `cols * rows` cells. -/
theorem stored_generateFromPolygonFl (flf sqrt : K → K) (m : RcEsdfMap K)
    (polygon : List (Vec2 K))
    (hlen : (m.data_.length : Int) = m.grid_size_x_ * m.grid_size_y_) (x y : Int)
    (hx0 : 0 ≤ x) (hx1 : x < m.grid_size_x_) (hy0 : 0 ≤ y) (hy1 : y < m.grid_size_y_) :
    stored (generateFromPolygonFl flf sqrt m polygon) x y =
      some (flf (cellValue sqrt m polygon x y)) := by
  obtain ⟨c, hc⟩ := Int.eq_ofNat_of_zero_le (show 0 ≤ m.grid_size_x_ by omega)
  obtain ⟨r, hr⟩ := Int.eq_ofNat_of_zero_le (show 0 ≤ m.grid_size_y_ by omega)
  obtain ⟨a, ha⟩ := Int.eq_ofNat_of_zero_le hx0
  obtain ⟨b, hb⟩ := Int.eq_ofNat_of_zero_le hy0
  subst ha hb
  have hac : a < c := by omega
  have hbr : b < r := by omega
  have hfun : (fun (data : List K) (y : Nat) =>
      (List.range m.grid_size_x_.toNat).foldl
        (fun (data : List K) (x : Nat) => data.set (((y : Int) * m.grid_size_x_ + (x : Int)).toNat)
          (cellValueFl flf sqrt m polygon (x : Int) (y : Int))) data) =
      (fun d y => (List.range c).foldl
        (fun d x => d.set (y * c + x) (cellValueFl flf sqrt m polygon (x : Nat) (y : Nat))) d) := by
    funext data y
    rw [hc]
    rfl
  have hlt : b * c + a < m.data_.length := by
    have h1 : ((m.data_.length : Nat) : Int) = (c : Int) * (r : Int) := by rw [hlen, hc, hr]
    have h2 : m.data_.length = c * r := by exact_mod_cast h1
    rw [h2]
    have : (b + 1) * c ≤ r * c := Nat.mul_le_mul_right c hbr
    rw [Nat.add_mul] at this
    rw [Nat.mul_comm c r]
    omega
  unfold stored generateFromPolygonFl
  simp only
  rw [hfun, hr, hc]
  have hidx : ((b : Int) * (c : Int) + (a : Int)).toNat = b * c + a := by
    have : ((b : Int) * (c : Int) + (a : Int)) = ((b * c + a : Nat) : Int) := by push_cast; ring
    rw [this, Int.toNat_ofNat]
  rw [hidx, Int.toNat_ofNat]
  exact getElem?_foldl_rows c (fun y x => cellValueFl flf sqrt m polygon (x : Nat) (y : Nat)) r
    m.data_ a b hac hbr hlt

theorem isFloat_FLT_MAX_32 : IsFloat 24 (-126) (FLT_MAX : ℝ) :=
  ⟨2 ^ 24 - 1, 104, by norm_num [FLT_MAX], by norm_num, by norm_num⟩

theorem isFloat_FLT_MAX_64 : IsFloat 53 (-1022) (FLT_MAX : ℝ) :=
  ⟨2 ^ 24 - 1, 104, by norm_num [FLT_MAX], by norm_num, by norm_num⟩

theorem rnd64_error (D : ℝ) :
    |rnd64 D - D| ≤ (2 : ℝ) ^ (-(53 : Int)) * (|D| + 2 ^ (-(1022 : Int))) := by
  have h := roundFloat_abs_sub_le 53 (-1022) D
  have hm : max |D| ((2 : ℝ) ^ (-(1022 : Int))) ≤ |D| + 2 ^ (-(1022 : Int)) :=
    max_le (by linarith [show (0 : ℝ) < 2 ^ (-(1022 : Int)) by positivity])
      (by linarith [abs_nonneg D])
  exact le_trans h (mul_le_mul_of_nonneg_left hm (by positivity))

theorem rnd32_error (c : ℝ) :
    |rnd32 c - c| ≤ (2 : ℝ) ^ (-(24 : Int)) * (|c| + 2 ^ (-(126 : Int))) := by
  have h := roundFloat_abs_sub_le 24 (-126) c
  have hm : max |c| ((2 : ℝ) ^ (-(126 : Int))) ≤ |c| + 2 ^ (-(126 : Int)) :=
    max_le (by linarith [show (0 : ℝ) < 2 ^ (-(126 : Int)) by positivity])
      (by linarith [abs_nonneg c])
  exact le_trans h (mul_le_mul_of_nonneg_left hm (by positivity))

/-- The error of a value `c`, itself within the `double` rounding error of `t`, after the
narrowing to `float`, in terms of the narrowed value `s`. -/
theorem narrow_error (t c : ℝ)
    (hc : |c - t| ≤ (2 : ℝ) ^ (-(53 : Int)) * (|t| + 2 ^ (-(1022 : Int)))) :
    |rnd32 c - t| ≤ (2 : ℝ) ^ (-(22 : Int)) * |rnd32 c| + 2 ^ (-(148 : Int)) := by
  have h32 := rnd32_error c
  have e1 : (2 : ℝ) ^ (-(53 : Int)) = 1 / 9007199254740992 := by norm_num
  have e2 : (2 : ℝ) ^ (-(24 : Int)) = 1 / 16777216 := by norm_num
  have e3 : (2 : ℝ) ^ (-(22 : Int)) = 1 / 4194304 := by norm_num
  have p1 : (0 : ℝ) < 2 ^ (-(1022 : Int)) := by positivity
  have p2 : (0 : ℝ) < 2 ^ (-(126 : Int)) := by positivity
  have q1 : (2 : ℝ) ^ (-(1022 : Int)) ≤ 2 ^ (-(126 : Int)) :=
    zpow_le_zpow_right₀ (by norm_num) (by norm_num)
  have q2 : (2 : ℝ) ^ (-(148 : Int)) = 2 ^ (-(126 : Int)) * (1 / 4194304) := by
    rw [show (-(148 : Int)) = -(126 : Int) + -(22 : Int) by norm_num,
      zpow_add₀ (by norm_num : (2 : ℝ) ≠ 0)]
    norm_num
  rw [e1] at hc
  rw [e2] at h32
  rw [e3, q2]
  have a1 : |c| ≤ |t| + |c - t| := by
    have := abs_add (t) (c - t)
    rw [show t + (c - t) = c by ring] at this
    exact this
  have a2 : |rnd32 c - t| ≤ |rnd32 c - c| + |c - t| := by
    have := abs_add (rnd32 c - c) (c - t)
    rw [show rnd32 c - c + (c - t) = rnd32 c - t by ring] at this
    exact this
  have a3 : |t| ≤ |rnd32 c| + |rnd32 c - t| := by
    have := abs_add (rnd32 c) (t - rnd32 c)
    rw [show rnd32 c + (t - rnd32 c) = t by ring, abs_sub_comm t (rnd32 c)] at this
    exact this
  have n1 := abs_nonneg t
  have n2 := abs_nonneg c
  have n3 := abs_nonneg (rnd32 c)
  linarith

theorem rnd64_sqrt (a : ℝ) (e n : Int) (he : -1022 ≤ e) (hn : 1 ≤ n)
    (h1 : ((2 : ℝ) ^ e) ^ 2 ≤ a) (h2 : a < ((2 : ℝ) ^ (e + 1)) ^ 2)
    (hlo : (((n : ℝ) - 1 / 2) * 2 ^ (e - 52)) ^ 2 < a)
    (hhi : a < (((n : ℝ) + 1 / 2) * 2 ^ (e - 52)) ^ 2) :
    rnd64 (Real.sqrt a) = (n : ℝ) * 2 ^ (e - 52) := by
  have hu : (0 : ℝ) < 2 ^ (e - 52) := by positivity
  have hn1 : (1 : ℝ) ≤ (n : ℝ) := by exact_mod_cast hn
  apply rnd64_of_pos _ e n he
  · exact (Real.le_sqrt' (by positivity)).mpr h1
  · exact (Real.sqrt_lt' (by positivity)).mpr h2
  · rw [lt_div_iff₀ hu]
    exact (Real.lt_sqrt (mul_nonneg (by linarith) (le_of_lt hu))).mpr hlo
  · rw [div_lt_iff₀ hu]
    exact (Real.sqrt_lt' (by positivity)).mpr hhi

/-- The value stored in a `float` cell: its distance from the signed distance of the cell
centre, and its size when `min_dist` is at most `FLT_MAX`. -/
theorem cellValueFl_error (m : RcEsdfMap ℝ) (poly : List (Vec2 ℝ)) (x y : Int)
    (hfit : Real.sqrt (minDistSq (cellCenter m x y) poly) ≤ FLT_MAX) :
    |cellValueFl rnd32 (fun t => rnd64 (Real.sqrt t)) m poly x y| ≤ FLT_MAX ∧
      |cellValueFl rnd32 (fun t => rnd64 (Real.sqrt t)) m poly x y -
          signedDist Real.sqrt (cellCenter m x y) poly| ≤
        (2 : ℝ) ^ (-(22 : Int)) * |cellValueFl rnd32 (fun t => rnd64 (Real.sqrt t)) m poly x y| +
          2 ^ (-(148 : Int)) := by
  have hD := Real.sqrt_nonneg (minDistSq (cellCenter m x y) poly)
  have e64 := rnd64_error (Real.sqrt (minDistSq (cellCenter m x y) poly))
  have hup : rnd64 (Real.sqrt (minDistSq (cellCenter m x y) poly)) ≤ FLT_MAX :=
    roundFloat_le_of_le 53 (-1022) (by norm_num) _ _ isFloat_FLT_MAX_64 hfit
  have hlo : 0 ≤ rnd64 (Real.sqrt (minDistSq (cellCenter m x y) poly)) :=
    le_roundFloat_of_le 53 (-1022) (by norm_num) _ _
      (isFloat_zero 53 (-1022)) hD
  have hF : (0 : ℝ) ≤ FLT_MAX := by norm_num [FLT_MAX]
  have size : ∀ c : ℝ, -FLT_MAX ≤ c → c ≤ FLT_MAX → |rnd32 c| ≤ FLT_MAX := by
    intro c h1 h2
    rw [abs_le]
    exact ⟨le_roundFloat_of_le 24 (-126) (by norm_num) _ _
        (isFloat_neg 24 (-126) _ isFloat_FLT_MAX_32) h1,
      roundFloat_le_of_le 24 (-126) (by norm_num) _ _ isFloat_FLT_MAX_32 h2⟩
  unfold cellValueFl cellValue signedDist
  simp only
  split_ifs with hin
  · refine ⟨size _ (by linarith) (by linarith), narrow_error _ _ ?_⟩
    rw [show -rnd64 (Real.sqrt (minDistSq (cellCenter m x y) poly)) -
        -Real.sqrt (minDistSq (cellCenter m x y) poly) =
        -(rnd64 (Real.sqrt (minDistSq (cellCenter m x y) poly)) -
          Real.sqrt (minDistSq (cellCenter m x y) poly)) by ring, abs_neg, abs_neg]
    exact e64
  · exact ⟨size _ (by linarith) (by linarith), narrow_error _ _ e64⟩

/-- Claim C9, as amended.  On an initialised grid, after `generateFromPolygon` on any
polygon, the `float` values stored in two cells whose indices differ by at most 1 in `x`
and at most 1 in `y`, and whose `min_dist` is at most `FLT_MAX`, are at most `FLT_MAX` in
size and differ by at most `resolution * sqrt(2)` plus the rounding of the two values,
`2^(-22) * (|v1| + |v2|) + 2^(-147)`.  The square root is rounded to `double` and the
result narrowed to `float`; the distances themselves are exact. -/
theorem adjacent_cells_continuity (m : RcEsdfMap ℝ) (poly : List (Vec2 ℝ))
    (hinit : Initialised m) (x1 y1 x2 y2 : Int)
    (hx1 : 0 ≤ x1 ∧ x1 < m.grid_size_x_) (hy1 : 0 ≤ y1 ∧ y1 < m.grid_size_y_)
    (hx2 : 0 ≤ x2 ∧ x2 < m.grid_size_x_) (hy2 : 0 ≤ y2 ∧ y2 < m.grid_size_y_)
    (hx : |x1 - x2| ≤ 1) (hy : |y1 - y2| ≤ 1)
    (hfit1 : Real.sqrt (minDistSq (cellCenter m x1 y1) poly) ≤ FLT_MAX)
    (hfit2 : Real.sqrt (minDistSq (cellCenter m x2 y2) poly) ≤ FLT_MAX) :
    ∃ v1 v2 : ℝ,
      stored (generateFromPolygonFl rnd32 (fun t => rnd64 (Real.sqrt t)) m poly) x1 y1 =
        some v1 ∧
      stored (generateFromPolygonFl rnd32 (fun t => rnd64 (Real.sqrt t)) m poly) x2 y2 =
        some v2 ∧
      |v1| ≤ FLT_MAX ∧ |v2| ≤ FLT_MAX ∧
      |v1 - v2| ≤ m.resolution_ * Real.sqrt 2 + (2 : ℝ) ^ (-(22 : Int)) * (|v1| + |v2|) +
        2 ^ (-(147 : Int)) := by
  obtain ⟨s1, d1⟩ := cellValueFl_error m poly x1 y1 hfit1
  obtain ⟨s2, d2⟩ := cellValueFl_error m poly x2 y2 hfit2
  refine ⟨cellValueFl rnd32 (fun t => rnd64 (Real.sqrt t)) m poly x1 y1,
    cellValueFl rnd32 (fun t => rnd64 (Real.sqrt t)) m poly x2 y2,
    stored_generateFromPolygonFl _ _ m poly hinit.2.2.2 x1 y1 hx1.1 hx1.2 hy1.1 hy1.2,
    stored_generateFromPolygonFl _ _ m poly hinit.2.2.2 x2 y2 hx2.1 hx2.2 hy2.1 hy2.2,
    s1, s2, ?_⟩
  have hl := le_trans (signedDist_lipschitz (cellCenter m x1 y1) (cellCenter m x2 y2) poly)
    (norm_cellCenter_sub_le m (le_of_lt hinit.1) x1 y1 x2 y2 hx hy)
  generalize cellValueFl rnd32 (fun t => rnd64 (Real.sqrt t)) m poly x1 y1 = v1 at d1 ⊢
  generalize cellValueFl rnd32 (fun t => rnd64 (Real.sqrt t)) m poly x2 y2 = v2 at d2 ⊢
  generalize signedDist Real.sqrt (cellCenter m x1 y1) poly = t1 at d1 hl
  generalize signedDist Real.sqrt (cellCenter m x2 y2) poly = t2 at d2 hl
  have q : (2 : ℝ) ^ (-(147 : Int)) = 2 ^ (-(148 : Int)) + 2 ^ (-(148 : Int)) := by
    rw [show (-(147 : Int)) = -(148 : Int) + 1 by norm_num,
      zpow_add₀ (by norm_num : (2 : ℝ) ≠ 0)]
    ring
  rw [q]
  have tri : |v1 - v2| ≤ |v1 - t1| + |t1 - t2| + |v2 - t2| := by
    have a := abs_add (v1 - t1) (t1 - t2)
    have b := abs_add (v1 - t1 + (t1 - t2)) (t2 - v2)
    rw [show v1 - t1 + (t1 - t2) + (t2 - v2) = v1 - v2 by ring, abs_sub_comm t2 v2] at b
    linarith
  linarith

theorem minDistSq_coarse_corner0 :
    minDistSq (⟨-7 / 2, -7 / 2⟩ : Vec2 K) squareFootprint = 25 / 2 := by
  norm_num [minDistSq, squareFootprint, List.range_succ, pointToSegmentDistSq, Vec2.sub,
    Vec2.add, Vec2.scale, Vec2.dot, Vec2.squaredNorm, DBL_MAX]

theorem minDistSq_coarse_corner1 :
    minDistSq (⟨-5 / 2, -5 / 2⟩ : Vec2 K) squareFootprint = 9 / 2 := by
  norm_num [minDistSq, squareFootprint, List.range_succ, pointToSegmentDistSq, Vec2.sub,
    Vec2.add, Vec2.scale, Vec2.dot, Vec2.squaredNorm, DBL_MAX]

theorem isPointInPolygon_coarse_corner0 :
    isPointInPolygon (⟨-7 / 2, -7 / 2⟩ : Vec2 K) squareFootprint = false := by
  norm_num [isPointInPolygon, crossingStep, squareFootprint, List.range_succ]

theorem isPointInPolygon_coarse_corner1 :
    isPointInPolygon (⟨-5 / 2, -5 / 2⟩ : Vec2 K) squareFootprint = false := by
  norm_num [isPointInPolygon, crossingStep, squareFootprint, List.range_succ]

theorem cellCenter_coarse_corner0 :
    cellCenter (coarseGrid : RcEsdfMap K) 0 0 = ⟨-7 / 2, -7 / 2⟩ := by
  rw [cellCenter_coarseGrid]
  congr 1 <;> norm_num

theorem cellCenter_coarse_corner1 :
    cellCenter (coarseGrid : RcEsdfMap K) 1 1 = ⟨-5 / 2, -5 / 2⟩ := by
  rw [cellCenter_coarseGrid]
  congr 1 <;> norm_num

/-- The `float` values of the cells `(0, 0)` and `(1, 1)` of the grid of
`initialize(8, 8, 1)` after `generateFromPolygon` on the square footprint: the square roots
of `12.5` and `4.5`, rounded to `double` and narrowed to `float`. -/
theorem stored_coarse_corner :
    stored (generateFromPolygonFl rnd32 (fun t => rnd64 (Real.sqrt t))
        (coarseGrid : RcEsdfMap ℝ) squareFootprint) 0 0 = some (926819 / 262144) ∧
      stored (generateFromPolygonFl rnd32 (fun t => rnd64 (Real.sqrt t))
        (coarseGrid : RcEsdfMap ℝ) squareFootprint) 1 1 = some (4448731 / 2097152) := by
  have r0 : rnd64 (Real.sqrt (25 / 2)) = (124395540479019 / 35184372088832 : ℝ) := by
    rw [rnd64_sqrt _ 1 7961314590657216 (by norm_num) (by norm_num) (by norm_num)
      (by norm_num) (by norm_num) (by norm_num)]
    norm_num
  have r1 : rnd64 (Real.sqrt (9 / 2)) = (4776788754394329 / 2251799813685248 : ℝ) := by
    rw [rnd64_sqrt _ 1 4776788754394329 (by norm_num) (by norm_num) (by norm_num)
      (by norm_num) (by norm_num) (by norm_num)]
    norm_num
  have n0 : rnd32 (124395540479019 / 35184372088832) = (926819 / 262144 : ℝ) := by
    rw [rnd32_of_pos _ 1 14829104 (by norm_num) (by norm_num) (by norm_num) (by norm_num)
      (by norm_num)]
    norm_num
  have n1 : rnd32 (4776788754394329 / 2251799813685248) = (4448731 / 2097152 : ℝ) := by
    rw [rnd32_of_pos _ 1 8897462 (by norm_num) (by norm_num) (by norm_num) (by norm_num)
      (by norm_num)]
    norm_num
  constructor
  · rw [stored_generateFromPolygonFl _ _ _ _ initialised_coarseGrid.2.2.2 0 0 (le_refl 0)
      (by norm_num [coarseGrid]) (le_refl 0) (by norm_num [coarseGrid])]
    unfold cellValue
    simp only [cellCenter_coarse_corner0, minDistSq_coarse_corner0,
      isPointInPolygon_coarse_corner0, r0]
    simpa using n0
  · rw [stored_generateFromPolygonFl _ _ _ _ initialised_coarseGrid.2.2.2 1 1 (by norm_num)
      (by norm_num [coarseGrid]) (by norm_num) (by norm_num [coarseGrid])]
    unfold cellValue
    simp only [cellCenter_coarse_corner1, minDistSq_coarse_corner1,
      isPointInPolygon_coarse_corner1, r1]
    simpa using n1

/-- A check of `adjacent_cells_continuity` on the grid of `initialize(8, 8, 1)` with the
square footprint, on the diagonal neighbours `(0, 0)` and `(1, 1)`. -/
theorem adjacent_cells_continuity_witness :
    ∃ v1 v2 : ℝ,
      stored (generateFromPolygonFl rnd32 (fun t => rnd64 (Real.sqrt t))
        (coarseGrid : RcEsdfMap ℝ) squareFootprint) 0 0 = some v1 ∧
      stored (generateFromPolygonFl rnd32 (fun t => rnd64 (Real.sqrt t))
        (coarseGrid : RcEsdfMap ℝ) squareFootprint) 1 1 = some v2 ∧
      |v1| ≤ FLT_MAX ∧ |v2| ≤ FLT_MAX ∧
      |v1 - v2| ≤ (coarseGrid : RcEsdfMap ℝ).resolution_ * Real.sqrt 2 +
        (2 : ℝ) ^ (-(22 : Int)) * (|v1| + |v2|) + 2 ^ (-(147 : Int)) := by
  apply adjacent_cells_continuity (coarseGrid : RcEsdfMap ℝ) squareFootprint
    initialised_coarseGrid 0 0 1 1
    ⟨by norm_num, by norm_num [coarseGrid]⟩ ⟨by norm_num, by norm_num [coarseGrid]⟩
    ⟨by norm_num, by norm_num [coarseGrid]⟩ ⟨by norm_num, by norm_num [coarseGrid]⟩
    (by norm_num) (by norm_num)
  · rw [cellCenter_coarse_corner0, minDistSq_coarse_corner0,
      Real.sqrt_le_left (by norm_num [FLT_MAX])]
    norm_num [FLT_MAX]
  · rw [cellCenter_coarse_corner1, minDistSq_coarse_corner1,
      Real.sqrt_le_left (by norm_num [FLT_MAX])]
    norm_num [FLT_MAX]

/-- Claim C9 fails as stated: on the grid of `initialize(8, 8, 1)`, after
`generateFromPolygon` on the square footprint, the diagonal neighbours `(0, 0)` and `(1, 1)`
have the exact distances `sqrt(12.5)` and `sqrt(4.5)` to the corner `(-1, -1)`, which
differ by `sqrt(2)`; the `float` cells hold `3.535533905029297` and `2.1213202476501465`,
which differ by more than `resolution * sqrt(2) = sqrt(2)`. -/
theorem adjacent_cells_float_gap :
    ∃ v1 v2 : ℝ,
      stored (generateFromPolygonFl rnd32 (fun t => rnd64 (Real.sqrt t))
        (coarseGrid : RcEsdfMap ℝ) squareFootprint) 0 0 = some v1 ∧
      stored (generateFromPolygonFl rnd32 (fun t => rnd64 (Real.sqrt t))
        (coarseGrid : RcEsdfMap ℝ) squareFootprint) 1 1 = some v2 ∧
      v1 = 926819 / 262144 ∧ v2 = 4448731 / 2097152 ∧
      (coarseGrid : RcEsdfMap ℝ).resolution_ * Real.sqrt 2 < |v1 - v2| := by
  refine ⟨_, _, stored_coarse_corner.1, stored_coarse_corner.2, rfl, rfl, ?_⟩
  have h : Real.sqrt 2 < 2965821 / 2097152 := by
    rw [Real.sqrt_lt' (by norm_num)]
    norm_num
  rw [show (coarseGrid : RcEsdfMap ℝ).resolution_ = 1 from rfl, one_mul,
    show ((926819 : ℝ) / 262144 - 4448731 / 2097152) = 2965821 / 2097152 by norm_num,
    abs_of_pos (by norm_num)]
  exact h

/-! ### The interpolation in `double` arithmetic -/

/-- The error of a `double` operation: relative `2^(-53)`, or absolute `2^(-1075)` in the
subnormal range. -/
theorem rnd64_err (x : K) :
    |rnd64 x - x| ≤ 1 / 9007199254740992 * |x| + (2 : K) ^ (-(1075 : Int)) := by
  have h := roundFloat_abs_sub_le 53 (-1022) x
  have e1 : (2 : K) ^ (-((53 : Nat) : Int)) = 1 / 9007199254740992 := by norm_num
  have e2 : (2 : K) ^ (-(1075 : Int)) = 1 / 9007199254740992 * 2 ^ (-(1022 : Int)) := by
    rw [show (-(1075 : Int)) = -(53 : Int) + -(1022 : Int) by norm_num,
      zpow_add₀ (by norm_num : (2 : K) ≠ 0)]
    norm_num
  have hm : max |x| ((2 : K) ^ (-(1022 : Int))) ≤ |x| + 2 ^ (-(1022 : Int)) :=
    max_le (by linarith [show (0 : K) < 2 ^ (-(1022 : Int)) by positivity])
      (by linarith [abs_nonneg x])
  rw [e1] at h
  rw [e2]
  have := mul_le_mul_of_nonneg_left hm (show (0 : K) ≤ 1 / 9007199254740992 by norm_num)
  unfold rnd64
  linarith

theorem isFloat_one_64 : IsFloat 53 (-1022) (1 : K) :=
  ⟨1, 0, by simp, by norm_num, by norm_num⟩

theorem rnd64_unit (x : K) (h0 : 0 ≤ x) (h1 : x ≤ 1) : 0 ≤ rnd64 x ∧ rnd64 x ≤ 1 :=
  ⟨le_roundFloat_of_le 53 (-1022) (by norm_num) x 0 (isFloat_zero 53 (-1022)) h0,
    roundFloat_le_of_le 53 (-1022) (by norm_num) x 1 isFloat_one_64 h1⟩

theorem rnd64_nonpos (x : K) (h : x ≤ 0) : rnd64 x ≤ 0 :=
  roundFloat_le_of_le 53 (-1022) (by norm_num) x 0 (isFloat_zero 53 (-1022)) h

/-- The rounded product of two numbers of `[0, 1]` that carry the errors `dx` and `dy`,
for a rounding `fl` with relative error `2^(-53)` and absolute error `η`. -/
theorem weight_err (fl : K → K) (η : K)
    (herr : ∀ x : K, |fl x - x| ≤ 1 / 9007199254740992 * |x| + η)
    (hunit : ∀ x : K, 0 ≤ x → x ≤ 1 → 0 ≤ fl x ∧ fl x ≤ 1)
    (x y X Y dx dy : K) (hx : |x - X| ≤ dx) (hy : |y - Y| ≤ dy)
    (hx0 : 0 ≤ x) (hx1 : x ≤ 1) (hy0 : 0 ≤ y) (hy1 : y ≤ 1) (hX0 : 0 ≤ X) (hX1 : X ≤ 1) :
    (0 ≤ fl (x * y) ∧ fl (x * y) ≤ 1) ∧
      |fl (x * y) - X * Y| ≤ 1 / 9007199254740992 + η + dx + dy := by
  have hxy0 : 0 ≤ x * y := mul_nonneg hx0 hy0
  have hxy1 : x * y ≤ 1 := by nlinarith
  refine ⟨hunit _ hxy0 hxy1, ?_⟩
  have h1 := herr (x * y)
  rw [abs_of_nonneg hxy0] at h1
  have h2 : |x * y - X * Y| ≤ dx + dy := by
    have e : x * y - X * Y = (x - X) * y + X * (y - Y) := by ring
    rw [e]
    have a1 : |(x - X) * y| ≤ dx := by
      rw [abs_mul, abs_of_nonneg hy0]
      have := abs_nonneg (x - X)
      nlinarith
    have a2 : |X * (y - Y)| ≤ dy := by
      rw [abs_mul, abs_of_nonneg hX0]
      have := abs_nonneg (y - Y)
      nlinarith
    exact le_trans (abs_add _ _) (add_le_add a1 a2)
  have h3 : |fl (x * y) - X * Y| ≤ |fl (x * y) - x * y| + |x * y - X * Y| := by
    have := abs_add (fl (x * y) - x * y) (x * y - X * Y)
    rw [show fl (x * y) - x * y + (x * y - X * Y) = fl (x * y) - X * Y by ring] at this
    exact this
  have : (1 : K) / 9007199254740992 * (x * y) ≤ 1 / 9007199254740992 := by nlinarith
  linarith

/-- The rounded product of a weight `p` of `[0, 1]`, which carries the error `dp`, and a
value `v` of size at most `M`. -/
theorem term_err (fl : K → K) (η : K)
    (herr : ∀ x : K, |fl x - x| ≤ 1 / 9007199254740992 * |x| + η)
    (p W v M dp : K) (hp0 : 0 ≤ p) (hp1 : p ≤ 1) (hpW : |p - W| ≤ dp) (hv : |v| ≤ M) :
    |fl (p * v) - W * v| ≤ 1 / 9007199254740992 * M + η + dp * M ∧
      |fl (p * v)| ≤ M + 1 / 9007199254740992 * M + η := by
  have hM : 0 ≤ M := le_trans (abs_nonneg v) hv
  have hpv : |p * v| ≤ M := by
    rw [abs_mul, abs_of_nonneg hp0]
    have := abs_nonneg v
    nlinarith
  have h1 := herr (p * v)
  have h2 : |p * v - W * v| ≤ dp * M := by
    rw [show p * v - W * v = (p - W) * v by ring, abs_mul]
    exact mul_le_mul hpW hv (abs_nonneg v) (le_trans (abs_nonneg _) hpW)
  have h3 : |fl (p * v) - W * v| ≤ |fl (p * v) - p * v| + |p * v - W * v| := by
    have := abs_add (fl (p * v) - p * v) (p * v - W * v)
    rw [show fl (p * v) - p * v + (p * v - W * v) = fl (p * v) - W * v by ring] at this
    exact this
  have h4 : |fl (p * v)| ≤ |fl (p * v) - p * v| + |p * v| := by
    have := abs_add (fl (p * v) - p * v) (p * v)
    rw [show fl (p * v) - p * v + p * v = fl (p * v) by ring] at this
    exact this
  have h5 : (1 : K) / 9007199254740992 * |p * v| ≤ 1 / 9007199254740992 * M :=
    mul_le_mul_of_nonneg_left hpv (by norm_num)
  constructor <;> linarith

/-- The rounded sum of two numbers of size at most `bs` and `bt`. -/
theorem sum_err (fl : K → K) (η : K)
    (herr : ∀ x : K, |fl x - x| ≤ 1 / 9007199254740992 * |x| + η)
    (s t bs bt : K) (hs : |s| ≤ bs) (ht : |t| ≤ bt) :
    |fl (s + t) - (s + t)| ≤ 1 / 9007199254740992 * (bs + bt) + η ∧
      |fl (s + t)| ≤ bs + bt + 1 / 9007199254740992 * (bs + bt) + η := by
  have h1 := herr (s + t)
  have h2 : |s + t| ≤ bs + bt := le_trans (abs_add s t) (add_le_add hs ht)
  have h4 : |fl (s + t)| ≤ |fl (s + t) - (s + t)| + |s + t| := by
    have := abs_add (fl (s + t) - (s + t)) (s + t)
    rw [show fl (s + t) - (s + t) + (s + t) = fl (s + t) by ring] at this
    exact this
  have h5 : (1 : K) / 9007199254740992 * |s + t| ≤ 1 / 9007199254740992 * (bs + bt) :=
    mul_le_mul_of_nonneg_left h2 (by norm_num)
  constructor <;> linarith

/-- The sum of the rounding errors of the interpolation. -/
theorem interpolation_assemble (M η x00 x10 x01 x11 S1 S2 S3 w00 w10 w01 w11 : K)
    (hM : 0 ≤ M) (hη : 0 ≤ η)
    (t00 : |x00 - w00| ≤ 1 / 9007199254740992 * M + η + 6 * (1 / 9007199254740992) * M)
    (t10 : |x10 - w10| ≤ 1 / 9007199254740992 * M + η + 6 * (1 / 9007199254740992) * M)
    (t01 : |x01 - w01| ≤ 1 / 9007199254740992 * M + η + 6 * (1 / 9007199254740992) * M)
    (t11 : |x11 - w11| ≤ 1 / 9007199254740992 * M + η + 6 * (1 / 9007199254740992) * M)
    (e1 : |S1 - (x00 + x10)| ≤ 1 / 9007199254740992 *
      (M + 1 / 9007199254740992 * M + η + (M + 1 / 9007199254740992 * M + η)) + η)
    (e2 : |S2 - (S1 + x01)| ≤ 1 / 9007199254740992 *
      (M + 1 / 9007199254740992 * M + η + (M + 1 / 9007199254740992 * M + η) +
        1 / 9007199254740992 *
          (M + 1 / 9007199254740992 * M + η + (M + 1 / 9007199254740992 * M + η)) + η +
        (M + 1 / 9007199254740992 * M + η)) + η)
    (e3 : |S3 - (S2 + x11)| ≤ 1 / 9007199254740992 *
      (M + 1 / 9007199254740992 * M + η + (M + 1 / 9007199254740992 * M + η) +
        1 / 9007199254740992 *
          (M + 1 / 9007199254740992 * M + η + (M + 1 / 9007199254740992 * M + η)) + η +
        (M + 1 / 9007199254740992 * M + η) +
        1 / 9007199254740992 *
          (M + 1 / 9007199254740992 * M + η + (M + 1 / 9007199254740992 * M + η) +
            1 / 9007199254740992 *
              (M + 1 / 9007199254740992 * M + η + (M + 1 / 9007199254740992 * M + η)) + η +
            (M + 1 / 9007199254740992 * M + η)) + η +
        (M + 1 / 9007199254740992 * M + η)) + η) :
    |S3 - (w00 + w10 + w01 + w11)| ≤ 64 * (1 / 9007199254740992) * M + 8 * η := by
  have tri : |S3 - (w00 + w10 + w01 + w11)| ≤ |S3 - (S2 + x11)| + |S2 - (S1 + x01)| +
      |S1 - (x00 + x10)| + |x00 - w00| + |x10 - w10| + |x01 - w01| + |x11 - w11| := by
    have c1 := abs_add (S3 - (S2 + x11)) (S2 - (S1 + x01))
    have c2 := abs_add (S3 - (S2 + x11) + (S2 - (S1 + x01))) (S1 - (x00 + x10))
    have c3 := abs_add (S3 - (S2 + x11) + (S2 - (S1 + x01)) + (S1 - (x00 + x10))) (x00 - w00)
    have c4 := abs_add (S3 - (S2 + x11) + (S2 - (S1 + x01)) + (S1 - (x00 + x10)) +
      (x00 - w00)) (x10 - w10)
    have c5 := abs_add (S3 - (S2 + x11) + (S2 - (S1 + x01)) + (S1 - (x00 + x10)) +
      (x00 - w00) + (x10 - w10)) (x01 - w01)
    have c6 := abs_add (S3 - (S2 + x11) + (S2 - (S1 + x01)) + (S1 - (x00 + x10)) +
      (x00 - w00) + (x10 - w10) + (x01 - w01)) (x11 - w11)
    rw [show S3 - (S2 + x11) + (S2 - (S1 + x01)) + (S1 - (x00 + x10)) +
      (x00 - w00) + (x10 - w10) + (x01 - w01) + (x11 - w11) =
      S3 - (w00 + w10 + w01 + w11) by ring] at c6
    linarith
  linarith

/-- The rounded complement `1 - al` of a weight. -/
theorem complement_err (fl : K → K) (η : K) (hηe : η ≤ 1 / 9007199254740992)
    (herr : ∀ x : K, |fl x - x| ≤ 1 / 9007199254740992 * |x| + η)
    (hunit : ∀ x : K, 0 ≤ x → x ≤ 1 → 0 ≤ fl x ∧ fl x ≤ 1) (al : K) (ha0 : 0 ≤ al)
    (ha1 : al ≤ 1) :
    (0 ≤ fl (1 - al) ∧ fl (1 - al) ≤ 1) ∧
      |fl (1 - al) - (1 - al)| ≤ 2 * (1 / 9007199254740992) := by
  have A0 : 0 ≤ 1 - al := by linarith
  have A1 : 1 - al ≤ 1 := by linarith
  refine ⟨hunit (1 - al) A0 A1, ?_⟩
  have := herr (1 - al)
  rw [abs_of_nonneg A0] at this
  nlinarith

/-- A rounded weight of the interpolation: within `6 * 2^(-53)` of the exact one. -/
theorem weight_err_six (fl : K → K) (η : K) (hηe : η ≤ 1 / 9007199254740992)
    (herr : ∀ x : K, |fl x - x| ≤ 1 / 9007199254740992 * |x| + η)
    (hunit : ∀ x : K, 0 ≤ x → x ≤ 1 → 0 ≤ fl x ∧ fl x ≤ 1)
    (x y X Y : K) (hx : |x - X| ≤ 2 * (1 / 9007199254740992))
    (hy : |y - Y| ≤ 2 * (1 / 9007199254740992))
    (hx0 : 0 ≤ x) (hx1 : x ≤ 1) (hy0 : 0 ≤ y) (hy1 : y ≤ 1) (hX0 : 0 ≤ X) (hX1 : X ≤ 1) :
    (0 ≤ fl (x * y) ∧ fl (x * y) ≤ 1) ∧
      |fl (x * y) - X * Y| ≤ 6 * (1 / 9007199254740992) := by
  obtain ⟨h1, h2⟩ := weight_err fl η herr hunit x y X Y _ _ hx hy hx0 hx1 hy0 hy1 hX0 hX1
  exact ⟨h1, by linarith⟩

/-- The bilinear interpolation of `query` with a rounding `fl` of relative error `2^(-53)`
and absolute error `η`, for weights `al` and `be` of `[0, 1]` and four values of size at
most `M`, is within `2^(-47) * M + 8 η` of the exact value of the interpolation formula. -/
theorem interpolation_error_of (fl : K → K) (η : K) (hη : 0 ≤ η)
    (hηe : η ≤ 1 / 9007199254740992)
    (herr : ∀ x : K, |fl x - x| ≤ 1 / 9007199254740992 * |x| + η)
    (hunit : ∀ x : K, 0 ≤ x → x ≤ 1 → 0 ≤ fl x ∧ fl x ≤ 1)
    (al be v00 v10 v01 v11 M : K) (ha0 : 0 ≤ al) (ha1 : al ≤ 1)
    (hb0 : 0 ≤ be) (hb1 : be ≤ 1) (h00 : |v00| ≤ M) (h10 : |v10| ≤ M) (h01 : |v01| ≤ M)
    (h11 : |v11| ≤ M) :
    |fl (fl (fl (fl (fl (fl (1 - al) * fl (1 - be)) * v00) +
          fl (fl (al * fl (1 - be)) * v10)) +
          fl (fl (fl (1 - al) * be) * v01)) + fl (fl (al * be) * v11)) -
        ((1 - al) * (1 - be) * v00 + al * (1 - be) * v10 + (1 - al) * be * v01 +
          al * be * v11)| ≤
      64 * (1 / 9007199254740992) * M + 8 * η := by
  have hM : 0 ≤ M := le_trans (abs_nonneg v00) h00
  have A0 : 0 ≤ 1 - al := by linarith
  have A1 : 1 - al ≤ 1 := by linarith
  have B0 : 0 ≤ 1 - be := by linarith
  have B1 : 1 - be ≤ 1 := by linarith
  obtain ⟨⟨a0, a1⟩, da⟩ := complement_err fl η hηe herr hunit al ha0 ha1
  obtain ⟨⟨b0, b1⟩, db⟩ := complement_err fl η hηe herr hunit be hb0 hb1
  have dal : |al - al| ≤ 2 * (1 / 9007199254740992) := by
    rw [sub_self, abs_zero]; norm_num
  have dbe : |be - be| ≤ 2 * (1 / 9007199254740992) := by
    rw [sub_self, abs_zero]; norm_num
  -- the four weights
  obtain ⟨⟨p0, p1⟩, dq00⟩ :=
    weight_err_six fl η hηe herr hunit _ _ _ _ da db a0 a1 b0 b1 A0 A1
  obtain ⟨⟨q0, q1⟩, dq10⟩ :=
    weight_err_six fl η hηe herr hunit _ _ _ _ dal db ha0 ha1 b0 b1 ha0 ha1
  obtain ⟨⟨r0, r1⟩, dq01⟩ :=
    weight_err_six fl η hηe herr hunit _ _ _ _ da dbe a0 a1 hb0 hb1 A0 A1
  obtain ⟨⟨s0, s1⟩, dq11⟩ :=
    weight_err_six fl η hηe herr hunit _ _ _ _ dal dbe ha0 ha1 hb0 hb1 ha0 ha1
  -- the four terms
  have t00 := term_err fl η herr _ _ v00 M _ p0 p1 dq00 h00
  have t10 := term_err fl η herr _ _ v10 M _ q0 q1 dq10 h10
  have t01 := term_err fl η herr _ _ v01 M _ r0 r1 dq01 h01
  have t11 := term_err fl η herr _ _ v11 M _ s0 s1 dq11 h11
  -- the three sums
  have e1 := sum_err fl η herr _ _ _ _ t00.2 t10.2
  have e2 := sum_err fl η herr _ _ _ _ e1.2 t01.2
  have e3 := sum_err fl η herr _ _ _ _ e2.2 t11.2
  exact interpolation_assemble M η _ _ _ _ _ _ _ _ _ _ _ hM hη t00.1 t10.1 t01.1 t11.1 e1.1
    e2.1 e3.1

/-- The bilinear interpolation of `query` in `double` arithmetic is within
`2^(-47) * M + 2^(-1072)` of the exact value of the interpolation formula. -/
theorem interpolation_error (al be v00 v10 v01 v11 M : K) (ha0 : 0 ≤ al) (ha1 : al ≤ 1)
    (hb0 : 0 ≤ be) (hb1 : be ≤ 1) (h00 : |v00| ≤ M) (h10 : |v10| ≤ M) (h01 : |v01| ≤ M)
    (h11 : |v11| ≤ M) :
    |rnd64 (rnd64 (rnd64 (rnd64 (rnd64 (rnd64 (1 - al) * rnd64 (1 - be)) * v00) +
          rnd64 (rnd64 (al * rnd64 (1 - be)) * v10)) +
          rnd64 (rnd64 (rnd64 (1 - al) * be) * v01)) + rnd64 (rnd64 (al * be) * v11)) -
        ((1 - al) * (1 - be) * v00 + al * (1 - be) * v10 + (1 - al) * be * v01 +
          al * be * v11)| ≤
      (2 : K) ^ (-(47 : Int)) * M + 2 ^ (-(1072 : Int)) := by
  have hηe : (2 : K) ^ (-(1075 : Int)) ≤ 1 / 9007199254740992 := by
    have : (2 : K) ^ (-(1075 : Int)) ≤ 2 ^ (-(53 : Int)) :=
      zpow_le_zpow_right₀ (by norm_num) (by norm_num)
    have e1 : (2 : K) ^ (-(53 : Int)) = 1 / 9007199254740992 := by norm_num
    rw [e1] at this
    exact this
  have e47 : (2 : K) ^ (-(47 : Int)) = 64 * (1 / 9007199254740992) := by norm_num
  have e1072 : (2 : K) ^ (-(1072 : Int)) = 8 * 2 ^ (-(1075 : Int)) := by
    rw [show (-(1072 : Int)) = 3 + -(1075 : Int) by norm_num,
      zpow_add₀ (by norm_num : (2 : K) ≠ 0)]
    norm_num
  rw [e47, e1072]
  exact interpolation_error_of rnd64 _ (by positivity) hηe rnd64_err rnd64_unit al be v00 v10
    v01 v11 M ha0 ha1 hb0 hb1 h00 h10 h01 h11

theorem cellsFl_in_grid (fl : K → K) (m : RcEsdfMap K) (p : Vec2 K)
    (h : ¬ (gridUFl fl m p < 0 ∨ gridUFl fl m p ≥ (m.grid_size_x_ : K) - 1 ∨
      gridVFl fl m p < 0 ∨ gridVFl fl m p ≥ (m.grid_size_y_ : K) - 1)) :
    (0 ≤ gridUFl fl m p ∧ 0 ≤ ⌊gridUFl fl m p⌋ ∧ ⌊gridUFl fl m p⌋ + 1 < m.grid_size_x_) ∧
      (0 ≤ gridVFl fl m p ∧ 0 ≤ ⌊gridVFl fl m p⌋ ∧ ⌊gridVFl fl m p⌋ + 1 < m.grid_size_y_) := by
  simp only [not_or, not_lt, ge_iff_le, not_le] at h
  obtain ⟨hu0, hu1, hv0, hv1⟩ := h
  refine ⟨⟨hu0, Int.floor_nonneg.mpr hu0, ?_⟩, ⟨hv0, Int.floor_nonneg.mpr hv0, ?_⟩⟩
  · have : ((⌊gridUFl fl m p⌋ : K)) < (m.grid_size_x_ : K) - 1 :=
      lt_of_le_of_lt (Int.floor_le _) hu1
    have h2 : ((⌊gridUFl fl m p⌋ + 1 : Int) : K) < (m.grid_size_x_ : K) := by
      push_cast; linarith
    exact_mod_cast h2
  · have : ((⌊gridVFl fl m p⌋ : K)) < (m.grid_size_y_ : K) - 1 :=
      lt_of_le_of_lt (Int.floor_le _) hv1
    have h2 : ((⌊gridVFl fl m p⌋ + 1 : Int) : K) < (m.grid_size_y_ : K) := by
      push_cast; linarith
    exact_mod_cast h2

theorem inCheck_of_inRange (fl flf : K → K) (m : RcEsdfMap K) (p : Vec2 K)
    (h : (queryFl fl flf m p).inRange = true) :
    ¬ (gridUFl fl m p < 0 ∨ gridUFl fl m p ≥ (m.grid_size_x_ : K) - 1 ∨
      gridVFl fl m p < 0 ∨ gridVFl fl m p ≥ (m.grid_size_y_ : K) - 1) := by
  intro hc
  rw [queryFl_of_out fl flf m p hc] at h
  exact Bool.noConfusion h

/-- The weight `alpha = u - x0` of `query` is computed without rounding when `u` is a
non-negative `double` value, and lies in `[0, 1 - 2^(-53)]`. -/
theorem rnd64_fract (u : K) (hu : IsFloat 53 (-1022) u) (h0 : 0 ≤ u) :
    rnd64 (u - ⌊u⌋) = u - ⌊u⌋ ∧ 0 ≤ u - ⌊u⌋ ∧ u - ⌊u⌋ ≤ 1 - (2 : K) ^ (-(53 : Int)) := by
  obtain ⟨h1, h2⟩ := isFloat_fract 53 (-1022) (by norm_num) u hu h0
  exact ⟨roundFloat_of_isFloat 53 (-1022) (by norm_num) _ h1, sub_nonneg.mpr (Int.floor_le u),
    by exact_mod_cast h2⟩

theorem isFloat_gridUFl (m : RcEsdfMap K) (p : Vec2 K) :
    IsFloat 53 (-1022) (gridUFl rnd64 m p) :=
  isFloat_roundFloat 53 (-1022) (by norm_num) _

theorem isFloat_gridVFl (m : RcEsdfMap K) (p : Vec2 K) :
    IsFloat 53 (-1022) (gridVFl rnd64 m p) :=
  isFloat_roundFloat 53 (-1022) (by norm_num) _

/-- The interpolation of four negative values in `double` arithmetic is negative, when the
weights are at most `1 - 2^(-53)` and the first value is at most `-2^(-149)`, the negative
`float` nearest to zero. -/
theorem interpolation_neg (al be v00 v10 v01 v11 : K) (ha0 : 0 ≤ al)
    (ha1 : al ≤ 1 - (2 : K) ^ (-(53 : Int))) (hb0 : 0 ≤ be)
    (hb1 : be ≤ 1 - (2 : K) ^ (-(53 : Int))) (h00 : v00 ≤ -(2 : K) ^ (-(149 : Int)))
    (h10 : v10 ≤ 0) (h01 : v01 ≤ 0) (h11 : v11 ≤ 0) :
    rnd64 (rnd64 (rnd64 (rnd64 (rnd64 (rnd64 (1 - al) * rnd64 (1 - be)) * v00) +
          rnd64 (rnd64 (al * rnd64 (1 - be)) * v10)) +
          rnd64 (rnd64 (rnd64 (1 - al) * be) * v01)) + rnd64 (rnd64 (al * be) * v11)) < 0 := by
  have f53 : IsFloat 53 (-1022) ((2 : K) ^ (-(53 : Int))) :=
    isFloat_two_zpow 53 (-1022) (by norm_num) _ (by norm_num)
  have f106 : IsFloat 53 (-1022) ((2 : K) ^ (-(106 : Int))) :=
    isFloat_two_zpow 53 (-1022) (by norm_num) _ (by norm_num)
  have f255 : IsFloat 53 (-1022) (-(2 : K) ^ (-(255 : Int))) :=
    isFloat_neg 53 (-1022) _ (isFloat_two_zpow 53 (-1022) (by norm_num) _ (by norm_num))
  have p53 : (0 : K) < 2 ^ (-(53 : Int)) := by positivity
  have p106 : (0 : K) < 2 ^ (-(106 : Int)) := by positivity
  have p149 : (0 : K) < 2 ^ (-(149 : Int)) := by positivity
  have p255 : (0 : K) < 2 ^ (-(255 : Int)) := by positivity
  have m106 : (2 : K) ^ (-(53 : Int)) * 2 ^ (-(53 : Int)) = 2 ^ (-(106 : Int)) := by
    rw [← zpow_add₀ (by norm_num : (2 : K) ≠ 0)]; norm_num
  have m255 : (2 : K) ^ (-(106 : Int)) * 2 ^ (-(149 : Int)) = 2 ^ (-(255 : Int)) := by
    rw [← zpow_add₀ (by norm_num : (2 : K) ≠ 0)]; norm_num
  have hle : ∀ x : K, x ≤ -(2 : K) ^ (-(255 : Int)) → rnd64 x ≤ -(2 : K) ^ (-(255 : Int)) :=
    fun x hx => roundFloat_le_of_le 53 (-1022) (by norm_num) x _ f255 hx
  have a53 : (2 : K) ^ (-(53 : Int)) ≤ rnd64 (1 - al) :=
    le_roundFloat_of_le 53 (-1022) (by norm_num) _ _ f53 (by linarith)
  have b53 : (2 : K) ^ (-(53 : Int)) ≤ rnd64 (1 - be) :=
    le_roundFloat_of_le 53 (-1022) (by norm_num) _ _ f53 (by linarith)
  have ab : (2 : K) ^ (-(106 : Int)) ≤ rnd64 (1 - al) * rnd64 (1 - be) := by
    rw [← m106]
    exact mul_le_mul a53 b53 (le_of_lt p53) (le_trans (le_of_lt p53) a53)
  have w00 : (2 : K) ^ (-(106 : Int)) ≤ rnd64 (rnd64 (1 - al) * rnd64 (1 - be)) :=
    le_roundFloat_of_le 53 (-1022) (by norm_num) _ _ f106 ab
  have hal1 : al ≤ 1 := by linarith
  have hbe1 : be ≤ 1 := by linarith
  have b0 : 0 ≤ rnd64 (1 - be) := le_trans (le_of_lt p53) b53
  have a0 : 0 ≤ rnd64 (1 - al) := le_trans (le_of_lt p53) a53
  have nn : ∀ x : K, 0 ≤ x → 0 ≤ rnd64 x := fun x hx =>
    le_roundFloat_of_le 53 (-1022) (by norm_num) x 0 (isFloat_zero 53 (-1022)) hx
  have w10 := nn _ (mul_nonneg ha0 b0)
  have w01 := nn _ (mul_nonneg a0 hb0)
  have w11 := nn _ (mul_nonneg ha0 hb0)
  have x00 : rnd64 (rnd64 (rnd64 (1 - al) * rnd64 (1 - be)) * v00) ≤ -(2 : K) ^ (-(255 : Int)) := by
    apply hle
    rw [← m255]
    have hv : v00 ≤ 0 := by linarith
    calc rnd64 (rnd64 (1 - al) * rnd64 (1 - be)) * v00
        ≤ 2 ^ (-(106 : Int)) * v00 := mul_le_mul_of_nonpos_right w00 hv
      _ ≤ 2 ^ (-(106 : Int)) * -(2 : K) ^ (-(149 : Int)) :=
          mul_le_mul_of_nonneg_left h00 (le_of_lt p106)
      _ = -((2 : K) ^ (-(106 : Int)) * 2 ^ (-(149 : Int))) := by ring
  have x10 : rnd64 (rnd64 (al * rnd64 (1 - be)) * v10) ≤ 0 :=
    rnd64_nonpos _ (mul_nonpos_of_nonneg_of_nonpos w10 h10)
  have x01 : rnd64 (rnd64 (rnd64 (1 - al) * be) * v01) ≤ 0 :=
    rnd64_nonpos _ (mul_nonpos_of_nonneg_of_nonpos w01 h01)
  have x11 : rnd64 (rnd64 (al * be) * v11) ≤ 0 :=
    rnd64_nonpos _ (mul_nonpos_of_nonneg_of_nonpos w11 h11)
  have s1 := hle _ (show rnd64 (rnd64 (rnd64 (1 - al) * rnd64 (1 - be)) * v00) +
    rnd64 (rnd64 (al * rnd64 (1 - be)) * v10) ≤ -(2 : K) ^ (-(255 : Int)) by linarith)
  have s2 := hle _ (show rnd64 (rnd64 (rnd64 (rnd64 (1 - al) * rnd64 (1 - be)) * v00) +
    rnd64 (rnd64 (al * rnd64 (1 - be)) * v10)) + rnd64 (rnd64 (rnd64 (1 - al) * be) * v01) ≤
      -(2 : K) ^ (-(255 : Int)) by linarith)
  have s3 := hle _ (show rnd64 (rnd64 (rnd64 (rnd64 (rnd64 (1 - al) * rnd64 (1 - be)) * v00) +
    rnd64 (rnd64 (al * rnd64 (1 - be)) * v10)) + rnd64 (rnd64 (rnd64 (1 - al) * be) * v01)) +
      rnd64 (rnd64 (al * be) * v11) ≤ -(2 : K) ^ (-(255 : Int)) by linarith)
  linarith

theorem convex_bounds (al be v00 v10 v01 v11 : K) (a0 : 0 ≤ al) (a1 : al ≤ 1) (b0 : 0 ≤ be)
    (b1 : be ≤ 1) :
    min (min v00 v10) (min v01 v11) ≤
        (1 - al) * (1 - be) * v00 + al * (1 - be) * v10 + (1 - al) * be * v01 + al * be * v11 ∧
      (1 - al) * (1 - be) * v00 + al * (1 - be) * v10 + (1 - al) * be * v01 + al * be * v11 ≤
        max (max v00 v10) (max v01 v11) := by
  have w00 : 0 ≤ (1 - al) * (1 - be) := mul_nonneg (by linarith) (by linarith)
  have w10 : 0 ≤ al * (1 - be) := mul_nonneg a0 (by linarith)
  have w01 : 0 ≤ (1 - al) * be := mul_nonneg (by linarith) b0
  have w11 : 0 ≤ al * be := mul_nonneg a0 b0
  constructor
  · have l00 : min (min v00 v10) (min v01 v11) ≤ v00 :=
      le_trans (min_le_left _ _) (min_le_left _ _)
    have l10 : min (min v00 v10) (min v01 v11) ≤ v10 :=
      le_trans (min_le_left _ _) (min_le_right _ _)
    have l01 : min (min v00 v10) (min v01 v11) ≤ v01 :=
      le_trans (min_le_right _ _) (min_le_left _ _)
    have l11 : min (min v00 v10) (min v01 v11) ≤ v11 :=
      le_trans (min_le_right _ _) (min_le_right _ _)
    generalize min (min v00 v10) (min v01 v11) = lo at *
    nlinarith [mul_le_mul_of_nonneg_left l00 w00, mul_le_mul_of_nonneg_left l10 w10,
      mul_le_mul_of_nonneg_left l01 w01, mul_le_mul_of_nonneg_left l11 w11]
  · have l00 : v00 ≤ max (max v00 v10) (max v01 v11) :=
      le_trans (le_max_left _ _) (le_max_left _ _)
    have l10 : v10 ≤ max (max v00 v10) (max v01 v11) :=
      le_trans (le_max_right _ _) (le_max_left _ _)
    have l01 : v01 ≤ max (max v00 v10) (max v01 v11) :=
      le_trans (le_max_left _ _) (le_max_right _ _)
    have l11 : v11 ≤ max (max v00 v10) (max v01 v11) :=
      le_trans (le_max_right _ _) (le_max_right _ _)
    generalize max (max v00 v10) (max v01 v11) = hi at *
    nlinarith [mul_le_mul_of_nonneg_left l00 w00, mul_le_mul_of_nonneg_left l10 w10,
      mul_le_mul_of_nonneg_left l01 w01, mul_le_mul_of_nonneg_left l11 w11]

/-- Claim C20, as amended.  In `double` arithmetic, on a grid whose vector has
`cols * rows` cells, for an in-range query point: the weights `alpha = u - x0` and
`beta = v - y0` are computed without rounding and lie in `[0, 1)`; the returned distance
lies between the least and the greatest of the four surrounding stored values
`v00, v10, v01, v11` up to the rounding error `2^(-47) * max |v| + 2^(-1072)` of the
interpolation; and it is negative when the four values are negative `float` values. -/
theorem queryFl_no_overshoot (m : RcEsdfMap K) (p : Vec2 K)
    (hlen : (m.data_.length : Int) = m.grid_size_x_ * m.grid_size_y_)
    (hin : (queryFl rnd64 rnd32 m p).inRange = true) :
    (rnd64 (gridUFl rnd64 m p - ⌊gridUFl rnd64 m p⌋) =
          gridUFl rnd64 m p - ⌊gridUFl rnd64 m p⌋ ∧
        0 ≤ gridUFl rnd64 m p - ⌊gridUFl rnd64 m p⌋ ∧
        gridUFl rnd64 m p - ⌊gridUFl rnd64 m p⌋ < 1) ∧
      (rnd64 (gridVFl rnd64 m p - ⌊gridVFl rnd64 m p⌋) =
          gridVFl rnd64 m p - ⌊gridVFl rnd64 m p⌋ ∧
        0 ≤ gridVFl rnd64 m p - ⌊gridVFl rnd64 m p⌋ ∧
        gridVFl rnd64 m p - ⌊gridVFl rnd64 m p⌋ < 1) ∧
      ∃ v00 v10 v01 v11 : K,
        stored m ⌊gridUFl rnd64 m p⌋ ⌊gridVFl rnd64 m p⌋ = some v00 ∧
        stored m (⌊gridUFl rnd64 m p⌋ + 1) ⌊gridVFl rnd64 m p⌋ = some v10 ∧
        stored m ⌊gridUFl rnd64 m p⌋ (⌊gridVFl rnd64 m p⌋ + 1) = some v01 ∧
        stored m (⌊gridUFl rnd64 m p⌋ + 1) (⌊gridVFl rnd64 m p⌋ + 1) = some v11 ∧
        min (min v00 v10) (min v01 v11) -
            ((2 : K) ^ (-(47 : Int)) * max (max |v00| |v10|) (max |v01| |v11|) +
              2 ^ (-(1072 : Int))) ≤ (queryFl rnd64 rnd32 m p).dist ∧
        (queryFl rnd64 rnd32 m p).dist ≤ max (max v00 v10) (max v01 v11) +
            ((2 : K) ^ (-(47 : Int)) * max (max |v00| |v10|) (max |v01| |v11|) +
              2 ^ (-(1072 : Int))) ∧
        (IsFloat 24 (-126) v00 → v00 < 0 → v10 < 0 → v01 < 0 → v11 < 0 →
          (queryFl rnd64 rnd32 m p).dist < 0) := by
  have hc := inCheck_of_inRange rnd64 rnd32 m p hin
  obtain ⟨⟨hu0, hx0, hx1⟩, ⟨hv0, hy0, hy1⟩⟩ := cellsFl_in_grid rnd64 m p hc
  obtain ⟨ea, a0, a1⟩ := rnd64_fract _ (isFloat_gridUFl m p) hu0
  obtain ⟨eb, b0, b1⟩ := rnd64_fract _ (isFloat_gridVFl m p) hv0
  have p53 : (0 : K) < 2 ^ (-(53 : Int)) := by positivity
  refine ⟨⟨ea, a0, by linarith⟩, ⟨eb, b0, by linarith⟩,
    getRaw m ⌊gridUFl rnd64 m p⌋ ⌊gridVFl rnd64 m p⌋,
    getRaw m (⌊gridUFl rnd64 m p⌋ + 1) ⌊gridVFl rnd64 m p⌋,
    getRaw m ⌊gridUFl rnd64 m p⌋ (⌊gridVFl rnd64 m p⌋ + 1),
    getRaw m (⌊gridUFl rnd64 m p⌋ + 1) (⌊gridVFl rnd64 m p⌋ + 1),
    getRaw_eq_stored m _ _ hlen hx0 (by omega) hy0 (by omega),
    getRaw_eq_stored m _ _ hlen (by omega) hx1 hy0 (by omega),
    getRaw_eq_stored m _ _ hlen hx0 (by omega) (by omega) hy1,
    getRaw_eq_stored m _ _ hlen (by omega) hx1 (by omega) hy1, ?_⟩
  rw [queryFl_of_in rnd64 rnd32 m p hc]
  simp only
  rw [ea, eb]
  generalize getRaw m ⌊gridUFl rnd64 m p⌋ ⌊gridVFl rnd64 m p⌋ = v00
  generalize getRaw m (⌊gridUFl rnd64 m p⌋ + 1) ⌊gridVFl rnd64 m p⌋ = v10
  generalize getRaw m ⌊gridUFl rnd64 m p⌋ (⌊gridVFl rnd64 m p⌋ + 1) = v01
  generalize getRaw m (⌊gridUFl rnd64 m p⌋ + 1) (⌊gridVFl rnd64 m p⌋ + 1) = v11
  generalize gridUFl rnd64 m p - ⌊gridUFl rnd64 m p⌋ = al at a0 a1 ⊢
  generalize gridVFl rnd64 m p - ⌊gridVFl rnd64 m p⌋ = be at b0 b1 ⊢
  have hal1 : al ≤ 1 := by linarith
  have hbe1 : be ≤ 1 := by linarith
  have hM00 : |v00| ≤ max (max |v00| |v10|) (max |v01| |v11|) :=
    le_trans (le_max_left _ _) (le_max_left _ _)
  have hM10 : |v10| ≤ max (max |v00| |v10|) (max |v01| |v11|) :=
    le_trans (le_max_right _ _) (le_max_left _ _)
  have hM01 : |v01| ≤ max (max |v00| |v10|) (max |v01| |v11|) :=
    le_trans (le_max_left _ _) (le_max_right _ _)
  have hM11 : |v11| ≤ max (max |v00| |v10|) (max |v01| |v11|) :=
    le_trans (le_max_right _ _) (le_max_right _ _)
  have herr := interpolation_error al be v00 v10 v01 v11 _ a0 hal1 b0 hbe1 hM00 hM10 hM01 hM11
  obtain ⟨hlo, hhi⟩ := convex_bounds al be v00 v10 v01 v11 a0 hal1 b0 hbe1
  obtain ⟨e1, e2⟩ := abs_le.mp herr
  refine ⟨by linarith, by linarith, ?_⟩
  intro hf n00 n10 n01 n11
  have h149 := isFloat_neg_le 24 (-126) v00 hf n00
  exact interpolation_neg al be v00 v10 v01 v11 a0 a1 b0 b1 (by
    have e : (-126 : Int) - (((24 : Nat) : Int) - 1) = -(149 : Int) := by norm_num
    rw [e] at h149
    exact h149) (le_of_lt n10) (le_of_lt n01) (le_of_lt n11)

/-! ### The interpolation in floating point: a value beyond the four cells -/

theorem length_generateFromPolygonFl (flf sqrt : K → K) (m : RcEsdfMap K)
    (polygon : List (Vec2 K)) :
    (generateFromPolygonFl flf sqrt m polygon).data_.length = m.data_.length := by
  unfold generateFromPolygonFl
  exact length_foldl_foldl_set
    (fun y x => (((y : Int) * m.grid_size_x_ + (x : Int)).toNat))
    (fun y x => cellValueFl flf sqrt m polygon (x : Int) (y : Int)) _ _ m.data_

theorem getRaw_generateFromPolygonFl (flf sqrt : K → K) (m : RcEsdfMap K)
    (polygon : List (Vec2 K))
    (hlen : (m.data_.length : Int) = m.grid_size_x_ * m.grid_size_y_) (x y : Int)
    (hx0 : 0 ≤ x) (hx1 : x < m.grid_size_x_) (hy0 : 0 ≤ y) (hy1 : y < m.grid_size_y_) :
    getRaw (generateFromPolygonFl flf sqrt m polygon) x y =
      flf (cellValue sqrt m polygon x y) := by
  have h1 := stored_generateFromPolygonFl flf sqrt m polygon hlen x y hx0 hx1 hy0 hy1
  have hlen2 : ((generateFromPolygonFl flf sqrt m polygon).data_.length : Int) =
      (generateFromPolygonFl flf sqrt m polygon).grid_size_x_ *
        (generateFromPolygonFl flf sqrt m polygon).grid_size_y_ := by
    rw [length_generateFromPolygonFl]; exact hlen
  have h2 := getRaw_eq_stored (generateFromPolygonFl flf sqrt m polygon) x y hlen2 hx0 hx1 hy0 hy1
  rw [h1] at h2
  exact (Option.some.inj h2).symm

theorem minDistSq_coarse_mm :
    minDistSq (⟨-1 / 2, -1 / 2⟩ : Vec2 K) squareFootprint = 1 / 4 := by
  norm_num [minDistSq, squareFootprint, List.range_succ, pointToSegmentDistSq, Vec2.sub,
    Vec2.add, Vec2.scale, Vec2.dot, Vec2.squaredNorm, DBL_MAX]

theorem minDistSq_coarse_pm :
    minDistSq (⟨1 / 2, -1 / 2⟩ : Vec2 K) squareFootprint = 1 / 4 := by
  norm_num [minDistSq, squareFootprint, List.range_succ, pointToSegmentDistSq, Vec2.sub,
    Vec2.add, Vec2.scale, Vec2.dot, Vec2.squaredNorm, DBL_MAX]

theorem minDistSq_coarse_mp :
    minDistSq (⟨-1 / 2, 1 / 2⟩ : Vec2 K) squareFootprint = 1 / 4 := by
  norm_num [minDistSq, squareFootprint, List.range_succ, pointToSegmentDistSq, Vec2.sub,
    Vec2.add, Vec2.scale, Vec2.dot, Vec2.squaredNorm, DBL_MAX]

theorem minDistSq_coarse_pp :
    minDistSq (⟨1 / 2, 1 / 2⟩ : Vec2 K) squareFootprint = 1 / 4 := by
  norm_num [minDistSq, squareFootprint, List.range_succ, pointToSegmentDistSq, Vec2.sub,
    Vec2.add, Vec2.scale, Vec2.dot, Vec2.squaredNorm, DBL_MAX]

theorem isPointInPolygon_coarse_mm :
    isPointInPolygon (⟨-1 / 2, -1 / 2⟩ : Vec2 K) squareFootprint = true := by
  norm_num [isPointInPolygon, crossingStep, squareFootprint, List.range_succ]

theorem isPointInPolygon_coarse_pm :
    isPointInPolygon (⟨1 / 2, -1 / 2⟩ : Vec2 K) squareFootprint = true := by
  norm_num [isPointInPolygon, crossingStep, squareFootprint, List.range_succ]

theorem isPointInPolygon_coarse_mp :
    isPointInPolygon (⟨-1 / 2, 1 / 2⟩ : Vec2 K) squareFootprint = true := by
  norm_num [isPointInPolygon, crossingStep, squareFootprint, List.range_succ]

theorem isPointInPolygon_coarse_pp :
    isPointInPolygon (⟨1 / 2, 1 / 2⟩ : Vec2 K) squareFootprint = true := by
  norm_num [isPointInPolygon, crossingStep, squareFootprint, List.range_succ]

/-- The `float` value `-0.5` of a cell whose centre lies inside the square at distance `0.5`
from its nearest side: `sqrt(0.25) = 0.5` and its negation are values of both formats. -/
theorem narrow_neg_half : rnd32 (-rnd64 (Real.sqrt (1 / 4))) = (-1 / 2 : ℝ) := by
  have hs : Real.sqrt (1 / 4) = 1 / 2 := by
    rw [show (1 / 4 : ℝ) = (1 / 2) ^ 2 by norm_num]
    exact Real.sqrt_sq (by norm_num)
  have h64 : rnd64 (1 / 2 : ℝ) = 1 / 2 := by
    rw [rnd64_of_pos _ (-1) 4503599627370496 (by norm_num) (by norm_num) (by norm_num)
      (by norm_num) (by norm_num)]
    norm_num
  have h32 : rnd32 (1 / 2 : ℝ) = 1 / 2 := by
    rw [rnd32_of_pos _ (-1) 8388608 (by norm_num) (by norm_num) (by norm_num)
      (by norm_num) (by norm_num)]
    norm_num
  rw [hs, h64]
  unfold rnd32
  rw [roundFloat_neg]
  have h := h32
  unfold rnd32 at h
  rw [h]
  norm_num

/-- The four cells around the centre of the grid of `initialize(8, 8, 1)`, inside the
square footprint, hold the `float` value `-0.5`. -/
theorem getRaw_coarse_inner (x y : Int) (hx : x = 3 ∨ x = 4) (hy : y = 3 ∨ y = 4) :
    getRaw (generateFromPolygonFl rnd32 (fun t => rnd64 (Real.sqrt t))
        (coarseGrid : RcEsdfMap ℝ) squareFootprint) x y = -1 / 2 := by
  rw [getRaw_generateFromPolygonFl _ _ coarseGrid squareFootprint initialised_coarseGrid.2.2.2
    x y (by omega) (by simp only [coarseGrid]; omega) (by omega)
    (by simp only [coarseGrid]; omega)]
  unfold cellValue
  simp only [cellCenter_coarseGrid]
  rcases hx with rfl | rfl <;> rcases hy with rfl | rfl
  · rw [show (⟨-8 / 2 + (((3 : Int) : ℝ) + 1 / 2) * 1, -8 / 2 + (((3 : Int) : ℝ) + 1 / 2) * 1⟩ :
      Vec2 ℝ) = ⟨-1 / 2, -1 / 2⟩ by congr 1 <;> norm_num,
      minDistSq_coarse_mm, isPointInPolygon_coarse_mm]
    simpa using narrow_neg_half
  · rw [show (⟨-8 / 2 + (((3 : Int) : ℝ) + 1 / 2) * 1, -8 / 2 + (((4 : Int) : ℝ) + 1 / 2) * 1⟩ :
      Vec2 ℝ) = ⟨-1 / 2, 1 / 2⟩ by congr 1 <;> norm_num,
      minDistSq_coarse_mp, isPointInPolygon_coarse_mp]
    simpa using narrow_neg_half
  · rw [show (⟨-8 / 2 + (((4 : Int) : ℝ) + 1 / 2) * 1, -8 / 2 + (((3 : Int) : ℝ) + 1 / 2) * 1⟩ :
      Vec2 ℝ) = ⟨1 / 2, -1 / 2⟩ by congr 1 <;> norm_num,
      minDistSq_coarse_pm, isPointInPolygon_coarse_pm]
    simpa using narrow_neg_half
  · rw [show (⟨-8 / 2 + (((4 : Int) : ℝ) + 1 / 2) * 1, -8 / 2 + (((4 : Int) : ℝ) + 1 / 2) * 1⟩ :
      Vec2 ℝ) = ⟨1 / 2, 1 / 2⟩ by congr 1 <;> norm_num,
      minDistSq_coarse_pp, isPointInPolygon_coarse_pp]
    simpa using narrow_neg_half

/-- The grid coordinates that `query` computes for the point `(-0.3, 0.1)` (the `double`
values nearest to `-0.3` and `0.1`) on the grid of `initialize(8, 8, 1)`:
`u = 3.2000000000000001776` and `v = 3.5999999999999996447`. -/
theorem gridFl_coarse_point :
    gridUFl rnd64 (generateFromPolygonFl rnd32 (fun t => rnd64 (Real.sqrt t))
        (coarseGrid : RcEsdfMap ℝ) squareFootprint)
        ⟨rnd64 (-3 / 10), rnd64 (1 / 10)⟩ = 3602879701896397 / 1125899906842624 ∧
      gridVFl rnd64 (generateFromPolygonFl rnd32 (fun t => rnd64 (Real.sqrt t))
        (coarseGrid : RcEsdfMap ℝ) squareFootprint)
        ⟨rnd64 (-3 / 10), rnd64 (1 / 10)⟩ = 2026619832316723 / 562949953421312 := by
  have hX : rnd64 (-3 / 10) =
      ((-5404319552844595 / 18014398509481984) : ℝ) := by
    rw [rnd64_of_neg _ (-2) (-5404319552844595) (by norm_num) (by norm_num) (by norm_num)
      (by norm_num) (by norm_num)]
    norm_num
  have hY : rnd64 (1 / 10) =
      (3602879701896397 / 36028797018963968 : ℝ) := by
    rw [rnd64_of_pos _ (-4) 7205759403792794 (by norm_num) (by norm_num) (by norm_num)
      (by norm_num) (by norm_num)]
    norm_num
  have x1 : rnd64 (((-5404319552844595 / 18014398509481984)) - -8 / 2) =
      (4165829655317709 / 1125899906842624 : ℝ) := by
    rw [rnd64_of_pos _ 1 8331659310635418 (by norm_num) (by norm_num) (by norm_num)
      (by norm_num) (by norm_num)]
    norm_num
  have x2 : rnd64 ((4165829655317709 / 1125899906842624) / 1) =
      (4165829655317709 / 1125899906842624 : ℝ) := by
    rw [rnd64_of_pos _ 1 8331659310635418 (by norm_num) (by norm_num) (by norm_num)
      (by norm_num) (by norm_num)]
    norm_num
  have x3 : rnd64 ((4165829655317709 / 1125899906842624) - 1 / 2) =
      (3602879701896397 / 1125899906842624 : ℝ) := by
    rw [rnd64_of_pos _ 1 7205759403792794 (by norm_num) (by norm_num) (by norm_num)
      (by norm_num) (by norm_num)]
    norm_num
  have y1 : rnd64 ((3602879701896397 / 36028797018963968) - -8 / 2) =
      (2308094809027379 / 562949953421312 : ℝ) := by
    rw [rnd64_of_pos _ 2 4616189618054758 (by norm_num) (by norm_num) (by norm_num)
      (by norm_num) (by norm_num)]
    norm_num
  have y2 : rnd64 ((2308094809027379 / 562949953421312) / 1) =
      (2308094809027379 / 562949953421312 : ℝ) := by
    rw [rnd64_of_pos _ 2 4616189618054758 (by norm_num) (by norm_num) (by norm_num)
      (by norm_num) (by norm_num)]
    norm_num
  have y3 : rnd64 ((2308094809027379 / 562949953421312) - 1 / 2) =
      (2026619832316723 / 562949953421312 : ℝ) := by
    rw [rnd64_of_pos _ 1 8106479329266892 (by norm_num) (by norm_num) (by norm_num)
      (by norm_num) (by norm_num)]
    norm_num
  constructor
  · simp only [gridUFl, generateFromPolygonFl, coarseGrid, hX, x1, x2, x3]
  · simp only [gridVFl, generateFromPolygonFl, coarseGrid, hY, y1, y2, y3]

/-- The `double` operations of the interpolation at `u = 3.2000000000000001776`,
`v = 3.5999999999999996447` with the value `-0.5` in the four cells: the result is
`-0.49999999999999994`, the `double` next to `-0.5`. -/
theorem interpolation_coarse_point :
    rnd64 (rnd64 (rnd64 (rnd64 (rnd64 (rnd64
                  (1 - rnd64 ((3602879701896397 / 1125899906842624 : ℝ) - 3)) *
                rnd64 (1 - rnd64 ((2026619832316723 / 562949953421312 : ℝ) - 3))) * (-1 / 2)) +
            rnd64 (rnd64 (rnd64 ((3602879701896397 / 1125899906842624 : ℝ) - 3) *
                rnd64 (1 - rnd64 ((2026619832316723 / 562949953421312 : ℝ) - 3))) * (-1 / 2))) +
          rnd64 (rnd64 (rnd64 (1 - rnd64 ((3602879701896397 / 1125899906842624 : ℝ) - 3)) *
              rnd64 ((2026619832316723 / 562949953421312 : ℝ) - 3)) * (-1 / 2))) +
        rnd64 (rnd64 (rnd64 ((3602879701896397 / 1125899906842624 : ℝ) - 3) *
            rnd64 ((2026619832316723 / 562949953421312 : ℝ) - 3)) * (-1 / 2))) =
      -9007199254740991 / 18014398509481984 := by
  have ha : rnd64 ((3602879701896397 / 1125899906842624) - 3) =
      (225179981368525 / 1125899906842624 : ℝ) := by
    rw [rnd64_of_pos _ (-3) 7205759403792800 (by norm_num) (by norm_num) (by norm_num)
      (by norm_num) (by norm_num)]
    norm_num
  have hb : rnd64 ((2026619832316723 / 562949953421312) - 3) =
      (337769972052787 / 562949953421312 : ℝ) := by
    rw [rnd64_of_pos _ (-1) 5404319552844592 (by norm_num) (by norm_num) (by norm_num)
      (by norm_num) (by norm_num)]
    norm_num
  have a1 : rnd64 (1 - (225179981368525 / 1125899906842624)) =
      (900719925474099 / 1125899906842624 : ℝ) := by
    rw [rnd64_of_pos _ (-1) 7205759403792792 (by norm_num) (by norm_num) (by norm_num)
      (by norm_num) (by norm_num)]
    norm_num
  have b1 : rnd64 (1 - (337769972052787 / 562949953421312)) =
      (225179981368525 / 562949953421312 : ℝ) := by
    rw [rnd64_of_pos _ (-2) 7205759403792800 (by norm_num) (by norm_num) (by norm_num)
      (by norm_num) (by norm_num)]
    norm_num
  have p00 : rnd64 ((900719925474099 / 1125899906842624) * (225179981368525 / 562949953421312)) =
      (5764607523034239 / 18014398509481984 : ℝ) := by
    rw [rnd64_of_pos _ (-2) 5764607523034239 (by norm_num) (by norm_num) (by norm_num)
      (by norm_num) (by norm_num)]
    norm_num
  have t00 : rnd64 ((5764607523034239 / 18014398509481984) * (-1 / 2)) =
      ((-5764607523034239 / 36028797018963968) : ℝ) := by
    rw [rnd64_of_neg _ (-3) (-5764607523034239) (by norm_num) (by norm_num) (by norm_num)
      (by norm_num) (by norm_num)]
    norm_num
  have p10 : rnd64 ((225179981368525 / 1125899906842624) * (225179981368525 / 562949953421312)) =
      (5764607523034245 / 72057594037927936 : ℝ) := by
    rw [rnd64_of_pos _ (-4) 5764607523034245 (by norm_num) (by norm_num) (by norm_num)
      (by norm_num) (by norm_num)]
    norm_num
  have t10 : rnd64 ((5764607523034245 / 72057594037927936) * (-1 / 2)) =
      ((-5764607523034245 / 144115188075855872) : ℝ) := by
    rw [rnd64_of_neg _ (-5) (-5764607523034245) (by norm_num) (by norm_num) (by norm_num)
      (by norm_num) (by norm_num)]
    norm_num
  have s1 : rnd64 ((-5764607523034239 / 36028797018963968) +
      (-5764607523034245 / 144115188075855872)) =
      ((-225179981368525 / 1125899906842624) : ℝ) := by
    rw [rnd64_of_neg _ (-3) (-7205759403792800) (by norm_num) (by norm_num) (by norm_num)
      (by norm_num) (by norm_num)]
    norm_num
  have p01 : rnd64 ((900719925474099 / 1125899906842624) * (337769972052787 / 562949953421312)) =
      (8646911284551345 / 18014398509481984 : ℝ) := by
    rw [rnd64_of_pos _ (-2) 8646911284551345 (by norm_num) (by norm_num) (by norm_num)
      (by norm_num) (by norm_num)]
    norm_num
  have t01 : rnd64 ((8646911284551345 / 18014398509481984) * (-1 / 2)) =
      ((-8646911284551345 / 36028797018963968) : ℝ) := by
    rw [rnd64_of_neg _ (-3) (-8646911284551345) (by norm_num) (by norm_num) (by norm_num)
      (by norm_num) (by norm_num)]
    norm_num
  have s2 : rnd64 ((-225179981368525 / 1125899906842624) +
      (-8646911284551345 / 36028797018963968)) =
      ((-990791918021509 / 2251799813685248) : ℝ) := by
    rw [rnd64_of_neg_tie _ (-2) (-7926335344172073) (-7926335344172072)
      (by norm_num) (by norm_num) (by norm_num)
      (by norm_num) (by decide)]
    norm_num
  have p11 : rnd64 ((225179981368525 / 1125899906842624) * (337769972052787 / 562949953421312)) =
      (8646911284551355 / 72057594037927936 : ℝ) := by
    rw [rnd64_of_pos _ (-4) 8646911284551355 (by norm_num) (by norm_num) (by norm_num)
      (by norm_num) (by norm_num)]
    norm_num
  have t11 : rnd64 ((8646911284551355 / 72057594037927936) * (-1 / 2)) =
      ((-8646911284551355 / 144115188075855872) : ℝ) := by
    rw [rnd64_of_neg _ (-5) (-8646911284551355) (by norm_num) (by norm_num) (by norm_num)
      (by norm_num) (by norm_num)]
    norm_num
  have s3 : rnd64 ((-990791918021509 / 2251799813685248) +
      (-8646911284551355 / 144115188075855872)) =
      ((-9007199254740991 / 18014398509481984) : ℝ) := by
    rw [rnd64_of_neg _ (-2) (-9007199254740991) (by norm_num) (by norm_num) (by norm_num)
      (by norm_num) (by norm_num)]
    norm_num
  rw [ha, hb, a1, b1, p00, t00, p10, t10, s1, p01, t01, s2, p11, t11, s3]

theorem length_coarse_populated :
    (((generateFromPolygonFl rnd32 (fun t => rnd64 (Real.sqrt t))
        (coarseGrid : RcEsdfMap ℝ) squareFootprint).data_.length : Nat) : Int) =
      (generateFromPolygonFl rnd32 (fun t => rnd64 (Real.sqrt t))
        (coarseGrid : RcEsdfMap ℝ) squareFootprint).grid_size_x_ *
      (generateFromPolygonFl rnd32 (fun t => rnd64 (Real.sqrt t))
        (coarseGrid : RcEsdfMap ℝ) squareFootprint).grid_size_y_ := by
  rw [length_generateFromPolygonFl]
  exact initialised_coarseGrid.2.2.2

theorem stored_coarse_inner (x y : Int) (hx : x = 3 ∨ x = 4) (hy : y = 3 ∨ y = 4) :
    stored (generateFromPolygonFl rnd32 (fun t => rnd64 (Real.sqrt t))
        (coarseGrid : RcEsdfMap ℝ) squareFootprint) x y = some (-1 / 2) := by
  rw [getRaw_eq_stored _ x y length_coarse_populated (by omega)
    (by simp only [generateFromPolygonFl, coarseGrid]; omega) (by omega)
    (by simp only [generateFromPolygonFl, coarseGrid]; omega), getRaw_coarse_inner x y hx hy]

theorem floor_coarse_point :
    ⌊gridUFl rnd64 (generateFromPolygonFl rnd32 (fun t => rnd64 (Real.sqrt t))
        (coarseGrid : RcEsdfMap ℝ) squareFootprint)
        ⟨rnd64 (-3 / 10), rnd64 (1 / 10)⟩⌋ = 3 ∧
      ⌊gridVFl rnd64 (generateFromPolygonFl rnd32 (fun t => rnd64 (Real.sqrt t))
        (coarseGrid : RcEsdfMap ℝ) squareFootprint)
        ⟨rnd64 (-3 / 10), rnd64 (1 / 10)⟩⌋ = 3 := by
  rw [gridFl_coarse_point.1, gridFl_coarse_point.2]
  constructor <;> rw [Int.floor_eq_iff] <;> norm_num

theorem inCheck_coarse_point :
    ¬ (gridUFl rnd64 (generateFromPolygonFl rnd32 (fun t => rnd64 (Real.sqrt t))
        (coarseGrid : RcEsdfMap ℝ) squareFootprint)
        ⟨rnd64 (-3 / 10), rnd64 (1 / 10)⟩ < 0 ∨
      gridUFl rnd64 (generateFromPolygonFl rnd32 (fun t => rnd64 (Real.sqrt t))
        (coarseGrid : RcEsdfMap ℝ) squareFootprint)
        ⟨rnd64 (-3 / 10), rnd64 (1 / 10)⟩ ≥
        ((generateFromPolygonFl rnd32 (fun t => rnd64 (Real.sqrt t))
        (coarseGrid : RcEsdfMap ℝ) squareFootprint).grid_size_x_ : ℝ) - 1 ∨
      gridVFl rnd64 (generateFromPolygonFl rnd32 (fun t => rnd64 (Real.sqrt t))
        (coarseGrid : RcEsdfMap ℝ) squareFootprint)
        ⟨rnd64 (-3 / 10), rnd64 (1 / 10)⟩ < 0 ∨
      gridVFl rnd64 (generateFromPolygonFl rnd32 (fun t => rnd64 (Real.sqrt t))
        (coarseGrid : RcEsdfMap ℝ) squareFootprint)
        ⟨rnd64 (-3 / 10), rnd64 (1 / 10)⟩ ≥
        ((generateFromPolygonFl rnd32 (fun t => rnd64 (Real.sqrt t))
        (coarseGrid : RcEsdfMap ℝ) squareFootprint).grid_size_y_ : ℝ) - 1) := by
  rw [gridFl_coarse_point.1, gridFl_coarse_point.2]
  norm_num [generateFromPolygonFl, coarseGrid]

/-- The result of the query at `(-0.3, 0.1)` on the grid of `initialize(8, 8, 1)` populated
from the square footprint: in range, with the distance `-0.49999999999999994`. -/
theorem queryFl_coarse_point :
    (queryFl rnd64 rnd32 (generateFromPolygonFl rnd32 (fun t => rnd64 (Real.sqrt t))
        (coarseGrid : RcEsdfMap ℝ) squareFootprint)
        ⟨rnd64 (-3 / 10), rnd64 (1 / 10)⟩).inRange = true ∧
      (queryFl rnd64 rnd32 (generateFromPolygonFl rnd32 (fun t => rnd64 (Real.sqrt t))
        (coarseGrid : RcEsdfMap ℝ) squareFootprint)
        ⟨rnd64 (-3 / 10), rnd64 (1 / 10)⟩).dist = -9007199254740991 / 18014398509481984 := by
  rw [queryFl_of_in rnd64 rnd32 _ _ inCheck_coarse_point]
  refine ⟨rfl, ?_⟩
  simp only
  rw [floor_coarse_point.1, floor_coarse_point.2, gridFl_coarse_point.1, gridFl_coarse_point.2,
    getRaw_coarse_inner 3 3 (Or.inl rfl) (Or.inl rfl),
    getRaw_coarse_inner (3 + 1) 3 (Or.inr (by norm_num)) (Or.inl rfl),
    getRaw_coarse_inner 3 (3 + 1) (Or.inl rfl) (Or.inr (by norm_num)),
    getRaw_coarse_inner (3 + 1) (3 + 1) (Or.inr (by norm_num))
      (Or.inr (by norm_num))]
  simp only [Int.cast_ofNat]
  exact interpolation_coarse_point

/-- Claim C20 fails as stated: on the grid of `initialize(8, 8, 1)` populated from the square
with vertices `(1, 1), (-1, 1), (-1, -1), (1, -1)`, the query at `(-0.3, 0.1)` is in range,
its four surrounding cells `(3, 3), (4, 3), (3, 4), (4, 4)` all hold `-0.5`, and the
interpolation in `double` arithmetic returns `-0.49999999999999994`, above the greatest of
the four values. -/
theorem query_interpolation_overshoot :
    (queryFl rnd64 rnd32 (generateFromPolygonFl rnd32 (fun t => rnd64 (Real.sqrt t))
        (coarseGrid : RcEsdfMap ℝ) squareFootprint)
        ⟨rnd64 (-3 / 10), rnd64 (1 / 10)⟩).inRange = true ∧
      ⌊gridUFl rnd64 (generateFromPolygonFl rnd32 (fun t => rnd64 (Real.sqrt t))
        (coarseGrid : RcEsdfMap ℝ) squareFootprint)
        ⟨rnd64 (-3 / 10), rnd64 (1 / 10)⟩⌋ = 3 ∧
      ⌊gridVFl rnd64 (generateFromPolygonFl rnd32 (fun t => rnd64 (Real.sqrt t))
        (coarseGrid : RcEsdfMap ℝ) squareFootprint)
        ⟨rnd64 (-3 / 10), rnd64 (1 / 10)⟩⌋ = 3 ∧
      stored (generateFromPolygonFl rnd32 (fun t => rnd64 (Real.sqrt t))
        (coarseGrid : RcEsdfMap ℝ) squareFootprint) 3 3 = some (-1 / 2) ∧
      stored (generateFromPolygonFl rnd32 (fun t => rnd64 (Real.sqrt t))
        (coarseGrid : RcEsdfMap ℝ) squareFootprint) 4 3 = some (-1 / 2) ∧
      stored (generateFromPolygonFl rnd32 (fun t => rnd64 (Real.sqrt t))
        (coarseGrid : RcEsdfMap ℝ) squareFootprint) 3 4 = some (-1 / 2) ∧
      stored (generateFromPolygonFl rnd32 (fun t => rnd64 (Real.sqrt t))
        (coarseGrid : RcEsdfMap ℝ) squareFootprint) 4 4 = some (-1 / 2) ∧
      (queryFl rnd64 rnd32 (generateFromPolygonFl rnd32 (fun t => rnd64 (Real.sqrt t))
        (coarseGrid : RcEsdfMap ℝ) squareFootprint)
        ⟨rnd64 (-3 / 10), rnd64 (1 / 10)⟩).dist = -9007199254740991 / 18014398509481984 ∧
      max (max (-1 / 2 : ℝ) (-1 / 2)) (max (-1 / 2) (-1 / 2)) <
        (queryFl rnd64 rnd32 (generateFromPolygonFl rnd32 (fun t => rnd64 (Real.sqrt t))
        (coarseGrid : RcEsdfMap ℝ) squareFootprint)
        ⟨rnd64 (-3 / 10), rnd64 (1 / 10)⟩).dist := by
  refine ⟨queryFl_coarse_point.1, floor_coarse_point.1, floor_coarse_point.2,
    stored_coarse_inner 3 3 (Or.inl rfl) (Or.inl rfl),
    stored_coarse_inner 4 3 (Or.inr rfl) (Or.inl rfl),
    stored_coarse_inner 3 4 (Or.inl rfl) (Or.inr rfl),
    stored_coarse_inner 4 4 (Or.inr rfl) (Or.inr rfl),
    queryFl_coarse_point.2, ?_⟩
  rw [queryFl_coarse_point.2]
  norm_num

/-- A check of `queryFl_no_overshoot` at the query `(-0.3, 0.1)` on the grid of
`initialize(8, 8, 1)` populated from the square footprint: the query is in range, the
returned distance is at most the greatest of the four stored values plus the rounding error,
and it is negative. -/
theorem queryFl_no_overshoot_witness :
    (queryFl rnd64 rnd32 (generateFromPolygonFl rnd32 (fun t => rnd64 (Real.sqrt t))
        (coarseGrid : RcEsdfMap ℝ) squareFootprint)
        ⟨rnd64 (-3 / 10), rnd64 (1 / 10)⟩).inRange = true ∧
      ∃ v00 v10 v01 v11 : ℝ,
        stored (generateFromPolygonFl rnd32 (fun t => rnd64 (Real.sqrt t))
        (coarseGrid : RcEsdfMap ℝ) squareFootprint) 3 3 = some v00 ∧
        stored (generateFromPolygonFl rnd32 (fun t => rnd64 (Real.sqrt t))
        (coarseGrid : RcEsdfMap ℝ) squareFootprint) 4 3 = some v10 ∧
        stored (generateFromPolygonFl rnd32 (fun t => rnd64 (Real.sqrt t))
        (coarseGrid : RcEsdfMap ℝ) squareFootprint) 3 4 = some v01 ∧
        stored (generateFromPolygonFl rnd32 (fun t => rnd64 (Real.sqrt t))
        (coarseGrid : RcEsdfMap ℝ) squareFootprint) 4 4 = some v11 ∧
        (queryFl rnd64 rnd32 (generateFromPolygonFl rnd32 (fun t => rnd64 (Real.sqrt t))
        (coarseGrid : RcEsdfMap ℝ) squareFootprint)
          ⟨rnd64 (-3 / 10), rnd64 (1 / 10)⟩).dist ≤ max (max v00 v10) (max v01 v11) +
            ((2 : ℝ) ^ (-(47 : Int)) * max (max |v00| |v10|) (max |v01| |v11|) +
              2 ^ (-(1072 : Int))) ∧
        (queryFl rnd64 rnd32 (generateFromPolygonFl rnd32 (fun t => rnd64 (Real.sqrt t))
        (coarseGrid : RcEsdfMap ℝ) squareFootprint)
          ⟨rnd64 (-3 / 10), rnd64 (1 / 10)⟩).dist < 0 := by
  obtain ⟨-, -, v00, v10, v01, v11, s00, s10, s01, s11, -, hhi, hneg⟩ :=
    queryFl_no_overshoot (generateFromPolygonFl rnd32 (fun t => rnd64 (Real.sqrt t))
        (coarseGrid : RcEsdfMap ℝ) squareFootprint) ⟨rnd64 (-3 / 10), rnd64 (1 / 10)⟩
      length_coarse_populated queryFl_coarse_point.1
  rw [floor_coarse_point.1, floor_coarse_point.2] at s00 s10 s01 s11
  have e00 : v00 = -1 / 2 := by
    have h := stored_coarse_inner 3 3 (Or.inl rfl) (Or.inl rfl)
    rw [s00] at h
    exact Option.some.inj h
  have e10 : v10 = -1 / 2 := by
    have h := stored_coarse_inner (3 + 1) 3 (Or.inr (by norm_num)) (Or.inl rfl)
    rw [s10] at h
    exact Option.some.inj h
  have e01 : v01 = -1 / 2 := by
    have h := stored_coarse_inner 3 (3 + 1) (Or.inl rfl) (Or.inr (by norm_num))
    rw [s01] at h
    exact Option.some.inj h
  have e11 : v11 = -1 / 2 := by
    have h := stored_coarse_inner (3 + 1) (3 + 1) (Or.inr (by norm_num)) (Or.inr (by norm_num))
    rw [s11] at h
    exact Option.some.inj h
  have hf : IsFloat 24 (-126) v00 := by
    rw [e00]
    exact ⟨-1, -1, by norm_num, by norm_num, by norm_num⟩
  exact ⟨queryFl_coarse_point.1, v00, v10, v01, v11, s00, s10, s01, s11, hhi,
    hneg hf (by rw [e00]; norm_num) (by rw [e10]; norm_num) (by rw [e01]; norm_num)
      (by rw [e11]; norm_num)⟩

/-! ### The scenario without rounding in floating point -/

/-- The `float` values `2.5` and `1.5` of the cells at distance `2.5` and `1.5` from the
square: the square roots, their rounding to `double` and their narrowing to `float` are
exact. -/
theorem narrow_coarse_values :
    rnd32 (rnd64 (Real.sqrt (25 / 4))) = (5 / 2 : ℝ) ∧
      rnd32 (rnd64 (Real.sqrt (9 / 4))) = (3 / 2 : ℝ) := by
  have a1 : rnd64 (5 / 2 : ℝ) = 5 / 2 := by
    rw [rnd64_of_pos _ 1 5629499534213120 (by norm_num) (by norm_num) (by norm_num)
      (by norm_num) (by norm_num)]
    norm_num
  have a2 : rnd32 (5 / 2 : ℝ) = 5 / 2 := by
    rw [rnd32_of_pos _ 1 10485760 (by norm_num) (by norm_num) (by norm_num)
      (by norm_num) (by norm_num)]
    norm_num
  have b1 : rnd64 (3 / 2 : ℝ) = 3 / 2 := by
    rw [rnd64_of_pos _ 0 6755399441055744 (by norm_num) (by norm_num) (by norm_num)
      (by norm_num) (by norm_num)]
    norm_num
  have b2 : rnd32 (3 / 2 : ℝ) = 3 / 2 := by
    rw [rnd32_of_pos _ 0 12582912 (by norm_num) (by norm_num) (by norm_num)
      (by norm_num) (by norm_num)]
    norm_num
  rw [sqrt_coarse_values.1, sqrt_coarse_values.2, a1, a2, b1, b2]
  exact ⟨rfl, rfl⟩

/-- The four cells at the left border of the grid, level with the square, as `float` cells:
the columns 0 and 1 hold `2.5` and `1.5`. -/
theorem getRaw_coarseFl (x y : Int) (hx : x = 0 ∨ x = 1) (hy : y = 3 ∨ y = 4) :
    getRaw (generateFromPolygonFl rnd32 (fun t => rnd64 (Real.sqrt t))
        (coarseGrid : RcEsdfMap ℝ) squareFootprint) x y = if x = 0 then 5 / 2 else 3 / 2 := by
  rw [getRaw_generateFromPolygonFl _ _ coarseGrid squareFootprint initialised_coarseGrid.2.2.2
    x y (by omega) (by simp only [coarseGrid]; omega) (by omega)
    (by simp only [coarseGrid]; omega)]
  have h := getRaw_coarse (fun t => rnd64 (Real.sqrt t)) x y hx hy
  rw [getRaw_generateFromPolygon _ coarseGrid squareFootprint initialised_coarseGrid.2.2.2
    x y (by omega) (by simp only [coarseGrid]; omega) (by omega)
    (by simp only [coarseGrid]; omega)] at h
  rw [h]
  split_ifs
  · exact narrow_coarse_values.1
  · exact narrow_coarse_values.2

/-- The grid coordinates that `query` computes for the point `(-3.5, 0)` on the grid of
`initialize(8, 8, 1)`: `u = 0` and `v = 3.5`. -/
theorem gridFl_coarse_border :
    gridUFl rnd64 (generateFromPolygonFl rnd32 (fun t => rnd64 (Real.sqrt t))
        (coarseGrid : RcEsdfMap ℝ) squareFootprint)
        ⟨-7 / 2, 0⟩ = 0 ∧
      gridVFl rnd64 (generateFromPolygonFl rnd32 (fun t => rnd64 (Real.sqrt t))
        (coarseGrid : RcEsdfMap ℝ) squareFootprint)
        ⟨-7 / 2, 0⟩ = (7 / 2) := by
  have e1 : rnd64 (-7 / 2 - -8 / 2) =
      ((1 / 2) : ℝ) := by
    rw [rnd64_of_pos _ (-1) 4503599627370496 (by norm_num) (by norm_num) (by norm_num)
      (by norm_num) (by norm_num)]
    norm_num
  have e2 : rnd64 ((1 / 2) / 1) =
      ((1 / 2) : ℝ) := by
    rw [rnd64_of_pos _ (-1) 4503599627370496 (by norm_num) (by norm_num) (by norm_num)
      (by norm_num) (by norm_num)]
    norm_num
  have e3 : rnd64 ((1 / 2) - 1 / 2) =
      (0 : ℝ) := by
    rw [show (((1 / 2) - 1 / 2) : ℝ) = 0 by norm_num, rnd64_zero]
  have e4 : rnd64 (0 - -8 / 2) =
      (4 : ℝ) := by
    rw [rnd64_of_pos _ 2 4503599627370496 (by norm_num) (by norm_num) (by norm_num)
      (by norm_num) (by norm_num)]
    norm_num
  have e5 : rnd64 (4 / 1) =
      (4 : ℝ) := by
    rw [rnd64_of_pos _ 2 4503599627370496 (by norm_num) (by norm_num) (by norm_num)
      (by norm_num) (by norm_num)]
    norm_num
  have e6 : rnd64 (4 - 1 / 2) =
      ((7 / 2) : ℝ) := by
    rw [rnd64_of_pos _ 1 7881299347898368 (by norm_num) (by norm_num) (by norm_num)
      (by norm_num) (by norm_num)]
    norm_num
  constructor
  · simp only [gridUFl, generateFromPolygonFl, coarseGrid, e1, e2, e3]
  · simp only [gridVFl, generateFromPolygonFl, coarseGrid, e4, e5, e6]

/-- The `double` operations of the interpolation and of the gradient at `u = 0`, `v = 3.5`
with the values `2.5` and `1.5` in the columns 0 and 1: the distance `2.5` and the gradient
`(-1, 0)`. -/
theorem interpolation_coarse_border :
    (rnd64 (rnd64 (rnd64 (rnd64 (rnd64 (rnd64 (1 - rnd64 (0 - 0)) *
                                     rnd64 (1 - rnd64 ((7 / 2) - 3))) *
                              (5 / 2)) +
                       rnd64 (rnd64 (rnd64 (0 - 0) * rnd64 (1 - rnd64 ((7 / 2) - 3))) *
                           (3 / 2))) +
                rnd64 (rnd64 (rnd64 (1 - rnd64 (0 - 0)) * rnd64 ((7 / 2) - 3)) *
                    (5 / 2))) +
         rnd64 (rnd64 (rnd64 (0 - 0) * rnd64 ((7 / 2) - 3)) * (3 / 2))) : ℝ) =
        (5 / 2) ∧
      (rnd64 (rnd64 (rnd64 (rnd64 (1 - rnd64 ((7 / 2) - 3)) * rnd32 ((3 / 2) - (5 / 2))) +
                rnd64 (rnd64 ((7 / 2) - 3) * rnd32 ((3 / 2) - (5 / 2)))) /
         1) : ℝ) =
        (-1) ∧
      (rnd64 (rnd64 (rnd64 (rnd64 (1 - rnd64 (0 - 0)) * rnd32 ((5 / 2) - (5 / 2))) +
                rnd64 (rnd64 (0 - 0) * rnd32 ((3 / 2) - (3 / 2)))) /
         1) : ℝ) =
        0 := by
  have e1 : rnd64 (0 - 0) =
      (0 : ℝ) := by
    rw [show ((0 - 0) : ℝ) = 0 by norm_num, rnd64_zero]
  have e2 : rnd64 (1 - 0) =
      (1 : ℝ) := by
    rw [rnd64_of_pos _ 0 4503599627370496 (by norm_num) (by norm_num) (by norm_num)
      (by norm_num) (by norm_num)]
    norm_num
  have e3 : rnd64 ((7 / 2) - 3) =
      ((1 / 2) : ℝ) := by
    rw [rnd64_of_pos _ (-1) 4503599627370496 (by norm_num) (by norm_num) (by norm_num)
      (by norm_num) (by norm_num)]
    norm_num
  have e4 : rnd64 (1 - (1 / 2)) =
      ((1 / 2) : ℝ) := by
    rw [rnd64_of_pos _ (-1) 4503599627370496 (by norm_num) (by norm_num) (by norm_num)
      (by norm_num) (by norm_num)]
    norm_num
  have e5 : rnd64 (1 * (1 / 2)) =
      ((1 / 2) : ℝ) := by
    rw [rnd64_of_pos _ (-1) 4503599627370496 (by norm_num) (by norm_num) (by norm_num)
      (by norm_num) (by norm_num)]
    norm_num
  have e6 : rnd64 ((1 / 2) * (5 / 2)) =
      ((5 / 4) : ℝ) := by
    rw [rnd64_of_pos _ 0 5629499534213120 (by norm_num) (by norm_num) (by norm_num)
      (by norm_num) (by norm_num)]
    norm_num
  have e7 : rnd64 (0 * (1 / 2)) =
      (0 : ℝ) := by
    rw [show ((0 * (1 / 2)) : ℝ) = 0 by norm_num, rnd64_zero]
  have e8 : rnd64 (0 * (3 / 2)) =
      (0 : ℝ) := by
    rw [show ((0 * (3 / 2)) : ℝ) = 0 by norm_num, rnd64_zero]
  have e9 : rnd64 ((5 / 4) + 0) =
      ((5 / 4) : ℝ) := by
    rw [rnd64_of_pos _ 0 5629499534213120 (by norm_num) (by norm_num) (by norm_num)
      (by norm_num) (by norm_num)]
    norm_num
  have e10 : rnd64 ((5 / 4) + (5 / 4)) =
      ((5 / 2) : ℝ) := by
    rw [rnd64_of_pos _ 1 5629499534213120 (by norm_num) (by norm_num) (by norm_num)
      (by norm_num) (by norm_num)]
    norm_num
  have e11 : rnd64 ((5 / 2) + 0) =
      ((5 / 2) : ℝ) := by
    rw [rnd64_of_pos _ 1 5629499534213120 (by norm_num) (by norm_num) (by norm_num)
      (by norm_num) (by norm_num)]
    norm_num
  have e12 : rnd32 ((3 / 2) - (5 / 2)) =
      ((-1) : ℝ) := by
    rw [rnd32_of_neg _ 0 (-8388608) (by norm_num) (by norm_num) (by norm_num)
      (by norm_num) (by norm_num)]
    norm_num
  have e13 : rnd64 ((1 / 2) * (-1)) =
      ((-1 / 2) : ℝ) := by
    rw [rnd64_of_neg _ (-1) (-4503599627370496) (by norm_num) (by norm_num) (by norm_num)
      (by norm_num) (by norm_num)]
    norm_num
  have e14 : rnd64 ((-1 / 2) + (-1 / 2)) =
      ((-1) : ℝ) := by
    rw [rnd64_of_neg _ 0 (-4503599627370496) (by norm_num) (by norm_num) (by norm_num)
      (by norm_num) (by norm_num)]
    norm_num
  have e15 : rnd64 ((-1) / 1) =
      ((-1) : ℝ) := by
    rw [rnd64_of_neg _ 0 (-4503599627370496) (by norm_num) (by norm_num) (by norm_num)
      (by norm_num) (by norm_num)]
    norm_num
  have e16 : rnd32 ((5 / 2) - (5 / 2)) =
      (0 : ℝ) := by
    rw [show (((5 / 2) - (5 / 2)) : ℝ) = 0 by norm_num, rnd32_zero]
  have e17 : rnd64 (1 * 0) =
      (0 : ℝ) := by
    rw [show ((1 * 0) : ℝ) = 0 by norm_num, rnd64_zero]
  have e18 : rnd32 ((3 / 2) - (3 / 2)) =
      (0 : ℝ) := by
    rw [show (((3 / 2) - (3 / 2)) : ℝ) = 0 by norm_num, rnd32_zero]
  have e19 : rnd64 (0 * 0) =
      (0 : ℝ) := by
    rw [show ((0 * 0) : ℝ) = 0 by norm_num, rnd64_zero]
  have e20 : rnd64 (0 + 0) =
      (0 : ℝ) := by
    rw [show ((0 + 0) : ℝ) = 0 by norm_num, rnd64_zero]
  have e21 : rnd64 (0 / 1) =
      (0 : ℝ) := by
    rw [show ((0 / 1) : ℝ) = 0 by norm_num, rnd64_zero]
  refine ⟨?_, ?_, ?_⟩
  · simp only [e1, e2, e3, e4, e5, e6, e7, e8, e9, e10, e11]
  · simp only [e3, e4, e12, e13, e14, e15]
  · simp only [e1, e2, e16, e17, e18, e19, e20, e21]

/-- The grid coordinates that `query` computes for the point `(-3, 0)` on the grid of
`initialize(8, 8, 1)`: `u = 0.5` and `v = 3.5`. -/
theorem gridFl_coarse_left :
    gridUFl rnd64 (generateFromPolygonFl rnd32 (fun t => rnd64 (Real.sqrt t))
        (coarseGrid : RcEsdfMap ℝ) squareFootprint)
        ⟨-3, 0⟩ = (1 / 2) ∧
      gridVFl rnd64 (generateFromPolygonFl rnd32 (fun t => rnd64 (Real.sqrt t))
        (coarseGrid : RcEsdfMap ℝ) squareFootprint)
        ⟨-3, 0⟩ = (7 / 2) := by
  have e1 : rnd64 (-3 - -8 / 2) =
      (1 : ℝ) := by
    rw [rnd64_of_pos _ 0 4503599627370496 (by norm_num) (by norm_num) (by norm_num)
      (by norm_num) (by norm_num)]
    norm_num
  have e2 : rnd64 (1 / 1) =
      (1 : ℝ) := by
    rw [rnd64_of_pos _ 0 4503599627370496 (by norm_num) (by norm_num) (by norm_num)
      (by norm_num) (by norm_num)]
    norm_num
  have e3 : rnd64 (1 - 1 / 2) =
      ((1 / 2) : ℝ) := by
    rw [rnd64_of_pos _ (-1) 4503599627370496 (by norm_num) (by norm_num) (by norm_num)
      (by norm_num) (by norm_num)]
    norm_num
  have e4 : rnd64 (0 - -8 / 2) =
      (4 : ℝ) := by
    rw [rnd64_of_pos _ 2 4503599627370496 (by norm_num) (by norm_num) (by norm_num)
      (by norm_num) (by norm_num)]
    norm_num
  have e5 : rnd64 (4 / 1) =
      (4 : ℝ) := by
    rw [rnd64_of_pos _ 2 4503599627370496 (by norm_num) (by norm_num) (by norm_num)
      (by norm_num) (by norm_num)]
    norm_num
  have e6 : rnd64 (4 - 1 / 2) =
      ((7 / 2) : ℝ) := by
    rw [rnd64_of_pos _ 1 7881299347898368 (by norm_num) (by norm_num) (by norm_num)
      (by norm_num) (by norm_num)]
    norm_num
  constructor
  · simp only [gridUFl, generateFromPolygonFl, coarseGrid, e1, e2, e3]
  · simp only [gridVFl, generateFromPolygonFl, coarseGrid, e4, e5, e6]

/-- The `double` operations of the interpolation and of the gradient at `u = 0.5`, `v = 3.5`
with the values `2.5` and `1.5` in the columns 0 and 1: the distance `2` and the gradient
`(-1, 0)`. -/
theorem interpolation_coarse_left :
    (rnd64 (rnd64 (rnd64 (rnd64 (rnd64 (rnd64 (1 - rnd64 ((1 / 2) - 0)) *
                                     rnd64 (1 - rnd64 ((7 / 2) - 3))) *
                              (5 / 2)) +
                       rnd64 (rnd64 (rnd64 ((1 / 2) - 0) *
                                  rnd64 (1 - rnd64 ((7 / 2) - 3))) *
                           (3 / 2))) +
                rnd64 (rnd64 (rnd64 (1 - rnd64 ((1 / 2) - 0)) * rnd64 ((7 / 2) - 3)) *
                    (5 / 2))) +
         rnd64 (rnd64 (rnd64 ((1 / 2) - 0) * rnd64 ((7 / 2) - 3)) * (3 / 2))) : ℝ) =
        2 ∧
      (rnd64 (rnd64 (rnd64 (rnd64 (1 - rnd64 ((7 / 2) - 3)) * rnd32 ((3 / 2) - (5 / 2))) +
                rnd64 (rnd64 ((7 / 2) - 3) * rnd32 ((3 / 2) - (5 / 2)))) /
         1) : ℝ) =
        (-1) ∧
      (rnd64 (rnd64 (rnd64 (rnd64 (1 - rnd64 ((1 / 2) - 0)) * rnd32 ((5 / 2) - (5 / 2))) +
                rnd64 (rnd64 ((1 / 2) - 0) * rnd32 ((3 / 2) - (3 / 2)))) /
         1) : ℝ) =
        0 := by
  have e1 : rnd64 ((1 / 2) - 0) =
      ((1 / 2) : ℝ) := by
    rw [rnd64_of_pos _ (-1) 4503599627370496 (by norm_num) (by norm_num) (by norm_num)
      (by norm_num) (by norm_num)]
    norm_num
  have e2 : rnd64 (1 - (1 / 2)) =
      ((1 / 2) : ℝ) := by
    rw [rnd64_of_pos _ (-1) 4503599627370496 (by norm_num) (by norm_num) (by norm_num)
      (by norm_num) (by norm_num)]
    norm_num
  have e3 : rnd64 ((7 / 2) - 3) =
      ((1 / 2) : ℝ) := by
    rw [rnd64_of_pos _ (-1) 4503599627370496 (by norm_num) (by norm_num) (by norm_num)
      (by norm_num) (by norm_num)]
    norm_num
  have e4 : rnd64 ((1 / 2) * (1 / 2)) =
      ((1 / 4) : ℝ) := by
    rw [rnd64_of_pos _ (-2) 4503599627370496 (by norm_num) (by norm_num) (by norm_num)
      (by norm_num) (by norm_num)]
    norm_num
  have e5 : rnd64 ((1 / 4) * (5 / 2)) =
      ((5 / 8) : ℝ) := by
    rw [rnd64_of_pos _ (-1) 5629499534213120 (by norm_num) (by norm_num) (by norm_num)
      (by norm_num) (by norm_num)]
    norm_num
  have e6 : rnd64 ((1 / 4) * (3 / 2)) =
      ((3 / 8) : ℝ) := by
    rw [rnd64_of_pos _ (-2) 6755399441055744 (by norm_num) (by norm_num) (by norm_num)
      (by norm_num) (by norm_num)]
    norm_num
  have e7 : rnd64 ((5 / 8) + (3 / 8)) =
      (1 : ℝ) := by
    rw [rnd64_of_pos _ 0 4503599627370496 (by norm_num) (by norm_num) (by norm_num)
      (by norm_num) (by norm_num)]
    norm_num
  have e8 : rnd64 (1 + (5 / 8)) =
      ((13 / 8) : ℝ) := by
    rw [rnd64_of_pos _ 0 7318349394477056 (by norm_num) (by norm_num) (by norm_num)
      (by norm_num) (by norm_num)]
    norm_num
  have e9 : rnd64 ((13 / 8) + (3 / 8)) =
      (2 : ℝ) := by
    rw [rnd64_of_pos _ 1 4503599627370496 (by norm_num) (by norm_num) (by norm_num)
      (by norm_num) (by norm_num)]
    norm_num
  have e10 : rnd32 ((3 / 2) - (5 / 2)) =
      ((-1) : ℝ) := by
    rw [rnd32_of_neg _ 0 (-8388608) (by norm_num) (by norm_num) (by norm_num)
      (by norm_num) (by norm_num)]
    norm_num
  have e11 : rnd64 ((1 / 2) * (-1)) =
      ((-1 / 2) : ℝ) := by
    rw [rnd64_of_neg _ (-1) (-4503599627370496) (by norm_num) (by norm_num) (by norm_num)
      (by norm_num) (by norm_num)]
    norm_num
  have e12 : rnd64 ((-1 / 2) + (-1 / 2)) =
      ((-1) : ℝ) := by
    rw [rnd64_of_neg _ 0 (-4503599627370496) (by norm_num) (by norm_num) (by norm_num)
      (by norm_num) (by norm_num)]
    norm_num
  have e13 : rnd64 ((-1) / 1) =
      ((-1) : ℝ) := by
    rw [rnd64_of_neg _ 0 (-4503599627370496) (by norm_num) (by norm_num) (by norm_num)
      (by norm_num) (by norm_num)]
    norm_num
  have e14 : rnd32 ((5 / 2) - (5 / 2)) =
      (0 : ℝ) := by
    rw [show (((5 / 2) - (5 / 2)) : ℝ) = 0 by norm_num, rnd32_zero]
  have e15 : rnd64 ((1 / 2) * 0) =
      (0 : ℝ) := by
    rw [show (((1 / 2) * 0) : ℝ) = 0 by norm_num, rnd64_zero]
  have e16 : rnd32 ((3 / 2) - (3 / 2)) =
      (0 : ℝ) := by
    rw [show (((3 / 2) - (3 / 2)) : ℝ) = 0 by norm_num, rnd32_zero]
  have e17 : rnd64 (0 + 0) =
      (0 : ℝ) := by
    rw [show ((0 + 0) : ℝ) = 0 by norm_num, rnd64_zero]
  have e18 : rnd64 (0 / 1) =
      (0 : ℝ) := by
    rw [show ((0 / 1) : ℝ) = 0 by norm_num, rnd64_zero]
  refine ⟨?_, ?_, ?_⟩
  · simp only [e1, e2, e3, e4, e5, e6, e7, e8, e9]
  · simp only [e3, e2, e10, e11, e12, e13]
  · simp only [e1, e2, e14, e15, e16, e17, e18]

/-- The result of the query at `(-3.5, 0)`, on the first cell-centre line of the grid of
`initialize(8, 8, 1)` populated from the square footprint, in `double` arithmetic: in range,
with the distance `2.5` and the gradient `(-1, 0)`. -/
theorem queryFl_coarse_border :
    queryFl rnd64 rnd32 (generateFromPolygonFl rnd32 (fun t => rnd64 (Real.sqrt t))
        (coarseGrid : RcEsdfMap ℝ) squareFootprint)
        ⟨-7 / 2, 0⟩ = ⟨true, 5 / 2, ⟨-1, 0⟩⟩ := by
  have hc : ¬ (gridUFl rnd64 (generateFromPolygonFl rnd32 (fun t => rnd64 (Real.sqrt t))
        (coarseGrid : RcEsdfMap ℝ) squareFootprint) ⟨-7 / 2, 0⟩ < 0 ∨
      gridUFl rnd64 (generateFromPolygonFl rnd32 (fun t => rnd64 (Real.sqrt t))
        (coarseGrid : RcEsdfMap ℝ) squareFootprint) ⟨-7 / 2, 0⟩ ≥
        ((generateFromPolygonFl rnd32 (fun t => rnd64 (Real.sqrt t))
        (coarseGrid : RcEsdfMap ℝ) squareFootprint).grid_size_x_ : ℝ) - 1 ∨
      gridVFl rnd64 (generateFromPolygonFl rnd32 (fun t => rnd64 (Real.sqrt t))
        (coarseGrid : RcEsdfMap ℝ) squareFootprint) ⟨-7 / 2, 0⟩ < 0 ∨
      gridVFl rnd64 (generateFromPolygonFl rnd32 (fun t => rnd64 (Real.sqrt t))
        (coarseGrid : RcEsdfMap ℝ) squareFootprint) ⟨-7 / 2, 0⟩ ≥
        ((generateFromPolygonFl rnd32 (fun t => rnd64 (Real.sqrt t))
        (coarseGrid : RcEsdfMap ℝ) squareFootprint).grid_size_y_ : ℝ) - 1) := by
    rw [gridFl_coarse_border.1, gridFl_coarse_border.2]
    norm_num [generateFromPolygonFl, coarseGrid]
  have hf0 : ⌊(0 : ℝ)⌋ = 0 := Int.floor_zero
  have hf : ⌊(7 / 2 : ℝ)⌋ = 3 := by
    rw [Int.floor_eq_iff]; norm_num
  rw [queryFl_of_in rnd64 rnd32 _ _ hc, gridFl_coarse_border.1, gridFl_coarse_border.2, hf0, hf,
    getRaw_coarseFl 0 3 (Or.inl rfl) (Or.inl rfl),
    getRaw_coarseFl (0 + 1) 3 (Or.inr (by norm_num)) (Or.inl rfl),
    getRaw_coarseFl 0 (3 + 1) (Or.inl rfl) (Or.inr (by norm_num)),
    getRaw_coarseFl (0 + 1) (3 + 1) (Or.inr (by norm_num)) (Or.inr (by norm_num)),
    if_pos rfl, if_neg (by norm_num),
    show (generateFromPolygonFl rnd32 (fun t => rnd64 (Real.sqrt t))
        (coarseGrid : RcEsdfMap ℝ) squareFootprint).resolution_ = 1 from rfl]
  simp only [Int.cast_zero, Int.cast_ofNat]
  rw [interpolation_coarse_border.1, interpolation_coarse_border.2.1,
    interpolation_coarse_border.2.2]

/-- The result of the query at `(-3, 0)` on the grid of `initialize(8, 8, 1)` populated from
the square footprint, in `double` arithmetic: in range, with the distance `2` and the
gradient `(-1, 0)`. -/
theorem queryFl_coarse_left :
    queryFl rnd64 rnd32 (generateFromPolygonFl rnd32 (fun t => rnd64 (Real.sqrt t))
        (coarseGrid : RcEsdfMap ℝ) squareFootprint)
        ⟨-3, 0⟩ = ⟨true, 2, ⟨-1, 0⟩⟩ := by
  have hc : ¬ (gridUFl rnd64 (generateFromPolygonFl rnd32 (fun t => rnd64 (Real.sqrt t))
        (coarseGrid : RcEsdfMap ℝ) squareFootprint) ⟨-3, 0⟩ < 0 ∨
      gridUFl rnd64 (generateFromPolygonFl rnd32 (fun t => rnd64 (Real.sqrt t))
        (coarseGrid : RcEsdfMap ℝ) squareFootprint) ⟨-3, 0⟩ ≥
        ((generateFromPolygonFl rnd32 (fun t => rnd64 (Real.sqrt t))
        (coarseGrid : RcEsdfMap ℝ) squareFootprint).grid_size_x_ : ℝ) - 1 ∨
      gridVFl rnd64 (generateFromPolygonFl rnd32 (fun t => rnd64 (Real.sqrt t))
        (coarseGrid : RcEsdfMap ℝ) squareFootprint) ⟨-3, 0⟩ < 0 ∨
      gridVFl rnd64 (generateFromPolygonFl rnd32 (fun t => rnd64 (Real.sqrt t))
        (coarseGrid : RcEsdfMap ℝ) squareFootprint) ⟨-3, 0⟩ ≥
        ((generateFromPolygonFl rnd32 (fun t => rnd64 (Real.sqrt t))
        (coarseGrid : RcEsdfMap ℝ) squareFootprint).grid_size_y_ : ℝ) - 1) := by
    rw [gridFl_coarse_left.1, gridFl_coarse_left.2]
    norm_num [generateFromPolygonFl, coarseGrid]
  have hf0 : ⌊(1 / 2 : ℝ)⌋ = 0 := by
    rw [Int.floor_eq_iff]; norm_num
  have hf : ⌊(7 / 2 : ℝ)⌋ = 3 := by
    rw [Int.floor_eq_iff]; norm_num
  rw [queryFl_of_in rnd64 rnd32 _ _ hc, gridFl_coarse_left.1, gridFl_coarse_left.2, hf0, hf,
    getRaw_coarseFl 0 3 (Or.inl rfl) (Or.inl rfl),
    getRaw_coarseFl (0 + 1) 3 (Or.inr (by norm_num)) (Or.inl rfl),
    getRaw_coarseFl 0 (3 + 1) (Or.inl rfl) (Or.inr (by norm_num)),
    getRaw_coarseFl (0 + 1) (3 + 1) (Or.inr (by norm_num)) (Or.inr (by norm_num)),
    if_pos rfl, if_neg (by norm_num),
    show (generateFromPolygonFl rnd32 (fun t => rnd64 (Real.sqrt t))
        (coarseGrid : RcEsdfMap ℝ) squareFootprint).resolution_ = 1 from rfl]
  simp only [Int.cast_zero, Int.cast_ofNat]
  rw [interpolation_coarse_left.1, interpolation_coarse_left.2.1,
    interpolation_coarse_left.2.2]

/-- A `double` below `-3.5` is at most `-3.5 - 2^(-51)`, the `double` that precedes `-3.5`. -/
theorem isFloat_lt_border (x : ℝ) (hx : IsFloat 53 (-1022) x) (h : x < -7 / 2) :
    x ≤ -7 / 2 - 2 ^ (-(51 : Int)) := by
  obtain ⟨N, k, hN, hlt, -⟩ := hx
  have hk : -51 ≤ k := by
    by_contra hcon
    have hk2 : k ≤ -52 := by omega
    have h2 : (2 : ℝ) ^ k ≤ 2 ^ (-(52 : Int)) := zpow_le_zpow_right₀ (by norm_num) hk2
    have hNa : |(N : ℝ)| < 2 ^ 53 := by exact_mod_cast hlt
    have hp : (0 : ℝ) < 2 ^ k := by positivity
    have hx2 : |x| < 2 := by
      rw [hN, abs_mul, abs_of_pos hp]
      calc |(N : ℝ)| * 2 ^ k ≤ |(N : ℝ)| * 2 ^ (-(52 : Int)) :=
            mul_le_mul_of_nonneg_left h2 (abs_nonneg _)
        _ < 2 ^ 53 * 2 ^ (-(52 : Int)) := by
            apply mul_lt_mul_of_pos_right hNa (by positivity)
        _ = 2 := by norm_num
    rw [abs_lt] at hx2
    linarith
  obtain ⟨j, hj⟩ := Int.eq_ofNat_of_zero_le (show 0 ≤ k + 51 by omega)
  have hkj : k = (j : Int) + -(51 : Int) := by omega
  have hx2 : x = ((N * 2 ^ j : Int) : ℝ) * 2 ^ (-(51 : Int)) := by
    rw [hN, hkj, zpow_add₀ (by norm_num), zpow_natCast]
    push_cast
    ring
  have hp : (0 : ℝ) < 2 ^ (-(51 : Int)) := by positivity
  have h7 : (-7 / 2 : ℝ) = ((-7 * 2 ^ 50 : Int) : ℝ) * 2 ^ (-(51 : Int)) := by
    push_cast
    norm_num
  have hM : N * 2 ^ j < -7 * 2 ^ 50 := by
    have : ((N * 2 ^ j : Int) : ℝ) < ((-7 * 2 ^ 50 : Int) : ℝ) := by
      rw [hx2, h7] at h
      exact lt_of_mul_lt_mul_right h (le_of_lt hp)
    exact_mod_cast this
  have hM2 : ((N * 2 ^ j : Int) : ℝ) ≤ ((-7 * 2 ^ 50 - 1 : Int) : ℝ) := by
    exact_mod_cast (show N * 2 ^ j ≤ -7 * 2 ^ 50 - 1 by omega)
  rw [hx2]
  calc ((N * 2 ^ j : Int) : ℝ) * 2 ^ (-(51 : Int))
      ≤ ((-7 * 2 ^ 50 - 1 : Int) : ℝ) * 2 ^ (-(51 : Int)) :=
        mul_le_mul_of_nonneg_right hM2 (le_of_lt hp)
    _ = -7 / 2 - 2 ^ (-(51 : Int)) := by
        push_cast
        norm_num

/-- On the grid of `initialize(8, 8, 1)` every query at a `double` abscissa below `-3.5` is
out of range in `double` arithmetic: the computed `u` is at most `-2^(-51)`. -/
theorem queryFl_coarse_beyond (m : RcEsdfMap ℝ) (ho : m.origin_x_ = -8 / 2)
    (hres : m.resolution_ = 1) (x y : ℝ) (hx : IsFloat 53 (-1022) x) (h : x < -7 / 2) :
    (queryFl rnd64 rnd32 m ⟨x, y⟩).inRange = false := by
  have hb := isFloat_lt_border x hx h
  have f1 : IsFloat 53 (-1022) ((1 : ℝ) / 2 - 2 ^ (-(51 : Int))) :=
    ⟨2 ^ 50 - 1, -51, by push_cast; norm_num, by norm_num, by norm_num⟩
  have f2 : IsFloat 53 (-1022) (-(2 : ℝ) ^ (-(51 : Int))) :=
    ⟨-1, -51, by push_cast; ring, by norm_num, by norm_num⟩
  have s1 : rnd64 (x - -8 / 2) ≤ 1 / 2 - 2 ^ (-(51 : Int)) :=
    roundFloat_le_of_le 53 (-1022) (by norm_num) _ _ f1 (by linarith)
  have s2 : rnd64 (rnd64 (x - -8 / 2) / 1) ≤ 1 / 2 - 2 ^ (-(51 : Int)) :=
    roundFloat_le_of_le 53 (-1022) (by norm_num) _ _ f1 (by rw [div_one]; exact s1)
  have s3 : rnd64 (rnd64 (rnd64 (x - -8 / 2) / 1) - 1 / 2) ≤ -(2 : ℝ) ^ (-(51 : Int)) :=
    roundFloat_le_of_le 53 (-1022) (by norm_num) _ _ f2 (by linarith)
  have hp : (0 : ℝ) < 2 ^ (-(51 : Int)) := by positivity
  have hu : gridUFl rnd64 m ⟨x, y⟩ < 0 := by
    simp only [gridUFl, ho, hres]
    linarith
  rw [queryFl_of_out rnd64 rnd32 m _ (Or.inl hu)]

/-! ### The gradient at the border of the query window -/

/-- A check of `gradient_ascent` on the grid of `initialize(8, 8, 1)` with the square
footprint, at the point `(-3, 0)`, where the distance is `2` and the gradient is
`(-1, 0)`. -/
theorem gradient_ascent_witness :
    ∃ eps0 : ℝ, 0 < eps0 ∧ ∀ eps : ℝ, 0 < eps → eps < eps0 →
      (query (generateFromPolygon Real.sqrt (coarseGrid : RcEsdfMap ℝ) squareFootprint)
        (stepAlong Real.sqrt ⟨-3, 0⟩
          (query (generateFromPolygon Real.sqrt (coarseGrid : RcEsdfMap ℝ) squareFootprint)
            ⟨-3, 0⟩).grad eps)).inRange = true ∧
      (query (generateFromPolygon Real.sqrt (coarseGrid : RcEsdfMap ℝ) squareFootprint)
          ⟨-3, 0⟩).dist <
        (query (generateFromPolygon Real.sqrt (coarseGrid : RcEsdfMap ℝ) squareFootprint)
          (stepAlong Real.sqrt ⟨-3, 0⟩
            (query (generateFromPolygon Real.sqrt (coarseGrid : RcEsdfMap ℝ) squareFootprint)
              ⟨-3, 0⟩).grad eps)).dist := by
  have hq := query_coarse Real.sqrt (1 / 2 : ℝ) (by norm_num) (by norm_num)
  rw [sqrt_coarse_values.1, sqrt_coarse_values.2,
    show (-7 / 2 + 1 / 2 : ℝ) = -3 by norm_num] at hq
  have hu : gridU (generateFromPolygon Real.sqrt (coarseGrid : RcEsdfMap ℝ) squareFootprint)
      ⟨-3, 0⟩ = 1 / 2 := by
    simp only [gridU, generateFromPolygon, coarseGrid]
    norm_num
  have hv : gridV (generateFromPolygon Real.sqrt (coarseGrid : RcEsdfMap ℝ) squareFootprint)
      ⟨-3, 0⟩ = 7 / 2 := by
    simp only [gridV, generateFromPolygon, coarseGrid]
    norm_num
  have hf0 : ⌊(1 / 2 : ℝ)⌋ = 0 := by
    rw [Int.floor_eq_iff]; norm_num
  have hf : ⌊(7 / 2 : ℝ)⌋ = 3 := by
    rw [Int.floor_eq_iff]; norm_num
  apply gradient_ascent (generateFromPolygon Real.sqrt (coarseGrid : RcEsdfMap ℝ) squareFootprint)
    ⟨-3, 0⟩
  · simp only [generateFromPolygon, coarseGrid]; norm_num
  · rw [hq]
  · left; rw [hq]; norm_num
  · intro h
    exfalso
    rw [hu, hf0] at h
    norm_num at h
  · intro h
    exfalso
    rw [hv, hf] at h
    norm_num at h

/-- Claim C5 fails as stated: on the grid of `initialize(8, 8, 1)` with the square
footprint, the point `(-3.5, 0)` is in range (`u = 0`) with distance `2.5` and gradient
`(-1, 0)`, and every step along the gradient leaves the query window (`u < 0`), so that
no `eps0` as in the claim exists.  In `double` arithmetic the same holds: the query at
`(-3.5, 0)` returns `true`, the distance `2.5` and the gradient `(-1, 0)` without any
rounding, and the query at every `double` abscissa below `-3.5` returns `false`. -/
theorem gradient_step_leaves_window :
    ((query (generateFromPolygon Real.sqrt (coarseGrid : RcEsdfMap ℝ) squareFootprint)
        ⟨-7 / 2, 0⟩).inRange = true ∧
      (query (generateFromPolygon Real.sqrt (coarseGrid : RcEsdfMap ℝ) squareFootprint)
        ⟨-7 / 2, 0⟩).grad = ⟨-1, 0⟩ ∧
      ¬ ∃ eps0 : ℝ, 0 < eps0 ∧ ∀ eps : ℝ, 0 < eps → eps < eps0 →
        (query (generateFromPolygon Real.sqrt (coarseGrid : RcEsdfMap ℝ) squareFootprint)
          (stepAlong Real.sqrt ⟨-7 / 2, 0⟩
            (query (generateFromPolygon Real.sqrt (coarseGrid : RcEsdfMap ℝ) squareFootprint)
              ⟨-7 / 2, 0⟩).grad eps)).inRange = true ∧
        (query (generateFromPolygon Real.sqrt (coarseGrid : RcEsdfMap ℝ) squareFootprint)
            ⟨-7 / 2, 0⟩).dist <
          (query (generateFromPolygon Real.sqrt (coarseGrid : RcEsdfMap ℝ) squareFootprint)
            (stepAlong Real.sqrt ⟨-7 / 2, 0⟩
              (query (generateFromPolygon Real.sqrt (coarseGrid : RcEsdfMap ℝ) squareFootprint)
                ⟨-7 / 2, 0⟩).grad eps)).dist) ∧
      queryFl rnd64 rnd32 (generateFromPolygonFl rnd32 (fun t => rnd64 (Real.sqrt t))
        (coarseGrid : RcEsdfMap ℝ) squareFootprint)
        ⟨-7 / 2, 0⟩ = ⟨true, 5 / 2, ⟨-1, 0⟩⟩ ∧
      ∀ x y : ℝ, IsFloat 53 (-1022) x → x < -7 / 2 →
        (queryFl rnd64 rnd32 (generateFromPolygonFl rnd32 (fun t => rnd64 (Real.sqrt t))
        (coarseGrid : RcEsdfMap ℝ) squareFootprint)
          ⟨x, y⟩).inRange = false := by
  refine ⟨?_, queryFl_coarse_border, fun x y hx h =>
    queryFl_coarse_beyond _ rfl rfl x y hx h⟩
  have hq := query_coarse Real.sqrt (0 : ℝ) (le_refl 0) (by norm_num)
  rw [sqrt_coarse_values.1, sqrt_coarse_values.2, add_zero,
    show ((3 : ℝ) / 2 - 5 / 2) = -1 by norm_num] at hq
  rw [hq]
  refine ⟨rfl, rfl, ?_⟩
  rintro ⟨eps0, h0, h⟩
  obtain ⟨hin, -⟩ := h (eps0 / 2) (by linarith) (by linarith)
  have hout : gridU (generateFromPolygon Real.sqrt (coarseGrid : RcEsdfMap ℝ) squareFootprint)
      (stepAlong Real.sqrt ⟨-7 / 2, 0⟩ ⟨-1, 0⟩ (eps0 / 2)) < 0 := by
    rw [gridU_stepAlong]
    have hs : Real.sqrt (Vec2.squaredNorm (⟨-1, 0⟩ : Vec2 ℝ)) = 1 := by
      rw [show Vec2.squaredNorm (⟨-1, 0⟩ : Vec2 ℝ) = 1 by norm_num [Vec2.squaredNorm]]
      exact Real.sqrt_one
    rw [hs]
    simp only [gridU, generateFromPolygon, coarseGrid]
    norm_num
    linarith
  rw [query_of_out _ _ (Or.inl hout)] at hin
  exact Bool.noConfusion hin

/-! ### The value stored outside the footprint -/

theorem isPointInPolygon_coarse (x y : Int) (hx : x = 0 ∨ x = 1) (hy : y = 3 ∨ y = 4) :
    isPointInPolygon (cellCenter (coarseGrid : RcEsdfMap K) x y) squareFootprint = false := by
  rw [cellCenter_coarseGrid]
  rcases hx with rfl | rfl <;> rcases hy with rfl | rfl
  · rw [show (⟨-8 / 2 + (((0 : Int) : K) + 1 / 2) * 1, -8 / 2 + (((3 : Int) : K) + 1 / 2) * 1⟩ :
      Vec2 K) = ⟨-7 / 2, -1 / 2⟩ by congr 1 <;> norm_num]
    exact isPointInPolygon_coarse_0m
  · rw [show (⟨-8 / 2 + (((0 : Int) : K) + 1 / 2) * 1, -8 / 2 + (((4 : Int) : K) + 1 / 2) * 1⟩ :
      Vec2 K) = ⟨-7 / 2, 1 / 2⟩ by congr 1 <;> norm_num]
    exact isPointInPolygon_coarse_0p
  · rw [show (⟨-8 / 2 + (((1 : Int) : K) + 1 / 2) * 1, -8 / 2 + (((3 : Int) : K) + 1 / 2) * 1⟩ :
      Vec2 K) = ⟨-5 / 2, -1 / 2⟩ by congr 1 <;> norm_num]
    exact isPointInPolygon_coarse_1m
  · rw [show (⟨-8 / 2 + (((1 : Int) : K) + 1 / 2) * 1, -8 / 2 + (((4 : Int) : K) + 1 / 2) * 1⟩ :
      Vec2 K) = ⟨-5 / 2, 1 / 2⟩ by congr 1 <;> norm_num]
    exact isPointInPolygon_coarse_1p

theorem minDistSq_coarse (x y : Int) (hx : x = 0 ∨ x = 1) (hy : y = 3 ∨ y = 4) :
    minDistSq (cellCenter (coarseGrid : RcEsdfMap K) x y) squareFootprint =
      if x = 0 then 25 / 4 else 9 / 4 := by
  rw [cellCenter_coarseGrid]
  rcases hx with rfl | rfl <;> rcases hy with rfl | rfl
  · rw [show (⟨-8 / 2 + (((0 : Int) : K) + 1 / 2) * 1, -8 / 2 + (((3 : Int) : K) + 1 / 2) * 1⟩ :
      Vec2 K) = ⟨-7 / 2, -1 / 2⟩ by congr 1 <;> norm_num, minDistSq_coarse_0m]
    simp
  · rw [show (⟨-8 / 2 + (((0 : Int) : K) + 1 / 2) * 1, -8 / 2 + (((4 : Int) : K) + 1 / 2) * 1⟩ :
      Vec2 K) = ⟨-7 / 2, 1 / 2⟩ by congr 1 <;> norm_num, minDistSq_coarse_0p]
    simp
  · rw [show (⟨-8 / 2 + (((1 : Int) : K) + 1 / 2) * 1, -8 / 2 + (((3 : Int) : K) + 1 / 2) * 1⟩ :
      Vec2 K) = ⟨-5 / 2, -1 / 2⟩ by congr 1 <;> norm_num, minDistSq_coarse_1m]
    simp
  · rw [show (⟨-8 / 2 + (((1 : Int) : K) + 1 / 2) * 1, -8 / 2 + (((4 : Int) : K) + 1 / 2) * 1⟩ :
      Vec2 K) = ⟨-5 / 2, 1 / 2⟩ by congr 1 <;> norm_num, minDistSq_coarse_1p]
    simp

/-- The distances `2.5` and `1.5` of the four cells at the left border are within the range
of `float`. -/
theorem sqrt_coarse_fits (x y : Int) (hx : x = 0 ∨ x = 1) (hy : y = 3 ∨ y = 4) :
    Real.sqrt (minDistSq (cellCenter (coarseGrid : RcEsdfMap ℝ) x y) squareFootprint) ≤
      FLT_MAX := by
  rw [minDistSq_coarse x y hx hy]
  split_ifs
  · rw [sqrt_coarse_values.1]; norm_num [FLT_MAX]
  · rw [sqrt_coarse_values.2]; norm_num [FLT_MAX]

theorem cellValue_of_outside (sqrt : K → K) (m : RcEsdfMap K) (polygon : List (Vec2 K))
    (x y : Int) (h : isPointInPolygon (cellCenter m x y) polygon = false) :
    cellValue sqrt m polygon x y = sqrt (minDistSq (cellCenter m x y) polygon) := by
  unfold cellValue
  simp only
  rw [h]
  simp

/-- The interpolation of four values that are not negative, with weights that are not
negative, is not negative under every rounding that keeps the sign. -/
theorem interpolation_nonneg (fl : K → K) (hfl : ∀ x : K, 0 ≤ x → 0 ≤ fl x)
    (a1 al b1 be v00 v10 v01 v11 : K) (ha1 : 0 ≤ a1) (hal : 0 ≤ al) (hb1 : 0 ≤ b1)
    (hbe : 0 ≤ be) (h00 : 0 ≤ v00) (h10 : 0 ≤ v10) (h01 : 0 ≤ v01) (h11 : 0 ≤ v11) :
    0 ≤ fl (fl (fl (fl (fl (a1 * b1) * v00) + fl (fl (al * b1) * v10)) +
      fl (fl (a1 * be) * v01)) + fl (fl (al * be) * v11)) := by
  have t00 := hfl _ (mul_nonneg (hfl _ (mul_nonneg ha1 hb1)) h00)
  have t10 := hfl _ (mul_nonneg (hfl _ (mul_nonneg hal hb1)) h10)
  have t01 := hfl _ (mul_nonneg (hfl _ (mul_nonneg ha1 hbe)) h01)
  have t11 := hfl _ (mul_nonneg (hfl _ (mul_nonneg hal hbe)) h11)
  exact hfl _ (add_nonneg (hfl _ (add_nonneg (hfl _ (add_nonneg t00 t10)) t01)) t11)

/-- The `float` cell of a distance within the range of `float` holds a value of
`[0, FLT_MAX]`. -/
theorem narrow_sqrt_range (d : ℝ) (h : Real.sqrt d ≤ FLT_MAX) :
    0 ≤ rnd32 (rnd64 (Real.sqrt d)) ∧ rnd32 (rnd64 (Real.sqrt d)) ≤ FLT_MAX :=
  ⟨rnd32_nonneg _ (rnd64_nonneg _ (Real.sqrt_nonneg d)),
    roundFloat_le_of_le 24 (-126) (by norm_num) _ _ isFloat_FLT_MAX_32
      (roundFloat_le_of_le 53 (-1022) (by norm_num) _ _ isFloat_FLT_MAX_64 h)⟩

/-- Claim C14, as amended.  The code stores the distance to the polygon outside it, not
`0`: after `generateFromPolygon` every cell whose centre is classified outside, at a distance
`min_dist = sqrt(min_dist_sq)` within the range of `float`, stores `+min_dist` (rounded to
`double` by `std::sqrt` and narrowed to `float`), a value of `[0, FLT_MAX]`; and `query`
returns a `dist` that is not negative at every in-range point whose four surrounding cells
are such cells. -/
theorem outside_cell_stores_distance (m : RcEsdfMap ℝ) (polygon : List (Vec2 ℝ))
    (hlen : (m.data_.length : Int) = m.grid_size_x_ * m.grid_size_y_) :
    (∀ x y : Int, 0 ≤ x → x < m.grid_size_x_ → 0 ≤ y → y < m.grid_size_y_ →
        isPointInPolygon (cellCenter m x y) polygon = false →
        Real.sqrt (minDistSq (cellCenter m x y) polygon) ≤ FLT_MAX →
        stored (generateFromPolygonFl rnd32 (fun t => rnd64 (Real.sqrt t)) m polygon) x y =
            some (rnd32 (rnd64 (Real.sqrt (minDistSq (cellCenter m x y) polygon)))) ∧
          0 ≤ rnd32 (rnd64 (Real.sqrt (minDistSq (cellCenter m x y) polygon))) ∧
          rnd32 (rnd64 (Real.sqrt (minDistSq (cellCenter m x y) polygon))) ≤ FLT_MAX) ∧
      (∀ p : Vec2 ℝ,
        (queryFl rnd64 rnd32
            (generateFromPolygonFl rnd32 (fun t => rnd64 (Real.sqrt t)) m polygon)
            p).inRange = true →
        (∀ x y : Int, (x = ⌊gridUFl rnd64 m p⌋ ∨ x = ⌊gridUFl rnd64 m p⌋ + 1) →
          (y = ⌊gridVFl rnd64 m p⌋ ∨ y = ⌊gridVFl rnd64 m p⌋ + 1) →
          isPointInPolygon (cellCenter m x y) polygon = false ∧
            Real.sqrt (minDistSq (cellCenter m x y) polygon) ≤ FLT_MAX) →
        0 ≤ (queryFl rnd64 rnd32
            (generateFromPolygonFl rnd32 (fun t => rnd64 (Real.sqrt t)) m polygon)
            p).dist) := by
  constructor
  · intro x y hx0 hx1 hy0 hy1 hout hfit
    rw [stored_generateFromPolygonFl rnd32 _ m polygon hlen x y hx0 hx1 hy0 hy1,
      cellValue_of_outside _ m polygon x y hout]
    exact ⟨rfl, narrow_sqrt_range _ hfit⟩
  · intro p hin hcells
    have hc := inCheck_of_inRange rnd64 rnd32 _ p hin
    have hU : gridUFl rnd64
        (generateFromPolygonFl rnd32 (fun t => rnd64 (Real.sqrt t)) m polygon) p =
          gridUFl rnd64 m p := rfl
    have hV : gridVFl rnd64
        (generateFromPolygonFl rnd32 (fun t => rnd64 (Real.sqrt t)) m polygon) p =
          gridVFl rnd64 m p := rfl
    have hg : (0 ≤ gridUFl rnd64 m p ∧ 0 ≤ ⌊gridUFl rnd64 m p⌋ ∧
          ⌊gridUFl rnd64 m p⌋ + 1 < m.grid_size_x_) ∧
        (0 ≤ gridVFl rnd64 m p ∧ 0 ≤ ⌊gridVFl rnd64 m p⌋ ∧
          ⌊gridVFl rnd64 m p⌋ + 1 < m.grid_size_y_) := cellsFl_in_grid rnd64 _ p hc
    obtain ⟨⟨-, hx0, hx1⟩, -, hy0, hy1⟩ := hg
    have hval : ∀ x y : Int, (x = ⌊gridUFl rnd64 m p⌋ ∨ x = ⌊gridUFl rnd64 m p⌋ + 1) →
        (y = ⌊gridVFl rnd64 m p⌋ ∨ y = ⌊gridVFl rnd64 m p⌋ + 1) →
        0 ≤ getRaw (generateFromPolygonFl rnd32 (fun t => rnd64 (Real.sqrt t)) m polygon) x y := by
      intro x y hx hy
      rw [getRaw_generateFromPolygonFl rnd32 _ m polygon hlen x y (by omega) (by omega)
        (by omega) (by omega), cellValue_of_outside _ m polygon x y (hcells x y hx hy).1]
      exact rnd32_nonneg _ (rnd64_nonneg _ (Real.sqrt_nonneg _))
    rw [queryFl_of_in rnd64 rnd32 _ p hc, hU, hV]
    simp only
    have a0 : 0 ≤ gridUFl rnd64 m p - ⌊gridUFl rnd64 m p⌋ := sub_nonneg.mpr (Int.floor_le _)
    have a1 : gridUFl rnd64 m p - ⌊gridUFl rnd64 m p⌋ ≤ 1 := by
      have := Int.lt_floor_add_one (gridUFl rnd64 m p); linarith
    have b0 : 0 ≤ gridVFl rnd64 m p - ⌊gridVFl rnd64 m p⌋ := sub_nonneg.mpr (Int.floor_le _)
    have b1 : gridVFl rnd64 m p - ⌊gridVFl rnd64 m p⌋ ≤ 1 := by
      have := Int.lt_floor_add_one (gridVFl rnd64 m p); linarith
    obtain ⟨al0, al1⟩ := rnd64_unit _ a0 a1
    obtain ⟨be0, be1⟩ := rnd64_unit _ b0 b1
    exact interpolation_nonneg rnd64 rnd64_nonneg _ _ _ _ _ _ _ _
      (rnd64_nonneg _ (by linarith)) al0 (rnd64_nonneg _ (by linarith)) be0
      (hval _ _ (Or.inl rfl) (Or.inl rfl)) (hval _ _ (Or.inr rfl) (Or.inl rfl))
      (hval _ _ (Or.inl rfl) (Or.inr rfl)) (hval _ _ (Or.inr rfl) (Or.inr rfl))

/-- A check of `outside_cell_stores_distance` on the grid of `initialize(8, 8, 1)` with the
square footprint: the cell `(0, 3)` and the query point `(-3, 0)`. -/
theorem outside_cell_stores_distance_witness :
    (stored (generateFromPolygonFl rnd32 (fun t => rnd64 (Real.sqrt t))
        (coarseGrid : RcEsdfMap ℝ) squareFootprint) 0 3 =
          some (rnd32 (rnd64 (Real.sqrt
            (minDistSq (cellCenter (coarseGrid : RcEsdfMap ℝ) 0 3) squareFootprint)))) ∧
        0 ≤ rnd32 (rnd64 (Real.sqrt
          (minDistSq (cellCenter (coarseGrid : RcEsdfMap ℝ) 0 3) squareFootprint))) ∧
        rnd32 (rnd64 (Real.sqrt
          (minDistSq (cellCenter (coarseGrid : RcEsdfMap ℝ) 0 3) squareFootprint))) ≤ FLT_MAX) ∧
      0 ≤ (queryFl rnd64 rnd32 (generateFromPolygonFl rnd32 (fun t => rnd64 (Real.sqrt t))
        (coarseGrid : RcEsdfMap ℝ) squareFootprint) ⟨-3, 0⟩).dist := by
  have h := outside_cell_stores_distance (coarseGrid : RcEsdfMap ℝ) squareFootprint
    initialised_coarseGrid.2.2.2
  have hf0 : ⌊(1 / 2 : ℝ)⌋ = 0 := by
    rw [Int.floor_eq_iff]; norm_num
  have hf : ⌊(7 / 2 : ℝ)⌋ = 3 := by
    rw [Int.floor_eq_iff]; norm_num
  have hu : gridUFl rnd64 (coarseGrid : RcEsdfMap ℝ) ⟨-3, 0⟩ = 1 / 2 := gridFl_coarse_left.1
  have hv : gridVFl rnd64 (coarseGrid : RcEsdfMap ℝ) ⟨-3, 0⟩ = 7 / 2 := gridFl_coarse_left.2
  refine ⟨h.1 0 3 (le_refl 0) (by norm_num [coarseGrid]) (by norm_num)
    (by norm_num [coarseGrid]) (isPointInPolygon_coarse 0 3 (Or.inl rfl) (Or.inl rfl))
    (sqrt_coarse_fits 0 3 (Or.inl rfl) (Or.inl rfl)), ?_⟩
  apply h.2 ⟨-3, 0⟩ (by rw [queryFl_coarse_left])
  intro x y hx hy
  rw [hu, hf0] at hx
  rw [hv, hf] at hy
  exact ⟨isPointInPolygon_coarse x y (by omega) (by omega),
    sqrt_coarse_fits x y (by omega) (by omega)⟩

/-- Claim C14 fails as stated: on the grid of `initialize(8, 8, 1)` with the square
footprint the centres of the cells `(0, 3)`, `(1, 3)`, `(0, 4)`, `(1, 4)` are classified
outside; the cell `(0, 3)` stores `2.5`, its distance to the square, not `0`; and the query
at `(-3, 0)`, whose four surrounding cells these are (`u = 0.5`, `v = 3.5`), is in range and
returns `dist = 2`, not `0`.  All the values of this scenario are computed without rounding
in `double` and `float` arithmetic. -/
theorem outside_cell_stores_nonzero :
    isPointInPolygon (cellCenter (coarseGrid : RcEsdfMap ℝ) 0 3) squareFootprint = false ∧
      isPointInPolygon (cellCenter (coarseGrid : RcEsdfMap ℝ) 1 3) squareFootprint = false ∧
      isPointInPolygon (cellCenter (coarseGrid : RcEsdfMap ℝ) 0 4) squareFootprint = false ∧
      isPointInPolygon (cellCenter (coarseGrid : RcEsdfMap ℝ) 1 4) squareFootprint = false ∧
      stored (generateFromPolygonFl rnd32 (fun t => rnd64 (Real.sqrt t))
        (coarseGrid : RcEsdfMap ℝ) squareFootprint) 0 3 = some (5 / 2) ∧
      gridUFl rnd64 (generateFromPolygonFl rnd32 (fun t => rnd64 (Real.sqrt t))
        (coarseGrid : RcEsdfMap ℝ) squareFootprint) ⟨-3, 0⟩ = 1 / 2 ∧
      gridVFl rnd64 (generateFromPolygonFl rnd32 (fun t => rnd64 (Real.sqrt t))
        (coarseGrid : RcEsdfMap ℝ) squareFootprint) ⟨-3, 0⟩ = 7 / 2 ∧
      (queryFl rnd64 rnd32 (generateFromPolygonFl rnd32 (fun t => rnd64 (Real.sqrt t))
        (coarseGrid : RcEsdfMap ℝ) squareFootprint) ⟨-3, 0⟩).inRange = true ∧
      (queryFl rnd64 rnd32 (generateFromPolygonFl rnd32 (fun t => rnd64 (Real.sqrt t))
        (coarseGrid : RcEsdfMap ℝ) squareFootprint) ⟨-3, 0⟩).dist = 2 := by
  have hs : stored (generateFromPolygonFl rnd32 (fun t => rnd64 (Real.sqrt t))
        (coarseGrid : RcEsdfMap ℝ) squareFootprint) 0 3 = some (5 / 2) := by
    rw [getRaw_eq_stored _ 0 3 length_coarse_populated (le_refl 0)
      (by norm_num [generateFromPolygonFl, coarseGrid]) (by norm_num)
      (by norm_num [generateFromPolygonFl, coarseGrid]),
      getRaw_coarseFl 0 3 (Or.inl rfl) (Or.inl rfl), if_pos rfl]
  refine ⟨isPointInPolygon_coarse 0 3 (Or.inl rfl) (Or.inl rfl),
    isPointInPolygon_coarse 1 3 (Or.inr rfl) (Or.inl rfl),
    isPointInPolygon_coarse 0 4 (Or.inl rfl) (Or.inr rfl),
    isPointInPolygon_coarse 1 4 (Or.inr rfl) (Or.inr rfl), hs, ?_, ?_, ?_, ?_⟩
  · rw [gridFl_coarse_left.1]
  · rw [gridFl_coarse_left.2]
  · rw [queryFl_coarse_left]
  · rw [queryFl_coarse_left]

/-! ### Polygons with fewer than three vertices: the `float` cells -/

end Basic

end RcEsdf
